import Mathlib

/-! # IRLib: decode and encode engines

A shallow embedding of `IRLib.cpp` / `IRLib.h` (IRLib 1.60, Arduino AVR target:
`unsigned char` is 8 bits, `unsigned int` and `uint16_t` are 16 bits, `unsigned long`
is 32 bits).  Machine integers are natural numbers with the reduction modulo `2 ^ w`
written out wherever the source can wrap.

The header `IRLibMatch.h` is not part of the sources: the comparison macro `MATCH` is a
parameter `M : Nat → Nat → Bool` (observed, expected) of every decoder, and the error
macros (`RAW_COUNT_ERROR`, `HEADER_MARK_ERROR`, ...), which all evaluate to `false`,
are kept apart by the constructors of `Outcome`.
-/

namespace IRLib

/-! ## Constants of `IRLib.h` and `IRLib.cpp` -/

abbrev RAWBUF : Nat := 100

abbrev UNKNOWN : Nat := 0
abbrev NEC : Nat := 1
abbrev SONY : Nat := 2
abbrev RC5 : Nat := 3
abbrev RC6 : Nat := 4
abbrev PANASONIC_OLD : Nat := 5
abbrev JVC : Nat := 6
abbrev NECX : Nat := 7
abbrev PANASONIC_NEW : Nat := 8
abbrev SAMSUNG32 : Nat := 9
abbrev HASH_CODE : Nat := 10

abbrev REPEAT : Nat := 0xffffffff
abbrev TOPBIT : Nat := 0x80000000
abbrev NEC_RPT_SPACE : Nat := 2250
abbrev RC5_T1 : Nat := 889
abbrev RC6_HDR_MARK : Nat := 2666
abbrev RC6_HDR_SPACE : Nat := 889
abbrev RC6_T1 : Nat := 444
abbrev MIN_RC5_SAMPLES : Nat := 11
abbrev MIN_RC6_SAMPLES : Nat := 1

/-- Conversion to `unsigned char`. -/
@[irreducible] def toUChar (x : Nat) : Nat := x % 2 ^ 8

/-- Conversion to `unsigned int` / `uint16_t`. -/
@[irreducible] def toUInt (x : Nat) : Nat := x % 2 ^ 16

/-- Conversion to `unsigned long`. -/
@[irreducible] def toULong (x : Nat) : Nat := x % 2 ^ 32

/-! ## The Tolerance Matcher -/

/-- Modelled from the spec: the macro `MATCH(v, e)` of `IRLibMatch.h`, which is not among
the sources.  The spec's Tolerance Window: the observed duration `v` matches the expected
duration `e` iff it is within `pct` percent of `e`, or within the absolute floor `floor`
of `e`, whichever test is looser.  Both are configuration options; the spec's window is
`pct = 25`. -/
def MATCH (pct floor : Nat) (v e : Nat) : Bool :=
  (decide (100 * (v - e) ≤ pct * e) && decide (100 * (e - v) ≤ pct * e)) ||
  (decide (v - e ≤ floor) && decide (e - v ≤ floor))

/-! ## Decoder state -/

/-- What a decode routine hands back.  `matched` is the source's `return true`; every other
constructor is one of the error macros of `IRLibMatch.h`, each of which is `false`. -/
inductive Outcome
  | matched
  | RAW_COUNT_ERROR
  | HEADER_MARK_ERROR
  | HEADER_SPACE_ERROR
  | DATA_MARK_ERROR
  | DATA_SPACE_ERROR
  | TRAILER_BIT_ERROR
  | REJECTION
  deriving DecidableEq, Repr

/-- The `bool` a decode routine returns. -/
def Outcome.toBool : Outcome → Bool
  | .matched => true
  | _ => false

/-- The data members of the umbrella decoder object (`IRdecodeBase`, `IRdecodeRC`,
`IRdecodePanasonic`, `IRdecodeHash`).  `rawbuf` is the storage the decoder reads, indexed
by slot; `rawlen` is the number of recorded samples. -/
structure IRdecode where
  decode_type : Nat
  value : Nat
  bits : Nat
  rawbuf : Nat → Nat
  rawlen : Nat
  ignoreHeader : Bool
  offset : Nat
  nbits : Nat
  used : Nat
  data : Nat
  data_Panasonic : Nat
  hash : Nat

/-! ## Generic decode engine -/

/-- The `while (offset < Max)` loop of `decodeGeneric` when `Mark_One` is non-zero: the
length of the mark carries the bit.  The first argument bounds the number of iterations;
`decodeGeneric` passes `Max`, which is never exhausted because `offset` grows by two in
every iteration. -/
def decodeGeneric.markLoop (M : Nat → Nat → Bool) (Mark_One Mark_Zero Space_One Max : Nat) :
    Nat → IRdecode → Nat → Outcome × IRdecode × Nat
  | 0, d, data => (.matched, d, data)
  | fuel + 1, d, data =>
    if d.offset < Max then
      if !M (d.rawbuf d.offset) Space_One then (.DATA_SPACE_ERROR, d, data)
      else
        let d1 := { d with offset := toUInt (d.offset + 1) }
        if M (d1.rawbuf d1.offset) Mark_One then
          decodeGeneric.markLoop M Mark_One Mark_Zero Space_One Max fuel
            { d1 with offset := toUInt (d1.offset + 1) } (toULong ((data <<< 1) ||| 1))
        else if M (d1.rawbuf d1.offset) Mark_Zero then
          decodeGeneric.markLoop M Mark_One Mark_Zero Space_One Max fuel
            { d1 with offset := toUInt (d1.offset + 1) } (toULong (data <<< 1))
        else (.DATA_MARK_ERROR, d1, data)
    else (.matched, d, data)

/-- The `while (offset < Max)` loop of `decodeGeneric` when `Mark_One` is zero: the length
of the space carries the bit. -/
def decodeGeneric.spaceLoop (M : Nat → Nat → Bool) (Mark_Zero Space_One Space_Zero Max : Nat) :
    Nat → IRdecode → Nat → Outcome × IRdecode × Nat
  | 0, d, data => (.matched, d, data)
  | fuel + 1, d, data =>
    if d.offset < Max then
      if !M (d.rawbuf d.offset) Mark_Zero then (.DATA_MARK_ERROR, d, data)
      else
        let d1 := { d with offset := toUInt (d.offset + 1) }
        if M (d1.rawbuf d1.offset) Space_One then
          decodeGeneric.spaceLoop M Mark_Zero Space_One Space_Zero Max fuel
            { d1 with offset := toUInt (d1.offset + 1) } (toULong ((data <<< 1) ||| 1))
        else if M (d1.rawbuf d1.offset) Space_Zero then
          decodeGeneric.spaceLoop M Mark_Zero Space_One Space_Zero Max fuel
            { d1 with offset := toUInt (d1.offset + 1) } (toULong (data <<< 1))
        else (.DATA_SPACE_ERROR, d1, data)
    else (.matched, d, data)

/-- `IRdecodeBase::decodeGeneric`. -/
def IRdecodeBase.decodeGeneric (M : Nat → Nat → Bool)
    (Raw_Count Head_Mark Head_Space Mark_One Mark_Zero Space_One Space_Zero : Nat)
    (d : IRdecode) : Outcome × IRdecode :=
  let d0 := { d with offset := 1 }
  if Raw_Count ≠ 0 ∧ d0.rawlen ≠ Raw_Count then (.RAW_COUNT_ERROR, d0)
  else if !d0.ignoreHeader && decide (Head_Mark ≠ 0) && !M (d0.rawbuf d0.offset) Head_Mark then
    (.HEADER_MARK_ERROR, d0)
  else
    let d1 := { d0 with offset := toUInt (d0.offset + 1) }
    if decide (Head_Space ≠ 0) && !M (d1.rawbuf d1.offset) Head_Space then
      (.HEADER_SPACE_ERROR, d1)
    else if Mark_One ≠ 0 then
      let d2 := { d1 with offset := 2 }
      let Max := toUChar d2.rawlen
      match decodeGeneric.markLoop M Mark_One Mark_Zero Space_One Max Max d2 0 with
      | (.matched, d3, data) =>
        (.matched, { d3 with bits := toUChar ((d3.offset - 1) / 2), value := data })
      | (e, d3, _) => (e, d3)
    else
      let Max := toUChar (toUInt (d1.rawlen + 65535))
      let d2 := { d1 with offset := 3 }
      match decodeGeneric.spaceLoop M Mark_Zero Space_One Space_Zero Max Max d2 0 with
      | (.matched, d3, data) =>
        (.matched, { d3 with bits := toUChar ((d3.offset - 1) / 2 - 1), value := data })
      | (e, d3, _) => (e, d3)

/-- `IRdecodeNEC::decode`. -/
def IRdecodeNEC.decode (M : Nat → Nat → Bool) (d : IRdecode) : Outcome × IRdecode :=
  if d.rawlen = 4 ∧ M (d.rawbuf 2) NEC_RPT_SPACE = true ∧ M (d.rawbuf 3) 563 = true then
    (.matched, { d with bits := 0, value := REPEAT, decode_type := NEC })
  else
    match IRdecodeBase.decodeGeneric M 68 (563 * 16) (563 * 8) 0 563 (563 * 3) 563 d with
    | (.matched, d1) => (.matched, { d1 with decode_type := NEC })
    | (e, d1) => (e, d1)

/-- `IRdecodeSony::decode`. -/
def IRdecodeSony.decode (M : Nat → Nat → Bool) (d : IRdecode) : Outcome × IRdecode :=
  if d.rawlen ≠ 2 * 8 + 2 ∧ d.rawlen ≠ 2 * 12 + 2 ∧ d.rawlen ≠ 2 * 15 + 2 ∧
      d.rawlen ≠ 2 * 20 + 2 then (.RAW_COUNT_ERROR, d)
  else
    match IRdecodeBase.decodeGeneric M 0 (600 * 4) 600 (600 * 2) 600 600 0 d with
    | (.matched, d1) => (.matched, { d1 with decode_type := SONY })
    | (e, d1) => (e, d1)

/-- `IRdecodeJVC::decode`. -/
def IRdecodeJVC.decode (M : Nat → Nat → Bool) (d : IRdecode) : Outcome × IRdecode :=
  match IRdecodeBase.decodeGeneric M 36 (525 * 16) (525 * 8) 0 525 (525 * 3) 525 d with
  | (.matched, d1) => (.matched, { d1 with decode_type := JVC })
  | (_, d1) =>
    if d1.rawlen = 34 then
      match IRdecodeBase.decodeGeneric M 0 525 0 0 525 (525 * 3) 525 d1 with
      | (.matched, d2) =>
        if M (d2.rawbuf 4) (525 * 3) then
          let d3 := { d2 with value := d2.value ||| 0x8000 }
          (.matched, { d3 with bits := toUChar (d3.bits + 1), decode_type := JVC })
        else if !M (d2.rawbuf 4) 525 then (.DATA_SPACE_ERROR, d2)
        else (.matched, { d2 with bits := toUChar (d2.bits + 1), decode_type := JVC })
      | (_, d2) => (.REJECTION, d2)
    else (.RAW_COUNT_ERROR, d1)

/-! ## Phase-encoded decode (RC5 / RC6) -/

/-- `IRdecodeRC::RCLevel`. -/
inductive RCLevel
  | MARK
  | SPACE
  | ERROR
  deriving DecidableEq, Repr

/-- `IRdecodeRC::getRClevel`, called with `used` pointing at the member `used`. -/
def IRdecodeRC.getRClevel (M : Nat → Nat → Bool) (t1 : Nat) (d : IRdecode) :
    RCLevel × IRdecode :=
  if d.offset ≥ d.rawlen then (.SPACE, d)
  else
    let width := d.rawbuf d.offset
    let val := if d.offset % 2 ≠ 0 then RCLevel.MARK else RCLevel.SPACE
    let avail : Option Nat :=
      if M width t1 then some 1
      else if M width (2 * t1) then some 2
      else if M width (3 * t1) then some 3
      else if d.ignoreHeader && decide (d.offset = 1) && decide (width < t1) then some 1
      else none
    match avail with
    | none => (.ERROR, d)
    | some a =>
      let d1 := { d with used := toUInt (d.used + 1) }
      if d1.used ≥ a then (val, { d1 with used := 0, offset := toUInt (d1.offset + 1) })
      else (val, d1)

/-- The loop `for (nbits = 0; offset < rawlen; nbits++)` of `IRdecodeRC5::decode`, entered
after `nbits = 0`.  The first argument bounds the number of iterations. -/
def IRdecodeRC5.bitLoop (M : Nat → Nat → Bool) : Nat → IRdecode → Outcome × IRdecode
  | 0, d => (.matched, d)
  | fuel + 1, d =>
    if d.offset < d.rawlen then
      match IRdecodeRC.getRClevel M RC5_T1 d with
      | (levelA, d1) =>
        match IRdecodeRC.getRClevel M RC5_T1 d1 with
        | (levelB, d2) =>
          if levelA = .SPACE ∧ levelB = .MARK then
            IRdecodeRC5.bitLoop M fuel
              { d2 with data := toULong ((d2.data <<< 1) ||| 1), nbits := toUChar (d2.nbits + 1) }
          else if levelA = .MARK ∧ levelB = .SPACE then
            IRdecodeRC5.bitLoop M fuel
              { d2 with data := toULong (d2.data <<< 1), nbits := toUChar (d2.nbits + 1) }
          else (.DATA_MARK_ERROR, d2)
    else (.matched, d)

/-- `IRdecodeRC5::decode`.  Every iteration of the loop that does not fail uses up at least
one base unit of a sample and a sample has at most three, so `3 * rawlen` bounds the
number of iterations. -/
def IRdecodeRC5.decode (M : Nat → Nat → Bool) (d : IRdecode) : Outcome × IRdecode :=
  if d.rawlen < MIN_RC5_SAMPLES + 2 then (.RAW_COUNT_ERROR, d)
  else
    let d0 := { d with offset := 1, data := 0, used := 0 }
    match IRdecodeRC.getRClevel M RC5_T1 d0 with
    | (.MARK, d1) =>
      match IRdecodeRC5.bitLoop M (3 * d1.rawlen) { d1 with nbits := 0 } with
      | (.matched, d2) => (.matched, { d2 with bits := 13, value := d2.data, decode_type := RC5 })
      | (e, d2) => (e, d2)
    | (_, d1) => (.HEADER_MARK_ERROR, d1)

/-- The loop `for (nbits = 0; offset < rawlen; nbits++)` of `IRdecodeRC6::decode`. -/
def IRdecodeRC6.bitLoop (M : Nat → Nat → Bool) : Nat → IRdecode → Outcome × IRdecode
  | 0, d => (.matched, d)
  | fuel + 1, d =>
    if d.offset < d.rawlen then
      match IRdecodeRC.getRClevel M RC6_T1 d with
      | (levelA, d1) =>
        let rA := if d1.nbits = 3 then IRdecodeRC.getRClevel M RC6_T1 d1 else (levelA, d1)
        if d1.nbits = 3 ∧ levelA ≠ rA.1 then (.TRAILER_BIT_ERROR, rA.2)
        else
          match IRdecodeRC.getRClevel M RC6_T1 rA.2 with
          | (levelB, d2) =>
            let rB := if d2.nbits = 3 then IRdecodeRC.getRClevel M RC6_T1 d2 else (levelB, d2)
            if d2.nbits = 3 ∧ levelB ≠ rB.1 then (.TRAILER_BIT_ERROR, rB.2)
            else
              let d3 := rB.2
              if levelA = .MARK ∧ levelB = .SPACE then
                IRdecodeRC6.bitLoop M fuel
                  { d3 with data := toULong ((d3.data <<< 1) ||| 1),
                            nbits := toUChar (d3.nbits + 1) }
              else if levelA = .SPACE ∧ levelB = .MARK then
                IRdecodeRC6.bitLoop M fuel
                  { d3 with data := toULong (d3.data <<< 1), nbits := toUChar (d3.nbits + 1) }
              else (.DATA_MARK_ERROR, d3)
    else (.matched, d)

/-- `IRdecodeRC6::decode`. -/
def IRdecodeRC6.decode (M : Nat → Nat → Bool) (d : IRdecode) : Outcome × IRdecode :=
  if d.rawlen < MIN_RC6_SAMPLES then (.RAW_COUNT_ERROR, d)
  else if !d.ignoreHeader && !M (d.rawbuf 1) RC6_HDR_MARK then (.HEADER_MARK_ERROR, d)
  else if !M (d.rawbuf 2) RC6_HDR_SPACE then (.HEADER_SPACE_ERROR, d)
  else
    let d0 := { d with offset := 3, data := 0, used := 0 }
    match IRdecodeRC.getRClevel M RC6_T1 d0 with
    | (.MARK, d1) =>
      match IRdecodeRC.getRClevel M RC6_T1 d1 with
      | (.SPACE, d2) =>
        match IRdecodeRC6.bitLoop M (3 * d2.rawlen) { d2 with nbits := 0 } with
        | (.matched, d3) =>
          (.matched, { d3 with bits := d3.nbits, value := d3.data, decode_type := RC6 })
        | (e, d3) => (e, d3)
      | (_, d2) => (.DATA_SPACE_ERROR, d2)
    | (_, d1) => (.DATA_MARK_ERROR, d1)

/-! ## Panasonic decode -/

/-- `IRdecodePanasonic::GetBit`. -/
def IRdecodePanasonic.GetBit (M : Nat → Nat → Bool) (d : IRdecode) : Outcome × IRdecode :=
  if !M (d.rawbuf d.offset) 432 then (.DATA_MARK_ERROR, d)
  else
    let d1 := { d with offset := toUInt (d.offset + 1) }
    if M (d1.rawbuf d1.offset) 1296 then
      (.matched, { d1 with data_Panasonic := toULong ((d1.data_Panasonic <<< 1) ||| 1),
                           offset := toUInt (d1.offset + 1) })
    else if M (d1.rawbuf d1.offset) 432 then
      (.matched, { d1 with data_Panasonic := toULong (d1.data_Panasonic <<< 1),
                           offset := toUInt (d1.offset + 1) })
    else (.DATA_SPACE_ERROR, d1)

/-- The loops `while (offset < bound) if (!GetBit()) return false;` of
`IRdecodePanasonic::decode`. -/
def IRdecodePanasonic.getBits (M : Nat → Nat → Bool) (bound : Nat) :
    Nat → IRdecode → Outcome × IRdecode
  | 0, d => (.matched, d)
  | fuel + 1, d =>
    if d.offset < bound then
      match IRdecodePanasonic.GetBit M d with
      | (.matched, d1) => IRdecodePanasonic.getBits M bound fuel d1
      | (e, d1) => (e, d1)
    else (.matched, d)

/-- `IRdecodePanasonic::decode`. -/
def IRdecodePanasonic.decode (M : Nat → Nat → Bool) (d : IRdecode) : Outcome × IRdecode :=
  if d.rawlen ≠ 100 then (.RAW_COUNT_ERROR, d)
  else if !M (d.rawbuf 1) 3456 then (.HEADER_MARK_ERROR, d)
  else if !M (d.rawbuf 2) 1728 then (.HEADER_SPACE_ERROR, d)
  else
    let d0 := { d with offset := 3, data_Panasonic := 0 }
    match IRdecodePanasonic.getBits M (2 * 8 * 2 + 2) (2 * 8 * 2 + 2) d0 with
    | (.matched, d1) =>
      if d1.data_Panasonic ≠ 0x4004 then (.REJECTION, d1)
      else
        match IRdecodePanasonic.getBits M (5 * 8 * 2 + 2) (5 * 8 * 2 + 2) d1 with
        | (.matched, d2) =>
          (.matched, { d2 with value := d2.data_Panasonic, data_Panasonic := 0,
                               decode_type := PANASONIC_NEW })
        | (e, d2) => (e, d2)
    | (e, d1) => (e, d1)

/-! ## Encode engine -/

/-- One emission of the pulse emitter: carrier on (`isMark`) or off for `usec`
microseconds. -/
structure Pulse where
  isMark : Bool
  usec : Nat
  deriving DecidableEq, Repr

/-- The data members of `IRsendBase` the senders use, with the pulses handed to the
emitter so far (oldest first) and the carrier frequency last configured. -/
structure IRsendBase where
  Extent : Nat
  out : List Pulse
  kHz : Nat

/-- `IRsendBase::enableIROut`: configures the carrier. -/
def IRsendBase.enableIROut (khz : Nat) (s : IRsendBase) : IRsendBase :=
  { s with kHz := khz }

/-- `IRsendBase::mark`. -/
def IRsendBase.mark (time : Nat) (s : IRsendBase) : IRsendBase :=
  { s with out := s.out ++ [⟨true, time⟩], Extent := toULong (s.Extent + time) }

/-- `IRsendBase::space`. -/
def IRsendBase.space (time : Nat) (s : IRsendBase) : IRsendBase :=
  { s with out := s.out ++ [⟨false, time⟩], Extent := toULong (s.Extent + time) }

/-- The loop `for (int i = 0; i < Num_Bits; i++)` of `sendGeneric`; the first argument is
the number of iterations left. -/
def sendGeneric.bitLoop (Mark_One Mark_Zero Space_One Space_Zero : Nat) :
    Nat → Nat → IRsendBase → IRsendBase
  | 0, _, s => s
  | n + 1, data, s =>
    let s1 :=
      if data &&& TOPBIT ≠ 0 then (s.mark Mark_One).space Space_One
      else (s.mark Mark_Zero).space Space_Zero
    sendGeneric.bitLoop Mark_One Mark_Zero Space_One Space_Zero n (toULong (data <<< 1)) s1

/-- `IRsendBase::sendGeneric` (for `Num_Bits ≤ 32`; the shift count `32 - Num_Bits` is
undefined in C beyond that). -/
def IRsendBase.sendGeneric (data Num_Bits Head_Mark Head_Space Mark_One Mark_Zero Space_One
    Space_Zero kHz : Nat) (Use_Stop : Bool) (Max_Extent : Nat) (s : IRsendBase) : IRsendBase :=
  let s0 := { s with Extent := 0 }
  let data1 := toULong (data <<< (32 - Num_Bits))
  let s1 := s0.enableIROut kHz
  let s2 := if Head_Mark ≠ 0 then s1.mark Head_Mark else s1
  let s3 := if Head_Space ≠ 0 then s2.space Head_Space else s2
  let s4 := sendGeneric.bitLoop Mark_One Mark_Zero Space_One Space_Zero Num_Bits data1 s3
  let s5 := if Use_Stop then s4.mark Mark_One else s4
  if Max_Extent ≠ 0 then s5.space (toUInt (toULong (Max_Extent + 2 ^ 32 - s5.Extent)))
  else s5.space Space_One

/-- `IRsendNEC::send`. -/
def IRsendNEC.send (data : Nat) (s : IRsendBase) : IRsendBase :=
  if data = REPEAT then
    ((((s.enableIROut 38).mark (563 * 16)).space (563 * 4)).mark 563).space (56 * 173)
  else
    s.sendGeneric data 32 (563 * 16) (563 * 8) 563 563 (563 * 3) 563 38 true 0

/-- The loop `for (byte i = 0; i < numTimesToSend; i++)` of `IRsendSony::send`. -/
def IRsendSony.sendLoop (data nbits : Nat) : Nat → IRsendBase → IRsendBase
  | 0, s => s
  | k + 1, s =>
    IRsendSony.sendLoop data nbits k
      (s.sendGeneric data (toUChar nbits) (600 * 4) 600 (600 * 2) 600 600 600 40 false
        (if nbits = 8 then 22000 else 45000))

/-- `IRsendSony::send`. -/
def IRsendSony.send (data nbits : Nat) (send3times : Bool) (s : IRsendBase) : IRsendBase :=
  let numTimesToSend := if send3times = true then 3 else 1
  IRsendSony.sendLoop data nbits numTimesToSend s

/-- `IRsendJVC::send`. -/
def IRsendJVC.send (data : Nat) (First : Bool) (s : IRsendBase) : IRsendBase :=
  let f := if First then 1 else 0
  let s1 := s.sendGeneric data 16 (525 * 16 * f) (525 * 8 * f) 525 525 (525 * 3) 525 38 true 0
  let s2 := s1.space (525 * 45)
  if First then s2.sendGeneric data 16 0 0 525 525 (525 * 3) 525 38 true 0 else s2

/-- `IRsendPanasonic::PutBits`; the first argument is the number of iterations left. -/
def IRsendPanasonic.PutBits : Nat → Nat → IRsendBase → IRsendBase
  | 0, _, s => s
  | n + 1, data, s =>
    let s1 :=
      if data &&& 0x80000000 ≠ 0 then (s.mark 432).space 1296
      else (s.mark 432).space 432
    IRsendPanasonic.PutBits n (toULong (data <<< 1)) s1

/-- The loop `while (data > 0)` of `IRsendPanasonic::send`, which folds the bytes of `data`
into `checksum`; a 32-bit `data` is zero after four shifts by eight. -/
def IRsendPanasonic.checksumLoop : Nat → Nat → Nat → Nat
  | 0, _, checksum => checksum
  | fuel + 1, data, checksum =>
    if data > 0 then
      IRsendPanasonic.checksumLoop fuel (data >>> 8) (checksum ^^^ (data &&& 0xFF))
    else checksum

/-- `IRsendPanasonic::send`. -/
def IRsendPanasonic.send (data : Nat) (s : IRsendBase) : IRsendBase :=
  let s1 := ((s.enableIROut 37).mark 3456).space 1728
  let s2 := IRsendPanasonic.PutBits 8 2 s1
  let s3 := IRsendPanasonic.PutBits 8 32 s2
  let s4 := IRsendPanasonic.PutBits 24 data s3
  let checksum := IRsendPanasonic.checksumLoop 4 data 0
  let s5 := IRsendPanasonic.PutBits 8 checksum s4
  (s5.mark 432).space (toUInt (172 * 432))

/-- The loop `for (unsigned char i = 0; i < 13; i++)` of `IRsendRC5::send`. -/
def IRsendRC5.bitLoop : Nat → Nat → IRsendBase → IRsendBase
  | 0, _, s => s
  | n + 1, data, s =>
    let s1 :=
      if data &&& TOPBIT ≠ 0 then (s.space RC5_T1).mark RC5_T1
      else (s.mark RC5_T1).space RC5_T1
    IRsendRC5.bitLoop n (toULong (data <<< 1)) s1

/-- `IRsendRC5::send`. -/
def IRsendRC5.send (data : Nat) (s : IRsendBase) : IRsendBase :=
  let s0 := s.enableIROut 36
  let data1 := toULong (data <<< (32 - 13))
  let s1 := { s0 with Extent := 0 }
  let s2 := s1.mark RC5_T1
  let s3 := IRsendRC5.bitLoop 13 data1 s2
  s3.space (toUInt (toULong (114000 + 2 ^ 32 - s3.Extent)))

/-- The loop `for (int i = 0; i < nbits; i++)` of `IRsendRC6::send`: `i` is the index of
the current bit and the first argument the number of iterations left. -/
def IRsendRC6.bitLoop : Nat → Nat → Nat → IRsendBase → IRsendBase
  | 0, _, _, s => s
  | n + 1, i, data, s =>
    let t := if i = 3 then 2 * RC6_T1 else RC6_T1
    let s1 :=
      if data &&& TOPBIT ≠ 0 then (s.mark t).space t
      else (s.space t).mark t
    IRsendRC6.bitLoop n (i + 1) (toULong (data <<< 1)) s1

/-- `IRsendRC6::send` (for `nbits ≤ 32`). -/
def IRsendRC6.send (data nbits : Nat) (s : IRsendBase) : IRsendBase :=
  let s0 := s.enableIROut 36
  let data1 := toULong (data <<< (32 - nbits))
  let s1 := { s0 with Extent := 0 }
  let s2 := (s1.mark RC6_HDR_MARK).space RC6_HDR_SPACE
  let s3 := (s2.mark RC6_T1).space RC6_T1
  let s4 := IRsendRC6.bitLoop nbits 0 data1 s3
  s4.space (toUInt (toULong (107000 + 2 ^ 32 - s4.Extent)))

/-! ## From the emitter to the receiver

The claims feed what a sender emits back into a decoder.  The definitions of this section
say how: they are the set-up of the round-trip statements, not code of the library. -/

/-- A sender with nothing emitted yet. -/
def IRsendBase.idle : IRsendBase := { Extent := 0, out := [], kHz := 0 }

/-- Consecutive emissions of the same level reach the receiver as one sample of the summed
duration. -/
def mergeLevels : List Pulse → List Pulse
  | [] => []
  | p :: ps =>
    match mergeLevels ps with
    | [] => [p]
    | q :: qs => if p.isMark = q.isMark then ⟨p.isMark, p.usec + q.usec⟩ :: qs else p :: q :: qs

/-- The space that ends an emission runs into the gap before the next frame and is not a
sample of this one. -/
def dropTrailingSpace : List Pulse → List Pulse
  | [] => []
  | [p] => if p.isMark then [p] else []
  | p :: q :: ps => p :: dropTrailingSpace (q :: ps)

/-- The frame for emissions that alternate mark and space: the gap sample, then the emitted
durations without the last one (the trailing space). -/
def frameOf (gap : Nat) (out : List Pulse) : List Nat :=
  gap :: (out.map Pulse.usec).dropLast

/-- The frame in general: the gap sample, then one sample per run of equal levels, the
trailing space dropped. -/
def mergedFrameOf (gap : Nat) (out : List Pulse) : List Nat :=
  gap :: (dropTrailingSpace (mergeLevels out)).map Pulse.usec

/-- The decoder `d` after it received `frame`: `rawlen` is the number of samples and slot
`i < rawlen` of `rawbuf` holds sample `i`; the slots beyond keep what they held. -/
def IRdecode.receive (frame : List Nat) (d : IRdecode) : IRdecode :=
  { d with rawbuf := fun i => frame.getD i (d.rawbuf i), rawlen := frame.length }

/-- A decoder as `IRdecodeBase::IRdecodeBase` leaves it, over an all-zero buffer. -/
def IRdecode.fresh : IRdecode :=
  { decode_type := UNKNOWN, value := 0, bits := 0, rawbuf := fun _ => 0, rawlen := 0,
    ignoreHeader := false, offset := 0, nbits := 0, used := 0, data := 0,
    data_Panasonic := 0, hash := 0 }

/-! ## Bits on the wire

Vocabulary of the statements: the bit string of a value, what the decoders accumulate from
a bit string, and what it means for a stretch of samples to carry a bit string. -/

/-- The bits `n - 1, ..., 0` of `v`, most significant first. -/
def msbBits : Nat → Nat → List Bool
  | 0, _ => []
  | n + 1, v => v.testBit n :: msbBits n v

/-- One step of the accumulation in the decoders: `data = (data << 1) | 1` for a one,
`data <<= 1` for a zero, in 32 bits. -/
def shiftIn (data : Nat) (b : Bool) : Nat :=
  if b then toULong ((data <<< 1) ||| 1) else toULong (data <<< 1)

/-- The samples of `buf` from slot `off` on carry the bits `bs` in pairs: the first sample
of a pair matches `fixed`; the second matches `one` for a one bit, and for a zero bit it
matches `nought` without matching `one`. -/
def carries (M : Nat → Nat → Bool) (buf : Nat → Nat) (fixed one nought : Nat) :
    Nat → List Bool → Bool
  | _, [] => true
  | off, b :: bs =>
    M (buf off) fixed &&
    (if b then M (buf (off + 1)) one
      else (!M (buf (off + 1)) one && M (buf (off + 1)) nought)) &&
    carries M buf fixed one nought (off + 2) bs

/-- The pulses a call of a sender emits. -/
def IRsendBase.emitted (send : IRsendBase → IRsendBase) (s : IRsendBase) : List Pulse :=
  (send { s with out := [] }).out

/-- The two pulses `sendGeneric` emits for one bit. -/
def bitPulses (Mark_One Mark_Zero Space_One Space_Zero : Nat) (b : Bool) : List Pulse :=
  if b then [⟨true, Mark_One⟩, ⟨false, Space_One⟩] else [⟨true, Mark_Zero⟩, ⟨false, Space_Zero⟩]

/-- The two samples that carry one bit: `fixed`, then `one` or `nought`. -/
def bitSamples (fixed one nought : Nat) (b : Bool) : List Nat :=
  [fixed, if b then one else nought]

/-- A captured NEC frame for the value `0x20DF10EF`, with jitter on every bit sample. -/
def NEC_jitter_frame : List Nat :=
  [20000, 9000, 4500, 544, 521, 553, 495, 512, 1744, 515, 576, 577, 497, 619, 612, 530,
   492, 514, 594, 556, 1624, 533, 1630, 573, 591, 510, 1751, 518, 1664, 583, 1767, 577,
   1622, 576, 1756, 553, 495, 531, 494, 574, 517, 540, 1714, 521, 621, 518, 629, 542, 626,
   607, 529, 516, 1755, 576, 1655, 550, 1631, 573, 499, 575, 1622, 582, 1659, 566, 1743,
   557, 1687, 560]

/-! ## Phase encoding: base units

Vocabulary of the RC5 / RC6 statements.  A phase-encoded emission is a stream of base
units, each a mark or a space of `t1` microseconds; the receiver sees one sample per run
of equal units. -/

/-- The pulses of a stream of base units (`true` is a mark). -/
def unitPulses (t1 : Nat) (us : List Bool) : List Pulse :=
  us.map (fun u => ⟨u, t1⟩)

/-- The samples a receiver gets from a stream of base units: runs merged, trailing space
dropped. -/
def runsOf (t1 : Nat) (us : List Bool) : List Pulse :=
  dropTrailingSpace (mergeLevels (unitPulses t1 us))

/-- The first sample made `a` microseconds longer. -/
def bump (a : Nat) : List Pulse → List Pulse
  | [] => []
  | p :: r => ⟨p.isMark, a + p.usec⟩ :: r

/-- The level `getRClevel` reports for a unit. -/
def levelOf (u : Bool) : RCLevel :=
  if u then RCLevel.MARK else RCLevel.SPACE

/-- The number of base units `getRClevel` finds in a sample of width `w`: the first of
`t1`, `2 * t1`, `3 * t1` that `w` matches. -/
def unitsOf (M : Nat → Nat → Bool) (t1 w : Nat) : Option Nat :=
  if M w t1 then some 1
  else if M w (2 * t1) then some 2
  else if M w (3 * t1) then some 3
  else none

/-- The slots of `buf` from `off` on hold the samples `ps`, marks in odd slots and
spaces in even slots, and each sample is the whole number of base units
`getRClevel` finds in it. -/
def holdsRuns (M : Nat → Nat → Bool) (t1 : Nat) (buf : Nat → Nat) : Nat → List Pulse → Prop
  | _, [] => True
  | off, p :: ps =>
    buf off = p.usec ∧ p.isMark = decide (off % 2 = 1) ∧
    (∃ a, unitsOf M t1 p.usec = some a ∧ p.usec = a * t1) ∧
    holdsRuns M t1 buf (off + 1) ps

/-- The cursor of `getRClevel` (`offset`, `used`) stands in front of the units `us`: the
rest of the frame is the runs of `us`, the first run extended by the `used` units already
handed out. -/
def Reads (M : Nat → Nat → Bool) (t1 : Nat) (d : IRdecode) (us : List Bool) : Prop :=
  holdsRuns M t1 d.rawbuf d.offset (bump (d.used * t1) (runsOf t1 us)) ∧
  d.rawlen = d.offset + (runsOf t1 us).length ∧ d.rawlen < 65536 ∧
  (runsOf t1 us = [] → d.used = 0)

/-- The two half-bit units of an RC5 bit: space then mark for a one, mark then space for a
zero. -/
def halvesRC5 (b : Bool) : List Bool :=
  if b then [false, true] else [true, false]

/-- The units of the RC6 bits `bs`, the first of which has index `i`: mark then space for a
one, space then mark for a zero, each half doubled for the bit of index 3. -/
def unitsRC6 : Nat → List Bool → List Bool
  | _, [] => []
  | i, b :: bs => (if i = 3 then [b, b, !b, !b] else [b, !b]) ++ unitsRC6 (i + 1) bs

/-- The pulses the bit loop of `IRsendRC6::send` emits for the bits `bs`, the first of
which has index `i`: mark then space for a one, space then mark for a zero, both of
`2 * RC6_T1` for the bit of index 3 and of `RC6_T1` otherwise. -/
def pulsesRC6 : Nat → List Bool → List Pulse
  | _, [] => []
  | i, b :: bs =>
    [⟨b, if i = 3 then 2 * RC6_T1 else RC6_T1⟩, ⟨!b, if i = 3 then 2 * RC6_T1 else RC6_T1⟩] ++
      pulsesRC6 (i + 1) bs

/-! ## The umbrella decoder -/

/-- `IRdecodeBase::reset`. -/
def IRdecodeBase.reset (d : IRdecode) : IRdecode :=
  { d with decode_type := UNKNOWN, value := 0, bits := 0, rawlen := 0 }

/-- `IRdecodePanasonic_Old::decode`. -/
def IRdecodePanasonic_Old.decode (M : Nat → Nat → Bool) (d : IRdecode) : Outcome × IRdecode :=
  match IRdecodeBase.decodeGeneric M 48 (833 * 4) (833 * 4) 0 833 (833 * 3) 833 d with
  | (.matched, d1) => (.matched, { d1 with decode_type := PANASONIC_OLD })
  | (e, d1) => (e, d1)

/-- `IRdecodeNECx::decode`. -/
def IRdecodeNECx.decode (M : Nat → Nat → Bool) (d : IRdecode) : Outcome × IRdecode :=
  match IRdecodeBase.decodeGeneric M 68 (563 * 8) (563 * 8) 0 563 (563 * 3) 563 d with
  | (.matched, d1) => (.matched, { d1 with decode_type := NECX })
  | (e, d1) => (e, d1)

/-- `IRdecodeSamsung32::decode`.  The constant `PANASONIC32` it assigns to `decode_type` is
defined in none of the sources and is a parameter. -/
def IRdecodeSamsung32.decode (M : Nat → Nat → Bool) (PANASONIC32 : Nat) (d : IRdecode) :
    Outcome × IRdecode :=
  match IRdecodeBase.decodeGeneric M 68 (560 * 16) (560 * 8) 0 560 (560 * 3) 560 d with
  | (.matched, d1) => (.matched, { d1 with decode_type := PANASONIC32 })
  | (e, d1) => (e, d1)

/-- `IRdecode::decode`: the protocol decoders in the order of the source, each on the
object as the one before left it; the first that returns `true` ends the call. -/
def IRdecode.decode (M : Nat → Nat → Bool) (PANASONIC32 : Nat) (d : IRdecode) :
    Bool × IRdecode :=
  let r1 := IRdecodeNEC.decode M d
  if r1.1 = .matched then (true, r1.2) else
  let r2 := IRdecodeSony.decode M r1.2
  if r2.1 = .matched then (true, r2.2) else
  let r3 := IRdecodeRC5.decode M r2.2
  if r3.1 = .matched then (true, r3.2) else
  let r4 := IRdecodeRC6.decode M r3.2
  if r4.1 = .matched then (true, r4.2) else
  let r5 := IRdecodePanasonic_Old.decode M r4.2
  if r5.1 = .matched then (true, r5.2) else
  let r6 := IRdecodeNECx.decode M r5.2
  if r6.1 = .matched then (true, r6.2) else
  let r7 := IRdecodeJVC.decode M r6.2
  if r7.1 = .matched then (true, r7.2) else
  let r8 := IRdecodePanasonic.decode M r7.2
  if r8.1 = .matched then (true, r8.2) else
  let r9 := IRdecodeSamsung32.decode M PANASONIC32 r8.2
  if r9.1 = .matched then (true, r9.2) else (false, r9.2)

/-- The protocol decoders `IRdecode::decode` tries, in its order. -/
def IRdecode.decoders (M : Nat → Nat → Bool) (PANASONIC32 : Nat) :
    List (IRdecode → Outcome × IRdecode) :=
  [IRdecodeNEC.decode M, IRdecodeSony.decode M, IRdecodeRC5.decode M, IRdecodeRC6.decode M,
   IRdecodePanasonic_Old.decode M, IRdecodeNECx.decode M, IRdecodeJVC.decode M,
   IRdecodePanasonic.decode M, IRdecodeSamsung32.decode M PANASONIC32]

/-- The frame of `d'` is the frame of `d`: same samples, same length, same header
setting. -/
def IRdecode.sameFrame (d d' : IRdecode) : Prop :=
  d'.rawbuf = d.rawbuf ∧ d'.rawlen = d.rawlen ∧ d'.ignoreHeader = d.ignoreHeader

/-- The decode result of `d'` is the one of `d`: same `decode_type`, `value` and `bits`. -/
def IRdecode.sameResult (d d' : IRdecode) : Prop :=
  d'.decode_type = d.decode_type ∧ d'.value = d.value ∧ d'.bits = d.bits

/-- Two runs of a decoder agree on what the caller sees of the result: the outcome,
`value` and `bits`. -/
def agrees (r r' : Outcome × IRdecode) : Prop :=
  r'.1 = r.1 ∧ r'.2.value = r.2.value ∧ r'.2.bits = r.2.bits

/-- The bits the space-length convention reads from `n` pairs of samples starting at slot
`off`: a pair is a one iff its second sample matches `one`. -/
def spaceBits (M : Nat → Nat → Bool) (buf : Nat → Nat) (one : Nat) : Nat → Nat → List Bool
  | _, 0 => []
  | off, n + 1 => M (buf (off + 1)) one :: spaceBits M buf one (off + 2) n

/-- The sum of the durations of a list of pulses. -/
def totalUsec (ps : List Pulse) : Nat :=
  (ps.map Pulse.usec).sum

/-- The accumulator `Extent` holds, in 32 bits, the sum of the durations emitted so far. -/
def IRsendBase.tracks (s : IRsendBase) : Prop :=
  s.Extent = toULong (totalUsec s.out)

/-! ## Hash fallback -/

abbrev FNV_PRIME_32 : Nat := 16777619
abbrev FNV_BASIS_32 : Nat := 2166136261

/-- `IRdecodeHash::compare`.  The source tests `newval < oldval * .8` and
`oldval < newval * .8` in floating point.  For 16-bit arguments these are the integer
tests `5 * newval < 4 * oldval` and `5 * oldval < 4 * newval`: when `oldval` is a multiple
of 5 the product `oldval * .8` rounds to the integer `4 * oldval / 5`, and otherwise it is
at least 0.2 away from every integer, far more than the rounding error (below 0.003 in
single precision, which is what `double` is on the AVR target). -/
def IRdecodeHash.compare (oldval newval : Nat) : Nat :=
  if 5 * newval < 4 * oldval then 0
  else if 5 * oldval < 4 * newval then 2
  else 1

/-- The loop `for (uint16_t i = 1; i+2 < rawlen; i++)` of `IRdecodeHash::decode`, from the
index `i` on.  The first argument bounds the number of iterations; `decode` passes
`rawlen`. -/
def IRdecodeHash.loop : Nat → Nat → IRdecode → IRdecode
  | 0, _, d => d
  | fuel + 1, i, d =>
    if toUInt (i + 2) < d.rawlen then
      IRdecodeHash.loop fuel (toUInt (i + 1))
        { d with hash := toULong (d.hash * FNV_PRIME_32) ^^^
            IRdecodeHash.compare (d.rawbuf i) (d.rawbuf (toUInt (i + 2))) }
    else d

/-- `IRdecodeHash::decode`. -/
def IRdecodeHash.decode (d : IRdecode) : Bool × IRdecode :=
  (true, IRdecodeHash.loop d.rawlen 1 { d with hash := FNV_BASIS_32 })

/-- The FNV fold of the comparison outcomes at the indices `is`, in the order of the list:
each step replaces `h` by `((h * FNV_PRIME_32) mod 2 ^ 32) XOR compare(buf[i], buf[i+2])`. -/
def hashFold (buf : Nat → Nat) (h0 : Nat) (is : List Nat) : Nat :=
  is.foldl (fun h i => toULong (h * FNV_PRIME_32) ^^^
    IRdecodeHash.compare (buf i) (buf (i + 2))) h0

/-! ## The sampling receiver (timer interrupt)

The structure `irparams` and the macros `US_TO_TICKS`, `MINIMUM_TIME_GAP_PERMITTED` and
`LONG_SPACE_US` are declared in `IRLibRData.h` and `IRLibTimer.h`, which are not among the
sources: the two tick thresholds are parameters of the model, and the fields of `irparams`
are the ones the interrupt routine uses. -/

/-- The states of the receiver state machine. -/
inductive rcvstate_t
  | STATE_START
  | STATE_TIMING_MARK
  | STATE_TIMING_SPACE
  deriving DecidableEq, Repr

/-- The level read from the receiver pin: `IR_MARK` is `LOW`, `IR_SPACE` is `HIGH`. -/
inductive irdata_t
  | IR_MARK
  | IR_SPACE
  deriving DecidableEq, Repr

/-- The fields of `irparams` the receivers use.  `rawbuf1` is the array of that
name; `extbuf` is the buffer handed to `useDoubleBuffer`.  The pointer `rawbuf2` is
`extbuf` when `doubleBuffered` is set and `rawbuf1` otherwise (`useDoubleBuffer` sets both
together, and the decoder's constructor makes `rawbuf2` point to `rawbuf1`). -/
structure irparams_t where
  timer : Nat
  pauseISR : Bool
  rawlen1 : Nat
  rawlen2 : Nat
  rcvstate : rcvstate_t
  rawbuf1 : Nat → Nat
  extbuf : Nat → Nat
  dataStateChangedToReady : Bool
  doubleBuffered : Bool
  interruptIsDetached : Bool

/-- The read `irparams.rawbuf2[i]`. -/
def irparams_t.rawbuf2 (p : irparams_t) (i : Nat) : Nat :=
  if p.doubleBuffered then p.extbuf i else p.rawbuf1 i

/-- The statement `irparams.rawbuf2[irparams.rawlen2++] = irparams.timer;` followed by
`irparams.timer = 0;`.  The second component is the index written. -/
def irparams_t.record (p : irparams_t) : irparams_t × Nat :=
  let p1 :=
    if p.doubleBuffered then { p with extbuf := Function.update p.extbuf p.rawlen2 (toUInt p.timer) }
    else { p with rawbuf1 := Function.update p.rawbuf1 p.rawlen2 (toUInt p.timer) }
  ({ p1 with rawlen2 := p.rawlen2 + 1, timer := 0 }, p.rawlen2)

/-- The loop `for (unsigned char i = 0; i < irparams.rawlen2; i++) irparams.rawbuf1[i] =
irparams.rawbuf2[i];` of the handoff in double-buffered mode, entered at `i`: `src` is the
buffer `rawbuf2` points to and the last argument is `rawbuf1`.  The first argument bounds
the number of iterations. -/
def copyBuffer (rawlen2 : Nat) (src : Nat → Nat) : Nat → Nat → (Nat → Nat) → (Nat → Nat)
  | 0, _, dst => dst
  | fuel + 1, i, dst =>
    if i < rawlen2 then
      copyBuffer rawlen2 src fuel (toUChar (i + 1)) (Function.update dst i (src i))
    else dst

/-- The `switch (irparams.rcvstate)` of the interrupt routine, with the pin at level
`irdata`.  `minTicks` is `US_TO_TICKS(MINIMUM_TIME_GAP_PERMITTED)` and `longTicks` is
`US_TO_TICKS(LONG_SPACE_US)`.  The second component is the index of `rawbuf2` written, if
any. -/
def ISR.stateMachine (minTicks longTicks : Nat) (irdata : irdata_t) (p1 : irparams_t) :
    irparams_t × Option Nat :=
  match p1.rcvstate with
  | .STATE_START =>
    if irdata = .IR_MARK then
      let r := irparams_t.record { p1 with rawlen2 := 0 }
      ({ r.1 with rcvstate := .STATE_TIMING_MARK }, some r.2)
    else (p1, none)
  | .STATE_TIMING_MARK =>
    if irdata = .IR_SPACE ∧ p1.timer ≥ minTicks then
      let r := irparams_t.record p1
      ({ r.1 with rcvstate := .STATE_TIMING_SPACE }, some r.2)
    else (p1, none)
  | .STATE_TIMING_SPACE =>
    if irdata = .IR_MARK ∧ p1.timer ≥ minTicks then
      let r := irparams_t.record p1
      ({ r.1 with rcvstate := .STATE_TIMING_MARK }, some r.2)
    else if irdata = .IR_SPACE ∧ p1.timer > longTicks then
      let p2 := { p1 with dataStateChangedToReady := true, rcvstate := .STATE_START }
      let p3 :=
        if p2.doubleBuffered = true then
          { p2 with rawbuf1 := copyBuffer p2.rawlen2 p2.extbuf p2.rawlen2 0 p2.rawbuf1 }
        else { p2 with pauseISR := true }
      ({ p3 with rawlen1 := p3.rawlen2 }, none)
    else (p1, none)

/-- One run of `ISR(IR_RECV_INTR_NAME)` with the pin at level `irdata`: the tick count,
the pause test, the overflow test and the state machine.  (`do_Blink` drives the indicator
LED only.) -/
def ISR (minTicks longTicks : Nat) (irdata : irdata_t) (p : irparams_t) :
    irparams_t × Option Nat :=
  let p0 := { p with timer := toULong (p.timer + 1) }
  if p0.pauseISR = true then (p0, none)
  else
    let p1 := if p0.rawlen2 ≥ RAWBUF then { p0 with rawlen2 := p0.rawlen2 - 1 } else p0
    ISR.stateMachine minTicks longTicks irdata p1

/-- A sequence of timer ticks, one pin level per tick, with the indices of `rawbuf2`
written, oldest first. -/
def ISR.run (minTicks longTicks : Nat) : List irdata_t → irparams_t → irparams_t × List Nat
  | [], p => (p, [])
  | x :: xs, p =>
    let r := ISR minTicks longTicks x p
    let rest := ISR.run minTicks longTicks xs r.1
    (rest.1, r.2.toList ++ rest.2)

/-- The receiver as `IRrecv::resume` starts it: buffer lengths zero, `STATE_START`, not
paused, nothing ready, the interrupt attached. -/
def irparams_t.resumed (p : irparams_t) : irparams_t :=
  { p with pauseISR := false, rcvstate := .STATE_START, rawlen1 := 0, rawlen2 := 0,
           dataStateChangedToReady := false, interruptIsDetached := false }

/-- A receiver over zeroed buffers as `IRrecvBase::init` leaves it: single-buffered, not
paused, the interrupt detached, before `resume`. -/
def irparams_t.init : irparams_t :=
  { timer := 0, pauseISR := false, rawlen1 := 0, rawlen2 := 0, rcvstate := .STATE_START,
    rawbuf1 := fun _ => 0, extbuf := fun _ => 0, dataStateChangedToReady := false,
    doubleBuffered := false, interruptIsDetached := true }

/-- Pin levels that change at every tick, starting with a mark. -/
def togglingPin (n : Nat) : List irdata_t :=
  (List.range n).map (fun k => if k % 2 = 0 then irdata_t.IR_MARK else irdata_t.IR_SPACE)

/-- The cursor of `getRClevel` is within the frame, and `fuel` bounds the base units left
in front of it: a sample has at most three, of which `used` are handed out already. -/
def IRdecode.unitsLeft (d : IRdecode) (fuel : Nat) : Prop :=
  d.used ≤ 2 ∧ d.rawlen < 65536 ∧ d.offset ≤ d.rawlen ∧
  3 * (d.rawlen - d.offset) ≤ fuel + d.used

/-! ## The edge receiver (pin-change interrupt)

`MARK_START`, `MINIMUM_TIME_GAP_PERMITTED` and `LONG_SPACE_US` are declared in
`IRLibMatch.h` and `IRLibRData.h`, which are not among the sources.  The two time thresholds
are parameters of the model; `MARK_START` is `LOW`, as the comment above
`IRrecvPCI_Handler` spells out.  A pin level is a `Bool`, `true` for `HIGH`. -/

abbrev HIGH : Bool := true
abbrev LOW : Bool := false
abbrev MARK_START : Bool := LOW
abbrev SPACE_START : Bool := HIGH
abbrev CALLED_BY_USER : Nat := 0
abbrev CALLED_BY_ISR : Nat := 1

/-- What the edge receiver keeps between calls: `irparams` and the function-static
`dataStateIsReady_old` of `checkForEndOfIRCode` (initialised to `true`). -/
structure IRrecvPCI_t where
  irparams : irparams_t
  dataStateIsReady_old : Bool

/-- The store `irparams.rawbuf2[i] = v`, through the pointer `rawbuf2`. -/
def irparams_t.setRawbuf2 (p : irparams_t) (i v : Nat) : irparams_t :=
  if p.doubleBuffered then { p with extbuf := Function.update p.extbuf i v }
  else { p with rawbuf1 := Function.update p.rawbuf1 i v }

/-- `checkForEndOfIRCode(pinState, dt, whoIsCalling)`.  The first component is the value
returned (`dataStateChangedToReady`, the local). -/
def checkForEndOfIRCode (LONG_SPACE_US : Nat) (pinState : Bool) (dt : Nat) (whoIsCalling : Nat)
    (s : IRrecvPCI_t) : Bool × IRrecvPCI_t :=
  let p := s.irparams
  if (whoIsCalling = CALLED_BY_ISR ∧ pinState = MARK_START ∧ dt ≥ LONG_SPACE_US ∧
        p.rawlen2 > 1) ∨
      (whoIsCalling = CALLED_BY_USER ∧ pinState = HIGH ∧ dt ≥ LONG_SPACE_US ∧
        p.rawlen2 > 1) then
    if s.dataStateIsReady_old = false then
      let p1 :=
        if whoIsCalling = CALLED_BY_ISR then { p with dataStateChangedToReady := true }
        else if whoIsCalling = CALLED_BY_USER then { p with dataStateChangedToReady := false }
        else p
      let p2 :=
        if p1.doubleBuffered = true then
          { p1 with rawbuf1 := copyBuffer p1.rawlen2 p1.extbuf p1.rawlen2 0 p1.rawbuf1 }
        else { p1 with pauseISR := true }
      (true, { irparams := { p2 with rawlen1 := p2.rawlen2, rawlen2 := 0 },
               dataStateIsReady_old := true })
    else (false, { s with dataStateIsReady_old := true })
  else (false, { s with dataStateIsReady_old := false })

/-- The elapsed time `dt = t_now - t_old` of `IRrecvPCI_Handler`, in `unsigned long`
arithmetic; `t_now` is the value of `micros()` and `t_old` is `irparams.timer`. -/
def IRrecvPCI_Handler.dt (t_now : Nat) (s : IRrecvPCI_t) : Nat :=
  toULong (toULong t_now + (2 ^ 32 - toULong s.irparams.timer))

/-- One run of `IRrecvPCI_Handler` at time `t_now = micros()` with the pin at level
`pinState`.  The second component is the index of `rawbuf2` written, if any.  (`do_Blink`
drives the indicator LED only.) -/
def IRrecvPCI_Handler (MINIMUM_TIME_GAP_PERMITTED LONG_SPACE_US : Nat) (t_now : Nat)
    (pinState : Bool) (s : IRrecvPCI_t) : IRrecvPCI_t × Option Nat :=
  if s.irparams.pauseISR = true then (s, none)
  else
    let dt := IRrecvPCI_Handler.dt t_now s
    if dt < MINIMUM_TIME_GAP_PERMITTED then (s, none)
    else
      let s1 := (checkForEndOfIRCode LONG_SPACE_US pinState dt CALLED_BY_ISR s).2
      let p1 := s1.irparams
      let p2 := p1.setRawbuf2 p1.rawlen2 (toUInt dt)
      let p3 := { p2 with rawlen2 := p2.rawlen2 + 1 }
      let p4 := if p3.rawlen2 ≥ RAWBUF then { p3 with rawlen2 := RAWBUF - 1 } else p3
      ({ s1 with irparams := { p4 with timer := toULong t_now } }, some p1.rawlen2)

/-- The call of `IRrecvPCI_Handler` reaches `checkForEndOfIRCode` and that call reports
the end of a frame (it returns `true`: the ready state was just entered). -/
def IRrecvPCI_Handler.completes (MINIMUM_TIME_GAP_PERMITTED LONG_SPACE_US : Nat) (t_now : Nat)
    (pinState : Bool) (s : IRrecvPCI_t) : Bool :=
  !s.irparams.pauseISR &&
  !decide (IRrecvPCI_Handler.dt t_now s < MINIMUM_TIME_GAP_PERMITTED) &&
  (checkForEndOfIRCode LONG_SPACE_US pinState (IRrecvPCI_Handler.dt t_now s) CALLED_BY_ISR s).1

/-- A sequence of edges, each with its time stamp and pin level, with the indices of
`rawbuf2` written, oldest first. -/
def IRrecvPCI_Handler.run (MINIMUM_TIME_GAP_PERMITTED LONG_SPACE_US : Nat) :
    List (Nat × Bool) → IRrecvPCI_t → IRrecvPCI_t × List Nat
  | [], s => (s, [])
  | e :: es, s =>
    let r := IRrecvPCI_Handler MINIMUM_TIME_GAP_PERMITTED LONG_SPACE_US e.1 e.2 s
    let rest := IRrecvPCI_Handler.run MINIMUM_TIME_GAP_PERMITTED LONG_SPACE_US es r.1
    (rest.1, r.2.toList ++ rest.2)

/-- The tick of the timer interrupt takes the long-space branch of `STATE_TIMING_SPACE`:
it is not paused, the pin reads a space, and the tick count, already incremented, is
beyond `longTicks` and does not take the first branch. -/
def ISR.completes (minTicks longTicks : Nat) (irdata : irdata_t) (p : irparams_t) : Bool :=
  !p.pauseISR && decide (p.rcvstate = .STATE_TIMING_SPACE) &&
  !(decide (irdata = .IR_MARK) && decide (toULong (p.timer + 1) ≥ minTicks)) &&
  decide (irdata = .IR_SPACE) && decide (toULong (p.timer + 1) > longTicks)

/-- An edge capture with a full buffer: 99 samples taken, the last edge at 29000 µs, in
single-buffered mode over zeroed storage. -/
def fullCapture : IRrecvPCI_t :=
  { irparams := { irparams_t.init with rawlen2 := 99, timer := 29000, interruptIsDetached := false },
    dataStateIsReady_old := false }

/-! ## Resume and handoff to the decoder

The receiver objects hold `Mark_Excess` (an `int16_t`); everything else they work on is
`irparams`.  Attaching, detaching and enabling the hardware interrupt are outside the
model: what remains of them is the flag `interruptIsDetached`. -/

/-- `IRrecvBase::resume`. -/
def IRrecvBase.resume (p : irparams_t) : irparams_t :=
  { p with rawlen1 := 0, rawlen2 := 0, dataStateChangedToReady := false }

/-- `IRrecv::resume`. -/
def IRrecv.resume (p : irparams_t) : irparams_t :=
  if p.interruptIsDetached = true then
    IRrecvBase.resume
      { p with pauseISR := false, interruptIsDetached := false, rcvstate := .STATE_START }
  else p

/-- `IRrecvPCI::resume`. -/
def IRrecvPCI.resume (p : irparams_t) : irparams_t :=
  if p.interruptIsDetached = true then
    IRrecvBase.resume { p with pauseISR := false, interruptIsDetached := false }
  else p

/-- `IRrecv::detachInterrupt`. -/
def IRrecv.detachInterrupt (p : irparams_t) : irparams_t :=
  { p with interruptIsDetached := true }

/-- The sum `u + e` of an `unsigned int` and an `int`, as an `unsigned int`: the signed
operand is converted to unsigned and the sum wraps at 16 bits. -/
def addSigned (u : Nat) (e : Int) : Nat :=
  Int.toNat (((u : Int) + e) % 65536)

/-- The value `rawbuf[i] * Time_per_Tick + ((i % 2) ? -Mark_Excess : Mark_Excess)` stored
back into the `uint16_t` slot `i`, for the slot content `v`. -/
def IRrecvBase.getResults.adjust (Mark_Excess : Int) (Time_per_Tick : Nat) (i v : Nat) : Nat :=
  addSigned (toUInt (v * Time_per_Tick)) (if i % 2 ≠ 0 then -Mark_Excess else Mark_Excess)

/-- The loop `for (uint16_t i = 0; i < decoder->rawlen; i++)` of `IRrecvBase::getResults`
over the storage `buf`, entered at `i`.  The first argument bounds the number of
iterations. -/
def IRrecvBase.getResults.loop (Mark_Excess : Int) (Time_per_Tick rawlen : Nat) :
    Nat → Nat → (Nat → Nat) → (Nat → Nat)
  | 0, _, buf => buf
  | fuel + 1, i, buf =>
    if i < rawlen then
      IRrecvBase.getResults.loop Mark_Excess Time_per_Tick rawlen fuel (toUInt (i + 1))
        (Function.update buf i (IRrecvBase.getResults.adjust Mark_Excess Time_per_Tick i (buf i)))
    else buf

/-- `IRrecvBase::getResults(decoder, Time_per_Tick)`.  The decoder's pointer `rawbuf` always
points to `irparams.rawbuf1` (the constructor sets it and nothing changes it): the loop
reads and writes that storage, and `rawbuf` of the decoder in the result is its content
after the call. -/
def IRrecvBase.getResults (Mark_Excess : Int) (Time_per_Tick : Nat) (p : irparams_t)
    (d : IRdecode) : Bool × irparams_t × IRdecode :=
  let d1 := IRdecodeBase.reset d
  let d2 := { d1 with rawlen := toUInt p.rawlen1 }
  let buf := IRrecvBase.getResults.loop Mark_Excess Time_per_Tick d2.rawlen d2.rawlen 0 p.rawbuf1
  (true, { p with rawbuf1 := buf }, { d2 with rawbuf := buf })

/-- `IRrecv::getResults(decoder)`; `USEC_PER_TICK` is declared in `IRLibTimer.h`, which is
not among the sources, and is a parameter. -/
def IRrecv.getResults (Mark_Excess : Int) (USEC_PER_TICK : Nat) (p : irparams_t)
    (d : IRdecode) : Bool × irparams_t × IRdecode :=
  let r : Bool × irparams_t × IRdecode :=
    if p.dataStateChangedToReady = true then
      let g := IRrecvBase.getResults Mark_Excess USEC_PER_TICK
        { p with dataStateChangedToReady := false } d
      (true, g.2.1, g.2.2)
    else (false, p, d)
  let p2 := if r.2.1.pauseISR = true then IRrecv.detachInterrupt r.2.1 else r.2.1
  (r.1, p2, r.2.2)

/-- The pin levels of a short frame as the timer interrupt samples them: a mark of two
ticks, a space of two ticks, a mark of one tick, then a space that lasts 202 ticks. -/
def shortFramePins : List irdata_t :=
  [.IR_MARK, .IR_MARK, .IR_SPACE, .IR_SPACE, .IR_MARK] ++ List.replicate 202 .IR_SPACE

/-- The single-buffered sampling receiver after `resume` and the ticks of
`shortFramePins`, with thresholds of 1 and 200 ticks: the frame is complete and unread. -/
def pausedReceiver : irparams_t :=
  (ISR.run 1 200 shortFramePins (IRrecv.resume irparams_t.init)).1

/-- The edges of a short frame, each with its time stamp in microseconds: the gap ends at
20000, then a mark of 9000, a space of 4500 and a mark of 560. -/
def edgeFrame : List (Nat × Bool) :=
  [(20000, LOW), (29000, HIGH), (33500, LOW), (34060, HIGH)]

/-- The single-buffered edge receiver after `resume` and the edges of `edgeFrame`, with a
noise floor of 50 µs and a long space of 10000 µs: four samples captured. -/
def capturedEdges : IRrecvPCI_t :=
  (IRrecvPCI_Handler.run 50 10000 edgeFrame
    { irparams := IRrecvPCI.resume irparams_t.init, dataStateIsReady_old := true }).1

/-- `IRdecodeBase::useDoubleBuffer(p_buffer)`: `rawbuf2` points to the caller's buffer, whose
content is `buf`. -/
def IRdecodeBase.useDoubleBuffer (buf : Nat → Nat) (p : irparams_t) : irparams_t :=
  { p with extbuf := buf, doubleBuffered := true }

/-- The double-buffered edge receiver after `resume`, the edges of `edgeFrame` and the
mark edge at 50000 µs that ends the frame: four samples are pending in `rawbuf1`. -/
def pendingEdges : IRrecvPCI_t :=
  (IRrecvPCI_Handler.run 50 10000 (edgeFrame ++ [(50000, LOW)])
    { irparams := IRrecvPCI.resume (IRdecodeBase.useDoubleBuffer (fun _ => 0) irparams_t.init),
      dataStateIsReady_old := true }).1

/-- Successive calls of `getRClevel`, `n` of them, on the member `used`: the levels returned,
in order, and the decoder after the last call. -/
def IRdecodeRC.levels (M : Nat → Nat → Bool) (t1 : Nat) : Nat → IRdecode → List RCLevel × IRdecode
  | 0, d => ([], d)
  | n + 1, d =>
    let r := IRdecodeRC.getRClevel M t1 d
    let rest := IRdecodeRC.levels M t1 n r.2
    (r.1 :: rest.1, rest.2)

/-- The level of the sample at `offset`: a mark at an odd index, a space at an even one. -/
def IRdecodeRC.levelAt (offset : Nat) : RCLevel :=
  if offset % 2 ≠ 0 then RCLevel.MARK else RCLevel.SPACE

/-- A decoder over the frame `gap, 1778, 889` with the cursor on sample 1: a mark of two
RC5 base units followed by a space of one. -/
def twoOneFrame : IRdecode :=
  { IRdecode.receive [20000, 1778, 889] IRdecode.fresh with offset := 1, used := 0 }

/-- A decoder with `ignoreHeader` set over the frame `gap, 100, 889`, with the cursor on
sample 1: a first mark far shorter than the RC5 base unit. -/
def shortHeaderFrame : IRdecode :=
  { IRdecode.receive [20000, 100, 889] IRdecode.fresh with
    offset := 1, used := 0, ignoreHeader := true }

/-- The double-buffered edge receiver after `resume` and the edges of `edgeFrame`: four
samples captured in the second buffer, none handed off yet. -/
def doubleCaptured : IRrecvPCI_t :=
  (IRrecvPCI_Handler.run 50 10000 edgeFrame
    { irparams := IRrecvPCI.resume (IRdecodeBase.useDoubleBuffer (fun _ => 0) irparams_t.init),
      dataStateIsReady_old := true }).1

/-- The sampling receiver after `resume` and all of `shortFramePins` but the last tick:
four samples captured, timing the space after them. -/
def timingSpace : irparams_t :=
  (ISR.run 1 200 shortFramePins.dropLast (IRrecv.resume irparams_t.init)).1

/-- A repeat frame of the JVC protocol: the gap and 33 samples, no header, sixteen data
bits and the stop mark. -/
def JVC_repeat_frame : List Nat :=
  20000 :: ((msbBits 16 0xC2B8).flatMap (bitSamples 525 1575 525) ++ [525])

/-- The number a list of bits spells, most significant bit first. -/
def bitsValue (bs : List Bool) : Nat :=
  bs.foldl (fun a b => 2 * a + b.toNat) 0

/-- A frame of the Panasonic protocol as a remote control sends it: the gap, the header
(3456, 1728), the identifier `0x4004` in sixteen bits, the 24 data bits of `v`, a
checksum byte and the stop mark; a bit is a mark of 432 and a space of 1296 or 432. -/
def Panasonic_frame (v checksum : Nat) : List Nat :=
  [20000, 3456, 1728] ++
    ((msbBits 16 0x4004 ++ msbBits 24 v ++ msbBits 8 checksum).flatMap
      (bitSamples 432 1296 432) ++ [432])

/-- `IRsendSamsung32::send`. -/
def IRsendSamsung32.send (data : Nat) (s : IRsendBase) : IRsendBase :=
  s.sendGeneric data 32 (560 * 16) (560 * 8) 560 560 (560 * 3) 560 38 true 108000

/-! ## Reachable receiver states -/

/-- `IRrecvPCI::detachInterrupt`. -/
def IRrecvPCI.detachInterrupt (p : irparams_t) : irparams_t :=
  { p with interruptIsDetached := true }

/-- `IRrecvPCI::getResults(decoder)`, called when `micros()` is `t_now` and the pin is at
level `pinState`; `IRrecvBase::getResults` runs with its default `Time_per_Ticks = 1`. -/
def IRrecvPCI.getResults (Mark_Excess : Int) (LONG_SPACE_US : Nat) (t_now : Nat)
    (pinState : Bool) (s : IRrecvPCI_t) (d : IRdecode) : Bool × IRrecvPCI_t × IRdecode :=
  let r1 : Bool × IRrecvPCI_t :=
    if s.irparams.dataStateChangedToReady = true then
      (true, { s with irparams := { s.irparams with dataStateChangedToReady := false } })
    else
      checkForEndOfIRCode LONG_SPACE_US pinState (IRrecvPCI_Handler.dt t_now s) CALLED_BY_USER s
  let r2 : irparams_t × IRdecode :=
    if r1.1 = true then
      let g := IRrecvBase.getResults Mark_Excess 1 r1.2.irparams d
      (g.2.1, g.2.2)
    else (r1.2.irparams, d)
  let p3 := if r2.1.pauseISR = true then IRrecvPCI.detachInterrupt r2.1 else r2.1
  (r1.1, { r1.2 with irparams := p3 }, r2.2)

/-- What can happen to the sampling receiver: a tick of the timer interrupt with the pin
at some level, a call of `getResults`, a call of `resume`. -/
inductive IRrecv.Event
  | tick (irdata : irdata_t)
  | getResults
  | resume

/-- One event on the sampling receiver and its decoder. -/
def IRrecv.step (minTicks longTicks : Nat) (Mark_Excess : Int) (USEC_PER_TICK : Nat) :
    IRrecv.Event → irparams_t × IRdecode → irparams_t × IRdecode
  | .tick irdata, st => ((ISR minTicks longTicks irdata st.1).1, st.2)
  | .getResults, st => (IRrecv.getResults Mark_Excess USEC_PER_TICK st.1 st.2).2
  | .resume, st => (IRrecv.resume st.1, st.2)

/-- A sequence of events on the sampling receiver, oldest first. -/
def IRrecv.run (minTicks longTicks : Nat) (Mark_Excess : Int) (USEC_PER_TICK : Nat)
    (evs : List IRrecv.Event) (st : irparams_t × IRdecode) : irparams_t × IRdecode :=
  evs.foldl (fun a e => IRrecv.step minTicks longTicks Mark_Excess USEC_PER_TICK e a) st

/-- What can happen to the edge receiver: an edge at a time `t_now` with the pin at some
level, a call of `getResults` at such a time and level, a call of `resume`. -/
inductive IRrecvPCI.Event
  | edge (t_now : Nat) (pinState : Bool)
  | getResults (t_now : Nat) (pinState : Bool)
  | resume

/-- One event on the edge receiver and its decoder. -/
def IRrecvPCI.step (MINIMUM_TIME_GAP_PERMITTED LONG_SPACE_US : Nat) (Mark_Excess : Int) :
    IRrecvPCI.Event → IRrecvPCI_t × IRdecode → IRrecvPCI_t × IRdecode
  | .edge t_now pinState, st =>
    ((IRrecvPCI_Handler MINIMUM_TIME_GAP_PERMITTED LONG_SPACE_US t_now pinState st.1).1, st.2)
  | .getResults t_now pinState, st =>
    (IRrecvPCI.getResults Mark_Excess LONG_SPACE_US t_now pinState st.1 st.2).2
  | .resume, st => ({ st.1 with irparams := IRrecvPCI.resume st.1.irparams }, st.2)

/-- A sequence of events on the edge receiver, oldest first. -/
def IRrecvPCI.run (MINIMUM_TIME_GAP_PERMITTED LONG_SPACE_US : Nat) (Mark_Excess : Int)
    (evs : List IRrecvPCI.Event) (st : IRrecvPCI_t × IRdecode) : IRrecvPCI_t × IRdecode :=
  evs.foldl (fun a e => IRrecvPCI.step MINIMUM_TIME_GAP_PERMITTED LONG_SPACE_US Mark_Excess e a)
    st

/-- The alternation of the sampling capture below the last slot: while a mark is timed
`rawlen2` is odd, while a space is timed it is even and at least 2. -/
def irparams_t.alternates (p : irparams_t) : Prop :=
  (p.rcvstate = .STATE_TIMING_MARK → p.rawlen2 % 2 = 1 ∨ RAWBUF - 1 ≤ p.rawlen2) ∧
  (p.rcvstate = .STATE_TIMING_SPACE →
    (p.rawlen2 % 2 = 0 ∧ 2 ≤ p.rawlen2) ∨ RAWBUF - 1 ≤ p.rawlen2)

/-- The invariant of the sampling receiver: the capture is within the buffer, the frame
handed off is shorter than the buffer, and marks and spaces alternate. -/
def IRrecv.Inv (p : irparams_t) : Prop :=
  p.rawlen2 ≤ RAWBUF ∧ p.rawlen1 ≤ RAWBUF - 1 ∧ p.alternates

/-- The invariant of the edge receiver: the capture and the frame handed off are shorter
than the buffer. -/
def IRrecvPCI.Inv (s : IRrecvPCI_t) : Prop :=
  s.irparams.rawlen2 ≤ RAWBUF - 1 ∧ s.irparams.rawlen1 ≤ RAWBUF - 1

/-- A frame of six RC5 bits after the start mark: the gap, ten samples of one base unit
(889), a mark of two units and a space of one.  Its levels after the start mark pair up
as five times space-mark and once mark-space. -/
def RC5_six_bit_frame : IRdecode :=
  IRdecode.receive [20000, 889, 889, 889, 889, 889, 889, 889, 889, 889, 889, 1778, 889]
    IRdecode.fresh

/-- A frame of fourteen RC5 bits after the start mark, all of them 1: the gap and 29
samples of one base unit. -/
def RC5_fourteen_bit_frame : IRdecode :=
  IRdecode.receive (20000 :: List.replicate 29 889) IRdecode.fresh

/-! # Theorems -/

/-! ## Machine arithmetic -/

theorem toUInt_of_lt {x : Nat} (h : x < 65536) : toUInt x = x := by
  unfold toUInt; exact Nat.mod_eq_of_lt (by omega)

theorem toUChar_of_lt {x : Nat} (h : x < 256) : toUChar x = x := by
  unfold toUChar; exact Nat.mod_eq_of_lt (by omega)

theorem toULong_of_lt {x : Nat} (h : x < 4294967296) : toULong x = x := by
  unfold toULong; exact Nat.mod_eq_of_lt (by omega)

theorem shl_one_or_one (d : Nat) : (d <<< 1) ||| 1 = 2 * d + 1 := by
  rw [Nat.shiftLeft_eq, Nat.mul_comm]
  exact (Nat.mul_add_lt_is_or (by decide : 1 < 2 ^ 1) d).symm

theorem shl_one (d : Nat) : d <<< 1 = 2 * d := by
  rw [Nat.shiftLeft_eq, Nat.mul_comm]

theorem shiftIn_eq (d : Nat) (b : Bool) : shiftIn d b = (2 * d + b.toNat) % 2 ^ 32 := by
  cases b
  · unfold shiftIn toULong; rw [if_neg (by decide), shl_one]; rfl
  · unfold shiftIn toULong; rw [if_pos rfl, shl_one_or_one]; rfl

theorem and_two_pow_ne_zero (x i : Nat) : x &&& 2 ^ i ≠ 0 ↔ x.testBit i = true := by
  constructor
  · intro h
    by_contra hb
    apply h
    apply Nat.eq_of_testBit_eq
    intro j
    simp only [Nat.testBit_and, Nat.testBit_two_pow, Nat.zero_testBit]
    by_cases hj : i = j
    · subst hj; simp [hb]
    · simp [hj]
  · intro hb h
    have := congrArg (fun y => y.testBit i) h
    simp [hb] at this

theorem foldl_shiftIn_mod (bs : List Bool) : ∀ d : Nat,
    bs.foldl shiftIn (d % 2 ^ 32) = (bs.foldl (fun a b => 2 * a + b.toNat) d) % 2 ^ 32 := by
  induction bs with
  | nil => intro d; rfl
  | cons b bs ih =>
    intro d
    simp only [List.foldl_cons]
    rw [← ih, shiftIn_eq]
    congr 1
    omega

theorem foldl_msbBits (v : Nat) : ∀ n d : Nat,
    (msbBits n v).foldl (fun a b => 2 * a + b.toNat) d = d * 2 ^ n + v % 2 ^ n := by
  intro n
  induction n with
  | zero => intro d; simp [msbBits, Nat.mod_one]
  | succ n ih =>
    intro d
    simp only [msbBits, List.foldl_cons]
    rw [ih, Nat.mod_pow_succ, Nat.testBit_to_div_mod]
    have h2 : v / 2 ^ n % 2 < 2 := Nat.mod_lt _ (by decide)
    rcases Nat.lt_succ_iff_lt_or_eq.mp h2 with h | h
    · have h0 : v / 2 ^ n % 2 = 0 := by omega
      simp [h0, pow_succ]; ring
    · simp [h, pow_succ]; ring

/-- Accumulating the `n ≤ 32` bits of `v < 2 ^ n`, most significant first, gives `v`. -/
theorem foldl_shiftIn_msbBits {n v : Nat} (hn : n ≤ 32) (hv : v < 2 ^ n) :
    (msbBits n v).foldl shiftIn 0 = v := by
  have h := foldl_shiftIn_mod (msbBits n v) 0
  rw [Nat.zero_mod] at h
  rw [h, foldl_msbBits, Nat.zero_mul, Nat.zero_add, Nat.mod_eq_of_lt hv]
  apply Nat.mod_eq_of_lt
  exact lt_of_lt_of_le hv (Nat.pow_le_pow_right (by decide) hn)

theorem msbBits_length (v : Nat) : ∀ n, (msbBits n v).length = n := by
  intro n; induction n with
  | zero => rfl
  | succ n ih => simp [msbBits, ih]

theorem msbBits_mod (v : Nat) : ∀ n m, n ≤ m → msbBits n (v % 2 ^ m) = msbBits n v := by
  intro n
  induction n with
  | zero => intros; rfl
  | succ n ih =>
    intro m hm
    simp only [msbBits]
    rw [ih m (by omega), Nat.testBit_mod_two_pow]
    simp [show n < m by omega]

/-! ## The loops of `decodeGeneric` -/

/-- On samples that carry the bits `bs` up to `Max`, the space-length loop of
`decodeGeneric` runs to `Max` and accumulates `bs`. -/
theorem spaceLoop_carries (M : Nat → Nat → Bool) (Mark_Zero Space_One Space_Zero Max : Nat)
    (hMax : Max < 65536) : ∀ (bs : List Bool) (fuel : Nat) (d : IRdecode) (data : Nat),
    bs.length ≤ fuel → d.offset + 2 * bs.length = Max →
    carries M d.rawbuf Mark_Zero Space_One Space_Zero d.offset bs = true →
    decodeGeneric.spaceLoop M Mark_Zero Space_One Space_Zero Max fuel d data =
      (.matched, { d with offset := Max }, bs.foldl shiftIn data) := by
  intro bs
  induction bs with
  | nil =>
    intro fuel d data _ hoff _
    simp only [List.length_nil, Nat.mul_zero, Nat.add_zero] at hoff
    cases fuel with
    | zero => simp [decodeGeneric.spaceLoop, ← hoff]
    | succ f => simp [decodeGeneric.spaceLoop, ← hoff]
  | cons b bs ih =>
    intro fuel d data hfuel hoff hc
    cases fuel with
    | zero => simp at hfuel
    | succ f =>
      simp only [List.length_cons] at hfuel hoff
      simp only [carries, Bool.and_eq_true] at hc
      obtain ⟨⟨h1, h2⟩, h3⟩ := hc
      have e1 : toUInt (d.offset + 1) = d.offset + 1 := toUInt_of_lt (by omega)
      have e2 : toUInt (d.offset + 1 + 1) = d.offset + 2 := toUInt_of_lt (by omega)
      have hlt : d.offset < Max := by omega
      unfold decodeGeneric.spaceLoop
      simp only [hlt, if_true, h1, Bool.not_true, e1, e2]
      cases b with
      | true =>
        simp only [if_true] at h2
        simp only [h2, if_true, Bool.false_eq_true, if_false]
        rw [ih f _ _ (by omega) (by simp only []; omega) (by simpa using h3)]
        simp [shiftIn]
      | false =>
        simp only [Bool.false_eq_true, if_false, Bool.and_eq_true, Bool.not_eq_true'] at h2
        simp only [h2.1, h2.2, if_true, Bool.false_eq_true, if_false]
        rw [ih f _ _ (by omega) (by simp only []; omega) (by simpa using h3)]
        simp [shiftIn]

/-- On samples that carry the bits `bs` up to `Max`, the mark-length loop of
`decodeGeneric` runs to `Max` and accumulates `bs`. -/
theorem markLoop_carries (M : Nat → Nat → Bool) (Mark_One Mark_Zero Space_One Max : Nat)
    (hMax : Max < 65536) : ∀ (bs : List Bool) (fuel : Nat) (d : IRdecode) (data : Nat),
    bs.length ≤ fuel → d.offset + 2 * bs.length = Max →
    carries M d.rawbuf Space_One Mark_One Mark_Zero d.offset bs = true →
    decodeGeneric.markLoop M Mark_One Mark_Zero Space_One Max fuel d data =
      (.matched, { d with offset := Max }, bs.foldl shiftIn data) := by
  intro bs
  induction bs with
  | nil =>
    intro fuel d data _ hoff _
    simp only [List.length_nil, Nat.mul_zero, Nat.add_zero] at hoff
    cases fuel with
    | zero => simp [decodeGeneric.markLoop, ← hoff]
    | succ f => simp [decodeGeneric.markLoop, ← hoff]
  | cons b bs ih =>
    intro fuel d data hfuel hoff hc
    cases fuel with
    | zero => simp at hfuel
    | succ f =>
      simp only [List.length_cons] at hfuel hoff
      simp only [carries, Bool.and_eq_true] at hc
      obtain ⟨⟨h1, h2⟩, h3⟩ := hc
      have e1 : toUInt (d.offset + 1) = d.offset + 1 := toUInt_of_lt (by omega)
      have e2 : toUInt (d.offset + 1 + 1) = d.offset + 2 := toUInt_of_lt (by omega)
      have hlt : d.offset < Max := by omega
      unfold decodeGeneric.markLoop
      simp only [hlt, if_true, h1, Bool.not_true, e1, e2]
      cases b with
      | true =>
        simp only [if_true] at h2
        simp only [h2, if_true, Bool.false_eq_true, if_false]
        rw [ih f _ _ (by omega) (by simp only []; omega) (by simpa using h3)]
        simp [shiftIn]
      | false =>
        simp only [Bool.false_eq_true, if_false, Bool.and_eq_true, Bool.not_eq_true'] at h2
        simp only [h2.1, h2.2, if_true, Bool.false_eq_true, if_false]
        rw [ih f _ _ (by omega) (by simp only []; omega) (by simpa using h3)]
        simp [shiftIn]

/-! ## The bit loop of the senders -/

theorem topbit_shifted {n v : Nat} (hn : n ≤ 31) :
    (v * 2 ^ (32 - (n + 1))) &&& TOPBIT ≠ 0 ↔ v.testBit n = true := by
  have e : TOPBIT = 2 ^ 31 := by decide
  rw [e, and_two_pow_ne_zero, Nat.mul_comm, Nat.testBit_mul_pow_two]
  have h1 : 31 ≥ 32 - (n + 1) := by omega
  have h2 : 31 - (32 - (n + 1)) = n := by omega
  rw [h2, decide_eq_true h1, Bool.true_and]

theorem next_shifted {n v : Nat} (hn : n ≤ 31) :
    toULong ((v * 2 ^ (32 - (n + 1))) <<< 1) = (v % 2 ^ n) * 2 ^ (32 - n) := by
  have e : (2 : Nat) ^ 32 = 2 ^ n * 2 ^ (32 - n) := by
    rw [← pow_add]; congr 1; omega
  have e2 : (v * 2 ^ (32 - (n + 1))) <<< 1 = v * 2 ^ (32 - n) := by
    rw [Nat.shiftLeft_eq, Nat.mul_assoc, ← pow_succ]; congr 2; omega
  unfold toULong
  rw [e2, e, Nat.mul_mod_mul_right]

theorem first_shifted {n v : Nat} (hn : n ≤ 32) (hv : v < 2 ^ n) :
    toULong (v <<< (32 - n)) = v * 2 ^ (32 - n) := by
  have e : (2 : Nat) ^ 32 = 2 ^ n * 2 ^ (32 - n) := by
    rw [← pow_add]; congr 1; omega
  unfold toULong
  rw [Nat.shiftLeft_eq, e, Nat.mul_mod_mul_right, Nat.mod_eq_of_lt hv]

/-- The bit loop of `sendGeneric` emits the pulses of the bits of the value, most
significant first. -/
theorem sendGeneric_bitLoop_out (Mark_One Mark_Zero Space_One Space_Zero : Nat) :
    ∀ (n : Nat), n ≤ 32 → ∀ (v : Nat) (s : IRsendBase),
    (sendGeneric.bitLoop Mark_One Mark_Zero Space_One Space_Zero n (v * 2 ^ (32 - n)) s).out =
      s.out ++ (msbBits n v).flatMap (bitPulses Mark_One Mark_Zero Space_One Space_Zero) := by
  intro n
  induction n with
  | zero => intro _ v s; simp [sendGeneric.bitLoop, msbBits]
  | succ n ih =>
    intro hn v s
    unfold sendGeneric.bitLoop
    simp only [next_shifted (show n ≤ 31 by omega)]
    rw [ih (by omega), msbBits_mod v n n (Nat.le_refl n)]
    by_cases hb : v.testBit n = true
    · rw [if_pos ((topbit_shifted (show n ≤ 31 by omega)).mpr hb)]
      simp [msbBits, bitPulses, hb, IRsendBase.mark, IRsendBase.space]
    · rw [if_neg (fun h => hb ((topbit_shifted (show n ≤ 31 by omega)).mp h))]
      simp [msbBits, bitPulses, hb, IRsendBase.mark, IRsendBase.space]

/-! ## `decodeGeneric` on samples that carry a bit string -/

/-- Space-length convention: with the length check, the header checks and the data samples
as the template wants them, `decodeGeneric` succeeds, with the carried bits as value. -/
theorem decodeGeneric_space_carries (M : Nat → Nat → Bool)
    (Raw_Count Head_Mark Head_Space Mark_Zero Space_One Space_Zero : Nat) (d : IRdecode)
    (bs : List Bool)
    (hcount : Raw_Count = 0 ∨ d.rawlen = Raw_Count)
    (hhm : d.ignoreHeader = true ∨ Head_Mark = 0 ∨ M (d.rawbuf 1) Head_Mark = true)
    (hhs : Head_Space = 0 ∨ M (d.rawbuf 2) Head_Space = true)
    (hlen : d.rawlen = 2 * bs.length + 4) (hsmall : bs.length ≤ 125)
    (hc : carries M d.rawbuf Mark_Zero Space_One Space_Zero 3 bs = true) :
    IRdecodeBase.decodeGeneric M Raw_Count Head_Mark Head_Space 0 Mark_Zero Space_One
        Space_Zero d =
      (.matched, { d with offset := 2 * bs.length + 3, bits := bs.length,
                          value := bs.foldl shiftIn 0 }) := by
  have hMax : toUChar (toUInt (d.rawlen + 65535)) = 2 * bs.length + 3 := by
    unfold toUChar toUInt; omega
  have c1 : ¬ (Raw_Count ≠ 0 ∧ d.rawlen ≠ Raw_Count) := by
    rcases hcount with h | h
    · exact fun hh => hh.1 h
    · exact fun hh => hh.2 h
  have c2 : (!d.ignoreHeader && decide (Head_Mark ≠ 0) && !M (d.rawbuf 1) Head_Mark) = false := by
    rcases hhm with h | h | h <;> simp [h]
  have c3 : (decide (Head_Space ≠ 0) && !M (d.rawbuf 2) Head_Space) = false := by
    rcases hhs with h | h <;> simp [h]
  have e2 : toUInt (1 + 1) = 2 := toUInt_of_lt (by decide)
  have hloop := spaceLoop_carries M Mark_Zero Space_One Space_Zero (2 * bs.length + 3)
    (by omega) bs (2 * bs.length + 3) { d with offset := 3 } 0 (by omega) (by simp only []; omega)
    (by simpa using hc)
  unfold IRdecodeBase.decodeGeneric
  simp only [c1, if_false, c2, e2, c3, Bool.false_eq_true, ne_eq, not_true_eq_false, hMax,
    hloop]
  have e3 : toUChar ((2 * bs.length + 3 - 1) / 2 - 1) = bs.length := by
    rw [toUChar_of_lt (by omega)]; omega
  simp only [e3]

/-- Mark-length convention: with the header checks and the data samples as the template
wants them, `decodeGeneric` succeeds, with the carried bits as value. -/
theorem decodeGeneric_mark_carries (M : Nat → Nat → Bool)
    (Raw_Count Head_Mark Head_Space Mark_One Mark_Zero Space_One Space_Zero : Nat)
    (d : IRdecode) (bs : List Bool) (hM1 : Mark_One ≠ 0)
    (hcount : Raw_Count = 0 ∨ d.rawlen = Raw_Count)
    (hhm : d.ignoreHeader = true ∨ Head_Mark = 0 ∨ M (d.rawbuf 1) Head_Mark = true)
    (hhs : Head_Space = 0 ∨ M (d.rawbuf 2) Head_Space = true)
    (hlen : d.rawlen = 2 * bs.length + 2) (hsmall : bs.length ≤ 125)
    (hc : carries M d.rawbuf Space_One Mark_One Mark_Zero 2 bs = true) :
    IRdecodeBase.decodeGeneric M Raw_Count Head_Mark Head_Space Mark_One Mark_Zero Space_One
        Space_Zero d =
      (.matched, { d with offset := 2 * bs.length + 2, bits := bs.length,
                          value := bs.foldl shiftIn 0 }) := by
  have hMax : toUChar d.rawlen = 2 * bs.length + 2 := by
    unfold toUChar; omega
  have c1 : ¬ (Raw_Count ≠ 0 ∧ d.rawlen ≠ Raw_Count) := by
    rcases hcount with h | h
    · exact fun hh => hh.1 h
    · exact fun hh => hh.2 h
  have c2 : (!d.ignoreHeader && decide (Head_Mark ≠ 0) && !M (d.rawbuf 1) Head_Mark) = false := by
    rcases hhm with h | h | h <;> simp [h]
  have c3 : (decide (Head_Space ≠ 0) && !M (d.rawbuf 2) Head_Space) = false := by
    rcases hhs with h | h <;> simp [h]
  have e2 : toUInt (1 + 1) = 2 := toUInt_of_lt (by decide)
  have hloop := markLoop_carries M Mark_One Mark_Zero Space_One (2 * bs.length + 2)
    (by omega) bs (2 * bs.length + 2) { d with offset := 2 } 0 (by omega) (by simp only []; omega)
    (by simpa using hc)
  unfold IRdecodeBase.decodeGeneric
  simp only [c1, if_false, c2, e2, c3, Bool.false_eq_true, ne_eq, hM1, not_false_eq_true,
    if_true, hMax, hloop]
  have e3 : toUChar ((2 * bs.length + 2 - 1) / 2) = bs.length := by
    rw [toUChar_of_lt (by omega)]; omega
  simp only [e3]

/-- Samples that match slot by slot, bit `n - 1 - k` of `v` in the pair `k`, carry the bits
of `v`. -/
theorem carries_of_testBit (M : Nat → Nat → Bool) (buf : Nat → Nat) (fixed one nought v : Nat) :
    ∀ (n off : Nat),
    (∀ k, k < n → M (buf (off + 2 * k)) fixed = true ∧
      (if v.testBit (n - 1 - k) = true then M (buf (off + 2 * k + 1)) one = true
       else (M (buf (off + 2 * k + 1)) one = false ∧ M (buf (off + 2 * k + 1)) nought = true))) →
    carries M buf fixed one nought off (msbBits n v) = true := by
  intro n
  induction n with
  | zero => intro off _; rfl
  | succ n ih =>
    intro off h
    have h0 := h 0 (by omega)
    simp only [Nat.mul_zero, Nat.add_zero, Nat.add_sub_cancel, Nat.sub_zero] at h0
    have htail := ih (off + 2) (fun k hk => by
      have hk1 := h (k + 1) (by omega)
      have e1 : off + 2 * (k + 1) = off + 2 + 2 * k := by omega
      have e2 : n + 1 - 1 - (k + 1) = n - 1 - k := by omega
      rw [e1, e2] at hk1
      exact hk1)
    simp only [msbBits, carries, Bool.and_eq_true, htail, and_true, h0.1, true_and]
    by_cases hb : v.testBit n = true
    · simp only [hb, if_true] at h0 ⊢
      exact h0.2
    · simp only [hb, if_false, Bool.false_eq_true] at h0 ⊢
      simp [h0.2.1, h0.2.2]

/-! ## What `sendGeneric` emits -/

@[simp] theorem IRsendBase.mark_out (t : Nat) (s : IRsendBase) :
    (s.mark t).out = s.out ++ [⟨true, t⟩] := rfl

@[simp] theorem IRsendBase.space_out (t : Nat) (s : IRsendBase) :
    (s.space t).out = s.out ++ [⟨false, t⟩] := rfl

@[simp] theorem IRsendBase.enableIROut_out (k : Nat) (s : IRsendBase) :
    (s.enableIROut k).out = s.out := rfl

theorem ite_space_out (c : Prop) [Decidable c] (a b : Nat) (s : IRsendBase) :
    (if c then s.space a else s.space b).out = s.out ++ [⟨false, if c then a else b⟩] := by
  split_ifs <;> rfl

/-- The pulses of a `sendGeneric` call: header, bits most significant first, stop mark,
and one final space. -/
theorem sendGeneric_out (v n Head_Mark Head_Space Mark_One Mark_Zero Space_One Space_Zero
    kHz : Nat) (Use_Stop : Bool) (Max_Extent : Nat) (s : IRsendBase)
    (hn : n ≤ 32) (hv : v < 2 ^ n) :
    ∃ t, (s.sendGeneric v n Head_Mark Head_Space Mark_One Mark_Zero Space_One Space_Zero kHz
        Use_Stop Max_Extent).out =
      s.out ++ ((if Head_Mark ≠ 0 then [⟨true, Head_Mark⟩] else []) ++
        (if Head_Space ≠ 0 then [⟨false, Head_Space⟩] else []) ++
        (msbBits n v).flatMap (bitPulses Mark_One Mark_Zero Space_One Space_Zero) ++
        (if Use_Stop = true then [⟨true, Mark_One⟩] else [])) ++ [⟨false, t⟩] := by
  unfold IRsendBase.sendGeneric
  simp only [first_shifted hn hv, ite_space_out]
  refine ⟨_, congrArg₂ (fun a b => a ++ b) ?_ rfl⟩
  split_ifs <;>
    simp only [IRsendBase.space_out, IRsendBase.mark_out,
      sendGeneric_bitLoop_out _ _ _ _ n hn, IRsendBase.enableIROut_out,
      List.append_assoc, List.nil_append, List.append_nil]

theorem bitPulses_usec (m Space_One Space_Zero : Nat) (bs : List Bool) :
    (bs.flatMap (bitPulses m m Space_One Space_Zero)).map Pulse.usec =
      bs.flatMap (bitSamples m Space_One Space_Zero) := by
  induction bs with
  | nil => rfl
  | cons b bs ih =>
    cases b <;> simp [bitPulses, bitSamples, ih]

theorem flatMap_bitSamples_length (fixed one nought : Nat) (bs : List Bool) :
    (bs.flatMap (bitSamples fixed one nought)).length = 2 * bs.length := by
  induction bs with
  | nil => rfl
  | cons b bs ih =>
    simp only [List.flatMap_cons, List.length_append, ih, bitSamples, List.length_cons,
      List.length_nil]
    omega

/-- A stretch of samples written by a sender for the bits `bs` carries `bs`, when the
matcher accepts each nominal duration against itself and tells `nought` from `one`. -/
theorem carries_bitSamples (M : Nat → Nat → Bool) (fixed one nought : Nat)
    (hf : M fixed fixed = true) (h1 : M one one = true) (h0 : M nought nought = true)
    (h01 : M nought one = false) (dflt : Nat → Nat) :
    ∀ (bs : List Bool) (pre post : List Nat),
    carries M (fun i => (pre ++ (bs.flatMap (bitSamples fixed one nought) ++ post)).getD i
      (dflt i)) fixed one nought pre.length bs = true := by
  intro bs
  induction bs with
  | nil => intro pre post; rfl
  | cons b bs ih =>
    intro pre post
    have ih1 := ih (pre ++ bitSamples fixed one nought b) post
    have elen : (pre ++ bitSamples fixed one nought b).length = pre.length + 2 := by
      simp [bitSamples]
    rw [elen] at ih1
    have elist : pre ++ bitSamples fixed one nought b ++
        (bs.flatMap (bitSamples fixed one nought) ++ post) =
        pre ++ ((b :: bs).flatMap (bitSamples fixed one nought) ++ post) := by
      simp [List.append_assoc]
    rw [elist] at ih1
    have g0 : (pre ++ ((b :: bs).flatMap (bitSamples fixed one nought) ++ post)).getD
        pre.length (dflt pre.length) = fixed := by
      rw [List.getD_append_right _ _ _ _ (Nat.le_refl _)]
      simp [bitSamples]
    have g1 : (pre ++ ((b :: bs).flatMap (bitSamples fixed one nought) ++ post)).getD
        (pre.length + 1) (dflt (pre.length + 1)) = (if b then one else nought) := by
      rw [List.getD_append_right _ _ _ _ (Nat.le_add_right _ _)]
      simp [bitSamples]
    simp only [carries, ih1, g0, g1, hf, Bool.true_and, Bool.and_true]
    cases b <;> simp [h1, h0, h01]

/-- The frame a receiver gets from a `sendGeneric` call with a stop bit and a fixed mark
length. -/
theorem frameOf_sendGeneric (v n Head_Mark Head_Space m Space_One Space_Zero kHz
    Max_Extent gap : Nat) (s : IRsendBase) (hn : n ≤ 32) (hv : v < 2 ^ n) :
    frameOf gap (IRsendBase.emitted (IRsendBase.sendGeneric v n Head_Mark Head_Space m m
        Space_One Space_Zero kHz true Max_Extent) s) =
      gap :: ((if Head_Mark ≠ 0 then [Head_Mark] else []) ++
        ((if Head_Space ≠ 0 then [Head_Space] else []) ++
        ((msbBits n v).flatMap (bitSamples m Space_One Space_Zero) ++ [m]))) := by
  obtain ⟨t, ht⟩ := sendGeneric_out v n Head_Mark Head_Space m m Space_One Space_Zero kHz true
    Max_Extent { s with out := [] } hn hv
  unfold frameOf IRsendBase.emitted
  rw [ht, List.map_append, List.map_cons, List.map_nil, List.dropLast_concat]
  simp only [List.nil_append, List.map_append, bitPulses_usec, if_true, List.append_assoc]
  split_ifs <;> simp

theorem frameOf_sendGeneric_length (v n Head_Mark Head_Space m Space_One Space_Zero kHz
    Max_Extent gap : Nat) (s : IRsendBase) (hHM : Head_Mark ≠ 0) (hHS : Head_Space ≠ 0)
    (hn : n ≤ 32) (hv : v < 2 ^ n) :
    (frameOf gap (IRsendBase.emitted (IRsendBase.sendGeneric v n Head_Mark Head_Space m m
        Space_One Space_Zero kHz true Max_Extent) s)).length = 2 * n + 4 := by
  rw [frameOf_sendGeneric v n Head_Mark Head_Space m Space_One Space_Zero kHz Max_Extent gap s
    hn hv, if_pos hHM, if_pos hHS]
  simp only [List.length_cons, List.length_append, List.length_nil,
    flatMap_bitSamples_length, msbBits_length]
  omega

/-- Round trip through the generic engines in the space-length convention, the resulting
decoder state in full. -/
theorem decodeGeneric_sendGeneric (M : Nat → Nat → Bool)
    (Head_Mark Head_Space m Space_One Space_Zero kHz n v gap : Nat)
    (s : IRsendBase) (d : IRdecode) (hHM : Head_Mark ≠ 0) (hHS : Head_Space ≠ 0)
    (hself : ∀ x ∈ [Head_Mark, Head_Space, m, Space_One, Space_Zero], M x x = true)
    (hsep : M Space_Zero Space_One = false) (hn : n ≤ 32) (hv : v < 2 ^ n) :
    IRdecodeBase.decodeGeneric M (2 * n + 4) Head_Mark Head_Space 0 m Space_One Space_Zero
        (d.receive (frameOf gap (IRsendBase.emitted (IRsendBase.sendGeneric v n Head_Mark
          Head_Space m m Space_One Space_Zero kHz true 0) s))) =
      (.matched,
        { d.receive (frameOf gap (IRsendBase.emitted (IRsendBase.sendGeneric v n Head_Mark
            Head_Space m m Space_One Space_Zero kHz true 0) s)) with
          offset := 2 * n + 3, bits := n, value := v }) := by
  rw [frameOf_sendGeneric v n Head_Mark Head_Space m Space_One Space_Zero kHz 0 gap s hn hv]
  simp only [hHM, hHS, ne_eq, not_false_eq_true, if_true, List.singleton_append]
  have hlen : (msbBits n v).length = n := msbBits_length v n
  have hraw : (d.receive (gap :: Head_Mark :: Head_Space ::
      ((msbBits n v).flatMap (bitSamples m Space_One Space_Zero) ++ [m]))).rawlen = 2 * n + 4 := by
    simp only [IRdecode.receive, List.length_cons, List.length_append, List.length_nil,
      flatMap_bitSamples_length, hlen]
  have h := decodeGeneric_space_carries M (2 * n + 4) Head_Mark Head_Space m Space_One
    Space_Zero (d.receive (gap :: Head_Mark :: Head_Space ::
      ((msbBits n v).flatMap (bitSamples m Space_One Space_Zero) ++ [m]))) (msbBits n v)
    (Or.inr hraw)
    (Or.inr (Or.inr (by simpa [IRdecode.receive] using hself Head_Mark (by simp))))
    (Or.inr (by simpa [IRdecode.receive] using hself Head_Space (by simp)))
    (by rw [hraw, hlen]) (by omega)
    (carries_bitSamples M m Space_One Space_Zero (hself m (by simp)) (hself Space_One (by simp))
      (hself Space_Zero (by simp)) hsep d.rawbuf (msbBits n v) [gap, Head_Mark, Head_Space] [m])
  rw [h, hlen, foldl_shiftIn_msbBits hn hv]

/-- C1. Generic round trip, space-length convention: with non-zero header mark and space and
a matcher that accepts each nominal duration against itself and does not accept
`Space_Zero` against `Space_One`, for `1 ≤ n ≤ 32` and `v < 2 ^ n` the frame of
`sendGeneric(v, n, HM, HS, m, m, S1, S0, kHz, true)` (gap sample first, trailing space
dropped) is decoded by `decodeGeneric(2n+4, HM, HS, 0, m, S1, S0)` with value `v` and
`n` bits. -/
theorem generic_round_trip (M : Nat → Nat → Bool)
    (Head_Mark Head_Space m Space_One Space_Zero kHz n v gap : Nat)
    (s : IRsendBase) (d : IRdecode) (hHM : Head_Mark ≠ 0) (hHS : Head_Space ≠ 0)
    (hself : ∀ x ∈ [Head_Mark, Head_Space, m, Space_One, Space_Zero], M x x = true)
    (hsep : M Space_Zero Space_One = false) (_h1 : 1 ≤ n) (hn : n ≤ 32) (hv : v < 2 ^ n) :
    (IRdecodeBase.decodeGeneric M (2 * n + 4) Head_Mark Head_Space 0 m Space_One Space_Zero
        (d.receive (frameOf gap (IRsendBase.emitted (IRsendBase.sendGeneric v n Head_Mark
          Head_Space m m Space_One Space_Zero kHz true 0) s)))).1 = Outcome.matched ∧
    (IRdecodeBase.decodeGeneric M (2 * n + 4) Head_Mark Head_Space 0 m Space_One Space_Zero
        (d.receive (frameOf gap (IRsendBase.emitted (IRsendBase.sendGeneric v n Head_Mark
          Head_Space m m Space_One Space_Zero kHz true 0) s)))).2.value = v ∧
    (IRdecodeBase.decodeGeneric M (2 * n + 4) Head_Mark Head_Space 0 m Space_One Space_Zero
        (d.receive (frameOf gap (IRsendBase.emitted (IRsendBase.sendGeneric v n Head_Mark
          Head_Space m m Space_One Space_Zero kHz true 0) s)))).2.bits = n := by
  rw [decodeGeneric_sendGeneric M Head_Mark Head_Space m Space_One Space_Zero kHz n v gap s d
    hHM hHS hself hsep hn hv]
  exact ⟨rfl, rfl, rfl⟩

theorem generic_round_trip_witness :
    ((9008 : Nat) ≠ 0 ∧ (4504 : Nat) ≠ 0 ∧
      (∀ x ∈ [9008, 4504, 563, 1689, 563], MATCH 25 50 x x = true) ∧
      MATCH 25 50 563 1689 = false ∧ 1 ≤ 32 ∧ 32 ≤ 32 ∧ 0xAAAAAAAA < 2 ^ 32) ∧
    ((IRdecodeBase.decodeGeneric (MATCH 25 50) (2 * 32 + 4) 9008 4504 0 563 1689 563
        (IRdecode.fresh.receive (frameOf 20000 (IRsendBase.emitted (IRsendBase.sendGeneric
          0xAAAAAAAA 32 9008 4504 563 563 1689 563 38 true 0) IRsendBase.idle)))).1
        = Outcome.matched ∧
     (IRdecodeBase.decodeGeneric (MATCH 25 50) (2 * 32 + 4) 9008 4504 0 563 1689 563
        (IRdecode.fresh.receive (frameOf 20000 (IRsendBase.emitted (IRsendBase.sendGeneric
          0xAAAAAAAA 32 9008 4504 563 563 1689 563 38 true 0) IRsendBase.idle)))).2.value
        = 0xAAAAAAAA ∧
     (IRdecodeBase.decodeGeneric (MATCH 25 50) (2 * 32 + 4) 9008 4504 0 563 1689 563
        (IRdecode.fresh.receive (frameOf 20000 (IRsendBase.emitted (IRsendBase.sendGeneric
          0xAAAAAAAA 32 9008 4504 563 563 1689 563 38 true 0) IRsendBase.idle)))).2.bits
        = 32) :=
  ⟨by decide,
   generic_round_trip (MATCH 25 50) 9008 4504 563 1689 563 38 32 0xAAAAAAAA 20000
     IRsendBase.idle IRdecode.fresh (by decide) (by decide) (by decide) (by decide)
     (by decide) (by decide) (by decide)⟩

/-! ## NEC -/

/-- C2 (amended). NEC round trip: for every 32-bit value `v` other than `REPEAT`
(`0xFFFFFFFF`), and a matcher that accepts the nominal NEC durations against themselves
and does not accept 563 against 1689, the frame of `IRsendNEC::send(v)` (gap sample first,
trailing space dropped) is decoded by `IRdecodeNEC::decode` with `decode_type = NEC`,
`value = v` and `bits = 32`. -/
theorem NEC_round_trip (M : Nat → Nat → Bool)
    (hself : ∀ x ∈ [9008, 4504, 563, 1689], M x x = true) (hsep : M 563 1689 = false)
    (v : Nat) (hv : v < 2 ^ 32) (hrep : v ≠ REPEAT) (gap : Nat) (s : IRsendBase)
    (d : IRdecode) :
    (IRdecodeNEC.decode M (d.receive (frameOf gap
        (IRsendBase.emitted (IRsendNEC.send v) s)))).1 = Outcome.matched ∧
    (IRdecodeNEC.decode M (d.receive (frameOf gap
        (IRsendBase.emitted (IRsendNEC.send v) s)))).2.decode_type = NEC ∧
    (IRdecodeNEC.decode M (d.receive (frameOf gap
        (IRsendBase.emitted (IRsendNEC.send v) s)))).2.value = v ∧
    (IRdecodeNEC.decode M (d.receive (frameOf gap
        (IRsendBase.emitted (IRsendNEC.send v) s)))).2.bits = 32 := by
  have hsend : IRsendBase.emitted (IRsendNEC.send v) s =
      IRsendBase.emitted (IRsendBase.sendGeneric v 32 9008 4504 563 563 1689 563 38 true 0) s := by
    unfold IRsendBase.emitted IRsendNEC.send
    rw [if_neg hrep]
  have hself5 : ∀ x ∈ [9008, 4504, 563, 1689, 563], M x x = true := by
    intro x hx
    apply hself
    simp only [List.mem_cons, List.mem_singleton, List.mem_nil_iff, or_false] at hx ⊢
    tauto
  have hgen := decodeGeneric_sendGeneric M 9008 4504 563 1689 563 38 32 v gap s d (by decide)
    (by decide) hself5 hsep (Nat.le_refl _) hv
  have hraw : (d.receive (frameOf gap (IRsendBase.emitted (IRsendBase.sendGeneric v 32 9008
      4504 563 563 1689 563 38 true 0) s))).rawlen = 68 :=
    frameOf_sendGeneric_length v 32 9008 4504 563 1689 563 38 0 gap s (by decide) (by decide)
      (Nat.le_refl _) hv
  rw [hsend]
  unfold IRdecodeNEC.decode
  rw [if_neg (by rw [hraw]; simp)]
  have e : IRdecodeBase.decodeGeneric M 68 (563 * 16) (563 * 8) 0 563 (563 * 3) 563 =
      IRdecodeBase.decodeGeneric M (2 * 32 + 4) 9008 4504 0 563 1689 563 := rfl
  rw [e, hgen]
  exact ⟨rfl, rfl, rfl, rfl⟩

theorem NEC_round_trip_witness :
    ((∀ x ∈ [9008, 4504, 563, 1689], MATCH 25 50 x x = true) ∧
      MATCH 25 50 563 1689 = false ∧ 0xAAAAAAAA < 2 ^ 32 ∧ 0xAAAAAAAA ≠ REPEAT) ∧
    ((IRdecodeNEC.decode (MATCH 25 50) (IRdecode.fresh.receive (frameOf 20000
        (IRsendBase.emitted (IRsendNEC.send 0xAAAAAAAA) IRsendBase.idle)))).1
        = Outcome.matched ∧
     (IRdecodeNEC.decode (MATCH 25 50) (IRdecode.fresh.receive (frameOf 20000
        (IRsendBase.emitted (IRsendNEC.send 0xAAAAAAAA) IRsendBase.idle)))).2.decode_type
        = NEC ∧
     (IRdecodeNEC.decode (MATCH 25 50) (IRdecode.fresh.receive (frameOf 20000
        (IRsendBase.emitted (IRsendNEC.send 0xAAAAAAAA) IRsendBase.idle)))).2.value
        = 0xAAAAAAAA ∧
     (IRdecodeNEC.decode (MATCH 25 50) (IRdecode.fresh.receive (frameOf 20000
        (IRsendBase.emitted (IRsendNEC.send 0xAAAAAAAA) IRsendBase.idle)))).2.bits = 32) :=
  ⟨by decide,
   NEC_round_trip (MATCH 25 50) (by decide) (by decide) 0xAAAAAAAA (by decide) (by decide)
     20000 IRsendBase.idle IRdecode.fresh⟩

/-- C2 as stated fails at the all-ones value: `IRsendNEC::send(0xFFFFFFFF)` emits the
repeat frame (mark 9008, space 2252, mark 563, trailing space), and `IRdecodeNEC::decode`
reads the four samples as a repeat code, `value = REPEAT` with `bits = 0`, not 32.  The
matcher is the 25 % window with a floor of 50 µs. -/
theorem NEC_round_trip_fails_at_REPEAT :
    ((∀ x ∈ [9008, 4504, 563, 1689], MATCH 25 50 x x = true) ∧
      MATCH 25 50 563 1689 = false) ∧
    frameOf 20000 (IRsendBase.emitted (IRsendNEC.send 0xFFFFFFFF) IRsendBase.idle)
      = [20000, 9008, 2252, 563] ∧
    (IRdecodeNEC.decode (MATCH 25 50) (IRdecode.fresh.receive (frameOf 20000
        (IRsendBase.emitted (IRsendNEC.send 0xFFFFFFFF) IRsendBase.idle)))).1
        = Outcome.matched ∧
    (IRdecodeNEC.decode (MATCH 25 50) (IRdecode.fresh.receive (frameOf 20000
        (IRsendBase.emitted (IRsendNEC.send 0xFFFFFFFF) IRsendBase.idle)))).2.value
        = 0xFFFFFFFF ∧
    (IRdecodeNEC.decode (MATCH 25 50) (IRdecode.fresh.receive (frameOf 20000
        (IRsendBase.emitted (IRsendNEC.send 0xFFFFFFFF) IRsendBase.idle)))).2.bits = 0 := by
  decide

/-- C8. NEC scenario under tolerance: for every 32-bit `v` and every 68-sample frame whose
sample 1 matches 9008, sample 2 matches 4504, odd samples 3..65 match 563, and whose even
sample `4 + 2k` (`k < 32`) matches 1689 when bit `31 - k` of `v` is set and otherwise
matches 563 without matching 1689, `IRdecodeNEC::decode` succeeds with
`decode_type = NEC`, `bits = 32` and `value = v`. -/
theorem NEC_scenario (M : Nat → Nat → Bool) (v : Nat) (hv : v < 2 ^ 32) (d : IRdecode)
    (hlen : d.rawlen = 68) (h1 : M (d.rawbuf 1) 9008 = true) (h2 : M (d.rawbuf 2) 4504 = true)
    (hmark : ∀ k, k < 32 → M (d.rawbuf (3 + 2 * k)) 563 = true)
    (hspace : ∀ k, k < 32 →
      if v.testBit (31 - k) = true then M (d.rawbuf (4 + 2 * k)) 1689 = true
      else (M (d.rawbuf (4 + 2 * k)) 563 = true ∧ M (d.rawbuf (4 + 2 * k)) 1689 = false)) :
    (IRdecodeNEC.decode M d).1 = Outcome.matched ∧
    (IRdecodeNEC.decode M d).2.decode_type = NEC ∧
    (IRdecodeNEC.decode M d).2.bits = 32 ∧
    (IRdecodeNEC.decode M d).2.value = v := by
  have hc : carries M d.rawbuf 563 1689 563 3 (msbBits 32 v) = true := by
    apply carries_of_testBit
    intro k hk
    refine ⟨hmark k hk, ?_⟩
    have hs := hspace k hk
    have e : 3 + 2 * k + 1 = 4 + 2 * k := by omega
    rw [e]
    by_cases hb : v.testBit (31 - k) = true
    · rw [if_pos hb] at hs; rw [if_pos hb]; exact hs
    · rw [if_neg hb] at hs; rw [if_neg hb]; exact ⟨hs.2, hs.1⟩
  have hgen := decodeGeneric_space_carries M 68 9008 4504 563 1689 563 d (msbBits 32 v)
    (Or.inr hlen) (Or.inr (Or.inr h1)) (Or.inr h2) (by rw [hlen, msbBits_length])
    (by rw [msbBits_length]; decide) hc
  unfold IRdecodeNEC.decode
  rw [if_neg (by rw [hlen]; simp)]
  have e : IRdecodeBase.decodeGeneric M 68 (563 * 16) (563 * 8) 0 563 (563 * 3) 563 =
      IRdecodeBase.decodeGeneric M 68 9008 4504 0 563 1689 563 := rfl
  rw [e, hgen, msbBits_length, foldl_shiftIn_msbBits (Nat.le_refl _) hv]
  exact ⟨rfl, rfl, rfl, rfl⟩

/-- C9. NEC repeat code: on a frame with `rawlen = 4` whose sample 2 matches 2250 and whose
sample 3 matches 563, `IRdecodeNEC::decode` succeeds at once: only `bits = 0`,
`value = REPEAT` and `decode_type = NEC` are written, so the generic decode, which
starts by setting `offset`, has not run. -/
theorem NEC_repeat_code (M : Nat → Nat → Bool) (d : IRdecode) (hlen : d.rawlen = 4)
    (h2 : M (d.rawbuf 2) 2250 = true) (h3 : M (d.rawbuf 3) 563 = true) :
    IRdecodeNEC.decode M d =
      (Outcome.matched, { d with bits := 0, value := 0xFFFFFFFF, decode_type := NEC }) := by
  unfold IRdecodeNEC.decode
  rw [if_pos ⟨hlen, h2, h3⟩]

theorem NEC_repeat_code_witness :
    ((IRdecode.fresh.receive [20000, 9100, 2200, 600]).rawlen = 4 ∧
      MATCH 25 50 ((IRdecode.fresh.receive [20000, 9100, 2200, 600]).rawbuf 2) 2250 = true ∧
      MATCH 25 50 ((IRdecode.fresh.receive [20000, 9100, 2200, 600]).rawbuf 3) 563 = true) ∧
    IRdecodeNEC.decode (MATCH 25 50) (IRdecode.fresh.receive [20000, 9100, 2200, 600]) =
      (Outcome.matched, { IRdecode.fresh.receive [20000, 9100, 2200, 600] with
        bits := 0, value := 0xFFFFFFFF, decode_type := NEC }) :=
  ⟨by decide,
   NEC_repeat_code (MATCH 25 50) (IRdecode.fresh.receive [20000, 9100, 2200, 600])
     (by decide) (by decide) (by decide)⟩

theorem NEC_scenario_witness :
    (0x20DF10EF < 2 ^ 32 ∧ (IRdecode.fresh.receive NEC_jitter_frame).rawlen = 68 ∧
      MATCH 25 50 ((IRdecode.fresh.receive NEC_jitter_frame).rawbuf 1) 9008 = true ∧
      MATCH 25 50 ((IRdecode.fresh.receive NEC_jitter_frame).rawbuf 2) 4504 = true ∧
      (∀ k, k < 32 →
        MATCH 25 50 ((IRdecode.fresh.receive NEC_jitter_frame).rawbuf (3 + 2 * k)) 563 = true) ∧
      (∀ k, k < 32 →
        if (0x20DF10EF : Nat).testBit (31 - k) = true then
          MATCH 25 50 ((IRdecode.fresh.receive NEC_jitter_frame).rawbuf (4 + 2 * k)) 1689 = true
        else
          (MATCH 25 50 ((IRdecode.fresh.receive NEC_jitter_frame).rawbuf (4 + 2 * k)) 563 = true ∧
           MATCH 25 50 ((IRdecode.fresh.receive NEC_jitter_frame).rawbuf (4 + 2 * k)) 1689
             = false))) ∧
    ((IRdecodeNEC.decode (MATCH 25 50) (IRdecode.fresh.receive NEC_jitter_frame)).1
        = Outcome.matched ∧
     (IRdecodeNEC.decode (MATCH 25 50) (IRdecode.fresh.receive NEC_jitter_frame)).2.decode_type
        = NEC ∧
     (IRdecodeNEC.decode (MATCH 25 50) (IRdecode.fresh.receive NEC_jitter_frame)).2.bits = 32 ∧
     (IRdecodeNEC.decode (MATCH 25 50) (IRdecode.fresh.receive NEC_jitter_frame)).2.value
        = 0x20DF10EF) :=
  ⟨by decide,
   NEC_scenario (MATCH 25 50) 0x20DF10EF (by decide) (IRdecode.fresh.receive NEC_jitter_frame)
     (by decide) (by decide) (by decide) (by decide) (by decide)⟩

/-! ## Merging of levels -/

theorem mergeLevels_cons (p : Pulse) (ps : List Pulse) :
    mergeLevels (p :: ps) =
      match mergeLevels ps with
      | [] => [p]
      | q :: qs =>
        if p.isMark = q.isMark then ⟨p.isMark, p.usec + q.usec⟩ :: qs else p :: q :: qs := by
  rw [mergeLevels]

/-- The first run of a merged emission has the level of the first pulse. -/
theorem mergeLevels_cons_head (p : Pulse) (ps : List Pulse) :
    ∃ t qs, mergeLevels (p :: ps) = ⟨p.isMark, t⟩ :: qs := by
  unfold mergeLevels
  cases h : mergeLevels ps with
  | nil => exact ⟨p.usec, [], rfl⟩
  | cons q qs =>
    by_cases hl : p.isMark = q.isMark
    · exact ⟨p.usec + q.usec, qs, by simp [hl]⟩
    · exact ⟨p.usec, q :: qs, by simp [hl]⟩

/-- A mark in front of a space, or a space in front of a mark, stays a sample of its own. -/
theorem mergeLevels_cons_ne (p q : Pulse) (ps : List Pulse) (h : p.isMark ≠ q.isMark) :
    mergeLevels (p :: q :: ps) = p :: mergeLevels (q :: ps) := by
  obtain ⟨t, qs, e⟩ := mergeLevels_cons_head q ps
  conv_lhs => unfold mergeLevels
  rw [e]
  simp [h]

/-- Two pulses of the same level at the head reach the receiver as one. -/
theorem mergeLevels_cons_eq (l : Bool) (a b : Nat) (ps : List Pulse) :
    mergeLevels (⟨l, a⟩ :: ⟨l, b⟩ :: ps) = mergeLevels (⟨l, a + b⟩ :: ps) := by
  rw [mergeLevels_cons, mergeLevels_cons ⟨l, b⟩, mergeLevels_cons ⟨l, a + b⟩]
  cases h : mergeLevels ps with
  | nil => simp
  | cons q qs =>
    by_cases hl : l = q.isMark
    · simp [hl, Nat.add_assoc]
    · simp [hl]

theorem dropTrailingSpace_cons_cons (p q : Pulse) (ps : List Pulse) :
    dropTrailingSpace (p :: q :: ps) = p :: dropTrailingSpace (q :: ps) := rfl

/-- The frame part of a space followed by mark/space pairs and the final space of the
emission: the final space joins the last pair's space into the gap. -/
theorem merged_pairs (Mark_One Mark_Zero Space t : Nat) : ∀ (bs : List Bool) (a : Nat),
    (dropTrailingSpace (mergeLevels (⟨false, a⟩ ::
      (bs.flatMap (bitPulses Mark_One Mark_Zero Space Space) ++ [⟨false, t⟩])))).map Pulse.usec =
    match bs with
    | [] => []
    | b :: bs1 => a :: (if b then Mark_One else Mark_Zero) ::
        (bs1.flatMap (fun c => [Space, if c then Mark_One else Mark_Zero])) := by
  intro bs
  induction bs with
  | nil =>
    intro a
    simp [mergeLevels, dropTrailingSpace]
  | cons b bs ih =>
    intro a
    have hb : bitPulses Mark_One Mark_Zero Space Space b =
        [⟨true, if b then Mark_One else Mark_Zero⟩, ⟨false, Space⟩] := by
      cases b <;> rfl
    simp only [List.flatMap_cons, hb, List.cons_append, List.nil_append]
    rw [mergeLevels_cons_ne _ _ _ (by simp), mergeLevels_cons_ne _ _ _ (by simp)]
    obtain ⟨u, qs, e⟩ := mergeLevels_cons_head ⟨false, Space⟩
      (bs.flatMap (bitPulses Mark_One Mark_Zero Space Space) ++ [⟨false, t⟩])
    have ih1 := ih Space
    rw [e] at ih1 ⊢
    rw [dropTrailingSpace_cons_cons, dropTrailingSpace_cons_cons]
    simp only [List.map_cons, ih1]
    cases bs with
    | nil => simp
    | cons c bs2 => simp

theorem merged_pairs_flat (Mark_One Mark_Zero Space t : Nat) (bs : List Bool) :
    (dropTrailingSpace (mergeLevels (⟨false, Space⟩ ::
      (bs.flatMap (bitPulses Mark_One Mark_Zero Space Space) ++ [⟨false, t⟩])))).map Pulse.usec =
    bs.flatMap (bitSamples Space Mark_One Mark_Zero) := by
  rw [merged_pairs]
  cases bs with
  | nil => rfl
  | cons b bs1 =>
    simp only [List.flatMap_cons, bitSamples, List.cons_append, List.nil_append]
    rfl

theorem carries_head (M : Nat → Nat → Bool) (buf : Nat → Nat) (fixed one nought off : Nat)
    (b : Bool) (bs : List Bool) (h : carries M buf fixed one nought off (b :: bs) = true) :
    M (buf off) fixed = true := by
  simp only [carries, Bool.and_eq_true] at h
  exact h.1.1

/-! ## Sony -/

/-- The frame a receiver gets from `IRsendSony::send` with `send3times = false`: the gap,
the header mark, then a space and a mark per bit. -/
theorem mergedFrameOf_Sony (v n gap : Nat) (s : IRsendBase) (hn : n ≤ 32) (hv : v < 2 ^ n) :
    mergedFrameOf gap (IRsendBase.emitted (IRsendSony.send v n false) s) =
      gap :: 2400 :: (msbBits n v).flatMap (bitSamples 600 1200 600) := by
  have hu : toUChar n = n := toUChar_of_lt (by omega)
  obtain ⟨t, ht⟩ := sendGeneric_out v n 2400 600 1200 600 600 600 40 false
    (if n = 8 then 22000 else 45000) { s with out := [] } hn hv
  have hout : IRsendBase.emitted (IRsendSony.send v n false) s =
      ⟨true, 2400⟩ :: ⟨false, 600⟩ ::
        ((msbBits n v).flatMap (bitPulses 1200 600 600 600) ++ [⟨false, t⟩]) := by
    unfold IRsendBase.emitted IRsendSony.send
    simp only [Bool.false_eq_true, if_false, IRsendSony.sendLoop, hu]
    exact ht.trans (by simp)
  unfold mergedFrameOf
  rw [hout, mergeLevels_cons_ne _ _ _ (by simp)]
  obtain ⟨u, qs, e⟩ := mergeLevels_cons_head ⟨false, 600⟩
    ((msbBits n v).flatMap (bitPulses 1200 600 600 600) ++ [⟨false, t⟩])
  have hm := merged_pairs_flat 1200 600 600 t (msbBits n v)
  rw [e] at hm ⊢
  rw [dropTrailingSpace_cons_cons, List.map_cons, hm]

/-- C3. Sony round trip (mark-length convention): for `n` in {8, 12, 15, 20} and
`v < 2 ^ n`, and a matcher that accepts the nominal Sony durations against themselves
and does not accept 600 against 1200, the frame of `IRsendSony::send(v, n, false)` —
gap sample first, the last bit's space and the padding merged into the following gap,
`2n + 2` samples — is decoded by `IRdecodeSony::decode` with `decode_type = SONY`,
`value = v` and `bits = n`. -/
theorem Sony_round_trip (M : Nat → Nat → Bool)
    (hself : ∀ x ∈ [2400, 600, 1200], M x x = true) (hsep : M 600 1200 = false)
    (n : Nat) (hn : n = 8 ∨ n = 12 ∨ n = 15 ∨ n = 20) (v : Nat) (hv : v < 2 ^ n)
    (gap : Nat) (s : IRsendBase) (d : IRdecode) :
    (mergedFrameOf gap (IRsendBase.emitted (IRsendSony.send v n false) s)).length = 2 * n + 2 ∧
    (IRdecodeSony.decode M (d.receive (mergedFrameOf gap
        (IRsendBase.emitted (IRsendSony.send v n false) s)))).1 = Outcome.matched ∧
    (IRdecodeSony.decode M (d.receive (mergedFrameOf gap
        (IRsendBase.emitted (IRsendSony.send v n false) s)))).2.decode_type = SONY ∧
    (IRdecodeSony.decode M (d.receive (mergedFrameOf gap
        (IRsendBase.emitted (IRsendSony.send v n false) s)))).2.value = v ∧
    (IRdecodeSony.decode M (d.receive (mergedFrameOf gap
        (IRsendBase.emitted (IRsendSony.send v n false) s)))).2.bits = n := by
  have hn32 : n ≤ 32 := by omega
  rw [mergedFrameOf_Sony v n gap s hn32 hv]
  have hlen : (msbBits n v).length = n := msbBits_length v n
  have hflen : (gap :: 2400 :: (msbBits n v).flatMap (bitSamples 600 1200 600)).length
      = 2 * n + 2 := by
    simp only [List.length_cons, flatMap_bitSamples_length, hlen]
  have hraw : (d.receive (gap :: 2400 ::
      (msbBits n v).flatMap (bitSamples 600 1200 600))).rawlen = 2 * n + 2 := hflen
  have hc : carries M (d.receive (gap :: 2400 ::
      (msbBits n v).flatMap (bitSamples 600 1200 600))).rawbuf 600 1200 600 2 (msbBits n v)
      = true := by
    have h := carries_bitSamples M 600 1200 600 (hself 600 (by simp)) (hself 1200 (by simp))
      (hself 600 (by simp)) hsep d.rawbuf (msbBits n v) [gap, 2400] []
    simpa [IRdecode.receive] using h
  have hhs : M ((d.receive (gap :: 2400 ::
      (msbBits n v).flatMap (bitSamples 600 1200 600))).rawbuf 2) 600 = true := by
    obtain ⟨k, rfl⟩ : ∃ k, n = k + 1 := ⟨n - 1, by omega⟩
    exact carries_head M _ 600 1200 600 2 _ _ hc
  have hgen := decodeGeneric_mark_carries M 0 2400 600 1200 600 600 0
    (d.receive (gap :: 2400 :: (msbBits n v).flatMap (bitSamples 600 1200 600)))
    (msbBits n v) (by decide) (Or.inl rfl)
    (Or.inr (Or.inr (by simpa [IRdecode.receive] using hself 2400 (by simp))))
    (Or.inr hhs) (by rw [hraw, hlen]) (by omega) hc
  refine ⟨hflen, ?_⟩
  unfold IRdecodeSony.decode
  rw [if_neg (by rw [hraw]; omega)]
  have e : IRdecodeBase.decodeGeneric M 0 (600 * 4) 600 (600 * 2) 600 600 0 =
      IRdecodeBase.decodeGeneric M 0 2400 600 1200 600 600 0 := rfl
  rw [e, hgen, hlen, foldl_shiftIn_msbBits hn32 hv]
  exact ⟨rfl, rfl, rfl, rfl⟩

theorem Sony_round_trip_witness :
    ((∀ x ∈ [2400, 600, 1200], MATCH 25 50 x x = true) ∧ MATCH 25 50 600 1200 = false ∧
      ((12 : Nat) = 8 ∨ (12 : Nat) = 12 ∨ (12 : Nat) = 15 ∨ (12 : Nat) = 20) ∧
      0xA5C < 2 ^ 12) ∧
    ((mergedFrameOf 20000 (IRsendBase.emitted (IRsendSony.send 0xA5C 12 false)
        IRsendBase.idle)).length = 2 * 12 + 2 ∧
     (IRdecodeSony.decode (MATCH 25 50) (IRdecode.fresh.receive (mergedFrameOf 20000
        (IRsendBase.emitted (IRsendSony.send 0xA5C 12 false) IRsendBase.idle)))).1
        = Outcome.matched ∧
     (IRdecodeSony.decode (MATCH 25 50) (IRdecode.fresh.receive (mergedFrameOf 20000
        (IRsendBase.emitted (IRsendSony.send 0xA5C 12 false) IRsendBase.idle)))).2.decode_type
        = SONY ∧
     (IRdecodeSony.decode (MATCH 25 50) (IRdecode.fresh.receive (mergedFrameOf 20000
        (IRsendBase.emitted (IRsendSony.send 0xA5C 12 false) IRsendBase.idle)))).2.value
        = 0xA5C ∧
     (IRdecodeSony.decode (MATCH 25 50) (IRdecode.fresh.receive (mergedFrameOf 20000
        (IRsendBase.emitted (IRsendSony.send 0xA5C 12 false) IRsendBase.idle)))).2.bits = 12) :=
  ⟨by decide,
   Sony_round_trip (MATCH 25 50) (by decide) (by decide) 12 (by decide) 0xA5C (by decide)
     20000 IRsendBase.idle IRdecode.fresh⟩

/-! ## JVC -/

/-- C6 fails on the code.  The repeat frame of `IRsendJVC::send` for `v = 0x8000` (gap
sample first, 34 samples) is accepted by `IRdecodeJVC::decode` as JVC with 16 bits, but
the value is `0`: the decoder restores the high bit from `rawbuf[4]`, the space of the
second bit, while the first bit's space is `rawbuf[2]`.  For `v = 0x4000` the same slot
makes it report `0xC000`. -/
theorem JVC_repeat_high_bit_from_second_bit :
    (frameOf 20000 (IRsendBase.emitted (IRsendBase.sendGeneric 0x8000 16 0 0 525 525 1575 525
        38 true 0) IRsendBase.idle)).length = 34 ∧
    (IRdecodeJVC.decode (MATCH 25 50) (IRdecode.fresh.receive (frameOf 20000
        (IRsendBase.emitted (IRsendBase.sendGeneric 0x8000 16 0 0 525 525 1575 525 38 true 0)
          IRsendBase.idle)))).1 = Outcome.matched ∧
    (IRdecodeJVC.decode (MATCH 25 50) (IRdecode.fresh.receive (frameOf 20000
        (IRsendBase.emitted (IRsendBase.sendGeneric 0x8000 16 0 0 525 525 1575 525 38 true 0)
          IRsendBase.idle)))).2.decode_type = JVC ∧
    (IRdecodeJVC.decode (MATCH 25 50) (IRdecode.fresh.receive (frameOf 20000
        (IRsendBase.emitted (IRsendBase.sendGeneric 0x8000 16 0 0 525 525 1575 525 38 true 0)
          IRsendBase.idle)))).2.bits = 16 ∧
    (IRdecodeJVC.decode (MATCH 25 50) (IRdecode.fresh.receive (frameOf 20000
        (IRsendBase.emitted (IRsendBase.sendGeneric 0x8000 16 0 0 525 525 1575 525 38 true 0)
          IRsendBase.idle)))).2.value = 0 ∧
    (IRdecodeJVC.decode (MATCH 25 50) (IRdecode.fresh.receive (frameOf 20000
        (IRsendBase.emitted (IRsendBase.sendGeneric 0x4000 16 0 0 525 525 1575 525 38 true 0)
          IRsendBase.idle)))).2.value = 0xC000 := by
  with_unfolding_all decide

/-! ## Panasonic -/

/-- On samples that carry the bits `bs`, the `GetBit` loop of `IRdecodePanasonic::decode`
reads all of them when the bound lies in the last pair. -/
theorem getBits_carries (M : Nat → Nat → Bool) (bound : Nat) (hb : bound < 65534) :
    ∀ (bs : List Bool) (fuel : Nat) (d : IRdecode),
    bs.length ≤ fuel → bound ≤ d.offset + 2 * bs.length →
    d.offset + 2 * bs.length ≤ bound + 1 →
    carries M d.rawbuf 432 1296 432 d.offset bs = true →
    IRdecodePanasonic.getBits M bound fuel d =
      (.matched, { d with offset := d.offset + 2 * bs.length,
                          data_Panasonic := bs.foldl shiftIn d.data_Panasonic }) := by
  intro bs
  induction bs with
  | nil =>
    intro fuel d _ h1 _ _
    simp only [List.length_nil, Nat.mul_zero, Nat.add_zero] at h1
    cases fuel with
    | zero => simp [IRdecodePanasonic.getBits]
    | succ f =>
      have : ¬ d.offset < bound := by omega
      simp [IRdecodePanasonic.getBits, this]
  | cons b bs ih =>
    intro fuel d hfuel h1 h2 hc
    cases fuel with
    | zero => simp at hfuel
    | succ f =>
      simp only [List.length_cons] at hfuel h1 h2
      simp only [carries, Bool.and_eq_true] at hc
      obtain ⟨⟨c1, c2⟩, c3⟩ := hc
      have e1 : toUInt (d.offset + 1) = d.offset + 1 := toUInt_of_lt (by omega)
      have e2 : toUInt (d.offset + 1 + 1) = d.offset + 2 := toUInt_of_lt (by omega)
      have hlt : d.offset < bound := by omega
      unfold IRdecodePanasonic.getBits
      simp only [hlt, if_true]
      cases b with
      | true =>
        simp only [if_true] at c2
        have hg : IRdecodePanasonic.GetBit M d =
            (.matched, { d with offset := d.offset + 2,
                                data_Panasonic := shiftIn d.data_Panasonic true }) := by
          unfold IRdecodePanasonic.GetBit
          simp only [c1, Bool.not_true, Bool.false_eq_true, if_false, e1, c2, if_true, e2]
          simp [shiftIn]
        rw [hg]
        simp only []
        rw [ih f _ (by omega) (by simp only []; omega) (by simp only []; omega)
          (by simpa using c3)]
        have e3 : d.offset + 2 + 2 * bs.length = d.offset + 2 * (bs.length + 1) := by omega
        simp only [List.foldl_cons, List.length_cons, e3]
      | false =>
        simp only [Bool.false_eq_true, if_false, Bool.and_eq_true, Bool.not_eq_true'] at c2
        have hg : IRdecodePanasonic.GetBit M d =
            (.matched, { d with offset := d.offset + 2,
                                data_Panasonic := shiftIn d.data_Panasonic false }) := by
          unfold IRdecodePanasonic.GetBit
          simp only [c1, Bool.not_true, Bool.false_eq_true, if_false, e1, c2.1, c2.2, if_true,
            e2]
          simp [shiftIn]
        rw [hg]
        simp only []
        rw [ih f _ (by omega) (by simp only []; omega) (by simp only []; omega)
          (by simpa using c3)]
        have e3 : d.offset + 2 + 2 * bs.length = d.offset + 2 * (bs.length + 1) := by omega
        simp only [List.foldl_cons, List.length_cons, e3]

/-- Equal samples carry equal bits. -/
theorem carries_const (M : Nat → Nat → Bool) (buf : Nat → Nat) (fixed one nought x : Nat)
    (c : Bool) (hf : M x fixed = true)
    (hc : if c = true then M x one = true else (M x one = false ∧ M x nought = true)) :
    ∀ (k off : Nat), (∀ i, off ≤ i → i < off + 2 * k → buf i = x) →
    carries M buf fixed one nought off (List.replicate k c) = true := by
  intro k
  induction k with
  | zero => intro off _; rfl
  | succ k ih =>
    intro off h
    have h0 := h off (Nat.le_refl _) (by omega)
    have h1 := h (off + 1) (by omega) (by omega)
    have ht := ih (off + 2) (fun i hi1 hi2 => h i (by omega) (by omega))
    simp only [List.replicate_succ, carries, h0, h1, hf, ht, Bool.true_and, Bool.and_true]
    cases c
    · simp only [Bool.false_eq_true, if_false] at hc ⊢
      simp [hc.1, hc.2]
    · simp only [if_true] at hc ⊢
      exact hc

/-- A frame whose sixteen identifier bits all have the same mark and the same space is
not accepted by `IRdecodePanasonic::decode`, whatever the matcher: the identifier read
is all zeros, all ones, or unreadable, never `0x4004`. -/
theorem Panasonic_decode_constant_id (M : Nat → Nat → Bool) (d : IRdecode)
    (h : ∀ i, 3 ≤ i → i < 35 → d.rawbuf i = 432) :
    (IRdecodePanasonic.decode M d).1 ≠ Outcome.matched := by
  unfold IRdecodePanasonic.decode
  by_cases c1 : d.rawlen ≠ 100
  · rw [if_pos c1]; simp
  rw [if_neg c1]
  by_cases c2 : (!M (d.rawbuf 1) 3456) = true
  · rw [if_pos c2]; simp
  rw [if_neg c2]
  by_cases c3 : (!M (d.rawbuf 2) 1728) = true
  · rw [if_pos c3]; simp
  rw [if_neg c3]
  by_cases hm : M 432 432 = true
  · have key : ∀ c : Bool,
        (if c = true then M 432 1296 = true else (M 432 1296 = false ∧ M 432 432 = true)) →
        IRdecodePanasonic.getBits M (2 * 8 * 2 + 2) (2 * 8 * 2 + 2)
          { d with offset := 3, data_Panasonic := 0 } =
        (.matched, { d with offset := 35,
                            data_Panasonic := (List.replicate 16 c).foldl shiftIn 0 }) := by
      intro c hc
      have hcar := carries_const M d.rawbuf 432 1296 432 432 c hm hc 16 3
        (fun i hi1 hi2 => h i hi1 (by omega))
      exact getBits_carries M (2 * 8 * 2 + 2) (by decide) (List.replicate 16 c)
        (2 * 8 * 2 + 2) { d with offset := 3, data_Panasonic := 0 }
        (by simp) (by simp) (by simp) hcar
    by_cases h1 : M 432 1296 = true
    · have e : (List.replicate 16 true).foldl shiftIn 0 = 65535 := by
        with_unfolding_all decide
      simp only [key true (by simpa using h1), e]
      simp
    · have h1f : M 432 1296 = false := by simpa using h1
      have e : (List.replicate 16 false).foldl shiftIn 0 = 0 := by
        with_unfolding_all decide
      simp only [key false (by simpa using ⟨h1f, hm⟩), e]
      simp
  · have hg : IRdecodePanasonic.getBits M (2 * 8 * 2 + 2) (2 * 8 * 2 + 2)
        { d with offset := 3, data_Panasonic := 0 } =
        (.DATA_MARK_ERROR, { d with offset := 3, data_Panasonic := 0 }) := by
      have h3 := h 3 (by decide) (by decide)
      have hm' : M 432 432 = false := by simpa using hm
      show IRdecodePanasonic.getBits M 34 (33 + 1) _ = _
      unfold IRdecodePanasonic.getBits IRdecodePanasonic.GetBit
      simp [h3, hm']
    simp only [hg]
    simp

/-- `PutBits` emits a mark and a space per bit. -/
theorem PutBits_out_length : ∀ (n data : Nat) (s : IRsendBase),
    ∃ X, (IRsendPanasonic.PutBits n data s).out = s.out ++ X ∧ X.length = 2 * n := by
  intro n
  induction n with
  | zero => intro data s; exact ⟨[], by simp [IRsendPanasonic.PutBits]⟩
  | succ n ih =>
    intro data s
    unfold IRsendPanasonic.PutBits
    by_cases hb : data &&& 0x80000000 ≠ 0
    · obtain ⟨X, hX, hl⟩ := ih (toULong (data <<< 1)) ((s.mark 432).space 1296)
      refine ⟨[⟨true, 432⟩, ⟨false, 1296⟩] ++ X, ?_, ?_⟩
      · simp only []
        rw [if_pos hb, hX]
        simp
      · simp only [List.length_append, List.length_cons, List.length_nil, hl]; omega
    · obtain ⟨X, hX, hl⟩ := ih (toULong (data <<< 1)) ((s.mark 432).space 432)
      refine ⟨[⟨true, 432⟩, ⟨false, 432⟩] ++ X, ?_, ?_⟩
      · simp only []
        rw [if_neg hb, hX]
        simp
      · simp only [List.length_append, List.length_cons, List.length_nil, hl]; omega

/-- `PutBits` tests bit 31 of its argument: called with `nbits` bits of a value that is not
left-aligned, it emits `nbits` zero bits. -/
theorem PutBits_out_zero : ∀ (n data : Nat) (s : IRsendBase), data * 2 ^ n < 2 ^ 32 →
    (IRsendPanasonic.PutBits n data s).out =
      s.out ++ (List.replicate n false).flatMap (bitPulses 432 432 1296 432) := by
  intro n
  induction n with
  | zero => intro data s _; simp [IRsendPanasonic.PutBits]
  | succ n ih =>
    intro data s h
    have h2n : 0 < 2 ^ n := Nat.two_pow_pos n
    rw [pow_succ] at h
    have hd : data < 2 ^ 31 := by
      have : data * 2 ≤ data * (2 ^ n * 2) := Nat.mul_le_mul_left _ (by omega)
      omega
    have hb : ¬ (data &&& 0x80000000 ≠ 0) := by
      have e : (0x80000000 : Nat) = 2 ^ 31 := by decide
      rw [e, and_two_pow_ne_zero, Nat.testBit_lt_two_pow hd]
      simp
    have hnext : toULong (data <<< 1) = 2 * data := by
      rw [shl_one]; exact toULong_of_lt (by omega)
    have hstep : 2 * data * 2 ^ n < 2 ^ 32 := by
      have e : 2 * data * 2 ^ n = data * (2 ^ n * 2) := by ring
      rw [e]; exact h
    unfold IRsendPanasonic.PutBits
    simp only []
    rw [if_neg hb, hnext, ih (2 * data) _ hstep]
    simp [List.replicate_succ, bitPulses]

/-- The frame a receiver gets from `IRsendPanasonic::send`: 100 samples, and the sixteen
identifier bits are all sent as zero bits. -/
theorem frameOf_Panasonic (v gap : Nat) (s : IRsendBase) :
    ∃ rest, frameOf gap (IRsendBase.emitted (IRsendPanasonic.send v) s) =
      gap :: 3456 :: 1728 :: (List.replicate 32 432 ++ rest) ∧ rest.length = 65 := by
  unfold IRsendBase.emitted IRsendPanasonic.send frameOf
  simp only [IRsendBase.space_out, IRsendBase.mark_out]
  obtain ⟨X8, h8, l8⟩ := PutBits_out_length 8 (IRsendPanasonic.checksumLoop 4 v 0)
    (IRsendPanasonic.PutBits 24 v (IRsendPanasonic.PutBits 8 32 (IRsendPanasonic.PutBits 8 2
      (((IRsendBase.enableIROut 37 { s with out := [] }).mark 3456).space 1728))))
  obtain ⟨X24, h24, l24⟩ := PutBits_out_length 24 v (IRsendPanasonic.PutBits 8 32
    (IRsendPanasonic.PutBits 8 2
      (((IRsendBase.enableIROut 37 { s with out := [] }).mark 3456).space 1728)))
  rw [h8, h24, PutBits_out_zero 8 32 _ (by decide), PutBits_out_zero 8 2 _ (by decide)]
  refine ⟨X24.map Pulse.usec ++ (X8.map Pulse.usec ++ [432]), ?_, ?_⟩
  · simp only [IRsendBase.space_out, IRsendBase.mark_out, IRsendBase.enableIROut_out,
      List.nil_append, List.map_append, List.map_cons, List.map_nil, List.dropLast_concat,
      bitPulses_usec]
    simp [bitSamples, List.replicate]
  · simp only [List.length_append, List.length_map, List.length_cons, List.length_nil, l8, l24]

/-- C7 fails on the code.  For every value `v` and every matcher, the 100-sample frame of
`IRsendPanasonic::send(v)` is rejected by `IRdecodePanasonic::decode`: `PutBits(2, 8)` and
`PutBits(32, 8)` test bit 31 of `2` and `32`, so the identifier goes out as sixteen zero
bits and is never read back as `0x4004`. -/
theorem Panasonic_round_trip_rejected (M : Nat → Nat → Bool) (v gap : Nat) (s : IRsendBase)
    (d : IRdecode) :
    (frameOf gap (IRsendBase.emitted (IRsendPanasonic.send v) s)).length = 100 ∧
    (IRdecodePanasonic.decode M (d.receive (frameOf gap
        (IRsendBase.emitted (IRsendPanasonic.send v) s)))).1 ≠ Outcome.matched := by
  obtain ⟨rest, hf, hl⟩ := frameOf_Panasonic v gap s
  rw [hf]
  constructor
  · simp [hl]
  · apply Panasonic_decode_constant_id
    intro i h3 h35
    simp only [IRdecode.receive]
    interval_cases i <;> rfl

/-! ## A sample outside the window -/

/-- When the pairs before pair `k` are readable and the second sample of pair `k` matches
neither duration, the space-length loop of `decodeGeneric` fails with the data-space
error. -/
theorem spaceLoop_fails (M : Nat → Nat → Bool) (Mark_Zero Space_One Space_Zero Max : Nat)
    (hMax : Max < 65536) : ∀ (k fuel : Nat) (d : IRdecode) (data : Nat),
    k < fuel → d.offset + 2 * k < Max →
    (∀ j, j < k → M (d.rawbuf (d.offset + 2 * j)) Mark_Zero = true ∧
      (M (d.rawbuf (d.offset + 2 * j + 1)) Space_One = true ∨
       M (d.rawbuf (d.offset + 2 * j + 1)) Space_Zero = true)) →
    M (d.rawbuf (d.offset + 2 * k)) Mark_Zero = true →
    M (d.rawbuf (d.offset + 2 * k + 1)) Space_One = false →
    M (d.rawbuf (d.offset + 2 * k + 1)) Space_Zero = false →
    (decodeGeneric.spaceLoop M Mark_Zero Space_One Space_Zero Max fuel d data).1 =
      Outcome.DATA_SPACE_ERROR := by
  intro k
  induction k with
  | zero =>
    intro fuel d data hfuel hlt _ hm h1 h0
    cases fuel with
    | zero => omega
    | succ f =>
      simp only [Nat.mul_zero, Nat.add_zero] at hlt hm h1 h0
      have e1 : toUInt (d.offset + 1) = d.offset + 1 := toUInt_of_lt (by omega)
      unfold decodeGeneric.spaceLoop
      simp only [hlt, if_true, hm, Bool.not_true, Bool.false_eq_true, if_false, e1, h1, h0]
  | succ k ih =>
    intro fuel d data hfuel hlt hgood hm h1 h0
    cases fuel with
    | zero => omega
    | succ f =>
      have hg0 := hgood 0 (by omega)
      simp only [Nat.mul_zero, Nat.add_zero] at hg0
      have e1 : toUInt (d.offset + 1) = d.offset + 1 := toUInt_of_lt (by omega)
      have e2 : toUInt (d.offset + 1 + 1) = d.offset + 2 := toUInt_of_lt (by omega)
      have hlt0 : d.offset < Max := by omega
      have hrec : ∀ data1, (decodeGeneric.spaceLoop M Mark_Zero Space_One Space_Zero Max f
          { d with offset := d.offset + 2 } data1).1 = Outcome.DATA_SPACE_ERROR := by
        intro data1
        apply ih f { d with offset := d.offset + 2 } data1 (by omega) (by simp only []; omega)
        · intro j hj
          have := hgood (j + 1) (by omega)
          have e : d.offset + 2 * (j + 1) = d.offset + 2 + 2 * j := by omega
          rw [e] at this
          exact this
        · have e : d.offset + 2 * (k + 1) = d.offset + 2 + 2 * k := by omega
          rw [e] at hm; exact hm
        · have e : d.offset + 2 * (k + 1) = d.offset + 2 + 2 * k := by omega
          rw [e] at h1; exact h1
        · have e : d.offset + 2 * (k + 1) = d.offset + 2 + 2 * k := by omega
          rw [e] at h0; exact h0
      unfold decodeGeneric.spaceLoop
      simp only [hlt0, if_true, hg0.1, Bool.not_true, Bool.false_eq_true, if_false, e1, e2]
      by_cases hs1 : M (d.rawbuf (d.offset + 1)) Space_One = true
      · simp only [hs1, if_true]; exact hrec _
      · have hs0 : M (d.rawbuf (d.offset + 1)) Space_Zero = true := by
          rcases hg0.2 with h | h
          · exact absurd h hs1
          · exact h
        simp only [hs1, if_false, hs0, if_true]; exact hrec _

/-- When the pairs before pair `k` are readable and the second sample of pair `k` matches
neither duration, the mark-length loop of `decodeGeneric` fails with the data-mark
error. -/
theorem markLoop_fails (M : Nat → Nat → Bool) (Mark_One Mark_Zero Space_One Max : Nat)
    (hMax : Max < 65536) : ∀ (k fuel : Nat) (d : IRdecode) (data : Nat),
    k < fuel → d.offset + 2 * k < Max →
    (∀ j, j < k → M (d.rawbuf (d.offset + 2 * j)) Space_One = true ∧
      (M (d.rawbuf (d.offset + 2 * j + 1)) Mark_One = true ∨
       M (d.rawbuf (d.offset + 2 * j + 1)) Mark_Zero = true)) →
    M (d.rawbuf (d.offset + 2 * k)) Space_One = true →
    M (d.rawbuf (d.offset + 2 * k + 1)) Mark_One = false →
    M (d.rawbuf (d.offset + 2 * k + 1)) Mark_Zero = false →
    (decodeGeneric.markLoop M Mark_One Mark_Zero Space_One Max fuel d data).1 =
      Outcome.DATA_MARK_ERROR := by
  intro k
  induction k with
  | zero =>
    intro fuel d data hfuel hlt _ hm h1 h0
    cases fuel with
    | zero => omega
    | succ f =>
      simp only [Nat.mul_zero, Nat.add_zero] at hlt hm h1 h0
      have e1 : toUInt (d.offset + 1) = d.offset + 1 := toUInt_of_lt (by omega)
      unfold decodeGeneric.markLoop
      simp only [hlt, if_true, hm, Bool.not_true, Bool.false_eq_true, if_false, e1, h1, h0]
  | succ k ih =>
    intro fuel d data hfuel hlt hgood hm h1 h0
    cases fuel with
    | zero => omega
    | succ f =>
      have hg0 := hgood 0 (by omega)
      simp only [Nat.mul_zero, Nat.add_zero] at hg0
      have e1 : toUInt (d.offset + 1) = d.offset + 1 := toUInt_of_lt (by omega)
      have e2 : toUInt (d.offset + 1 + 1) = d.offset + 2 := toUInt_of_lt (by omega)
      have hlt0 : d.offset < Max := by omega
      have hrec : ∀ data1, (decodeGeneric.markLoop M Mark_One Mark_Zero Space_One Max f
          { d with offset := d.offset + 2 } data1).1 = Outcome.DATA_MARK_ERROR := by
        intro data1
        apply ih f { d with offset := d.offset + 2 } data1 (by omega) (by simp only []; omega)
        · intro j hj
          have := hgood (j + 1) (by omega)
          have e : d.offset + 2 * (j + 1) = d.offset + 2 + 2 * j := by omega
          rw [e] at this
          exact this
        · have e : d.offset + 2 * (k + 1) = d.offset + 2 + 2 * k := by omega
          rw [e] at hm; exact hm
        · have e : d.offset + 2 * (k + 1) = d.offset + 2 + 2 * k := by omega
          rw [e] at h1; exact h1
        · have e : d.offset + 2 * (k + 1) = d.offset + 2 + 2 * k := by omega
          rw [e] at h0; exact h0
      unfold decodeGeneric.markLoop
      simp only [hlt0, if_true, hg0.1, Bool.not_true, Bool.false_eq_true, if_false, e1, e2]
      by_cases hs1 : M (d.rawbuf (d.offset + 1)) Mark_One = true
      · simp only [hs1, if_true]; exact hrec _
      · have hs0 : M (d.rawbuf (d.offset + 1)) Mark_Zero = true := by
          rcases hg0.2 with h | h
          · exact absurd h hs1
          · exact h
        simp only [hs1, if_false, hs0, if_true]; exact hrec _

/-- Space-length convention: a data space that matches neither `Space_One` nor
`Space_Zero`, after readable pairs, makes `decodeGeneric` fail with the data-space
error. -/
theorem decodeGeneric_space_fails (M : Nat → Nat → Bool)
    (Raw_Count Head_Mark Head_Space Mark_Zero Space_One Space_Zero : Nat) (d : IRdecode)
    (k : Nat)
    (hcount : Raw_Count = 0 ∨ d.rawlen = Raw_Count)
    (hhm : d.ignoreHeader = true ∨ Head_Mark = 0 ∨ M (d.rawbuf 1) Head_Mark = true)
    (hhs : Head_Space = 0 ∨ M (d.rawbuf 2) Head_Space = true)
    (hlen : 3 + 2 * k + 1 < d.rawlen) (hsmall : d.rawlen ≤ 256)
    (hgood : ∀ j, j < k → M (d.rawbuf (3 + 2 * j)) Mark_Zero = true ∧
      (M (d.rawbuf (3 + 2 * j + 1)) Space_One = true ∨
       M (d.rawbuf (3 + 2 * j + 1)) Space_Zero = true))
    (hm : M (d.rawbuf (3 + 2 * k)) Mark_Zero = true)
    (h1 : M (d.rawbuf (3 + 2 * k + 1)) Space_One = false)
    (h0 : M (d.rawbuf (3 + 2 * k + 1)) Space_Zero = false) :
    (IRdecodeBase.decodeGeneric M Raw_Count Head_Mark Head_Space 0 Mark_Zero Space_One
        Space_Zero d).1 = Outcome.DATA_SPACE_ERROR := by
  have hMax : toUChar (toUInt (d.rawlen + 65535)) = d.rawlen - 1 := by
    unfold toUChar toUInt; omega
  have c1 : ¬ (Raw_Count ≠ 0 ∧ d.rawlen ≠ Raw_Count) := by
    rcases hcount with h | h
    · exact fun hh => hh.1 h
    · exact fun hh => hh.2 h
  have c2 : (!d.ignoreHeader && decide (Head_Mark ≠ 0) && !M (d.rawbuf 1) Head_Mark) = false := by
    rcases hhm with h | h | h <;> simp [h]
  have c3 : (decide (Head_Space ≠ 0) && !M (d.rawbuf 2) Head_Space) = false := by
    rcases hhs with h | h <;> simp [h]
  have e2 : toUInt (1 + 1) = 2 := toUInt_of_lt (by decide)
  have hloop := spaceLoop_fails M Mark_Zero Space_One Space_Zero (d.rawlen - 1) (by omega) k
    (d.rawlen - 1) { d with offset := 3 } 0 (by omega) (by simp only []; omega) hgood hm h1 h0
  unfold IRdecodeBase.decodeGeneric
  simp only [c1, if_false, c2, e2, c3, Bool.false_eq_true, ne_eq, not_true_eq_false, hMax]
  rcases hr : decodeGeneric.spaceLoop M Mark_Zero Space_One Space_Zero (d.rawlen - 1)
    (d.rawlen - 1) { d with offset := 3 } 0 with ⟨e, d3, dat⟩
  rw [hr] at hloop
  simp only [] at hloop
  subst hloop
  rfl

/-- Mark-length convention: a data mark that matches neither `Mark_One` nor `Mark_Zero`,
after readable pairs, makes `decodeGeneric` fail with the data-mark error. -/
theorem decodeGeneric_mark_fails (M : Nat → Nat → Bool)
    (Raw_Count Head_Mark Head_Space Mark_One Mark_Zero Space_One Space_Zero : Nat)
    (d : IRdecode) (k : Nat) (hM1 : Mark_One ≠ 0)
    (hcount : Raw_Count = 0 ∨ d.rawlen = Raw_Count)
    (hhm : d.ignoreHeader = true ∨ Head_Mark = 0 ∨ M (d.rawbuf 1) Head_Mark = true)
    (hhs : Head_Space = 0 ∨ M (d.rawbuf 2) Head_Space = true)
    (hlen : 2 + 2 * k < d.rawlen) (hsmall : d.rawlen ≤ 255)
    (hgood : ∀ j, j < k → M (d.rawbuf (2 + 2 * j)) Space_One = true ∧
      (M (d.rawbuf (2 + 2 * j + 1)) Mark_One = true ∨
       M (d.rawbuf (2 + 2 * j + 1)) Mark_Zero = true))
    (hm : M (d.rawbuf (2 + 2 * k)) Space_One = true)
    (h1 : M (d.rawbuf (2 + 2 * k + 1)) Mark_One = false)
    (h0 : M (d.rawbuf (2 + 2 * k + 1)) Mark_Zero = false) :
    (IRdecodeBase.decodeGeneric M Raw_Count Head_Mark Head_Space Mark_One Mark_Zero Space_One
        Space_Zero d).1 = Outcome.DATA_MARK_ERROR := by
  have hMax : toUChar d.rawlen = d.rawlen := toUChar_of_lt (by omega)
  have c1 : ¬ (Raw_Count ≠ 0 ∧ d.rawlen ≠ Raw_Count) := by
    rcases hcount with h | h
    · exact fun hh => hh.1 h
    · exact fun hh => hh.2 h
  have c2 : (!d.ignoreHeader && decide (Head_Mark ≠ 0) && !M (d.rawbuf 1) Head_Mark) = false := by
    rcases hhm with h | h | h <;> simp [h]
  have c3 : (decide (Head_Space ≠ 0) && !M (d.rawbuf 2) Head_Space) = false := by
    rcases hhs with h | h <;> simp [h]
  have e2 : toUInt (1 + 1) = 2 := toUInt_of_lt (by decide)
  have hloop := markLoop_fails M Mark_One Mark_Zero Space_One d.rawlen (by omega) k
    d.rawlen { d with offset := 2 } 0 (by omega) (by simp only []; omega) hgood hm h1 h0
  unfold IRdecodeBase.decodeGeneric
  simp only [c1, if_false, c2, e2, c3, Bool.false_eq_true, ne_eq, hM1, not_false_eq_true,
    if_true, hMax]
  rcases hr : decodeGeneric.markLoop M Mark_One Mark_Zero Space_One d.rawlen
    d.rawlen { d with offset := 2 } 0 with ⟨e, d3, dat⟩
  rw [hr] at hloop
  simp only [] at hloop
  subst hloop
  rfl

/-- The samples a sender writes for the bits of `v`, slot by slot. -/
theorem samples_bitSamples (fixed one nought v a b : Nat) :
    ∀ (n : Nat) (pre post : List Nat) (k : Nat), k < n →
    (pre ++ ((msbBits n v).flatMap (bitSamples fixed one nought) ++ post)).getD
        (pre.length + 2 * k) a = fixed ∧
    (pre ++ ((msbBits n v).flatMap (bitSamples fixed one nought) ++ post)).getD
        (pre.length + 2 * k + 1) b = (if v.testBit (n - 1 - k) = true then one else nought) := by
  intro n
  induction n with
  | zero => intro pre post k hk; omega
  | succ n ih =>
    intro pre post k hk
    have elist : pre ++ ((msbBits (n + 1) v).flatMap (bitSamples fixed one nought) ++ post) =
        (pre ++ bitSamples fixed one nought (v.testBit n)) ++
          ((msbBits n v).flatMap (bitSamples fixed one nought) ++ post) := by
      simp [msbBits, List.append_assoc]
    cases k with
    | zero =>
      simp only [Nat.mul_zero, Nat.add_zero, Nat.add_sub_cancel, Nat.sub_zero]
      constructor
      · rw [List.getD_append_right _ _ _ _ (Nat.le_refl _)]
        simp [msbBits, bitSamples]
      · rw [List.getD_append_right _ _ _ _ (Nat.le_add_right _ _)]
        simp [msbBits, bitSamples]
    | succ k =>
      have h := ih (pre ++ bitSamples fixed one nought (v.testBit n)) post k (by omega)
      have elen : (pre ++ bitSamples fixed one nought (v.testBit n)).length = pre.length + 2 := by
        simp [bitSamples]
      rw [elen] at h
      rw [elist]
      have e1 : pre.length + 2 * (k + 1) = pre.length + 2 + 2 * k := by omega
      have e2 : n + 1 - 1 - (k + 1) = n - 1 - k := by omega
      rw [e1, e2]
      exact h

theorem getD_set_self (l : List Nat) (i x a : Nat) (h : i < l.length) :
    (l.set i x).getD i a = x := by
  simp [List.getD_eq_getElem?_getD, List.getElem?_set_self h]

theorem getD_set_ne (l : List Nat) (i j x a : Nat) (h : i ≠ j) :
    (l.set i x).getD j a = l.getD j a := by
  simp [List.getD_eq_getElem?_getD, List.getElem?_set_ne h]

/-! ## The spec's window -/

theorem MATCH_self (pct floor e : Nat) : MATCH pct floor e e = true := by
  simp [MATCH]

/-- A duration at most 24 % above the expected one is inside the 25 % window. -/
theorem MATCH_inside (floor x e : Nat) (h1 : e ≤ x) (h2 : 100 * x ≤ 124 * e) :
    MATCH 25 floor x e = true := by
  simp only [MATCH, Bool.or_eq_true, Bool.and_eq_true, decide_eq_true_eq]
  left
  omega

/-- A duration at least 26 % above the expected one is outside the 25 % window, when the
absolute floor is smaller than that excess. -/
theorem MATCH_outside (floor x e : Nat) (h2 : 126 * e ≤ 100 * x) (hf : 100 * floor < 26 * e) :
    MATCH 25 floor x e = false := by
  rw [Bool.eq_false_iff]
  intro h
  simp only [MATCH, Bool.or_eq_true, Bool.and_eq_true, decide_eq_true_eq] at h
  omega

/-- A duration more than 25 % and more than the floor away from the expected one does not
match it. -/
theorem MATCH_far (floor x e : Nat) (h : 125 * e < 100 * x ∨ 100 * x < 75 * e)
    (hf : e + floor < x ∨ x + floor < e) : MATCH 25 floor x e = false := by
  rw [Bool.eq_false_iff]
  intro hm
  simp only [MATCH, Bool.or_eq_true, Bool.and_eq_true, decide_eq_true_eq] at hm
  omega

/-- The samples of a sender's frame after the second sample of pair `k` was replaced
by `x`. -/
theorem modified_samples (fixed one nought v a b x n : Nat) (pre post : List Nat) (k : Nat)
    (hk : k < n) (j : Nat) (hj : j < n) :
    ((pre ++ ((msbBits n v).flatMap (bitSamples fixed one nought) ++ post)).set
        (pre.length + 2 * k + 1) x).getD (pre.length + 2 * j) a = fixed ∧
    ((pre ++ ((msbBits n v).flatMap (bitSamples fixed one nought) ++ post)).set
        (pre.length + 2 * k + 1) x).getD (pre.length + 2 * j + 1) b =
      (if j = k then x else if v.testBit (n - 1 - j) = true then one else nought) := by
  have hs := samples_bitSamples fixed one nought v a b n pre post j hj
  constructor
  · rw [getD_set_ne _ _ _ _ _ (by omega)]
    exact hs.1
  · by_cases hjk : j = k
    · subst hjk
      rw [if_pos rfl]
      apply getD_set_self
      simp only [List.length_append, flatMap_bitSamples_length, msbBits_length]
      omega
    · rw [if_neg hjk, getD_set_ne _ _ _ _ _ (by omega)]
      exact hs.2

theorem modified_header (l post : List Nat) (i j x a : Nat) (hi : i < l.length)
    (hj : l.length ≤ j) : ((l ++ post).set j x).getD i a = l.getD i a := by
  rw [getD_set_ne _ _ _ _ _ (by omega)]
  exact List.getD_append _ _ _ _ hi

/-- Space-length convention, NEC template: a one-bit space at most 24 % above
`Space_One` leaves the decode successful with the same value. -/
theorem tolerance_space_inside (floor : Nat) (hfloor : floor ≤ 311) (v : Nat)
    (hv : v < 2 ^ 32) (k : Nat) (hk : k < 32) (hbit : v.testBit (31 - k) = true) (x : Nat)
    (h1 : 1689 ≤ x) (h2 : 100 * x ≤ 124 * 1689) (gap : Nat) (s : IRsendBase) (d : IRdecode) :
    IRdecodeBase.decodeGeneric (MATCH 25 floor) 68 9008 4504 0 563 1689 563
      (d.receive ((frameOf gap (IRsendBase.emitted (IRsendBase.sendGeneric v 32 9008 4504 563
        563 1689 563 38 true 0) s)).set (4 + 2 * k) x)) =
    (.matched, { d.receive ((frameOf gap (IRsendBase.emitted (IRsendBase.sendGeneric v 32 9008
        4504 563 563 1689 563 38 true 0) s)).set (4 + 2 * k) x) with
      offset := 67, bits := 32, value := v }) := by
  have hF : frameOf gap (IRsendBase.emitted (IRsendBase.sendGeneric v 32 9008 4504 563
        563 1689 563 38 true 0) s) =
      [gap, 9008, 4504] ++ ((msbBits 32 v).flatMap (bitSamples 563 1689 563) ++ [563]) := by
    rw [frameOf_sendGeneric v 32 9008 4504 563 1689 563 38 0 gap s (Nat.le_refl _) hv]
    rfl
  have hidx : 4 + 2 * k = [gap, 9008, 4504].length + 2 * k + 1 := by
    simp only [List.length_cons, List.length_nil]; omega
  rw [hF, hidx]
  have hc : carries (MATCH 25 floor) (d.receive (([gap, 9008, 4504] ++
      ((msbBits 32 v).flatMap (bitSamples 563 1689 563) ++ [563])).set
        ([gap, 9008, 4504].length + 2 * k + 1) x)).rawbuf 563 1689 563 3 (msbBits 32 v)
      = true := by
    apply carries_of_testBit
    intro j hj
    have hm := modified_samples 563 1689 563 v (d.rawbuf (3 + 2 * j)) (d.rawbuf (3 + 2 * j + 1))
      x 32 [gap, 9008, 4504] [563] k hk j hj
    simp only [IRdecode.receive]
    have e3 : [gap, 9008, 4504].length = 3 := rfl
    rw [e3] at hm ⊢
    rw [hm.1, hm.2]
    refine ⟨MATCH_self _ _ _, ?_⟩
    by_cases hjk : j = k
    · subst hjk
      have e : 32 - 1 - j = 31 - j := by omega
      rw [e, if_pos hbit, if_pos rfl]
      exact MATCH_inside floor x 1689 h1 h2
    · rw [if_neg hjk]
      by_cases hb : v.testBit (32 - 1 - j) = true
      · rw [if_pos hb, if_pos hb]; exact MATCH_self _ _ _
      · rw [if_neg hb, if_neg hb]
        exact ⟨MATCH_far floor 563 1689 (Or.inr (by decide)) (Or.inr (by omega)),
          MATCH_self _ _ _⟩
  have hraw : (d.receive (([gap, 9008, 4504] ++
      ((msbBits 32 v).flatMap (bitSamples 563 1689 563) ++ [563])).set
        ([gap, 9008, 4504].length + 2 * k + 1) x)).rawlen = 68 := by
    simp only [IRdecode.receive, List.length_set, List.length_append, List.length_cons,
      List.length_nil, flatMap_bitSamples_length, msbBits_length]
  have hh1 : MATCH 25 floor ((d.receive (([gap, 9008, 4504] ++
      ((msbBits 32 v).flatMap (bitSamples 563 1689 563) ++ [563])).set
        ([gap, 9008, 4504].length + 2 * k + 1) x)).rawbuf 1) 9008 = true := by
    simp only [IRdecode.receive]
    rw [modified_header [gap, 9008, 4504] _ 1 _ x _ (by simp) (by omega)]
    exact MATCH_self _ _ _
  have hh2 : MATCH 25 floor ((d.receive (([gap, 9008, 4504] ++
      ((msbBits 32 v).flatMap (bitSamples 563 1689 563) ++ [563])).set
        ([gap, 9008, 4504].length + 2 * k + 1) x)).rawbuf 2) 4504 = true := by
    simp only [IRdecode.receive]
    rw [modified_header [gap, 9008, 4504] _ 2 _ x _ (by simp) (by omega)]
    exact MATCH_self _ _ _
  have hl32 : (msbBits 32 v).length = 32 := msbBits_length v 32
  generalize d.receive (([gap, 9008, 4504] ++
      ((msbBits 32 v).flatMap (bitSamples 563 1689 563) ++ [563])).set
        ([gap, 9008, 4504].length + 2 * k + 1) x) = d1 at hraw hh1 hh2 hc ⊢
  have hgen := decodeGeneric_space_carries (MATCH 25 floor) 68 9008 4504 563 1689 563
    d1 (msbBits 32 v) (Or.inr hraw) (Or.inr (Or.inr hh1)) (Or.inr hh2) (by rw [hraw, hl32])
    (by rw [hl32]; omega) hc
  rw [hgen, msbBits_length, foldl_shiftIn_msbBits (Nat.le_refl _) hv]

/-- Space-length convention, NEC template: a one-bit space at least 26 % above
`Space_One` makes `decodeGeneric` fail. -/
theorem tolerance_space_outside (floor : Nat) (hfloor : floor ≤ 311) (v : Nat)
    (hv : v < 2 ^ 32) (k : Nat) (hk : k < 32) (x : Nat)
    (h2 : 126 * 1689 ≤ 100 * x) (gap : Nat) (s : IRsendBase) (d : IRdecode) :
    (IRdecodeBase.decodeGeneric (MATCH 25 floor) 68 9008 4504 0 563 1689 563
      (d.receive ((frameOf gap (IRsendBase.emitted (IRsendBase.sendGeneric v 32 9008 4504 563
        563 1689 563 38 true 0) s)).set (4 + 2 * k) x))).1 = Outcome.DATA_SPACE_ERROR := by
  have hF : frameOf gap (IRsendBase.emitted (IRsendBase.sendGeneric v 32 9008 4504 563
        563 1689 563 38 true 0) s) =
      [gap, 9008, 4504] ++ ((msbBits 32 v).flatMap (bitSamples 563 1689 563) ++ [563]) := by
    rw [frameOf_sendGeneric v 32 9008 4504 563 1689 563 38 0 gap s (Nat.le_refl _) hv]
    rfl
  have hidx : 4 + 2 * k = [gap, 9008, 4504].length + 2 * k + 1 := by
    simp only [List.length_cons, List.length_nil]; omega
  rw [hF, hidx]
  have e3 : [gap, 9008, 4504].length = 3 := rfl
  have hsamp : ∀ j, j < 32 →
      (d.receive (([gap, 9008, 4504] ++
        ((msbBits 32 v).flatMap (bitSamples 563 1689 563) ++ [563])).set
          ([gap, 9008, 4504].length + 2 * k + 1) x)).rawbuf (3 + 2 * j) = 563 ∧
      (d.receive (([gap, 9008, 4504] ++
        ((msbBits 32 v).flatMap (bitSamples 563 1689 563) ++ [563])).set
          ([gap, 9008, 4504].length + 2 * k + 1) x)).rawbuf (3 + 2 * j + 1) =
        (if j = k then x else if v.testBit (32 - 1 - j) = true then 1689 else 563) := by
    intro j hj
    have hm := modified_samples 563 1689 563 v (d.rawbuf (3 + 2 * j)) (d.rawbuf (3 + 2 * j + 1))
      x 32 [gap, 9008, 4504] [563] k hk j hj
    simp only [IRdecode.receive]
    rw [e3] at hm ⊢
    exact hm
  have hraw : (d.receive (([gap, 9008, 4504] ++
      ((msbBits 32 v).flatMap (bitSamples 563 1689 563) ++ [563])).set
        ([gap, 9008, 4504].length + 2 * k + 1) x)).rawlen = 68 := by
    simp only [IRdecode.receive, List.length_set, List.length_append, List.length_cons,
      List.length_nil, flatMap_bitSamples_length, msbBits_length]
  have hh1 : MATCH 25 floor ((d.receive (([gap, 9008, 4504] ++
      ((msbBits 32 v).flatMap (bitSamples 563 1689 563) ++ [563])).set
        ([gap, 9008, 4504].length + 2 * k + 1) x)).rawbuf 1) 9008 = true := by
    simp only [IRdecode.receive]
    rw [modified_header [gap, 9008, 4504] _ 1 _ x _ (by simp) (by omega)]
    exact MATCH_self _ _ _
  have hh2 : MATCH 25 floor ((d.receive (([gap, 9008, 4504] ++
      ((msbBits 32 v).flatMap (bitSamples 563 1689 563) ++ [563])).set
        ([gap, 9008, 4504].length + 2 * k + 1) x)).rawbuf 2) 4504 = true := by
    simp only [IRdecode.receive]
    rw [modified_header [gap, 9008, 4504] _ 2 _ x _ (by simp) (by omega)]
    exact MATCH_self _ _ _
  generalize d.receive (([gap, 9008, 4504] ++
      ((msbBits 32 v).flatMap (bitSamples 563 1689 563) ++ [563])).set
        ([gap, 9008, 4504].length + 2 * k + 1) x) = d1 at hraw hh1 hh2 hsamp ⊢
  apply decodeGeneric_space_fails (MATCH 25 floor) 68 9008 4504 563 1689 563 d1 k
    (Or.inr hraw) (Or.inr (Or.inr hh1)) (Or.inr hh2) (by omega) (by omega)
  · intro j hj
    have hs := hsamp j (by omega)
    rw [hs.1, hs.2, if_neg (by omega)]
    refine ⟨MATCH_self _ _ _, ?_⟩
    by_cases hb : v.testBit (32 - 1 - j) = true
    · rw [if_pos hb]; exact Or.inl (MATCH_self _ _ _)
    · rw [if_neg hb]; exact Or.inr (MATCH_self _ _ _)
  · rw [(hsamp k hk).1]; exact MATCH_self _ _ _
  · rw [(hsamp k hk).2, if_pos rfl]
    exact MATCH_outside floor x 1689 h2 (by omega)
  · rw [(hsamp k hk).2, if_pos rfl]
    exact MATCH_far floor x 563 (Or.inl (by omega)) (Or.inl (by omega))

/-- Mark-length convention, Sony template: a one-bit mark at most 24 % above `Mark_One`
leaves the decode successful with the same value. -/
theorem tolerance_mark_inside (floor : Nat) (hfloor : floor ≤ 311) (n : Nat)
    (hn : n = 8 ∨ n = 12 ∨ n = 15 ∨ n = 20) (v : Nat) (hv : v < 2 ^ n) (k : Nat) (hk : k < n)
    (hbit : v.testBit (n - 1 - k) = true) (x : Nat) (h1 : 1200 ≤ x)
    (h2 : 100 * x ≤ 124 * 1200) (gap : Nat) (s : IRsendBase) (d : IRdecode) :
    (IRdecodeBase.decodeGeneric (MATCH 25 floor) 0 2400 600 1200 600 600 0
      (d.receive ((mergedFrameOf gap (IRsendBase.emitted (IRsendSony.send v n false) s)).set
        (3 + 2 * k) x))).1 = Outcome.matched ∧
    (IRdecodeBase.decodeGeneric (MATCH 25 floor) 0 2400 600 1200 600 600 0
      (d.receive ((mergedFrameOf gap (IRsendBase.emitted (IRsendSony.send v n false) s)).set
        (3 + 2 * k) x))).2.value = v ∧
    (IRdecodeBase.decodeGeneric (MATCH 25 floor) 0 2400 600 1200 600 600 0
      (d.receive ((mergedFrameOf gap (IRsendBase.emitted (IRsendSony.send v n false) s)).set
        (3 + 2 * k) x))).2.bits = n := by
  have hn32 : n ≤ 32 := by omega
  have hF : mergedFrameOf gap (IRsendBase.emitted (IRsendSony.send v n false) s) =
      [gap, 2400] ++ ((msbBits n v).flatMap (bitSamples 600 1200 600) ++ []) := by
    rw [mergedFrameOf_Sony v n gap s hn32 hv, List.append_nil]
    rfl
  have hidx : 3 + 2 * k = [gap, 2400].length + 2 * k + 1 := by
    simp only [List.length_cons, List.length_nil]; omega
  rw [hF, hidx]
  have e3 : [gap, 2400].length = 2 := rfl
  have hln : (msbBits n v).length = n := msbBits_length v n
  have hsamp : ∀ j, j < n →
      (d.receive (([gap, 2400] ++
      ((msbBits n v).flatMap (bitSamples 600 1200 600) ++ [])).set
        ([gap, 2400].length + 2 * k + 1) x)).rawbuf (2 + 2 * j) = 600 ∧
      (d.receive (([gap, 2400] ++
      ((msbBits n v).flatMap (bitSamples 600 1200 600) ++ [])).set
        ([gap, 2400].length + 2 * k + 1) x)).rawbuf (2 + 2 * j + 1) =
        (if j = k then x else if v.testBit (n - 1 - j) = true then 1200 else 600) := by
    intro j hj
    have hm := modified_samples 600 1200 600 v (d.rawbuf (2 + 2 * j)) (d.rawbuf (2 + 2 * j + 1))
      x n [gap, 2400] [] k hk j hj
    simp only [IRdecode.receive]
    rw [e3] at hm ⊢
    exact hm
  have hraw : (d.receive (([gap, 2400] ++
      ((msbBits n v).flatMap (bitSamples 600 1200 600) ++ [])).set
        ([gap, 2400].length + 2 * k + 1) x)).rawlen = 2 * n + 2 := by
    simp only [IRdecode.receive, List.length_set, List.length_append, List.length_cons,
      List.length_nil, flatMap_bitSamples_length, msbBits_length]
    omega
  have hh1 : MATCH 25 floor ((d.receive (([gap, 2400] ++
      ((msbBits n v).flatMap (bitSamples 600 1200 600) ++ [])).set
        ([gap, 2400].length + 2 * k + 1) x)).rawbuf 1) 2400 = true := by
    simp only [IRdecode.receive]
    rw [modified_header [gap, 2400] _ 1 _ x _ (by simp) (by omega)]
    exact MATCH_self _ _ _
  have hh2 : MATCH 25 floor ((d.receive (([gap, 2400] ++
      ((msbBits n v).flatMap (bitSamples 600 1200 600) ++ [])).set
        ([gap, 2400].length + 2 * k + 1) x)).rawbuf 2) 600 = true := by
    have h0 := (hsamp 0 (by omega)).1
    rw [h0]; exact MATCH_self _ _ _
  generalize (d.receive (([gap, 2400] ++
      ((msbBits n v).flatMap (bitSamples 600 1200 600) ++ [])).set
        ([gap, 2400].length + 2 * k + 1) x)) = d1 at hraw hh1 hh2 hsamp ⊢
  have hc : carries (MATCH 25 floor) d1.rawbuf 600 1200 600 2 (msbBits n v) = true := by
    apply carries_of_testBit
    intro j hj
    have hs := hsamp j hj
    rw [hs.1, hs.2]
    refine ⟨MATCH_self _ _ _, ?_⟩
    by_cases hjk : j = k
    · subst hjk
      rw [if_pos hbit, if_pos rfl]
      exact MATCH_inside floor x 1200 h1 h2
    · rw [if_neg hjk]
      by_cases hb : v.testBit (n - 1 - j) = true
      · rw [if_pos hb, if_pos hb]; exact MATCH_self _ _ _
      · rw [if_neg hb, if_neg hb]
        exact ⟨MATCH_far floor 600 1200 (Or.inr (by decide)) (Or.inr (by omega)),
          MATCH_self _ _ _⟩
  have hgen := decodeGeneric_mark_carries (MATCH 25 floor) 0 2400 600 1200 600 600 0
    d1 (msbBits n v) (by decide) (Or.inl rfl) (Or.inr (Or.inr hh1)) (Or.inr hh2)
    (by rw [hraw, hln]) (by rw [hln]; omega) hc
  rw [hgen, hln, foldl_shiftIn_msbBits hn32 hv]
  exact ⟨rfl, rfl, rfl⟩

/-- Mark-length convention, Sony template: a one-bit mark at least 26 % above `Mark_One`
makes `decodeGeneric` fail. -/
theorem tolerance_mark_outside (floor : Nat) (hfloor : floor ≤ 311) (n : Nat)
    (hn : n = 8 ∨ n = 12 ∨ n = 15 ∨ n = 20) (v : Nat) (hv : v < 2 ^ n) (k : Nat) (hk : k < n)
    (x : Nat) (h2 : 126 * 1200 ≤ 100 * x) (gap : Nat) (s : IRsendBase) (d : IRdecode) :
    (IRdecodeBase.decodeGeneric (MATCH 25 floor) 0 2400 600 1200 600 600 0
      (d.receive ((mergedFrameOf gap (IRsendBase.emitted (IRsendSony.send v n false) s)).set
        (3 + 2 * k) x))).1 = Outcome.DATA_MARK_ERROR := by
  have hn32 : n ≤ 32 := by omega
  have hF : mergedFrameOf gap (IRsendBase.emitted (IRsendSony.send v n false) s) =
      [gap, 2400] ++ ((msbBits n v).flatMap (bitSamples 600 1200 600) ++ []) := by
    rw [mergedFrameOf_Sony v n gap s hn32 hv, List.append_nil]
    rfl
  have hidx : 3 + 2 * k = [gap, 2400].length + 2 * k + 1 := by
    simp only [List.length_cons, List.length_nil]; omega
  rw [hF, hidx]
  have e3 : [gap, 2400].length = 2 := rfl
  have hln : (msbBits n v).length = n := msbBits_length v n
  have hsamp : ∀ j, j < n →
      (d.receive (([gap, 2400] ++
      ((msbBits n v).flatMap (bitSamples 600 1200 600) ++ [])).set
        ([gap, 2400].length + 2 * k + 1) x)).rawbuf (2 + 2 * j) = 600 ∧
      (d.receive (([gap, 2400] ++
      ((msbBits n v).flatMap (bitSamples 600 1200 600) ++ [])).set
        ([gap, 2400].length + 2 * k + 1) x)).rawbuf (2 + 2 * j + 1) =
        (if j = k then x else if v.testBit (n - 1 - j) = true then 1200 else 600) := by
    intro j hj
    have hm := modified_samples 600 1200 600 v (d.rawbuf (2 + 2 * j)) (d.rawbuf (2 + 2 * j + 1))
      x n [gap, 2400] [] k hk j hj
    simp only [IRdecode.receive]
    rw [e3] at hm ⊢
    exact hm
  have hraw : (d.receive (([gap, 2400] ++
      ((msbBits n v).flatMap (bitSamples 600 1200 600) ++ [])).set
        ([gap, 2400].length + 2 * k + 1) x)).rawlen = 2 * n + 2 := by
    simp only [IRdecode.receive, List.length_set, List.length_append, List.length_cons,
      List.length_nil, flatMap_bitSamples_length, msbBits_length]
    omega
  have hh1 : MATCH 25 floor ((d.receive (([gap, 2400] ++
      ((msbBits n v).flatMap (bitSamples 600 1200 600) ++ [])).set
        ([gap, 2400].length + 2 * k + 1) x)).rawbuf 1) 2400 = true := by
    simp only [IRdecode.receive]
    rw [modified_header [gap, 2400] _ 1 _ x _ (by simp) (by omega)]
    exact MATCH_self _ _ _
  have hh2 : MATCH 25 floor ((d.receive (([gap, 2400] ++
      ((msbBits n v).flatMap (bitSamples 600 1200 600) ++ [])).set
        ([gap, 2400].length + 2 * k + 1) x)).rawbuf 2) 600 = true := by
    have h0 := (hsamp 0 (by omega)).1
    rw [h0]; exact MATCH_self _ _ _
  generalize (d.receive (([gap, 2400] ++
      ((msbBits n v).flatMap (bitSamples 600 1200 600) ++ [])).set
        ([gap, 2400].length + 2 * k + 1) x)) = d1 at hraw hh1 hh2 hsamp ⊢
  apply decodeGeneric_mark_fails (MATCH 25 floor) 0 2400 600 1200 600 600 0 d1 k (by decide)
    (Or.inl rfl) (Or.inr (Or.inr hh1)) (Or.inr hh2) (by omega) (by omega)
  · intro j hj
    have hs := hsamp j (by omega)
    rw [hs.1, hs.2, if_neg (by omega)]
    refine ⟨MATCH_self _ _ _, ?_⟩
    by_cases hb : v.testBit (n - 1 - j) = true
    · rw [if_pos hb]; exact Or.inl (MATCH_self _ _ _)
    · rw [if_neg hb]; exact Or.inr (MATCH_self _ _ _)
  · rw [(hsamp k hk).1]; exact MATCH_self _ _ _
  · rw [(hsamp k hk).2, if_pos rfl]
    exact MATCH_outside floor x 1200 h2 (by omega)
  · rw [(hsamp k hk).2, if_pos rfl]
    exact MATCH_far floor x 600 (Or.inl (by omega)) (Or.inl (by omega))

/-- C10. Tolerance boundary in both conventions, with the 25 % window and an absolute floor
below 26 % of the bit durations tested (at most 311 µs).  Space-length convention (NEC
template): in an otherwise nominal frame, a one-bit space replaced by a duration up to
24 % above `Space_One` leaves `decodeGeneric` successful with the same value, and one at
least 26 % above makes it fail (`DATA_SPACE_ERROR`, returned as `false`).  Mark-length
convention (Sony template): the same for a one-bit mark and `Mark_One`
(`DATA_MARK_ERROR`). -/
theorem tolerance_boundary (floor : Nat) (hfloor : floor ≤ 311)
    (v : Nat) (hv : v < 2 ^ 32) (k : Nat) (hk : k < 32) (hbit : v.testBit (31 - k) = true)
    (n : Nat) (hn : n = 8 ∨ n = 12 ∨ n = 15 ∨ n = 20) (w : Nat) (hw : w < 2 ^ n)
    (j : Nat) (hj : j < n) (hbitw : w.testBit (n - 1 - j) = true)
    (xin xout yin yout : Nat)
    (hxin : 1689 ≤ xin ∧ 100 * xin ≤ 124 * 1689) (hxout : 126 * 1689 ≤ 100 * xout)
    (hyin : 1200 ≤ yin ∧ 100 * yin ≤ 124 * 1200) (hyout : 126 * 1200 ≤ 100 * yout)
    (gap : Nat) (s : IRsendBase) (d : IRdecode) :
    (IRdecodeBase.decodeGeneric (MATCH 25 floor) 68 9008 4504 0 563 1689 563
        (d.receive ((frameOf gap (IRsendBase.emitted (IRsendBase.sendGeneric v 32 9008 4504
          563 563 1689 563 38 true 0) s)).set (4 + 2 * k) xin))).1 = Outcome.matched ∧
    (IRdecodeBase.decodeGeneric (MATCH 25 floor) 68 9008 4504 0 563 1689 563
        (d.receive ((frameOf gap (IRsendBase.emitted (IRsendBase.sendGeneric v 32 9008 4504
          563 563 1689 563 38 true 0) s)).set (4 + 2 * k) xin))).2.value = v ∧
    (IRdecodeBase.decodeGeneric (MATCH 25 floor) 68 9008 4504 0 563 1689 563
        (d.receive ((frameOf gap (IRsendBase.emitted (IRsendBase.sendGeneric v 32 9008 4504
          563 563 1689 563 38 true 0) s)).set (4 + 2 * k) xout))).1 = Outcome.DATA_SPACE_ERROR ∧
    (IRdecodeBase.decodeGeneric (MATCH 25 floor) 0 2400 600 1200 600 600 0
        (d.receive ((mergedFrameOf gap (IRsendBase.emitted (IRsendSony.send w n false)
          s)).set (3 + 2 * j) yin))).1 = Outcome.matched ∧
    (IRdecodeBase.decodeGeneric (MATCH 25 floor) 0 2400 600 1200 600 600 0
        (d.receive ((mergedFrameOf gap (IRsendBase.emitted (IRsendSony.send w n false)
          s)).set (3 + 2 * j) yin))).2.value = w ∧
    (IRdecodeBase.decodeGeneric (MATCH 25 floor) 0 2400 600 1200 600 600 0
        (d.receive ((mergedFrameOf gap (IRsendBase.emitted (IRsendSony.send w n false)
          s)).set (3 + 2 * j) yout))).1 = Outcome.DATA_MARK_ERROR := by
  have a := tolerance_space_inside floor hfloor v hv k hk hbit xin hxin.1 hxin.2 gap s d
  have b := tolerance_space_outside floor hfloor v hv k hk xout hxout gap s d
  have c := tolerance_mark_inside floor hfloor n hn w hw j hj hbitw yin hyin.1 hyin.2 gap s d
  have e := tolerance_mark_outside floor hfloor n hn w hw j hj yout hyout gap s d
  refine ⟨?_, ?_, b, c.1, c.2.1, e⟩
  · rw [a]
  · rw [a]

theorem tolerance_boundary_witness :
    (50 ≤ 311 ∧ 0x20DF10EF < 2 ^ 32 ∧ 2 < 32 ∧ (0x20DF10EF : Nat).testBit (31 - 2) = true ∧
      ((12 : Nat) = 8 ∨ (12 : Nat) = 12 ∨ (12 : Nat) = 15 ∨ (12 : Nat) = 20) ∧
      0xA5C < 2 ^ 12 ∧ 0 < 12 ∧ (0xA5C : Nat).testBit (12 - 1 - 0) = true ∧
      (1689 ≤ 2094 ∧ 100 * 2094 ≤ 124 * 1689) ∧ 126 * 1689 ≤ 100 * 2129 ∧
      (1200 ≤ 1488 ∧ 100 * 1488 ≤ 124 * 1200) ∧ 126 * 1200 ≤ 100 * 1512) ∧
   ((IRdecodeBase.decodeGeneric (MATCH 25 50) 68 9008 4504 0 563 1689 563
        (IRdecode.fresh.receive ((frameOf 20000 (IRsendBase.emitted (IRsendBase.sendGeneric 0x20DF10EF 32 9008 4504
          563 563 1689 563 38 true 0) IRsendBase.idle)).set (4 + 2 * 2) 2094))).1 = Outcome.matched ∧
    (IRdecodeBase.decodeGeneric (MATCH 25 50) 68 9008 4504 0 563 1689 563
        (IRdecode.fresh.receive ((frameOf 20000 (IRsendBase.emitted (IRsendBase.sendGeneric 0x20DF10EF 32 9008 4504
          563 563 1689 563 38 true 0) IRsendBase.idle)).set (4 + 2 * 2) 2094))).2.value = 0x20DF10EF ∧
    (IRdecodeBase.decodeGeneric (MATCH 25 50) 68 9008 4504 0 563 1689 563
        (IRdecode.fresh.receive ((frameOf 20000 (IRsendBase.emitted (IRsendBase.sendGeneric 0x20DF10EF 32 9008 4504
          563 563 1689 563 38 true 0) IRsendBase.idle)).set (4 + 2 * 2) 2129))).1 = Outcome.DATA_SPACE_ERROR ∧
    (IRdecodeBase.decodeGeneric (MATCH 25 50) 0 2400 600 1200 600 600 0
        (IRdecode.fresh.receive ((mergedFrameOf 20000 (IRsendBase.emitted (IRsendSony.send 0xA5C 12 false)
          IRsendBase.idle)).set (3 + 2 * 0) 1488))).1 = Outcome.matched ∧
    (IRdecodeBase.decodeGeneric (MATCH 25 50) 0 2400 600 1200 600 600 0
        (IRdecode.fresh.receive ((mergedFrameOf 20000 (IRsendBase.emitted (IRsendSony.send 0xA5C 12 false)
          IRsendBase.idle)).set (3 + 2 * 0) 1488))).2.value = 0xA5C ∧
    (IRdecodeBase.decodeGeneric (MATCH 25 50) 0 2400 600 1200 600 600 0
        (IRdecode.fresh.receive ((mergedFrameOf 20000 (IRsendBase.emitted (IRsendSony.send 0xA5C 12 false)
          IRsendBase.idle)).set (3 + 2 * 0) 1512))).1 = Outcome.DATA_MARK_ERROR) :=
  ⟨by decide,
   tolerance_boundary 50 (by decide) 0x20DF10EF (by decide) 2 (by decide) (by decide)
     12 (by decide) 0xA5C (by decide) 0 (by decide) (by decide) 2094 2129 1488 1512
     (by decide) (by decide) (by decide) (by decide) 20000 IRsendBase.idle IRdecode.fresh⟩

/-! ## Runs of base units -/

theorem dropTrailingSpace_bump (a : Nat) (l : List Pulse) :
    dropTrailingSpace (bump a l) = bump a (dropTrailingSpace l) := by
  cases l with
  | nil => rfl
  | cons p r =>
    cases r with
    | nil =>
      simp only [bump, dropTrailingSpace]
      by_cases hp : p.isMark = true
      · simp [hp, bump]
      · simp [hp, bump]
    | cons q r2 => simp [bump, dropTrailingSpace]

/-- How the runs of a stream grow when a unit is put in front. -/
theorem runsOf_cons (t1 : Nat) (u : Bool) (us : List Bool) :
    runsOf t1 (u :: us) =
      match us with
      | [] => if u then [⟨true, t1⟩] else []
      | w :: _ => if u = w then bump t1 (runsOf t1 us) else ⟨u, t1⟩ :: runsOf t1 us := by
  cases us with
  | nil =>
    cases u <;> simp [runsOf, unitPulses, mergeLevels, dropTrailingSpace]
  | cons w us1 =>
    obtain ⟨c, r, e⟩ := mergeLevels_cons_head ⟨w, t1⟩ (unitPulses t1 us1)
    have em : mergeLevels (unitPulses t1 (w :: us1)) = ⟨w, c⟩ :: r := e
    simp only [runsOf]
    have e0 : unitPulses t1 (u :: w :: us1) = ⟨u, t1⟩ :: unitPulses t1 (w :: us1) := rfl
    rw [e0, mergeLevels_cons, em]
    by_cases h : u = w
    · subst h
      simp only [if_true]
      rw [← dropTrailingSpace_bump]
      rfl
    · simp only [h, if_false]
      rfl

theorem bump_zero (l : List Pulse) : bump 0 l = l := by
  cases l with
  | nil => rfl
  | cons p r => simp [bump]

theorem bump_bump (a b : Nat) (l : List Pulse) : bump a (bump b l) = bump (a + b) l := by
  cases l with
  | nil => rfl
  | cons p r => simp [bump, Nat.add_assoc]

theorem bump_length (a : Nat) (l : List Pulse) : (bump a l).length = l.length := by
  cases l <;> rfl

theorem bump_eq_nil (a : Nat) (l : List Pulse) : bump a l = [] ↔ l = [] := by
  cases l <;> simp [bump]

/-- The first run has the level of the first unit. -/
theorem runsOf_head (t1 : Nat) : ∀ (us : List Bool) (u : Bool) (p : Pulse) (r : List Pulse),
    runsOf t1 (u :: us) = p :: r → p.isMark = u := by
  intro us
  induction us with
  | nil =>
    intro u p r h
    rw [runsOf_cons] at h
    cases u
    · simp at h
    · simp at h; rw [← h.1]
  | cons w us1 ih =>
    intro u p r h
    rw [runsOf_cons] at h
    by_cases huw : u = w
    · subst huw
      simp only [if_true] at h
      cases hR : runsOf t1 (u :: us1) with
      | nil => rw [hR] at h; simp [bump] at h
      | cons q r2 =>
        rw [hR] at h
        simp only [bump, List.cons.injEq] at h
        rw [← h.1]
        exact ih u q r2 hR
    · simp only [huw, if_false, List.cons.injEq] at h
      rw [← h.1]

/-- A stream has no runs left exactly when it has no mark. -/
theorem runsOf_eq_nil (t1 : Nat) : ∀ (us : List Bool),
    runsOf t1 us = [] ↔ ∀ u ∈ us, u = false := by
  intro us
  induction us with
  | nil => simp [runsOf, unitPulses, mergeLevels, dropTrailingSpace]
  | cons u us1 ih =>
    rw [runsOf_cons]
    cases us1 with
    | nil => cases u <;> simp
    | cons w us2 =>
      by_cases huw : u = w
      · subst huw
        simp only [if_true, bump_eq_nil, ih]
        simp
      · simp only [huw, if_false]
        constructor
        · intro h; simp at h
        · intro h
          have h1 := h u (by simp)
          have h2 := h w (by simp)
          exact absurd (h1.trans h2.symm) huw

/-- Every run lasts a positive time. -/
theorem runsOf_pos (t1 : Nat) (ht : 0 < t1) : ∀ (us : List Bool),
    ∀ p ∈ runsOf t1 us, 0 < p.usec := by
  intro us
  induction us with
  | nil => intro p hp; simp [runsOf, unitPulses, mergeLevels, dropTrailingSpace] at hp
  | cons u us1 ih =>
    intro p hp
    rw [runsOf_cons] at hp
    cases us1 with
    | nil =>
      cases u
      · simp at hp
      · simp at hp; rw [hp]; exact ht
    | cons w us2 =>
      by_cases huw : u = w
      · subst huw
        simp only [if_true] at hp
        cases hR : runsOf t1 (u :: us2) with
        | nil => rw [hR] at hp; simp [bump] at hp
        | cons q r2 =>
          rw [hR] at hp ih
          simp only [bump, List.mem_cons] at hp
          rcases hp with h | h
          · rw [h]; simp only []; omega
          · exact ih p (by simp [h])
      · simp only [huw, if_false, List.mem_cons] at hp
        rcases hp with h | h
        · rw [h]; exact ht
        · exact ih p h

/-- The first run of `u :: us` is either the unit `u` alone, followed by the runs of `us`,
or the first run of `us` made one unit longer. -/
theorem runsOf_cons_cases (t1 : Nat) (ht : 0 < t1) (u : Bool) (us : List Bool) (p : Pulse)
    (r : List Pulse) (h : runsOf t1 (u :: us) = p :: r) :
    p.isMark = u ∧
    ((p.usec = t1 ∧ runsOf t1 us = r) ∨
     (∃ q, runsOf t1 us = q :: r ∧ p.usec = t1 + q.usec ∧ 0 < q.usec)) := by
  refine ⟨runsOf_head t1 us u p r h, ?_⟩
  rw [runsOf_cons] at h
  cases us with
  | nil =>
    cases u
    · simp at h
    · simp only [if_true, List.cons.injEq] at h
      left
      refine ⟨by rw [← h.1], ?_⟩
      rw [← h.2]
      simp [runsOf, unitPulses, mergeLevels, dropTrailingSpace]
  | cons w us2 =>
    by_cases huw : u = w
    · subst huw
      simp only [if_true] at h
      cases hR : runsOf t1 (u :: us2) with
      | nil => rw [hR] at h; simp [bump] at h
      | cons q r2 =>
        rw [hR] at h
        simp only [bump, List.cons.injEq] at h
        right
        refine ⟨q, by rw [h.2], by rw [← h.1], ?_⟩
        exact runsOf_pos t1 ht (u :: us2) q (by rw [hR]; simp)
    · simp only [huw, if_false, List.cons.injEq] at h
      left
      exact ⟨by rw [← h.1], h.2⟩

/-- `getRClevel` on a sample that is a whole number of base units. -/
theorem getRClevel_unitsOf (M : Nat → Nat → Bool) (t1 : Nat) (d : IRdecode) (a : Nat)
    (hlt : d.offset < d.rawlen) (ha : unitsOf M t1 (d.rawbuf d.offset) = some a) :
    IRdecodeRC.getRClevel M t1 d =
      (if d.offset % 2 ≠ 0 then RCLevel.MARK else RCLevel.SPACE,
       if toUInt (d.used + 1) ≥ a then
         { d with used := 0, offset := toUInt (d.offset + 1) }
       else { d with used := toUInt (d.used + 1) }) := by
  unfold IRdecodeRC.getRClevel
  rw [if_neg (by omega)]
  unfold unitsOf at ha
  cases h1 : M (d.rawbuf d.offset) t1 <;> cases h2 : M (d.rawbuf d.offset) (2 * t1) <;>
    cases h3 : M (d.rawbuf d.offset) (3 * t1) <;>
    simp only [h1, h2, h3, Bool.false_eq_true, if_true, if_false, Option.some.injEq] at ha <;>
    first
    | exact absurd ha (by simp)
    | (subst ha
       simp only [h1, h2, h3, Bool.false_eq_true, if_true, if_false]
       split_ifs <;> rfl)

theorem unitsOf_le (M : Nat → Nat → Bool) (t1 w a : Nat) (h : unitsOf M t1 w = some a) :
    1 ≤ a ∧ a ≤ 3 := by
  unfold unitsOf at h
  split_ifs at h <;> simp at h <;> omega

/-- One call of `getRClevel` hands out the next unit of the stream and moves the cursor
behind it.  After the last sample every further unit is read as a space. -/
theorem getRClevel_unit (M : Nat → Nat → Bool) (t1 : Nat) (ht : 0 < t1) (d : IRdecode)
    (u : Bool) (us : List Bool) (h : Reads M t1 d (u :: us)) :
    ∃ o k, IRdecodeRC.getRClevel M t1 d = (levelOf u, { d with offset := o, used := k }) ∧
      Reads M t1 { d with offset := o, used := k } us := by
  obtain ⟨hh, hlen, hsmall, hzero⟩ := h
  cases hR : runsOf t1 (u :: us) with
  | nil =>
    have hall := (runsOf_eq_nil t1 (u :: us)).mp hR
    have hu : u = false := hall u (by simp)
    have hus : runsOf t1 us = [] :=
      (runsOf_eq_nil t1 us).mpr (fun x hx => hall x (by simp [hx]))
    rw [hR] at hlen
    refine ⟨d.offset, d.used, ?_, ?_⟩
    · unfold IRdecodeRC.getRClevel
      rw [if_pos (by simp at hlen; omega), hu]
      rfl
    · refine ⟨?_, ?_, hsmall, fun _ => hzero hR⟩
      · rw [hus]; simp [bump, holdsRuns]
      · rw [hus]; exact hlen
  | cons p r =>
    rw [hR] at hh hlen
    obtain ⟨hlvl, hcase⟩ := runsOf_cons_cases t1 ht u us p r hR
    simp only [bump, holdsRuns] at hh
    obtain ⟨hbuf, hpar, ⟨a, hua, hat⟩, hrest⟩ := hh
    simp only [List.length_cons] at hlen
    have hlt : d.offset < d.rawlen := by omega
    have ha3 := unitsOf_le M t1 _ a hua
    have hval : (if d.offset % 2 ≠ 0 then RCLevel.MARK else RCLevel.SPACE) = levelOf u := by
      rw [← hlvl, hpar]
      unfold levelOf
      by_cases hodd : d.offset % 2 = 1
      · simp [hodd]
      · have : d.offset % 2 = 0 := by omega
        simp [this]
    have hstep := getRClevel_unitsOf M t1 d a hlt (by rw [hbuf]; exact hua)
    rw [hval] at hstep
    rcases hcase with ⟨hp, hr⟩ | ⟨q, hq, hp, hqpos⟩
    · have hak : a = d.used + 1 := by
        rw [hp] at hat
        have e : d.used * t1 + t1 = (d.used + 1) * t1 := by ring
        rw [e] at hat
        exact (Nat.eq_of_mul_eq_mul_right ht hat).symm
      have e1 : toUInt (d.used + 1) = d.used + 1 := toUInt_of_lt (by omega)
      have e2 : toUInt (d.offset + 1) = d.offset + 1 := toUInt_of_lt (by omega)
      refine ⟨d.offset + 1, 0, ?_, ?_⟩
      · rw [hstep, e1, e2, if_pos (by omega)]
      · refine ⟨?_, ?_, hsmall, fun _ => rfl⟩
        · simp only [Nat.zero_mul, bump_zero, hr]
          exact hrest
        · simp only [hr]; omega
    · have hak : d.used + 1 < a := by
        rw [hp] at hat
        have e : d.used * t1 + (t1 + q.usec) = (d.used + 1) * t1 + q.usec := by ring
        rw [e] at hat
        have : (d.used + 1) * t1 < a * t1 := by omega
        exact Nat.lt_of_mul_lt_mul_right this
      have e1 : toUInt (d.used + 1) = d.used + 1 := toUInt_of_lt (by omega)
      refine ⟨d.offset, d.used + 1, ?_, ?_⟩
      · rw [hstep, e1, if_neg (by omega)]
      · refine ⟨?_, ?_, hsmall, fun hnil => by rw [hq] at hnil; simp at hnil⟩
        · simp only [hq, bump, holdsRuns]
          have hql : q.isMark = p.isMark := by
            have := runsOf_head t1 us u
            cases us with
            | nil => simp [runsOf, unitPulses, mergeLevels, dropTrailingSpace] at hq
            | cons w us2 =>
              rw [runsOf_cons] at hR
              by_cases huw : u = w
              · subst huw
                rw [hlvl]
                exact runsOf_head t1 us2 u q r hq
              · simp only [huw, if_false, List.cons.injEq] at hR
                rw [hq] at hR
                have hl := congrArg List.length hR.2
                simp at hl
          have earith : (d.used + 1) * t1 + q.usec = d.used * t1 + p.usec := by
            rw [hp]; ring
          rw [earith, hql]
          exact ⟨hbuf, hpar, ⟨a, hua, hat⟩, hrest⟩
        · simp only [hq, List.length_cons]; omega

theorem runsOf_nil (t1 : Nat) : runsOf t1 [] = [] := rfl

theorem runsOf_cons_length (t1 : Nat) (u : Bool) (us : List Bool) :
    (runsOf t1 us).length ≤ (runsOf t1 (u :: us)).length := by
  rw [runsOf_cons]
  cases us with
  | nil => simp [runsOf_nil]
  | cons w us2 =>
    by_cases huw : u = w
    · simp only [huw, if_true, bump_length]; exact Nat.le_refl _
    · simp only [huw, if_false, List.length_cons]; omega

theorem runsOf_length_le (t1 : Nat) : ∀ (us : List Bool), (runsOf t1 us).length ≤ us.length := by
  intro us
  induction us with
  | nil => simp [runsOf_nil]
  | cons u us1 ih =>
    rw [runsOf_cons]
    cases us1 with
    | nil => cases u <;> simp
    | cons w us2 =>
      by_cases huw : u = w
      · simp only [huw, if_true, bump_length]
        simp only [List.length_cons] at ih ⊢
        omega
      · simp only [huw, if_false, List.length_cons] at ih ⊢
        omega

/-- The samples of `runsOf` alternate, starting with the level of the first unit. -/
theorem runsOf_parity (t1 : Nat) : ∀ (us : List Bool) (u : Bool) (i : Nat) (p : Pulse),
    (runsOf t1 (u :: us))[i]? = some p → p.isMark = (if i % 2 = 0 then u else !u) := by
  intro us
  induction us with
  | nil =>
    intro u i p h
    rw [runsOf_cons] at h
    cases u
    · simp at h
    · cases i with
      | zero => simp at h; rw [← h]; rfl
      | succ i => simp at h
  | cons w us1 ih =>
    intro u i p h
    rw [runsOf_cons] at h
    by_cases huw : u = w
    · subst huw
      simp only [if_true] at h
      cases hR : runsOf t1 (u :: us1) with
      | nil => rw [hR] at h; simp [bump] at h
      | cons q r2 =>
        rw [hR] at h
        cases i with
        | zero =>
          simp only [bump, List.getElem?_cons_zero, Option.some.injEq] at h
          rw [← h]
          have := ih u 0 q (by rw [hR]; simp)
          simpa using this
        | succ i =>
          simp only [bump, List.getElem?_cons_succ] at h
          exact ih u (i + 1) p (by rw [hR]; simpa using h)
    · simp only [huw, if_false] at h
      cases i with
      | zero =>
        simp only [List.getElem?_cons_zero, Option.some.injEq] at h
        rw [← h]; rfl
      | succ i =>
        simp only [List.getElem?_cons_succ] at h
        have := ih w i p h
        rw [this]
        have hw : w = !u := by cases u <;> cases w <;> simp_all
        subst hw
        by_cases hi : i % 2 = 0
        · have : (i + 1) % 2 ≠ 0 := by omega
          simp [hi, this]
        · have : (i + 1) % 2 = 0 := by omega
          simp [hi, this]

/-- A frame whose tail is a list of alternating samples, each a whole number of base
units, holds those samples. -/
theorem holdsRuns_frame (M : Nat → Nat → Bool) (t1 : Nat) (dflt : Nat → Nat) :
    ∀ (ps : List Pulse) (pre : List Nat),
    (∀ i p, ps[i]? = some p → p.isMark = decide ((pre.length + i) % 2 = 1)) →
    (∀ p ∈ ps, ∃ a, unitsOf M t1 p.usec = some a ∧ p.usec = a * t1) →
    holdsRuns M t1 (fun i => (pre ++ ps.map Pulse.usec).getD i (dflt i)) pre.length ps := by
  intro ps
  induction ps with
  | nil => intro pre _ _; trivial
  | cons p ps ih =>
    intro pre hpar hgood
    have ih1 := ih (pre ++ [p.usec]) (fun i q hq => by
        have := hpar (i + 1) q (by simpa using hq)
        rw [this]
        simp only [List.length_append, List.length_cons, List.length_nil]
        congr 2
        omega)
      (fun q hq => hgood q (by simp [hq]))
    have elist : pre ++ [p.usec] ++ ps.map Pulse.usec = pre ++ (p :: ps).map Pulse.usec := by
      simp
    have elen : (pre ++ [p.usec]).length = pre.length + 1 := by simp
    rw [elist, elen] at ih1
    refine ⟨?_, ?_, hgood p (by simp), ih1⟩
    · simp only []
      rw [List.getD_append_right _ _ _ _ (Nat.le_refl _)]
      simp
    · have := hpar 0 p (by simp)
      simpa using this

/-- Adding the final space of an emission does not change the samples of the frame. -/
theorem dropTrailingSpace_mergeLevels_append (t : Nat) : ∀ (ps : List Pulse),
    dropTrailingSpace (mergeLevels (ps ++ [⟨false, t⟩])) =
      dropTrailingSpace (mergeLevels ps) := by
  intro ps
  induction ps with
  | nil => simp [mergeLevels, dropTrailingSpace]
  | cons p ps1 ih =>
    cases ps1 with
    | nil =>
      simp only [List.nil_append, List.cons_append]
      by_cases hp : p.isMark = true
      · rw [mergeLevels_cons_ne _ _ _ (by simp [hp])]
        simp [mergeLevels, dropTrailingSpace, hp]
      · have hp' : p.isMark = false := by simpa using hp
        have e : p = ⟨false, p.usec⟩ := by cases p; simp_all
        rw [e, mergeLevels_cons_eq]
        simp [mergeLevels, dropTrailingSpace]
    | cons x xs =>
      obtain ⟨ca, ra, ea⟩ := mergeLevels_cons_head x (xs ++ [⟨false, t⟩])
      obtain ⟨cb, rb, eb⟩ := mergeLevels_cons_head x xs
      have ea' : mergeLevels ((x :: xs) ++ [⟨false, t⟩]) = ⟨x.isMark, ca⟩ :: ra := ea
      rw [ea', eb] at ih
      have e1 : (p :: x :: xs) ++ [⟨false, t⟩] = p :: ((x :: xs) ++ [⟨false, t⟩]) := rfl
      rw [e1, mergeLevels_cons, mergeLevels_cons p (x :: xs), ea', eb]
      by_cases hl : p.isMark = x.isMark
      · simp only [hl, if_true]
        have ha : (⟨x.isMark, p.usec + ca⟩ : Pulse) :: ra = bump p.usec (⟨x.isMark, ca⟩ :: ra) := rfl
        have hb : (⟨x.isMark, p.usec + cb⟩ : Pulse) :: rb = bump p.usec (⟨x.isMark, cb⟩ :: rb) := rfl
        rw [ha, hb, dropTrailingSpace_bump, dropTrailingSpace_bump, ih]
      · simp only [hl, if_false]
        rw [dropTrailingSpace_cons_cons, dropTrailingSpace_cons_cons, ih]

/-- A decoder whose cursor stands at the start of the runs of a stream, in a frame that
holds them, reads that stream. -/
theorem Reads_frame (M : Nat → Nat → Bool) (t1 : Nat) (pre : List Nat) (dflt : Nat → Nat)
    (u : Bool) (us : List Bool) (d0 : IRdecode)
    (hpar : u = decide (pre.length % 2 = 1))
    (hgood : ∀ p ∈ runsOf t1 (u :: us), ∃ a, unitsOf M t1 p.usec = some a ∧ p.usec = a * t1)
    (hlen : pre.length + (u :: us).length < 65536)
    (hbuf : d0.rawbuf = fun i => (pre ++ (runsOf t1 (u :: us)).map Pulse.usec).getD i (dflt i))
    (hrl : d0.rawlen = pre.length + (runsOf t1 (u :: us)).length)
    (hoff : d0.offset = pre.length) (hused : d0.used = 0) :
    Reads M t1 d0 (u :: us) := by
  unfold Reads
  rw [hused, Nat.zero_mul, bump_zero, hbuf, hoff]
  refine ⟨holdsRuns_frame M t1 dflt _ pre ?_ hgood, hrl, ?_, fun _ => rfl⟩
  · intro i p hp
    rw [runsOf_parity t1 us u i p hp, hpar]
    by_cases h1 : pre.length % 2 = 1 <;> by_cases h2 : i % 2 = 0
    · have : (pre.length + i) % 2 = 1 := by omega
      simp [h1, h2, this]
    · have : ¬ (pre.length + i) % 2 = 1 := by omega
      simp [h1, h2, this]
    · have : ¬ (pre.length + i) % 2 = 1 := by omega
      simp [h1, h2, this]
    · have : (pre.length + i) % 2 = 1 := by omega
      simp [h1, h2, this]
  · have := runsOf_length_le t1 (u :: us)
    omega

theorem runsOf_cons_ne (t1 : Nat) (u w : Bool) (us : List Bool) (h : u ≠ w) :
    runsOf t1 (u :: w :: us) = ⟨u, t1⟩ :: runsOf t1 (w :: us) := by
  rw [runsOf_cons]
  simp [h]

theorem runsOf_cons_eq (t1 : Nat) (u : Bool) (us : List Bool) :
    runsOf t1 (u :: u :: us) = bump t1 (runsOf t1 (u :: us)) := by
  rw [runsOf_cons]
  simp

/-- A run of `u :: us` is the unit `u` alone, a run of `us`, or the first run of `us` made
one unit longer. -/
theorem runsOf_cons_mem (t1 : Nat) (ht : 0 < t1) (u : Bool) (us : List Bool) (p : Pulse)
    (hp : p ∈ runsOf t1 (u :: us)) :
    p.usec = t1 ∨ p ∈ runsOf t1 us ∨ (∃ q r, runsOf t1 us = q :: r ∧ p.usec = t1 + q.usec) := by
  cases hR : runsOf t1 (u :: us) with
  | nil => rw [hR] at hp; simp at hp
  | cons p0 r0 =>
    rw [hR] at hp
    obtain ⟨_, hcase⟩ := runsOf_cons_cases t1 ht u us p0 r0 hR
    simp only [List.mem_cons] at hp
    rcases hcase with ⟨h1, h2⟩ | ⟨q, hq, h1, _⟩
    · rcases hp with h | h
      · left; rw [h]; exact h1
      · right; left; rw [h2]; exact h
    · rcases hp with h | h
      · right; right; exact ⟨q, r0, hq, by rw [h]; exact h1⟩
      · right; left; rw [hq]; simp [h]

/-- The first run of `u :: us` is the unit alone or the first run of `us` made one unit
longer. -/
theorem runsOf_cons_first (t1 : Nat) (ht : 0 < t1) (u : Bool) (us : List Bool) (p : Pulse)
    (r : List Pulse) (h : runsOf t1 (u :: us) = p :: r) :
    p.usec = t1 ∨ (∃ q r2, runsOf t1 us = q :: r2 ∧ p.usec = t1 + q.usec) := by
  obtain ⟨_, hcase⟩ := runsOf_cons_cases t1 ht u us p r h
  rcases hcase with ⟨h1, _⟩ | ⟨q, hq, h1, _⟩
  · left; exact h1
  · right; exact ⟨q, r, hq, h1⟩

/-! ## RC5 -/

/-- The bit loop of `IRsendRC5::send` emits the half-bit units of the bits of the value,
most significant first. -/
theorem RC5_bitLoop_out : ∀ (n : Nat), n ≤ 32 → ∀ (v : Nat) (s : IRsendBase),
    (IRsendRC5.bitLoop n (v * 2 ^ (32 - n)) s).out =
      s.out ++ unitPulses RC5_T1 ((msbBits n v).flatMap halvesRC5) := by
  intro n
  induction n with
  | zero => intro _ v s; simp [IRsendRC5.bitLoop, msbBits, unitPulses]
  | succ n ih =>
    intro hn v s
    unfold IRsendRC5.bitLoop
    simp only [next_shifted (show n ≤ 31 by omega)]
    rw [ih (by omega), msbBits_mod v n n (Nat.le_refl n)]
    by_cases hb : v.testBit n = true
    · rw [if_pos ((topbit_shifted (show n ≤ 31 by omega)).mpr hb)]
      simp [msbBits, halvesRC5, unitPulses, hb, IRsendBase.mark, IRsendBase.space]
    · rw [if_neg (fun h => hb ((topbit_shifted (show n ≤ 31 by omega)).mp h))]
      simp [msbBits, halvesRC5, unitPulses, hb, IRsendBase.mark, IRsendBase.space]

/-- The frame a receiver gets from `IRsendRC5::send`: the gap and the runs of the start
mark followed by the half-bit units of the thirteen bits. -/
theorem mergedFrameOf_RC5 (v gap : Nat) (s : IRsendBase) (hv : v < 2 ^ 13) :
    mergedFrameOf gap (IRsendBase.emitted (IRsendRC5.send v) s) =
      gap :: (runsOf RC5_T1 (true :: (msbBits 13 v).flatMap halvesRC5)).map Pulse.usec := by
  have hout : ∃ t, IRsendBase.emitted (IRsendRC5.send v) s =
      unitPulses RC5_T1 (true :: (msbBits 13 v).flatMap halvesRC5) ++ [⟨false, t⟩] := by
    unfold IRsendBase.emitted IRsendRC5.send
    simp only [first_shifted (show 13 ≤ 32 by decide) hv, IRsendBase.space_out]
    refine ⟨_, congrArg₂ (fun a b => a ++ b) ?_ rfl⟩
    simp only [RC5_bitLoop_out 13 (by decide), IRsendBase.mark_out,
      IRsendBase.enableIROut_out]
    simp [unitPulses]
  obtain ⟨t, ht⟩ := hout
  unfold mergedFrameOf
  rw [ht, dropTrailingSpace_mergeLevels_append]
  rfl

/-- Runs of RC5 half-bit units: one or two units long, the first one unit long, and at
least one run per bit. -/
theorem RC5_runs (t1 : Nat) (ht : 0 < t1) : ∀ (bs : List Bool),
    (∀ p ∈ runsOf t1 (bs.flatMap halvesRC5), p.usec = t1 ∨ p.usec = 2 * t1) ∧
    (∀ p r, runsOf t1 (bs.flatMap halvesRC5) = p :: r → p.usec = t1) ∧
    bs.length ≤ (runsOf t1 (bs.flatMap halvesRC5)).length := by
  intro bs
  induction bs with
  | nil => simp [runsOf_nil]
  | cons b bs ih =>
    obtain ⟨ih1, ih2, ih3⟩ := ih
    have hstream : (b :: bs).flatMap halvesRC5 = (!b) :: b :: bs.flatMap halvesRC5 := by
      cases b <;> simp [halvesRC5]
    rw [hstream, runsOf_cons_ne t1 (!b) b _ (by cases b <;> simp)]
    refine ⟨?_, ?_, ?_⟩
    · intro p hp
      simp only [List.mem_cons] at hp
      rcases hp with h | h
      · left; rw [h]
      · rcases runsOf_cons_mem t1 ht b _ p h with h1 | h1 | ⟨q, r, hq, h1⟩
        · left; exact h1
        · exact ih1 p h1
        · right; rw [h1, ih2 q r hq]; omega
    · intro p r h
      simp only [List.cons.injEq] at h
      rw [← h.1]
    · have := runsOf_cons_length t1 b (bs.flatMap halvesRC5)
      simp only [List.length_cons]
      omega

/-- On a cursor in front of the half-bit units of the bits `bs`, the loop of
`IRdecodeRC5::decode` reads all of them and accumulates `bs`. -/
theorem RC5_bitLoop_reads (M : Nat → Nat → Bool) : ∀ (bs : List Bool) (fuel : Nat)
    (d : IRdecode), bs.length ≤ fuel → Reads M RC5_T1 d (bs.flatMap halvesRC5) →
    ∃ o k nb, IRdecodeRC5.bitLoop M fuel d =
      (.matched, { d with offset := o, used := k, nbits := nb,
                          data := bs.foldl shiftIn d.data }) := by
  intro bs
  induction bs with
  | nil =>
    intro fuel d _ h
    obtain ⟨_, hlen, _, _⟩ := h
    simp only [List.flatMap_nil, runsOf_nil, List.length_nil, Nat.add_zero] at hlen
    refine ⟨d.offset, d.used, d.nbits, ?_⟩
    cases fuel with
    | zero => rfl
    | succ f =>
      unfold IRdecodeRC5.bitLoop
      rw [if_neg (by omega)]
      rfl
  | cons b bs ih =>
    intro fuel d hfuel h
    cases fuel with
    | zero => simp at hfuel
    | succ f =>
      have hstream : (b :: bs).flatMap halvesRC5 = (!b) :: b :: bs.flatMap halvesRC5 := by
        cases b <;> simp [halvesRC5]
      rw [hstream] at h
      have hlt : d.offset < d.rawlen := by
        obtain ⟨_, hlen, _, _⟩ := h
        have hne : runsOf RC5_T1 ((!b) :: b :: bs.flatMap halvesRC5) ≠ [] := by
          rw [runsOf_cons_ne RC5_T1 (!b) b _ (by cases b <;> simp)]
          simp
        have : 0 < (runsOf RC5_T1 ((!b) :: b :: bs.flatMap halvesRC5)).length :=
          List.length_pos.mpr hne
        omega
      obtain ⟨o1, k1, hA, h1⟩ := getRClevel_unit M RC5_T1 (by decide) d (!b) _ h
      obtain ⟨o2, k2, hB, h2⟩ := getRClevel_unit M RC5_T1 (by decide)
        { d with offset := o1, used := k1 } b _ h1
      simp only [List.length_cons] at hfuel
      unfold IRdecodeRC5.bitLoop
      rw [if_pos hlt, hA]
      simp only []
      rw [hB]
      simp only []
      cases b with
      | true =>
        obtain ⟨o, k, nb, hrec⟩ := ih f
          { d with offset := o2, used := k2, data := toULong ((d.data <<< 1) ||| 1),
                   nbits := toUChar (d.nbits + 1) } (by omega) h2
        refine ⟨o, k, nb, ?_⟩
        simp only [levelOf, Bool.not_true, Bool.false_eq_true, if_false, if_true, and_self]
        rw [hrec]
        simp [shiftIn]
      | false =>
        obtain ⟨o, k, nb, hrec⟩ := ih f
          { d with offset := o2, used := k2, data := toULong (d.data <<< 1),
                   nbits := toUChar (d.nbits + 1) } (by omega) h2
        refine ⟨o, k, nb, ?_⟩
        simp only [levelOf, Bool.not_false, Bool.false_eq_true, if_false, if_true, and_self,
          reduceCtorEq, false_and, and_false]
        rw [hrec]
        simp [shiftIn]

/-- Round trip through `IRsendRC5::send` and `IRdecodeRC5::decode`, on the frame in its
run form. -/
theorem RC5_decode_runs (M : Nat → Nat → Bool) (h1 : M 889 889 = true)
    (h2 : M 1778 889 = false) (h3 : M 1778 1778 = true) (v : Nat) (hv : v < 2 ^ 13)
    (gap : Nat) (d : IRdecode) :
    ∃ d1, IRdecodeRC5.decode M (d.receive (gap ::
        (runsOf RC5_T1 (true :: (msbBits 13 v).flatMap halvesRC5)).map Pulse.usec)) =
      (.matched, d1) ∧ d1.decode_type = RC5 ∧ d1.value = v ∧ d1.bits = 13 := by
  have hruns := RC5_runs RC5_T1 (by decide) (msbBits 13 v)
  obtain ⟨hr1, hr2, hr3⟩ := hruns
  rw [msbBits_length] at hr3
  have hlenU := runsOf_cons_length RC5_T1 true ((msbBits 13 v).flatMap halvesRC5)
  have hgood : ∀ p ∈ runsOf RC5_T1 (true :: (msbBits 13 v).flatMap halvesRC5),
      ∃ a, unitsOf M RC5_T1 p.usec = some a ∧ p.usec = a * RC5_T1 := by
    intro p hp
    have e1 : RC5_T1 = 889 := rfl
    have e2 : 2 * RC5_T1 = 1778 := rfl
    have hsmall : p.usec = 889 ∨ p.usec = 1778 := by
      rcases runsOf_cons_mem RC5_T1 (by decide) true _ p hp with h | h | ⟨q, r, hq, h⟩
      · left; exact h
      · rcases hr1 p h with h | h
        · left; exact h
        · right; exact h
      · right; rw [h, hr2 q r hq]; omega
    rcases hsmall with h | h
    · exact ⟨1, by rw [h]; simp [unitsOf, e1, h1], by omega⟩
    · exact ⟨2, by rw [h]; simp only [unitsOf, e1, e2, h2, h3]; simp, by omega⟩
  have hUlen : (true :: (msbBits 13 v).flatMap halvesRC5).length = 27 := by
    have : ∀ bs : List Bool, (bs.flatMap halvesRC5).length = 2 * bs.length := by
      intro bs
      induction bs with
      | nil => rfl
      | cons b bs ih => cases b <;> simp [halvesRC5, ih] <;> omega
    simp only [List.length_cons, this, msbBits_length]
  have hreads : Reads M RC5_T1
      { d.receive (gap :: (runsOf RC5_T1
          (true :: (msbBits 13 v).flatMap halvesRC5)).map Pulse.usec) with
        offset := 1, data := 0, used := 0 }
      (true :: (msbBits 13 v).flatMap halvesRC5) :=
    Reads_frame M RC5_T1 [gap] d.rawbuf true _ _ (by simp) hgood (by rw [hUlen]; simp)
      rfl (by simp [IRdecode.receive]; omega) rfl rfl
  have hrawlen : 14 ≤ (d.receive (gap :: (runsOf RC5_T1
      (true :: (msbBits 13 v).flatMap halvesRC5)).map Pulse.usec)).rawlen := by
    simp only [IRdecode.receive, List.length_cons, List.length_map]
    omega
  generalize d.receive (gap :: (runsOf RC5_T1
      (true :: (msbBits 13 v).flatMap halvesRC5)).map Pulse.usec) = dr at hreads hrawlen ⊢
  obtain ⟨o1, k1, hA, hR1⟩ := getRClevel_unit M RC5_T1 (by decide) _ true _ hreads
  obtain ⟨o, k, nb, hloop⟩ := RC5_bitLoop_reads M (msbBits 13 v) (3 * dr.rawlen)
    { dr with offset := o1, data := 0, used := k1, nbits := 0 }
    (by rw [msbBits_length]; omega) hR1
  unfold IRdecodeRC5.decode
  rw [if_neg (by simp only [MIN_RC5_SAMPLES]; omega)]
  simp only []
  rw [hA]
  simp only [levelOf, if_true]
  rw [hloop]
  exact ⟨_, rfl, rfl, foldl_shiftIn_msbBits (by decide) hv, rfl⟩

/-- C4. RC5 phase-encoded round trip: for every 13-bit value `v`, and a matcher that
accepts 889 and 1778 against themselves and does not accept 1778 against 889, the frame
of `IRsendRC5::send(v)` — gap sample first, consecutive emissions of the same level merged
into one sample, trailing space dropped — is decoded by `IRdecodeRC5::decode` with
`decode_type = RC5`, `value = v` and `bits = 13` (space then mark is a one, mark then
space a zero). -/
theorem RC5_round_trip (M : Nat → Nat → Bool) (h1 : M 889 889 = true)
    (h2 : M 1778 889 = false) (h3 : M 1778 1778 = true) (v : Nat) (hv : v < 2 ^ 13)
    (gap : Nat) (s : IRsendBase) (d : IRdecode) :
    (IRdecodeRC5.decode M (d.receive (mergedFrameOf gap
        (IRsendBase.emitted (IRsendRC5.send v) s)))).1 = Outcome.matched ∧
    (IRdecodeRC5.decode M (d.receive (mergedFrameOf gap
        (IRsendBase.emitted (IRsendRC5.send v) s)))).2.decode_type = RC5 ∧
    (IRdecodeRC5.decode M (d.receive (mergedFrameOf gap
        (IRsendBase.emitted (IRsendRC5.send v) s)))).2.value = v ∧
    (IRdecodeRC5.decode M (d.receive (mergedFrameOf gap
        (IRsendBase.emitted (IRsendRC5.send v) s)))).2.bits = 13 := by
  rw [mergedFrameOf_RC5 v gap s hv]
  obtain ⟨d1, hd, ht, hval, hbits⟩ := RC5_decode_runs M h1 h2 h3 v hv gap d
  rw [hd]
  exact ⟨rfl, ht, hval, hbits⟩

theorem RC5_round_trip_witness :
    (MATCH 25 50 889 889 = true ∧ MATCH 25 50 1778 889 = false ∧
      MATCH 25 50 1778 1778 = true ∧ 0x1ABC < 2 ^ 13) ∧
    ((IRdecodeRC5.decode (MATCH 25 50) (IRdecode.fresh.receive (mergedFrameOf 20000
        (IRsendBase.emitted (IRsendRC5.send 0x1ABC) IRsendBase.idle)))).1 = Outcome.matched ∧
     (IRdecodeRC5.decode (MATCH 25 50) (IRdecode.fresh.receive (mergedFrameOf 20000
        (IRsendBase.emitted (IRsendRC5.send 0x1ABC) IRsendBase.idle)))).2.decode_type = RC5 ∧
     (IRdecodeRC5.decode (MATCH 25 50) (IRdecode.fresh.receive (mergedFrameOf 20000
        (IRsendBase.emitted (IRsendRC5.send 0x1ABC) IRsendBase.idle)))).2.value = 0x1ABC ∧
     (IRdecodeRC5.decode (MATCH 25 50) (IRdecode.fresh.receive (mergedFrameOf 20000
        (IRsendBase.emitted (IRsendRC5.send 0x1ABC) IRsendBase.idle)))).2.bits = 13) :=
  ⟨by decide,
   RC5_round_trip (MATCH 25 50) (by decide) (by decide) (by decide) 0x1ABC (by decide) 20000
     IRsendBase.idle IRdecode.fresh⟩

/-! ## RC6 -/

theorem mergeLevels_congr (p : Pulse) (A B : List Pulse) (h : mergeLevels A = mergeLevels B) :
    mergeLevels (p :: A) = mergeLevels (p :: B) := by
  rw [mergeLevels_cons, mergeLevels_cons, h]

/-- The bit loop of `IRsendRC6::send` emits the pulses of the bits of the value, most
significant first; the bit of index 3 goes out as two pulses of double width. -/
theorem RC6_bitLoop_out : ∀ (n : Nat), n ≤ 32 → ∀ (i v : Nat) (s : IRsendBase),
    (IRsendRC6.bitLoop n i (v * 2 ^ (32 - n)) s).out = s.out ++ pulsesRC6 i (msbBits n v) := by
  intro n
  induction n with
  | zero =>
    intro _ i v s
    simp [IRsendRC6.bitLoop, msbBits, pulsesRC6]
  | succ n ih =>
    intro hn i v s
    have hpulse : ∀ s0 : IRsendBase,
        (if v * 2 ^ (32 - (n + 1)) &&& TOPBIT ≠ 0 then
          (s0.mark (if i = 3 then 2 * RC6_T1 else RC6_T1)).space
            (if i = 3 then 2 * RC6_T1 else RC6_T1)
         else (s0.space (if i = 3 then 2 * RC6_T1 else RC6_T1)).mark
            (if i = 3 then 2 * RC6_T1 else RC6_T1)).out =
        s0.out ++ [⟨v.testBit n, if i = 3 then 2 * RC6_T1 else RC6_T1⟩,
                   ⟨!v.testBit n, if i = 3 then 2 * RC6_T1 else RC6_T1⟩] := by
      intro s0
      by_cases hb : v.testBit n = true
      · rw [if_pos ((topbit_shifted (show n ≤ 31 by omega)).mpr hb)]
        simp [hb]
      · rw [if_neg (fun h => hb ((topbit_shifted (show n ≤ 31 by omega)).mp h))]
        simp [hb]
    unfold IRsendRC6.bitLoop
    simp only [next_shifted (show n ≤ 31 by omega)]
    rw [ih (by omega), hpulse s, msbBits_mod v n n (Nat.le_refl n)]
    simp only [msbBits, pulsesRC6, List.append_assoc]

/-- Once equal levels are merged, the pulses of RC6 bits are the pulses of their units. -/
theorem pulsesRC6_merge : ∀ (bs : List Bool) (i : Nat) (X : List Pulse),
    mergeLevels (pulsesRC6 i bs ++ X) =
      mergeLevels (unitPulses RC6_T1 (unitsRC6 i bs) ++ X) := by
  intro bs
  induction bs with
  | nil => intro i X; simp [unitsRC6, unitPulses, pulsesRC6]
  | cons b bs ih =>
    intro i X
    have hm := ih (i + 1) X
    by_cases hi : i = 3
    · have e888 : 2 * RC6_T1 = RC6_T1 + RC6_T1 := by omega
      simp only [hi, if_true, pulsesRC6, unitsRC6, unitPulses, List.map_cons, List.map_append,
        List.cons_append, List.nil_append, List.append_assoc]
      rw [e888, ← mergeLevels_cons_eq]
      apply mergeLevels_congr
      apply mergeLevels_congr
      rw [← mergeLevels_cons_eq]
      apply mergeLevels_congr
      apply mergeLevels_congr
      simpa [hi, unitPulses] using hm
    · simp only [hi, if_false, pulsesRC6, unitsRC6, unitPulses, List.map_cons, List.map_append,
        List.cons_append, List.nil_append, List.append_assoc]
      apply mergeLevels_congr
      apply mergeLevels_congr
      simpa [unitPulses] using hm

/-- What `IRsendRC6::send` emits: header mark and space, the start bit, the pulses of the
bits, and a closing space. -/
theorem RC6_emitted (v nbits : Nat) (s : IRsendBase) (hn : nbits ≤ 32) (hv : v < 2 ^ nbits) :
    ∃ t, IRsendBase.emitted (IRsendRC6.send v nbits) s =
      (⟨true, 2666⟩ :: ⟨false, 889⟩ :: ⟨true, RC6_T1⟩ :: ⟨false, RC6_T1⟩ ::
        pulsesRC6 0 (msbBits nbits v)) ++ [⟨false, t⟩] := by
  unfold IRsendBase.emitted IRsendRC6.send
  simp only [first_shifted hn hv, IRsendBase.space_out]
  refine ⟨_, congrArg₂ (fun a b => a ++ b) ?_ rfl⟩
  simp only [RC6_bitLoop_out nbits hn, IRsendBase.mark_out, IRsendBase.space_out,
    IRsendBase.enableIROut_out]
  simp

/-- The frame a receiver gets from `IRsendRC6::send`: the gap, the header mark and space,
and the runs of the start bit followed by the units of the bits. -/
theorem mergedFrameOf_RC6 (v nbits gap : Nat) (s : IRsendBase) (hn : nbits ≤ 32)
    (hv : v < 2 ^ nbits) :
    mergedFrameOf gap (IRsendBase.emitted (IRsendRC6.send v nbits) s) =
      gap :: 2666 :: 889 ::
        (runsOf RC6_T1 (true :: false :: unitsRC6 0 (msbBits nbits v))).map Pulse.usec := by
  obtain ⟨t, ht⟩ := RC6_emitted v nbits s hn hv
  have hm := pulsesRC6_merge (msbBits nbits v) 0
  unfold mergedFrameOf
  rw [ht]
  simp only [List.cons_append]
  rw [mergeLevels_cons_ne ⟨true, 2666⟩ ⟨false, 889⟩ _ (by simp),
    mergeLevels_cons_ne ⟨false, 889⟩ ⟨true, RC6_T1⟩ _ (by simp)]
  have hmerge : mergeLevels (⟨true, RC6_T1⟩ :: ⟨false, RC6_T1⟩ ::
      (pulsesRC6 0 (msbBits nbits v) ++ [⟨false, t⟩])) =
      mergeLevels (unitPulses RC6_T1 (true :: false :: unitsRC6 0 (msbBits nbits v)) ++
        [⟨false, t⟩]) := by
    have := hm [⟨false, t⟩]
    simp only [unitPulses, List.map_cons, List.cons_append]
    apply mergeLevels_congr
    apply mergeLevels_congr
    simpa [unitPulses] using this
  rw [hmerge]
  obtain ⟨c, r, e⟩ := mergeLevels_cons_head ⟨true, RC6_T1⟩
    (unitPulses RC6_T1 (false :: unitsRC6 0 (msbBits nbits v)) ++ [⟨false, t⟩])
  have e' : mergeLevels (unitPulses RC6_T1 (true :: false :: unitsRC6 0 (msbBits nbits v)) ++
      [⟨false, t⟩]) = ⟨true, c⟩ :: r := e
  have hrun : runsOf RC6_T1 (true :: false :: unitsRC6 0 (msbBits nbits v)) =
      dropTrailingSpace (⟨true, c⟩ :: r) := by
    unfold runsOf
    rw [← dropTrailingSpace_mergeLevels_append t, e']
  rw [e', dropTrailingSpace_cons_cons, dropTrailingSpace_cons_cons, hrun]
  rfl

/-- A unit in front of runs of one to three units whose first is one or two units long
leaves runs of one to three units. -/
theorem runsOf_cons_sizes (t1 : Nat) (ht : 0 < t1) (u : Bool) (us : List Bool)
    (hA : ∀ p ∈ runsOf t1 us, p.usec = t1 ∨ p.usec = 2 * t1 ∨ p.usec = 3 * t1)
    (hH : ∀ p r, runsOf t1 us = p :: r → p.usec = t1 ∨ p.usec = 2 * t1) :
    ∀ p ∈ runsOf t1 (u :: us), p.usec = t1 ∨ p.usec = 2 * t1 ∨ p.usec = 3 * t1 := by
  intro p hp
  rcases runsOf_cons_mem t1 ht u us p hp with h | h | ⟨q, r, hq, h⟩
  · left; exact h
  · exact hA p h
  · rcases hH q r hq with h2 | h2
    · right; left; rw [h, h2]; omega
    · right; right; rw [h, h2]; omega

/-- A unit in front of runs whose first is one unit long leaves a first run of one or two
units. -/
theorem runsOf_cons_first_sizes (t1 : Nat) (ht : 0 < t1) (u : Bool) (us : List Bool)
    (hH : ∀ p r, runsOf t1 us = p :: r → p.usec = t1) :
    ∀ p r, runsOf t1 (u :: us) = p :: r → p.usec = t1 ∨ p.usec = 2 * t1 := by
  intro p r h
  rcases runsOf_cons_first t1 ht u us p r h with h1 | ⟨q, r2, hq, h1⟩
  · left; exact h1
  · right; rw [h1, hH q r2 hq]; omega

/-- Runs of RC6 units from bit index `i` on: one to three units long, the first at most
two units and, away from the double-width bit, one unit long; at least one run per bit. -/
theorem RC6_runs (t1 : Nat) (ht : 0 < t1) : ∀ (bs : List Bool) (i : Nat),
    (∀ p ∈ runsOf t1 (unitsRC6 i bs), p.usec = t1 ∨ p.usec = 2 * t1 ∨ p.usec = 3 * t1) ∧
    (∀ p r, runsOf t1 (unitsRC6 i bs) = p :: r → p.usec = t1 ∨ p.usec = 2 * t1) ∧
    (i ≠ 3 → ∀ p r, runsOf t1 (unitsRC6 i bs) = p :: r → p.usec = t1) ∧
    bs.length ≤ (runsOf t1 (unitsRC6 i bs)).length := by
  intro bs
  induction bs with
  | nil => intro i; simp [unitsRC6, runsOf_nil]
  | cons b bs ih =>
    intro i
    obtain ⟨ihA, ihH2, ihH1, ihL⟩ := ih (i + 1)
    have hne : b ≠ !b := by cases b <;> simp
    have hA1 := runsOf_cons_sizes t1 ht (!b) _ ihA ihH2
    have hL1 := runsOf_cons_length t1 (!b) (unitsRC6 (i + 1) bs)
    by_cases hi : i = 3
    · subst hi
      have hH1 := ihH1 (by decide)
      have hH2a := runsOf_cons_first_sizes t1 ht (!b) _ hH1
      have hA2 := runsOf_cons_sizes t1 ht (!b) _ hA1 hH2a
      have hL2 := runsOf_cons_length t1 (!b) ((!b) :: unitsRC6 (3 + 1) bs)
      have e3 : runsOf t1 (b :: (!b) :: (!b) :: unitsRC6 (3 + 1) bs) =
          ⟨b, t1⟩ :: runsOf t1 ((!b) :: (!b) :: unitsRC6 (3 + 1) bs) :=
        runsOf_cons_ne t1 b (!b) _ hne
      have hA3 : ∀ p ∈ runsOf t1 (b :: (!b) :: (!b) :: unitsRC6 (3 + 1) bs),
          p.usec = t1 ∨ p.usec = 2 * t1 ∨ p.usec = 3 * t1 := by
        intro p hp
        rw [e3, List.mem_cons] at hp
        rcases hp with h | h
        · left; rw [h]
        · exact hA2 p h
      have hH3 : ∀ p r, runsOf t1 (b :: (!b) :: (!b) :: unitsRC6 (3 + 1) bs) = p :: r →
          p.usec = t1 := by
        intro p r h
        rw [e3, List.cons.injEq] at h
        rw [← h.1]
      have hstream : unitsRC6 3 (b :: bs) =
          b :: b :: (!b) :: (!b) :: unitsRC6 (3 + 1) bs := by
        simp [unitsRC6]
      rw [hstream]
      refine ⟨runsOf_cons_sizes t1 ht b _ hA3 (fun p r h => Or.inl (hH3 p r h)),
        runsOf_cons_first_sizes t1 ht b _ hH3, fun h => absurd rfl h, ?_⟩
      rw [runsOf_cons_eq, bump_length, e3]
      simp only [List.length_cons]
      omega
    · have hstream : unitsRC6 i (b :: bs) = b :: (!b) :: unitsRC6 (i + 1) bs := by
        simp [unitsRC6, hi]
      have e3 : runsOf t1 (b :: (!b) :: unitsRC6 (i + 1) bs) =
          ⟨b, t1⟩ :: runsOf t1 ((!b) :: unitsRC6 (i + 1) bs) :=
        runsOf_cons_ne t1 b (!b) _ hne
      rw [hstream, e3]
      refine ⟨?_, ?_, ?_, ?_⟩
      · intro p hp
        rw [List.mem_cons] at hp
        rcases hp with h | h
        · left; rw [h]
        · exact hA1 p h
      · intro p r h
        rw [List.cons.injEq] at h
        left; rw [← h.1]
      · intro _ p r h
        rw [List.cons.injEq] at h
        rw [← h.1]
      · simp only [List.length_cons]
        omega

theorem unitsRC6_length : ∀ (bs : List Bool) (i : Nat),
    (unitsRC6 i bs).length ≤ 4 * bs.length := by
  intro bs
  induction bs with
  | nil => intro i; simp [unitsRC6]
  | cons b bs ih =>
    intro i
    have := ih (i + 1)
    simp only [unitsRC6, List.length_append, List.length_cons]
    split_ifs <;> simp only [List.length_cons, List.length_nil] <;> omega

/-- On a cursor in front of the units of the bits `bs`, the first of index `i`, the loop
of `IRdecodeRC6::decode` reads all of them, accumulates `bs` and counts them. -/
theorem RC6_bitLoop_reads (M : Nat → Nat → Bool) : ∀ (bs : List Bool) (i fuel : Nat)
    (d : IRdecode), d.nbits = i → i + bs.length ≤ 255 → bs.length ≤ fuel →
    Reads M RC6_T1 d (unitsRC6 i bs) →
    ∃ o k, IRdecodeRC6.bitLoop M fuel d =
      (.matched, { d with offset := o, used := k, nbits := i + bs.length,
                          data := bs.foldl shiftIn d.data }) := by
  intro bs
  induction bs with
  | nil =>
    intro i fuel d hn _ _ h
    obtain ⟨_, hlen, _, _⟩ := h
    simp only [unitsRC6, runsOf_nil, List.length_nil, Nat.add_zero] at hlen
    refine ⟨d.offset, d.used, ?_⟩
    subst hn
    cases fuel with
    | zero => rfl
    | succ f =>
      unfold IRdecodeRC6.bitLoop
      rw [if_neg (by omega)]
      rfl
  | cons b bs ih =>
    intro i fuel d hn hi255 hfuel h
    cases fuel with
    | zero => simp at hfuel
    | succ f =>
      have hne : b ≠ !b := by cases b <;> simp
      simp only [List.length_cons] at hfuel hi255
      have hnb : toUChar (d.nbits + 1) = i + 1 := by
        rw [hn]; exact toUChar_of_lt (by omega)
      by_cases hi : i = 3
      · have hstream : unitsRC6 i (b :: bs) =
            b :: b :: (!b) :: (!b) :: unitsRC6 (i + 1) bs := by
          simp [unitsRC6, hi]
        rw [hstream] at h
        have hlt : d.offset < d.rawlen := by
          obtain ⟨_, hlen, _, _⟩ := h
          have hne2 : runsOf RC6_T1 (b :: b :: (!b) :: (!b) :: unitsRC6 (i + 1) bs) ≠ [] := by
            rw [runsOf_cons_eq, Ne, bump_eq_nil, runsOf_cons_ne RC6_T1 b (!b) _ hne]
            simp
          have : 0 < (runsOf RC6_T1
              (b :: b :: (!b) :: (!b) :: unitsRC6 (i + 1) bs)).length :=
            List.length_pos.mpr hne2
          omega
        obtain ⟨o1, k1, hA, h1⟩ := getRClevel_unit M RC6_T1 (by decide) d b _ h
        obtain ⟨o2, k2, hA2, h2⟩ := getRClevel_unit M RC6_T1 (by decide)
          { d with offset := o1, used := k1 } b _ h1
        obtain ⟨o3, k3, hB, h3⟩ := getRClevel_unit M RC6_T1 (by decide)
          { d with offset := o2, used := k2 } (!b) _ h2
        obtain ⟨o4, k4, hB2, h4⟩ := getRClevel_unit M RC6_T1 (by decide)
          { d with offset := o3, used := k3 } (!b) _ h3
        have hn3 : d.nbits = 3 := by rw [hn, hi]
        simp only [hn3] at hA hA2 hB hB2
        unfold IRdecodeRC6.bitLoop
        rw [if_pos hlt, hA]
        simp only [if_true, true_and]
        rw [hA2]
        simp only [ne_eq, not_true_eq_false, if_false]
        rw [hB]
        simp only [if_true, true_and]
        rw [hB2]
        simp only [ne_eq, not_true_eq_false, if_false]
        have hnb3 : toUChar (3 + 1) = i + 1 := by rw [hi]; exact toUChar_of_lt (by decide)
        rw [hnb3]
        cases b with
        | true =>
          obtain ⟨o, k, hrec⟩ := ih (i + 1) f
            { d with offset := o4, used := k4, data := toULong ((d.data <<< 1) ||| 1),
                     nbits := i + 1 } rfl (by omega) (by omega) h4
          refine ⟨o, k, ?_⟩
          simp only [levelOf, Bool.not_true, Bool.false_eq_true, if_false, if_true, and_self]
          rw [hrec]
          simp [shiftIn]
          omega
        | false =>
          obtain ⟨o, k, hrec⟩ := ih (i + 1) f
            { d with offset := o4, used := k4, data := toULong (d.data <<< 1),
                     nbits := i + 1 } rfl (by omega) (by omega) h4
          refine ⟨o, k, ?_⟩
          simp only [levelOf, Bool.not_false, Bool.false_eq_true, if_false, if_true, and_self,
            reduceCtorEq, false_and, and_false]
          rw [hrec]
          simp [shiftIn]
          omega
      · have hstream : unitsRC6 i (b :: bs) = b :: (!b) :: unitsRC6 (i + 1) bs := by
          simp [unitsRC6, hi]
        rw [hstream] at h
        have hlt : d.offset < d.rawlen := by
          obtain ⟨_, hlen, _, _⟩ := h
          have hne2 : runsOf RC6_T1 (b :: (!b) :: unitsRC6 (i + 1) bs) ≠ [] := by
            rw [runsOf_cons_ne RC6_T1 b (!b) _ hne]
            simp
          have : 0 < (runsOf RC6_T1 (b :: (!b) :: unitsRC6 (i + 1) bs)).length :=
            List.length_pos.mpr hne2
          omega
        obtain ⟨o1, k1, hA, h1⟩ := getRClevel_unit M RC6_T1 (by decide) d b _ h
        obtain ⟨o2, k2, hB, h2⟩ := getRClevel_unit M RC6_T1 (by decide)
          { d with offset := o1, used := k1 } (!b) _ h1
        have hn3 : ¬ d.nbits = 3 := by rw [hn]; exact hi
        simp only [hnb] at hA hB
        unfold IRdecodeRC6.bitLoop
        rw [if_pos hlt, hA]
        simp only [hn3, if_false, false_and]
        rw [hB]
        simp only [hn3, if_false, false_and, hnb]
        cases b with
        | true =>
          obtain ⟨o, k, hrec⟩ := ih (i + 1) f
            { d with offset := o2, used := k2, data := toULong ((d.data <<< 1) ||| 1),
                     nbits := i + 1 } rfl (by omega) (by omega) h2
          refine ⟨o, k, ?_⟩
          simp only [levelOf, Bool.not_true, Bool.false_eq_true, if_false, if_true, and_self]
          rw [hrec]
          simp [shiftIn]
          omega
        | false =>
          obtain ⟨o, k, hrec⟩ := ih (i + 1) f
            { d with offset := o2, used := k2, data := toULong (d.data <<< 1),
                     nbits := i + 1 } rfl (by omega) (by omega) h2
          refine ⟨o, k, ?_⟩
          simp only [levelOf, Bool.not_false, Bool.false_eq_true, if_false, if_true, and_self,
            reduceCtorEq, false_and, and_false]
          rw [hrec]
          simp [shiftIn]
          omega

/-- Round trip through `IRsendRC6::send` and `IRdecodeRC6::decode`, on the frame in its
run form. -/
theorem RC6_decode_runs (M : Nat → Nat → Bool) (hm1 : M 2666 2666 = true)
    (hm2 : M 889 889 = true) (h1 : M 444 444 = true) (h2 : M 888 444 = false)
    (h3 : M 888 888 = true) (h4 : M 1332 444 = false) (h5 : M 1332 888 = false)
    (h6 : M 1332 1332 = true) (v nbits : Nat) (hn : nbits ≤ 32) (hv : v < 2 ^ nbits)
    (gap : Nat) (d : IRdecode) :
    ∃ d1, IRdecodeRC6.decode M (d.receive (gap :: 2666 :: 889 ::
        (runsOf RC6_T1 (true :: false :: unitsRC6 0 (msbBits nbits v))).map Pulse.usec)) =
      (.matched, d1) ∧ d1.decode_type = RC6 ∧ d1.value = v ∧ d1.bits = nbits := by
  obtain ⟨hrA, hrH2, _, hrL⟩ := RC6_runs RC6_T1 (by decide) (msbBits nbits v) 0
  rw [msbBits_length] at hrL
  have hA1 := runsOf_cons_sizes RC6_T1 (by decide) false _ hrA hrH2
  have hL1 := runsOf_cons_length RC6_T1 false (unitsRC6 0 (msbBits nbits v))
  have e3 : runsOf RC6_T1 (true :: false :: unitsRC6 0 (msbBits nbits v)) =
      ⟨true, RC6_T1⟩ :: runsOf RC6_T1 (false :: unitsRC6 0 (msbBits nbits v)) :=
    runsOf_cons_ne RC6_T1 true false _ (by simp)
  have hgood : ∀ p ∈ runsOf RC6_T1 (true :: false :: unitsRC6 0 (msbBits nbits v)),
      ∃ a, unitsOf M RC6_T1 p.usec = some a ∧ p.usec = a * RC6_T1 := by
    intro p hp
    have e1 : RC6_T1 = 444 := rfl
    have e2 : 2 * RC6_T1 = 888 := rfl
    have e4 : 3 * RC6_T1 = 1332 := rfl
    have hsmall : p.usec = 444 ∨ p.usec = 888 ∨ p.usec = 1332 := by
      rw [e3, List.mem_cons] at hp
      rcases hp with h | h
      · left; rw [h]
      · exact hA1 p h
    rcases hsmall with h | h | h
    · exact ⟨1, by rw [h]; simp [unitsOf, e1, h1], by omega⟩
    · exact ⟨2, by rw [h]; simp only [unitsOf, e1, e2, h2, h3]; simp, by omega⟩
    · exact ⟨3, by rw [h]; simp only [unitsOf, e1, e2, e4, h4, h5, h6]; simp, by omega⟩
  have hUlen : (true :: false :: unitsRC6 0 (msbBits nbits v)).length ≤ 130 := by
    have := unitsRC6_length (msbBits nbits v) 0
    rw [msbBits_length] at this
    simp only [List.length_cons]
    omega
  have hreads : Reads M RC6_T1
      { d.receive (gap :: 2666 :: 889 :: (runsOf RC6_T1
          (true :: false :: unitsRC6 0 (msbBits nbits v))).map Pulse.usec) with
        offset := 3, data := 0, used := 0 }
      (true :: false :: unitsRC6 0 (msbBits nbits v)) :=
    Reads_frame M RC6_T1 [gap, 2666, 889] d.rawbuf true _ _ (by simp) hgood
      (by simp only [List.length_cons, List.length_nil] at hUlen ⊢; omega)
      rfl (by simp [IRdecode.receive]; omega) rfl rfl
  have hrawlen : nbits + 4 ≤ (d.receive (gap :: 2666 :: 889 :: (runsOf RC6_T1
      (true :: false :: unitsRC6 0 (msbBits nbits v))).map Pulse.usec)).rawlen := by
    simp only [IRdecode.receive, List.length_cons, List.length_map, e3]
    omega
  have hb1 : (d.receive (gap :: 2666 :: 889 :: (runsOf RC6_T1
      (true :: false :: unitsRC6 0 (msbBits nbits v))).map Pulse.usec)).rawbuf 1 = 2666 := rfl
  have hb2 : (d.receive (gap :: 2666 :: 889 :: (runsOf RC6_T1
      (true :: false :: unitsRC6 0 (msbBits nbits v))).map Pulse.usec)).rawbuf 2 = 889 := rfl
  generalize d.receive (gap :: 2666 :: 889 :: (runsOf RC6_T1
      (true :: false :: unitsRC6 0 (msbBits nbits v))).map Pulse.usec) = dr
    at hreads hrawlen hb1 hb2 ⊢
  obtain ⟨o1, k1, hA, hR1⟩ := getRClevel_unit M RC6_T1 (by decide) _ true _ hreads
  obtain ⟨o2, k2, hB, hR2⟩ := getRClevel_unit M RC6_T1 (by decide) _ false _ hR1
  obtain ⟨o, k, hloop⟩ := RC6_bitLoop_reads M (msbBits nbits v) 0 (3 * dr.rawlen)
    { dr with offset := o2, data := 0, used := k2, nbits := 0 } rfl
    (by rw [msbBits_length]; omega) (by rw [msbBits_length]; omega) hR2
  unfold IRdecodeRC6.decode
  rw [if_neg (by simp only [MIN_RC6_SAMPLES]; omega)]
  have e5 : RC6_HDR_MARK = 2666 := rfl
  have e6 : RC6_HDR_SPACE = 889 := rfl
  simp only [hb1, hb2, e5, e6, hm1, hm2, Bool.not_true, Bool.and_false, Bool.false_eq_true,
    if_false]
  rw [hA]
  simp only [levelOf, if_true]
  rw [hB]
  simp only [levelOf, Bool.false_eq_true, if_false]
  rw [hloop]
  exact ⟨_, rfl, rfl, foldl_shiftIn_msbBits hn hv, by simp [msbBits_length]⟩

/-- The bit of index 3 leaves `IRsendRC6::send` as two pulses of `2 * RC6_T1`, after the
four pulses of header and start bit and the six of the bits before it. -/
theorem RC6_emitted_double (v nbits : Nat) (s : IRsendBase) (hn4 : 4 ≤ nbits)
    (hn : nbits ≤ 32) (hv : v < 2 ^ nbits) :
    (IRsendBase.emitted (IRsendRC6.send v nbits) s)[10]? =
      some ⟨v.testBit (nbits - 4), 2 * RC6_T1⟩ ∧
    (IRsendBase.emitted (IRsendRC6.send v nbits) s)[11]? =
      some ⟨!v.testBit (nbits - 4), 2 * RC6_T1⟩ := by
  obtain ⟨t, ht⟩ := RC6_emitted v nbits s hn hv
  obtain ⟨m, rfl⟩ : ∃ m, nbits = m + 4 := ⟨nbits - 4, by omega⟩
  rw [ht]
  simp [msbBits, pulsesRC6]

/-- C5. RC6 phase-encoded round trip with the double-width bit: for `4 ≤ nbits ≤ 32` and
`v < 2 ^ nbits`, and a matcher that accepts 2666, 889, 444, 888 and 1332 against
themselves and accepts neither 888 nor 1332 against 444, nor 1332 against 888, the frame of
`IRsendRC6::send(v, nbits)` — gap sample first, consecutive emissions of the same level
merged into one sample, trailing space dropped — is decoded by `IRdecodeRC6::decode` with
`decode_type = RC6`, `value = v` and `bits = nbits`.  The bit of index 3 is emitted as two
pulses of `2 * RC6_T1` each, and the decoder, which at that bit reads every level twice
and fails unless both reads agree, accepts them. -/
theorem RC6_round_trip (M : Nat → Nat → Bool) (hm1 : M 2666 2666 = true)
    (hm2 : M 889 889 = true) (h1 : M 444 444 = true) (h2 : M 888 444 = false)
    (h3 : M 888 888 = true) (h4 : M 1332 444 = false) (h5 : M 1332 888 = false)
    (h6 : M 1332 1332 = true) (v nbits : Nat) (hn4 : 4 ≤ nbits) (hn : nbits ≤ 32)
    (hv : v < 2 ^ nbits) (gap : Nat) (s : IRsendBase) (d : IRdecode) :
    ((IRdecodeRC6.decode M (d.receive (mergedFrameOf gap
        (IRsendBase.emitted (IRsendRC6.send v nbits) s)))).1 = Outcome.matched ∧
     (IRdecodeRC6.decode M (d.receive (mergedFrameOf gap
        (IRsendBase.emitted (IRsendRC6.send v nbits) s)))).2.decode_type = RC6 ∧
     (IRdecodeRC6.decode M (d.receive (mergedFrameOf gap
        (IRsendBase.emitted (IRsendRC6.send v nbits) s)))).2.value = v ∧
     (IRdecodeRC6.decode M (d.receive (mergedFrameOf gap
        (IRsendBase.emitted (IRsendRC6.send v nbits) s)))).2.bits = nbits) ∧
    (IRsendBase.emitted (IRsendRC6.send v nbits) s)[10]? =
      some ⟨v.testBit (nbits - 4), 2 * RC6_T1⟩ ∧
    (IRsendBase.emitted (IRsendRC6.send v nbits) s)[11]? =
      some ⟨!v.testBit (nbits - 4), 2 * RC6_T1⟩ := by
  refine ⟨?_, RC6_emitted_double v nbits s hn4 hn hv⟩
  rw [mergedFrameOf_RC6 v nbits gap s hn hv]
  obtain ⟨d1, hd, ht, hval, hbits⟩ :=
    RC6_decode_runs M hm1 hm2 h1 h2 h3 h4 h5 h6 v nbits hn hv gap d
  rw [hd]
  exact ⟨rfl, ht, hval, hbits⟩

theorem RC6_round_trip_witness :
    (MATCH 25 50 2666 2666 = true ∧ MATCH 25 50 889 889 = true ∧
      MATCH 25 50 444 444 = true ∧ MATCH 25 50 888 444 = false ∧
      MATCH 25 50 888 888 = true ∧ MATCH 25 50 1332 444 = false ∧
      MATCH 25 50 1332 888 = false ∧ MATCH 25 50 1332 1332 = true ∧
      4 ≤ 20 ∧ 20 ≤ 32 ∧ 0xC800F < 2 ^ 20) ∧
    (((IRdecodeRC6.decode (MATCH 25 50) (IRdecode.fresh.receive (mergedFrameOf 20000
        (IRsendBase.emitted (IRsendRC6.send 0xC800F 20) IRsendBase.idle)))).1 =
          Outcome.matched ∧
     (IRdecodeRC6.decode (MATCH 25 50) (IRdecode.fresh.receive (mergedFrameOf 20000
        (IRsendBase.emitted (IRsendRC6.send 0xC800F 20) IRsendBase.idle)))).2.decode_type =
          RC6 ∧
     (IRdecodeRC6.decode (MATCH 25 50) (IRdecode.fresh.receive (mergedFrameOf 20000
        (IRsendBase.emitted (IRsendRC6.send 0xC800F 20) IRsendBase.idle)))).2.value =
          0xC800F ∧
     (IRdecodeRC6.decode (MATCH 25 50) (IRdecode.fresh.receive (mergedFrameOf 20000
        (IRsendBase.emitted (IRsendRC6.send 0xC800F 20) IRsendBase.idle)))).2.bits = 20) ∧
    (IRsendBase.emitted (IRsendRC6.send 0xC800F 20) IRsendBase.idle)[10]? =
      some ⟨Nat.testBit 0xC800F (20 - 4), 2 * RC6_T1⟩ ∧
    (IRsendBase.emitted (IRsendRC6.send 0xC800F 20) IRsendBase.idle)[11]? =
      some ⟨!Nat.testBit 0xC800F (20 - 4), 2 * RC6_T1⟩) :=
  ⟨by decide,
   RC6_round_trip (MATCH 25 50) (by decide) (by decide) (by decide) (by decide) (by decide)
     (by decide) (by decide) (by decide) 0xC800F 20 (by decide) (by decide) (by decide) 20000
     IRsendBase.idle IRdecode.fresh⟩

/-! ## Failure leaves the result fields alone -/

theorem sameFrame_refl (d : IRdecode) : d.sameFrame d := ⟨rfl, rfl, rfl⟩

theorem sameResult_refl (d : IRdecode) : d.sameResult d := ⟨rfl, rfl, rfl⟩

theorem sameFrame_trans {a b c : IRdecode} (h2 : b.sameFrame c) (h1 : a.sameFrame b) :
    a.sameFrame c :=
  ⟨h2.1.trans h1.1, h2.2.1.trans h1.2.1, h2.2.2.trans h1.2.2⟩

theorem sameResult_trans {a b c : IRdecode} (h2 : b.sameResult c) (h1 : a.sameResult b) :
    a.sameResult c :=
  ⟨h2.1.trans h1.1, h2.2.1.trans h1.2.1, h2.2.2.trans h1.2.2⟩

/-- The loops of `decodeGeneric` move `offset` only. -/
theorem markLoop_state (M : Nat → Nat → Bool) (Mark_One Mark_Zero Space_One Max : Nat) :
    ∀ (fuel : Nat) (d : IRdecode) (data : Nat), ∃ o,
    (decodeGeneric.markLoop M Mark_One Mark_Zero Space_One Max fuel d data).2.1 =
      { d with offset := o } := by
  intro fuel
  induction fuel with
  | zero => intro d data; exact ⟨d.offset, rfl⟩
  | succ f ih =>
    intro d data
    unfold decodeGeneric.markLoop
    simp only []
    split_ifs
    all_goals first
      | exact ⟨_, rfl⟩
      | exact ih _ _

theorem spaceLoop_state (M : Nat → Nat → Bool) (Mark_Zero Space_One Space_Zero Max : Nat) :
    ∀ (fuel : Nat) (d : IRdecode) (data : Nat), ∃ o,
    (decodeGeneric.spaceLoop M Mark_Zero Space_One Space_Zero Max fuel d data).2.1 =
      { d with offset := o } := by
  intro fuel
  induction fuel with
  | zero => intro d data; exact ⟨d.offset, rfl⟩
  | succ f ih =>
    intro d data
    unfold decodeGeneric.spaceLoop
    simp only []
    split_ifs
    all_goals first
      | exact ⟨_, rfl⟩
      | exact ih _ _

/-- The generic decoder never touches the frame, and on a path that returns `false` it never
touches `decode_type`, `value` or `bits`. -/
theorem decodeGeneric_keeps (M : Nat → Nat → Bool)
    (Raw_Count Head_Mark Head_Space Mark_One Mark_Zero Space_One Space_Zero : Nat)
    (d : IRdecode) :
    d.sameFrame (IRdecodeBase.decodeGeneric M Raw_Count Head_Mark Head_Space Mark_One Mark_Zero
      Space_One Space_Zero d).2 ∧
    ((IRdecodeBase.decodeGeneric M Raw_Count Head_Mark Head_Space Mark_One Mark_Zero
      Space_One Space_Zero d).1 ≠ Outcome.matched →
     d.sameResult (IRdecodeBase.decodeGeneric M Raw_Count Head_Mark Head_Space Mark_One
      Mark_Zero Space_One Space_Zero d).2) := by
  unfold IRdecodeBase.decodeGeneric
  simp only []
  split_ifs
  · exact ⟨⟨rfl, rfl, rfl⟩, fun _ => ⟨rfl, rfl, rfl⟩⟩
  · exact ⟨⟨rfl, rfl, rfl⟩, fun _ => ⟨rfl, rfl, rfl⟩⟩
  · exact ⟨⟨rfl, rfl, rfl⟩, fun _ => ⟨rfl, rfl, rfl⟩⟩
  · obtain ⟨o, h⟩ := markLoop_state M Mark_One Mark_Zero Space_One (toUChar d.rawlen)
      (toUChar d.rawlen) { d with offset := 2 } 0
    split
    · rename_i d3 data heq
      rw [heq] at h
      simp only [] at h
      subst h
      exact ⟨⟨rfl, rfl, rfl⟩, fun hne => absurd rfl hne⟩
    · rename_i e d3 data hne heq
      rw [heq] at h
      simp only [] at h
      subst h
      exact ⟨⟨rfl, rfl, rfl⟩, fun _ => ⟨rfl, rfl, rfl⟩⟩
  · obtain ⟨o, h⟩ := spaceLoop_state M Mark_Zero Space_One Space_Zero
      (toUChar (toUInt (d.rawlen + 65535))) (toUChar (toUInt (d.rawlen + 65535)))
      { d with offset := 3 } 0
    split
    · rename_i d3 data heq
      rw [heq] at h
      simp only [] at h
      subst h
      exact ⟨⟨rfl, rfl, rfl⟩, fun hne => absurd rfl hne⟩
    · rename_i e d3 data hne heq
      rw [heq] at h
      simp only [] at h
      subst h
      exact ⟨⟨rfl, rfl, rfl⟩, fun _ => ⟨rfl, rfl, rfl⟩⟩

theorem NEC_keeps (M : Nat → Nat → Bool) (d : IRdecode) :
    d.sameFrame (IRdecodeNEC.decode M d).2 ∧
    ((IRdecodeNEC.decode M d).1 ≠ Outcome.matched → d.sameResult (IRdecodeNEC.decode M d).2) := by
  have hg := decodeGeneric_keeps M 68 (563 * 16) (563 * 8) 0 563 (563 * 3) 563 d
  unfold IRdecodeNEC.decode
  split_ifs
  · exact ⟨⟨rfl, rfl, rfl⟩, fun hne => absurd rfl hne⟩
  · split
    · rename_i d1 heq
      rw [heq] at hg
      exact ⟨hg.1, fun hne => absurd rfl hne⟩
    · rename_i e d1 hne heq
      rw [heq] at hg
      exact hg

theorem Sony_keeps (M : Nat → Nat → Bool) (d : IRdecode) :
    d.sameFrame (IRdecodeSony.decode M d).2 ∧
    ((IRdecodeSony.decode M d).1 ≠ Outcome.matched →
      d.sameResult (IRdecodeSony.decode M d).2) := by
  have hg := decodeGeneric_keeps M 0 (600 * 4) 600 (600 * 2) 600 600 0 d
  unfold IRdecodeSony.decode
  split_ifs
  · exact ⟨⟨rfl, rfl, rfl⟩, fun _ => ⟨rfl, rfl, rfl⟩⟩
  · split
    · rename_i d1 heq
      rw [heq] at hg
      exact ⟨hg.1, fun hne => absurd rfl hne⟩
    · rename_i e d1 hne heq
      rw [heq] at hg
      exact hg

theorem Panasonic_Old_keeps (M : Nat → Nat → Bool) (d : IRdecode) :
    d.sameFrame (IRdecodePanasonic_Old.decode M d).2 ∧
    ((IRdecodePanasonic_Old.decode M d).1 ≠ Outcome.matched →
      d.sameResult (IRdecodePanasonic_Old.decode M d).2) := by
  have hg := decodeGeneric_keeps M 48 (833 * 4) (833 * 4) 0 833 (833 * 3) 833 d
  unfold IRdecodePanasonic_Old.decode
  split
  · rename_i d1 heq
    rw [heq] at hg
    exact ⟨hg.1, fun hne => absurd rfl hne⟩
  · rename_i e d1 hne heq
    rw [heq] at hg
    exact hg

theorem NECx_keeps (M : Nat → Nat → Bool) (d : IRdecode) :
    d.sameFrame (IRdecodeNECx.decode M d).2 ∧
    ((IRdecodeNECx.decode M d).1 ≠ Outcome.matched →
      d.sameResult (IRdecodeNECx.decode M d).2) := by
  have hg := decodeGeneric_keeps M 68 (563 * 8) (563 * 8) 0 563 (563 * 3) 563 d
  unfold IRdecodeNECx.decode
  split
  · rename_i d1 heq
    rw [heq] at hg
    exact ⟨hg.1, fun hne => absurd rfl hne⟩
  · rename_i e d1 hne heq
    rw [heq] at hg
    exact hg

theorem Samsung32_keeps (M : Nat → Nat → Bool) (P32 : Nat) (d : IRdecode) :
    d.sameFrame (IRdecodeSamsung32.decode M P32 d).2 ∧
    ((IRdecodeSamsung32.decode M P32 d).1 ≠ Outcome.matched →
      d.sameResult (IRdecodeSamsung32.decode M P32 d).2) := by
  have hg := decodeGeneric_keeps M 68 (560 * 16) (560 * 8) 0 560 (560 * 3) 560 d
  unfold IRdecodeSamsung32.decode
  split
  · rename_i d1 heq
    rw [heq] at hg
    exact ⟨hg.1, fun hne => absurd rfl hne⟩
  · rename_i e d1 hne heq
    rw [heq] at hg
    exact hg

/-- `getRClevel` moves the cursor only. -/
theorem getRClevel_keeps (M : Nat → Nat → Bool) (t1 : Nat) (d : IRdecode) :
    d.sameFrame (IRdecodeRC.getRClevel M t1 d).2 ∧
    d.sameResult (IRdecodeRC.getRClevel M t1 d).2 := by
  unfold IRdecodeRC.getRClevel
  simp only []
  split_ifs <;> (try simp only []) <;> (try split_ifs) <;>
    exact ⟨⟨rfl, rfl, rfl⟩, ⟨rfl, rfl, rfl⟩⟩

theorem RC5_bitLoop_keeps (M : Nat → Nat → Bool) : ∀ (fuel : Nat) (d : IRdecode),
    d.sameFrame (IRdecodeRC5.bitLoop M fuel d).2 ∧
    d.sameResult (IRdecodeRC5.bitLoop M fuel d).2 := by
  intro fuel
  induction fuel with
  | zero => intro d; exact ⟨⟨rfl, rfl, rfl⟩, ⟨rfl, rfl, rfl⟩⟩
  | succ f ih =>
    intro d
    have hA := getRClevel_keeps M RC5_T1 d
    have hB := getRClevel_keeps M RC5_T1 (IRdecodeRC.getRClevel M RC5_T1 d).2
    have hAB := And.intro (sameFrame_trans hB.1 hA.1) (sameResult_trans hB.2 hA.2)
    unfold IRdecodeRC5.bitLoop
    simp only []
    split_ifs
    all_goals first
      | exact ⟨sameFrame_trans (ih _).1 hAB.1, sameResult_trans (ih _).2 hAB.2⟩
      | exact hAB
      | exact ⟨⟨rfl, rfl, rfl⟩, ⟨rfl, rfl, rfl⟩⟩

theorem RC5_keeps (M : Nat → Nat → Bool) (d : IRdecode) :
    d.sameFrame (IRdecodeRC5.decode M d).2 ∧
    ((IRdecodeRC5.decode M d).1 ≠ Outcome.matched →
      d.sameResult (IRdecodeRC5.decode M d).2) := by
  have hA := getRClevel_keeps M RC5_T1 { d with offset := 1, data := 0, used := 0 }
  unfold IRdecodeRC5.decode
  split_ifs
  · exact ⟨⟨rfl, rfl, rfl⟩, fun _ => ⟨rfl, rfl, rfl⟩⟩
  · simp only []
    split
    · rename_i d1 heq
      rw [heq] at hA
      have hL := RC5_bitLoop_keeps M (3 * d1.rawlen) { d1 with nbits := 0 }
      split
      · rename_i d2 heq2
        rw [heq2] at hL
        exact ⟨sameFrame_trans hL.1 hA.1, fun hne => absurd rfl hne⟩
      · rename_i e d2 hne heq2
        rw [heq2] at hL
        exact ⟨sameFrame_trans hL.1 hA.1, fun _ => sameResult_trans hL.2 hA.2⟩
    · rename_i l d1 hne heq
      rw [heq] at hA
      exact ⟨hA.1, fun _ => hA.2⟩

theorem RC6_bitLoop_keeps (M : Nat → Nat → Bool) : ∀ (fuel : Nat) (d : IRdecode),
    d.sameFrame (IRdecodeRC6.bitLoop M fuel d).2 ∧
    d.sameResult (IRdecodeRC6.bitLoop M fuel d).2 := by
  intro fuel
  induction fuel with
  | zero => intro d; exact ⟨⟨rfl, rfl, rfl⟩, ⟨rfl, rfl, rfl⟩⟩
  | succ f ih =>
    intro d
    have step : ∀ x : IRdecode, (d.sameFrame x ∧ d.sameResult x) →
        (d.sameFrame (IRdecodeRC.getRClevel M RC6_T1 x).2 ∧
         d.sameResult (IRdecodeRC.getRClevel M RC6_T1 x).2) := fun x hx =>
      ⟨sameFrame_trans (getRClevel_keeps M RC6_T1 x).1 hx.1,
       sameResult_trans (getRClevel_keeps M RC6_T1 x).2 hx.2⟩
    unfold IRdecodeRC6.bitLoop
    simp only []
    generalize IRdecodeRC.getRClevel M RC6_T1 = g at step ⊢
    have k1 := step d ⟨sameFrame_refl d, sameResult_refl d⟩
    have k2 := step _ k1
    have k3 := step _ k2
    have k4 := step _ k3
    split_ifs
    all_goals first
      | exact ⟨⟨rfl, rfl, rfl⟩, ⟨rfl, rfl, rfl⟩⟩
      | exact k1
      | exact k2
      | exact k3
      | exact k4
      | exact ⟨sameFrame_trans (ih _).1 k2.1, sameResult_trans (ih _).2 k2.2⟩
      | exact ⟨sameFrame_trans (ih _).1 k3.1, sameResult_trans (ih _).2 k3.2⟩
      | exact ⟨sameFrame_trans (ih _).1 k4.1, sameResult_trans (ih _).2 k4.2⟩

theorem RC6_keeps (M : Nat → Nat → Bool) (d : IRdecode) :
    d.sameFrame (IRdecodeRC6.decode M d).2 ∧
    ((IRdecodeRC6.decode M d).1 ≠ Outcome.matched →
      d.sameResult (IRdecodeRC6.decode M d).2) := by
  have hA := getRClevel_keeps M RC6_T1 { d with offset := 3, data := 0, used := 0 }
  unfold IRdecodeRC6.decode
  split_ifs
  · exact ⟨⟨rfl, rfl, rfl⟩, fun _ => ⟨rfl, rfl, rfl⟩⟩
  · exact ⟨⟨rfl, rfl, rfl⟩, fun _ => ⟨rfl, rfl, rfl⟩⟩
  · exact ⟨⟨rfl, rfl, rfl⟩, fun _ => ⟨rfl, rfl, rfl⟩⟩
  · simp only []
    split
    · rename_i d1 heq
      rw [heq] at hA
      have hB := getRClevel_keeps M RC6_T1 d1
      split
      · rename_i d2 heq1
        rw [heq1] at hB
        have hL := RC6_bitLoop_keeps M (3 * d2.rawlen) { d2 with nbits := 0 }
        have hAB := And.intro (sameFrame_trans hB.1 hA.1) (sameResult_trans hB.2 hA.2)
        split
        · rename_i d3 heq2
          rw [heq2] at hL
          exact ⟨sameFrame_trans hL.1 hAB.1, fun hne => absurd rfl hne⟩
        · rename_i e d3 hne heq2
          rw [heq2] at hL
          exact ⟨sameFrame_trans hL.1 hAB.1, fun _ => sameResult_trans hL.2 hAB.2⟩
      · rename_i l d2 hne heq1
        rw [heq1] at hB
        exact ⟨sameFrame_trans hB.1 hA.1, fun _ => sameResult_trans hB.2 hA.2⟩
    · rename_i l d1 hne heq
      rw [heq] at hA
      exact ⟨hA.1, fun _ => hA.2⟩

theorem GetBit_keeps (M : Nat → Nat → Bool) (d : IRdecode) :
    d.sameFrame (IRdecodePanasonic.GetBit M d).2 ∧
    d.sameResult (IRdecodePanasonic.GetBit M d).2 := by
  unfold IRdecodePanasonic.GetBit
  simp only []
  split_ifs <;> exact ⟨⟨rfl, rfl, rfl⟩, ⟨rfl, rfl, rfl⟩⟩

theorem getBits_keeps (M : Nat → Nat → Bool) (bound : Nat) : ∀ (fuel : Nat) (d : IRdecode),
    d.sameFrame (IRdecodePanasonic.getBits M bound fuel d).2 ∧
    d.sameResult (IRdecodePanasonic.getBits M bound fuel d).2 := by
  intro fuel
  induction fuel with
  | zero => intro d; exact ⟨⟨rfl, rfl, rfl⟩, ⟨rfl, rfl, rfl⟩⟩
  | succ f ih =>
    intro d
    have hG := GetBit_keeps M d
    unfold IRdecodePanasonic.getBits
    split_ifs
    · split
      · rename_i d1 heq
        rw [heq] at hG
        exact ⟨sameFrame_trans (ih d1).1 hG.1, sameResult_trans (ih d1).2 hG.2⟩
      · rename_i e d1 hne heq
        rw [heq] at hG
        exact hG
    · exact ⟨⟨rfl, rfl, rfl⟩, ⟨rfl, rfl, rfl⟩⟩

theorem Panasonic_keeps (M : Nat → Nat → Bool) (d : IRdecode) :
    d.sameFrame (IRdecodePanasonic.decode M d).2 ∧
    ((IRdecodePanasonic.decode M d).1 ≠ Outcome.matched →
      d.sameResult (IRdecodePanasonic.decode M d).2) := by
  have h1 := getBits_keeps M (2 * 8 * 2 + 2) (2 * 8 * 2 + 2)
    { d with offset := 3, data_Panasonic := 0 }
  unfold IRdecodePanasonic.decode
  split_ifs
  · exact ⟨⟨rfl, rfl, rfl⟩, fun _ => ⟨rfl, rfl, rfl⟩⟩
  · exact ⟨⟨rfl, rfl, rfl⟩, fun _ => ⟨rfl, rfl, rfl⟩⟩
  · exact ⟨⟨rfl, rfl, rfl⟩, fun _ => ⟨rfl, rfl, rfl⟩⟩
  · simp only []
    split
    · rename_i d1 heq
      rw [heq] at h1
      have h2 := getBits_keeps M (5 * 8 * 2 + 2) (5 * 8 * 2 + 2) d1
      split_ifs
      · exact ⟨h1.1, fun _ => h1.2⟩
      · split
        · rename_i d2 heq2
          rw [heq2] at h2
          exact ⟨sameFrame_trans h2.1 h1.1, fun hne => absurd rfl hne⟩
        · rename_i e d2 hne heq2
          rw [heq2] at h2
          exact ⟨sameFrame_trans h2.1 h1.1, fun _ => sameResult_trans h2.2 h1.2⟩
    · rename_i e d1 hne heq
      rw [heq] at h1
      exact ⟨h1.1, fun _ => h1.2⟩

/-- When the headerless call of `decodeGeneric` in `IRdecodeJVC::decode` succeeds on a frame
of 34 samples, sample 4 matched one of the two space lengths: the loop read it. -/
theorem JVC_repeat_sample4 (M : Nat → Nat → Bool) (d : IRdecode) (hlen : d.rawlen = 34)
    (hm : (IRdecodeBase.decodeGeneric M 0 525 0 0 525 (525 * 3) 525 d).1 = Outcome.matched) :
    M (d.rawbuf 4) (525 * 3) = true ∨ M (d.rawbuf 4) 525 = true := by
  by_contra hcon
  have h1 : M (d.rawbuf 4) (525 * 3) = false := by
    cases h : M (d.rawbuf 4) (525 * 3)
    · rfl
    · exact absurd (Or.inl h) hcon
  have h2 : M (d.rawbuf 4) 525 = false := by
    cases h : M (d.rawbuf 4) 525
    · rfl
    · exact absurd (Or.inr h) hcon
  have hMax : toUChar (toUInt (d.rawlen + 65535)) = 32 + 1 := by
    rw [hlen]; unfold toUChar toUInt; rfl
  have e2 : toUInt (1 + 1) = 2 := toUInt_of_lt (by decide)
  have e4 : toUInt (3 + 1) = 4 := toUInt_of_lt (by decide)
  unfold IRdecodeBase.decodeGeneric at hm
  simp only [ne_eq, not_true_eq_false, false_and, if_false, decide_False, Bool.false_and,
    Bool.false_eq_true, hMax, e2] at hm
  unfold decodeGeneric.spaceLoop at hm
  simp only [e4, h1, h2, Bool.false_eq_true, if_false] at hm
  split_ifs at hm <;> omega

theorem JVC_keeps (M : Nat → Nat → Bool) (d : IRdecode) :
    d.sameFrame (IRdecodeJVC.decode M d).2 ∧
    ((IRdecodeJVC.decode M d).1 ≠ Outcome.matched →
      d.sameResult (IRdecodeJVC.decode M d).2) := by
  have hg := decodeGeneric_keeps M 36 (525 * 16) (525 * 8) 0 525 (525 * 3) 525 d
  unfold IRdecodeJVC.decode
  split
  · rename_i d1 heq
    rw [heq] at hg
    exact ⟨hg.1, fun hne => absurd rfl hne⟩
  · rename_i e d1 hne heq
    rw [heq] at hg
    have hg1 := hg.2 hne
    have hg2 := decodeGeneric_keeps M 0 525 0 0 525 (525 * 3) 525 d1
    split_ifs with hlen
    · split
      · rename_i d2 heq2
        have h4 := JVC_repeat_sample4 M d1 hlen (by rw [heq2])
        rw [heq2] at hg2
        have hbuf : d2.rawbuf = d1.rawbuf := hg2.1.1
        rw [← hbuf] at h4
        split_ifs with c1 c2
        · exact ⟨sameFrame_trans hg2.1 hg.1, fun hne2 => absurd rfl hne2⟩
        · exfalso
          rcases h4 with h | h
          · exact c1 h
          · simp [h] at c2
        · exact ⟨sameFrame_trans hg2.1 hg.1, fun hne2 => absurd rfl hne2⟩
      · rename_i e2 d2 hne2 heq2
        rw [heq2] at hg2
        exact ⟨sameFrame_trans hg2.1 hg.1, fun _ => sameResult_trans (hg2.2 hne2) hg1⟩
    · exact ⟨hg.1, fun _ => hg1⟩

/-- C11. Total failure is Unknown and side-effect free: when `IRdecode::decode` returns
`false` — every decoder tried (NEC, Sony, RC5, RC6, Panasonic_Old, NECx, JVC, Panasonic,
Samsung32, in that order) rejected the frame — `decode_type`, `value` and `bits` are what
they were before the call, and the frame is untouched; on a decoder that was reset before
the frame came in they are `UNKNOWN`, 0 and 0.  None of the nine decoders changes the three
fields in a call that returns `false`. -/
theorem decode_total_failure (M : Nat → Nat → Bool) (PANASONIC32 : Nat) (d : IRdecode)
    (hfail : (IRdecode.decode M PANASONIC32 d).1 = false) :
    (IRdecode.decode M PANASONIC32 d).2.decode_type = d.decode_type ∧
    (IRdecode.decode M PANASONIC32 d).2.value = d.value ∧
    (IRdecode.decode M PANASONIC32 d).2.bits = d.bits ∧
    d.sameFrame (IRdecode.decode M PANASONIC32 d).2 ∧
    (∀ (d0 : IRdecode) (frame : List Nat), d = (IRdecodeBase.reset d0).receive frame →
      (IRdecode.decode M PANASONIC32 d).2.decode_type = UNKNOWN ∧
      (IRdecode.decode M PANASONIC32 d).2.value = 0 ∧
      (IRdecode.decode M PANASONIC32 d).2.bits = 0) ∧
    (∀ dec ∈ IRdecode.decoders M PANASONIC32, ∀ e : IRdecode,
      (dec e).1 ≠ Outcome.matched → e.sameResult (dec e).2) := by
  have key : d.sameResult (IRdecode.decode M PANASONIC32 d).2 ∧
      d.sameFrame (IRdecode.decode M PANASONIC32 d).2 := by
    unfold IRdecode.decode at hfail ⊢
    simp only [] at hfail ⊢
    have a0 := And.intro (sameResult_refl d) (sameFrame_refl d)
    have k1 := NEC_keeps M d
    generalize IRdecodeNEC.decode M d = r1 at k1 hfail ⊢
    by_cases c1 : r1.1 = Outcome.matched
    · rw [if_pos c1] at hfail; exact absurd hfail (by simp)
    rw [if_neg c1] at hfail ⊢
    have a1 := And.intro (sameResult_trans (k1.2 c1) a0.1) (sameFrame_trans k1.1 a0.2)
    have k2 := Sony_keeps M r1.2
    generalize IRdecodeSony.decode M r1.2 = r2 at k2 hfail ⊢
    by_cases c2 : r2.1 = Outcome.matched
    · rw [if_pos c2] at hfail; exact absurd hfail (by simp)
    rw [if_neg c2] at hfail ⊢
    have a2 := And.intro (sameResult_trans (k2.2 c2) a1.1) (sameFrame_trans k2.1 a1.2)
    have k3 := RC5_keeps M r2.2
    generalize IRdecodeRC5.decode M r2.2 = r3 at k3 hfail ⊢
    by_cases c3 : r3.1 = Outcome.matched
    · rw [if_pos c3] at hfail; exact absurd hfail (by simp)
    rw [if_neg c3] at hfail ⊢
    have a3 := And.intro (sameResult_trans (k3.2 c3) a2.1) (sameFrame_trans k3.1 a2.2)
    have k4 := RC6_keeps M r3.2
    generalize IRdecodeRC6.decode M r3.2 = r4 at k4 hfail ⊢
    by_cases c4 : r4.1 = Outcome.matched
    · rw [if_pos c4] at hfail; exact absurd hfail (by simp)
    rw [if_neg c4] at hfail ⊢
    have a4 := And.intro (sameResult_trans (k4.2 c4) a3.1) (sameFrame_trans k4.1 a3.2)
    have k5 := Panasonic_Old_keeps M r4.2
    generalize IRdecodePanasonic_Old.decode M r4.2 = r5 at k5 hfail ⊢
    by_cases c5 : r5.1 = Outcome.matched
    · rw [if_pos c5] at hfail; exact absurd hfail (by simp)
    rw [if_neg c5] at hfail ⊢
    have a5 := And.intro (sameResult_trans (k5.2 c5) a4.1) (sameFrame_trans k5.1 a4.2)
    have k6 := NECx_keeps M r5.2
    generalize IRdecodeNECx.decode M r5.2 = r6 at k6 hfail ⊢
    by_cases c6 : r6.1 = Outcome.matched
    · rw [if_pos c6] at hfail; exact absurd hfail (by simp)
    rw [if_neg c6] at hfail ⊢
    have a6 := And.intro (sameResult_trans (k6.2 c6) a5.1) (sameFrame_trans k6.1 a5.2)
    have k7 := JVC_keeps M r6.2
    generalize IRdecodeJVC.decode M r6.2 = r7 at k7 hfail ⊢
    by_cases c7 : r7.1 = Outcome.matched
    · rw [if_pos c7] at hfail; exact absurd hfail (by simp)
    rw [if_neg c7] at hfail ⊢
    have a7 := And.intro (sameResult_trans (k7.2 c7) a6.1) (sameFrame_trans k7.1 a6.2)
    have k8 := Panasonic_keeps M r7.2
    generalize IRdecodePanasonic.decode M r7.2 = r8 at k8 hfail ⊢
    by_cases c8 : r8.1 = Outcome.matched
    · rw [if_pos c8] at hfail; exact absurd hfail (by simp)
    rw [if_neg c8] at hfail ⊢
    have a8 := And.intro (sameResult_trans (k8.2 c8) a7.1) (sameFrame_trans k8.1 a7.2)
    have k9 := Samsung32_keeps M PANASONIC32 r8.2
    generalize IRdecodeSamsung32.decode M PANASONIC32 r8.2 = r9 at k9 hfail ⊢
    by_cases c9 : r9.1 = Outcome.matched
    · rw [if_pos c9] at hfail; exact absurd hfail (by simp)
    rw [if_neg c9] at hfail ⊢
    have a9 := And.intro (sameResult_trans (k9.2 c9) a8.1) (sameFrame_trans k9.1 a8.2)
    exact a9
  refine ⟨key.1.1, key.1.2.1, key.1.2.2, key.2, ?_, ?_⟩
  · intro d0 frame hd
    have e1 : d.decode_type = UNKNOWN := by rw [hd]; rfl
    have e2 : d.value = 0 := by rw [hd]; rfl
    have e3 : d.bits = 0 := by rw [hd]; rfl
    exact ⟨key.1.1.trans e1, key.1.2.1.trans e2, key.1.2.2.trans e3⟩
  · intro dec hdec e
    simp only [IRdecode.decoders, List.mem_cons, List.mem_singleton, List.not_mem_nil,
      or_false] at hdec
    rcases hdec with h | h | h | h | h | h | h | h | h <;> rw [h]
    · exact (NEC_keeps M e).2
    · exact (Sony_keeps M e).2
    · exact (RC5_keeps M e).2
    · exact (RC6_keeps M e).2
    · exact (Panasonic_Old_keeps M e).2
    · exact (NECx_keeps M e).2
    · exact (JVC_keeps M e).2
    · exact (Panasonic_keeps M e).2
    · exact (Samsung32_keeps M PANASONIC32 e).2

theorem decode_total_failure_witness :
    (IRdecode.decode (MATCH 25 50) SAMSUNG32
      ((IRdecodeBase.reset IRdecode.fresh).receive [20000, 300, 300, 300, 300])).1 = false ∧
    ((IRdecode.decode (MATCH 25 50) SAMSUNG32
      ((IRdecodeBase.reset IRdecode.fresh).receive [20000, 300, 300, 300, 300])).2.decode_type =
        ((IRdecodeBase.reset IRdecode.fresh).receive [20000, 300, 300, 300, 300]).decode_type ∧
     (IRdecode.decode (MATCH 25 50) SAMSUNG32
      ((IRdecodeBase.reset IRdecode.fresh).receive [20000, 300, 300, 300, 300])).2.value =
        ((IRdecodeBase.reset IRdecode.fresh).receive [20000, 300, 300, 300, 300]).value ∧
     (IRdecode.decode (MATCH 25 50) SAMSUNG32
      ((IRdecodeBase.reset IRdecode.fresh).receive [20000, 300, 300, 300, 300])).2.bits =
        ((IRdecodeBase.reset IRdecode.fresh).receive [20000, 300, 300, 300, 300]).bits ∧
     ((IRdecodeBase.reset IRdecode.fresh).receive [20000, 300, 300, 300, 300]).sameFrame
      (IRdecode.decode (MATCH 25 50) SAMSUNG32
        ((IRdecodeBase.reset IRdecode.fresh).receive [20000, 300, 300, 300, 300])).2 ∧
     (∀ (d0 : IRdecode) (frame : List Nat),
      (IRdecodeBase.reset IRdecode.fresh).receive [20000, 300, 300, 300, 300] =
        (IRdecodeBase.reset d0).receive frame →
      (IRdecode.decode (MATCH 25 50) SAMSUNG32
        ((IRdecodeBase.reset IRdecode.fresh).receive [20000, 300, 300, 300, 300])).2.decode_type =
          UNKNOWN ∧
      (IRdecode.decode (MATCH 25 50) SAMSUNG32
        ((IRdecodeBase.reset IRdecode.fresh).receive [20000, 300, 300, 300, 300])).2.value = 0 ∧
      (IRdecode.decode (MATCH 25 50) SAMSUNG32
        ((IRdecodeBase.reset IRdecode.fresh).receive [20000, 300, 300, 300, 300])).2.bits = 0) ∧
     (∀ dec ∈ IRdecode.decoders (MATCH 25 50) SAMSUNG32, ∀ e : IRdecode,
      (dec e).1 ≠ Outcome.matched → e.sameResult (dec e).2)) :=
  ⟨by with_unfolding_all decide,
   decode_total_failure (MATCH 25 50) SAMSUNG32
     ((IRdecodeBase.reset IRdecode.fresh).receive [20000, 300, 300, 300, 300])
     (by with_unfolding_all decide)⟩

/-! ## The exact-length check -/

/-- C12. Exact-length check: for a non-zero `Raw_Count` and a frame with
`rawlen ≠ Raw_Count`, `decodeGeneric` fails with the raw-count error whatever the samples
and the other template parameters are, and leaves `value`, `bits` and `decode_type` as they
were. -/
theorem decodeGeneric_raw_count (M : Nat → Nat → Bool)
    (Raw_Count Head_Mark Head_Space Mark_One Mark_Zero Space_One Space_Zero : Nat)
    (d : IRdecode) (h0 : Raw_Count ≠ 0) (hlen : d.rawlen ≠ Raw_Count) :
    (IRdecodeBase.decodeGeneric M Raw_Count Head_Mark Head_Space Mark_One Mark_Zero Space_One
      Space_Zero d).1 = Outcome.RAW_COUNT_ERROR ∧
    (IRdecodeBase.decodeGeneric M Raw_Count Head_Mark Head_Space Mark_One Mark_Zero Space_One
      Space_Zero d).2.value = d.value ∧
    (IRdecodeBase.decodeGeneric M Raw_Count Head_Mark Head_Space Mark_One Mark_Zero Space_One
      Space_Zero d).2.bits = d.bits ∧
    (IRdecodeBase.decodeGeneric M Raw_Count Head_Mark Head_Space Mark_One Mark_Zero Space_One
      Space_Zero d).2.decode_type = d.decode_type := by
  unfold IRdecodeBase.decodeGeneric
  simp only []
  rw [if_pos ⟨h0, hlen⟩]
  exact ⟨rfl, rfl, rfl, rfl⟩

theorem decodeGeneric_raw_count_witness :
    (68 ≠ 0 ∧ (IRdecode.fresh.receive (NEC_jitter_frame.take 67)).rawlen ≠ 68) ∧
    ((IRdecodeBase.decodeGeneric (MATCH 25 50) 68 (563 * 16) (563 * 8) 0 563 (563 * 3) 563
      (IRdecode.fresh.receive (NEC_jitter_frame.take 67))).1 = Outcome.RAW_COUNT_ERROR ∧
     (IRdecodeBase.decodeGeneric (MATCH 25 50) 68 (563 * 16) (563 * 8) 0 563 (563 * 3) 563
      (IRdecode.fresh.receive (NEC_jitter_frame.take 67))).2.value =
        (IRdecode.fresh.receive (NEC_jitter_frame.take 67)).value ∧
     (IRdecodeBase.decodeGeneric (MATCH 25 50) 68 (563 * 16) (563 * 8) 0 563 (563 * 3) 563
      (IRdecode.fresh.receive (NEC_jitter_frame.take 67))).2.bits =
        (IRdecode.fresh.receive (NEC_jitter_frame.take 67)).bits ∧
     (IRdecodeBase.decodeGeneric (MATCH 25 50) 68 (563 * 16) (563 * 8) 0 563 (563 * 3) 563
      (IRdecode.fresh.receive (NEC_jitter_frame.take 67))).2.decode_type =
        (IRdecode.fresh.receive (NEC_jitter_frame.take 67)).decode_type) :=
  ⟨⟨by decide, by decide⟩,
   decodeGeneric_raw_count (MATCH 25 50) 68 (563 * 16) (563 * 8) 0 563 (563 * 3) 563
     (IRdecode.fresh.receive (NEC_jitter_frame.take 67)) (by decide) (by decide)⟩

/-! ## Header-check suppression -/

/-- The space-length loop of `decodeGeneric` reads only the samples from its cursor on. -/
theorem spaceLoop_congr (M : Nat → Nat → Bool) (Mark_Zero Space_One Space_Zero Max : Nat)
    (hMax : Max < 65535) : ∀ (fuel : Nat) (d e : IRdecode) (data : Nat),
    e.offset = d.offset → (∀ i, d.offset ≤ i → e.rawbuf i = d.rawbuf i) →
    (decodeGeneric.spaceLoop M Mark_Zero Space_One Space_Zero Max fuel e data).1 =
      (decodeGeneric.spaceLoop M Mark_Zero Space_One Space_Zero Max fuel d data).1 ∧
    (decodeGeneric.spaceLoop M Mark_Zero Space_One Space_Zero Max fuel e data).2.1.offset =
      (decodeGeneric.spaceLoop M Mark_Zero Space_One Space_Zero Max fuel d data).2.1.offset ∧
    (decodeGeneric.spaceLoop M Mark_Zero Space_One Space_Zero Max fuel e data).2.2 =
      (decodeGeneric.spaceLoop M Mark_Zero Space_One Space_Zero Max fuel d data).2.2 := by
  intro fuel
  induction fuel with
  | zero => intro d e data ho _; exact ⟨rfl, ho, rfl⟩
  | succ f ih =>
    intro d e data ho hbuf
    unfold decodeGeneric.spaceLoop
    simp only [ho]
    by_cases hlt : d.offset < Max
    · have e1 : toUInt (d.offset + 1) = d.offset + 1 := toUInt_of_lt (by omega)
      have b0 := hbuf d.offset (Nat.le_refl _)
      have b1 := hbuf (d.offset + 1) (by omega)
      have hrec : ∀ data1,
          (decodeGeneric.spaceLoop M Mark_Zero Space_One Space_Zero Max f
            { e with offset := toUInt (d.offset + 1 + 1) } data1).1 =
          (decodeGeneric.spaceLoop M Mark_Zero Space_One Space_Zero Max f
            { d with offset := toUInt (d.offset + 1 + 1) } data1).1 ∧
          (decodeGeneric.spaceLoop M Mark_Zero Space_One Space_Zero Max f
            { e with offset := toUInt (d.offset + 1 + 1) } data1).2.1.offset =
          (decodeGeneric.spaceLoop M Mark_Zero Space_One Space_Zero Max f
            { d with offset := toUInt (d.offset + 1 + 1) } data1).2.1.offset ∧
          (decodeGeneric.spaceLoop M Mark_Zero Space_One Space_Zero Max f
            { e with offset := toUInt (d.offset + 1 + 1) } data1).2.2 =
          (decodeGeneric.spaceLoop M Mark_Zero Space_One Space_Zero Max f
            { d with offset := toUInt (d.offset + 1 + 1) } data1).2.2 := by
        intro data1
        apply ih { d with offset := toUInt (d.offset + 1 + 1) }
          { e with offset := toUInt (d.offset + 1 + 1) } data1 rfl
        intro i hi
        apply hbuf
        have h2 : toUInt (d.offset + 1 + 1) = d.offset + 2 := toUInt_of_lt (by omega)
        have hi2 : toUInt (d.offset + 1 + 1) ≤ i := hi
        rw [h2] at hi2
        omega
      simp only [hlt, if_true, e1, b0, b1]
      split_ifs
      · simp [ho]
      · exact hrec _
      · exact hrec _
      · simp
    · simp only [hlt, if_false]
      simp [ho]

/-- In the space-length convention the result of `decodeGeneric` depends on sample 1 only
through the header-mark check, on sample 2 only through the header-space check, and
otherwise on the samples from slot 3 on. -/
theorem decodeGeneric_space_congr (M : Nat → Nat → Bool)
    (Raw_Count Head_Mark Head_Space Mark_Zero Space_One Space_Zero : Nat) (d : IRdecode)
    (buf : Nat → Nat)
    (h1 : d.ignoreHeader = true ∨ Head_Mark = 0 ∨ buf 1 = d.rawbuf 1)
    (h2 : Head_Space = 0 ∨ buf 2 = d.rawbuf 2)
    (h3 : ∀ i, 3 ≤ i → buf i = d.rawbuf i) :
    agrees
      (IRdecodeBase.decodeGeneric M Raw_Count Head_Mark Head_Space 0 Mark_Zero Space_One
        Space_Zero d)
      (IRdecodeBase.decodeGeneric M Raw_Count Head_Mark Head_Space 0 Mark_Zero Space_One
        Space_Zero { d with rawbuf := buf }) := by
  have hMax : toUChar (toUInt (d.rawlen + 65535)) < 65535 := by
    unfold toUChar; omega
  have c2 : (!d.ignoreHeader && decide (Head_Mark ≠ 0) && !M (buf 1) Head_Mark) =
      (!d.ignoreHeader && decide (Head_Mark ≠ 0) && !M (d.rawbuf 1) Head_Mark) := by
    rcases h1 with h | h | h <;> simp [h]
  have c3 : (decide (Head_Space ≠ 0) && !M (buf 2) Head_Space) =
      (decide (Head_Space ≠ 0) && !M (d.rawbuf 2) Head_Space) := by
    rcases h2 with h | h <;> simp [h]
  have e2 : toUInt (1 + 1) = 2 := toUInt_of_lt (by decide)
  have hc := spaceLoop_congr M Mark_Zero Space_One Space_Zero
    (toUChar (toUInt (d.rawlen + 65535))) hMax (toUChar (toUInt (d.rawlen + 65535)))
    { d with offset := 3 } { d with rawbuf := buf, offset := 3 } 0 rfl h3
  obtain ⟨od, hsd⟩ := spaceLoop_state M Mark_Zero Space_One Space_Zero
    (toUChar (toUInt (d.rawlen + 65535))) (toUChar (toUInt (d.rawlen + 65535)))
    { d with offset := 3 } 0
  obtain ⟨oe, hse⟩ := spaceLoop_state M Mark_Zero Space_One Space_Zero
    (toUChar (toUInt (d.rawlen + 65535))) (toUChar (toUInt (d.rawlen + 65535)))
    { d with rawbuf := buf, offset := 3 } 0
  unfold IRdecodeBase.decodeGeneric
  simp only [e2, c2, c3, ne_eq, not_true_eq_false, if_false]
  split_ifs
  · exact ⟨rfl, rfl, rfl⟩
  · exact ⟨rfl, rfl, rfl⟩
  · exact ⟨rfl, rfl, rfl⟩
  · rcases hd : decodeGeneric.spaceLoop M Mark_Zero Space_One Space_Zero
      (toUChar (toUInt (d.rawlen + 65535))) (toUChar (toUInt (d.rawlen + 65535)))
      { d with offset := 3 } 0 with ⟨o1, d3, dat1⟩
    rcases he : decodeGeneric.spaceLoop M Mark_Zero Space_One Space_Zero
      (toUChar (toUInt (d.rawlen + 65535))) (toUChar (toUInt (d.rawlen + 65535)))
      { d with rawbuf := buf, offset := 3 } 0 with ⟨o2, e3, dat2⟩
    rw [hd] at hsd
    rw [he] at hse
    rw [hd, he] at hc
    simp only [] at hsd hse hc
    obtain ⟨hc1, hc2, hc3⟩ := hc
    subst hsd hse hc1 hc3
    simp only [] at hc2
    subst hc2
    cases o2 <;> exact ⟨rfl, rfl, rfl⟩

/-- C13, amended. Header-check suppression: with `ignoreHeader = true`, `decodeGeneric`
does not match the header mark, so in the space-length convention its result (outcome,
`value`, `bits`) is the same whatever sample 1 is.  The header space is still matched:
when `Head_Space` is non-zero and sample 2 does not match it, the call fails with the
header-space error; the result is independent of sample 2 as well only when `Head_Space`
is zero. -/
theorem ignoreHeader_skips_header_mark (M : Nat → Nat → Bool)
    (Raw_Count Head_Mark Head_Space Mark_Zero Space_One Space_Zero : Nat) (d : IRdecode)
    (hig : d.ignoreHeader = true) (x : Nat) :
    agrees
      (IRdecodeBase.decodeGeneric M Raw_Count Head_Mark Head_Space 0 Mark_Zero Space_One
        Space_Zero d)
      (IRdecodeBase.decodeGeneric M Raw_Count Head_Mark Head_Space 0 Mark_Zero Space_One
        Space_Zero { d with rawbuf := Function.update d.rawbuf 1 x }) ∧
    (Head_Space = 0 → ∀ y, agrees
      (IRdecodeBase.decodeGeneric M Raw_Count Head_Mark Head_Space 0 Mark_Zero Space_One
        Space_Zero d)
      (IRdecodeBase.decodeGeneric M Raw_Count Head_Mark Head_Space 0 Mark_Zero Space_One
        Space_Zero { d with rawbuf := Function.update (Function.update d.rawbuf 1 x) 2 y })) ∧
    ((Raw_Count = 0 ∨ d.rawlen = Raw_Count) → Head_Space ≠ 0 →
      M (d.rawbuf 2) Head_Space = false →
      (IRdecodeBase.decodeGeneric M Raw_Count Head_Mark Head_Space 0 Mark_Zero Space_One
        Space_Zero d).1 = Outcome.HEADER_SPACE_ERROR) := by
  refine ⟨?_, ?_, ?_⟩
  · apply decodeGeneric_space_congr M Raw_Count Head_Mark Head_Space Mark_Zero Space_One
      Space_Zero d _ (Or.inl hig)
    · right; exact Function.update_noteq (by decide) _ _
    · intro i hi
      exact Function.update_noteq (by omega) _ _
  · intro hs y
    apply decodeGeneric_space_congr M Raw_Count Head_Mark Head_Space Mark_Zero Space_One
      Space_Zero d _ (Or.inl hig) (Or.inl hs)
    intro i hi
    rw [Function.update_noteq (by omega), Function.update_noteq (by omega)]
  · intro hcount hs hm
    have c1 : ¬ (Raw_Count ≠ 0 ∧ d.rawlen ≠ Raw_Count) := by
      rcases hcount with h | h
      · exact fun hh => hh.1 h
      · exact fun hh => hh.2 h
    have e2 : toUInt (1 + 1) = 2 := toUInt_of_lt (by decide)
    unfold IRdecodeBase.decodeGeneric
    simp [c1, hig, e2, hs, hm]

theorem ignoreHeader_skips_header_mark_witness :
    ({ IRdecode.fresh.receive NEC_jitter_frame with ignoreHeader := true }).ignoreHeader = true ∧
    (agrees
      (IRdecodeBase.decodeGeneric (MATCH 25 50) 68 (563 * 16) (563 * 8) 0 563 (563 * 3) 563
        { IRdecode.fresh.receive NEC_jitter_frame with ignoreHeader := true })
      (IRdecodeBase.decodeGeneric (MATCH 25 50) 68 (563 * 16) (563 * 8) 0 563 (563 * 3) 563
        { { IRdecode.fresh.receive NEC_jitter_frame with ignoreHeader := true } with
          rawbuf := Function.update
            ({ IRdecode.fresh.receive NEC_jitter_frame with ignoreHeader := true }).rawbuf
            1 100 }) ∧
    (563 * 8 = 0 → ∀ y, agrees
      (IRdecodeBase.decodeGeneric (MATCH 25 50) 68 (563 * 16) (563 * 8) 0 563 (563 * 3) 563
        { IRdecode.fresh.receive NEC_jitter_frame with ignoreHeader := true })
      (IRdecodeBase.decodeGeneric (MATCH 25 50) 68 (563 * 16) (563 * 8) 0 563 (563 * 3) 563
        { { IRdecode.fresh.receive NEC_jitter_frame with ignoreHeader := true } with
          rawbuf := Function.update (Function.update
            ({ IRdecode.fresh.receive NEC_jitter_frame with ignoreHeader := true }).rawbuf
            1 100) 2 y })) ∧
    ((68 = 0 ∨ ({ IRdecode.fresh.receive NEC_jitter_frame with
        ignoreHeader := true }).rawlen = 68) → 563 * 8 ≠ 0 →
      MATCH 25 50 (({ IRdecode.fresh.receive NEC_jitter_frame with
        ignoreHeader := true }).rawbuf 2) (563 * 8) = false →
      (IRdecodeBase.decodeGeneric (MATCH 25 50) 68 (563 * 16) (563 * 8) 0 563 (563 * 3) 563
        { IRdecode.fresh.receive NEC_jitter_frame with ignoreHeader := true }).1 =
          Outcome.HEADER_SPACE_ERROR)) :=
  ⟨rfl,
   ignoreHeader_skips_header_mark (MATCH 25 50) 68 (563 * 16) (563 * 8) 563 (563 * 3) 563
     { IRdecode.fresh.receive NEC_jitter_frame with ignoreHeader := true } rfl 100⟩

/-- C13, as stated, fails: with `ignoreHeader = true` the NEC template accepts the captured
frame for `0x20DF10EF`, and rejects the same frame with the header-space error once
sample 2 is changed from 4500 to 1000. -/
theorem ignoreHeader_still_matches_header_space :
    (IRdecodeBase.decodeGeneric (MATCH 25 50) 68 (563 * 16) (563 * 8) 0 563 (563 * 3) 563
      { IRdecode.fresh.receive NEC_jitter_frame with ignoreHeader := true }).1 =
        Outcome.matched ∧
    (IRdecodeBase.decodeGeneric (MATCH 25 50) 68 (563 * 16) (563 * 8) 0 563 (563 * 3) 563
      { IRdecode.fresh.receive (NEC_jitter_frame.set 2 1000) with ignoreHeader := true }).1 =
        Outcome.HEADER_SPACE_ERROR ∧
    ∀ i, i ≠ 2 → (NEC_jitter_frame.set 2 1000).getD i 0 = NEC_jitter_frame.getD i 0 := by
  refine ⟨by with_unfolding_all decide, by with_unfolding_all decide, ?_⟩
  intro i hi
  simp only [List.getD_eq_getElem?_getD, List.getElem?_set_ne (Ne.symm hi)]

/-! ## Convention selection -/

theorem spaceBits_length (M : Nat → Nat → Bool) (buf : Nat → Nat) (one : Nat) :
    ∀ (n off : Nat), (spaceBits M buf one off n).length = n := by
  intro n
  induction n with
  | zero => intro off; rfl
  | succ n ih => intro off; simp [spaceBits, ih]

/-- The space-length loop succeeds exactly when every mark matches `Mark_Zero` and every
space matches `Space_One` or, failing that, `Space_Zero`. -/
theorem spaceLoop_matched_iff (M : Nat → Nat → Bool) (Mark_Zero Space_One Space_Zero Max : Nat)
    (hMax : Max < 65536) : ∀ (n fuel : Nat) (d : IRdecode) (data : Nat),
    n ≤ fuel → d.offset + 2 * n = Max →
    ((decodeGeneric.spaceLoop M Mark_Zero Space_One Space_Zero Max fuel d data).1 =
        Outcome.matched ↔
      carries M d.rawbuf Mark_Zero Space_One Space_Zero d.offset
        (spaceBits M d.rawbuf Space_One d.offset n) = true) := by
  intro n
  induction n with
  | zero =>
    intro fuel d data _ hoff
    cases fuel with
    | zero => simp [decodeGeneric.spaceLoop, spaceBits, carries]
    | succ f =>
      unfold decodeGeneric.spaceLoop
      rw [if_neg (by omega)]
      simp [spaceBits, carries]
  | succ n ih =>
    intro fuel d data hfuel hoff
    cases fuel with
    | zero => omega
    | succ f =>
      have e1 : toUInt (d.offset + 1) = d.offset + 1 := toUInt_of_lt (by omega)
      have e2 : toUInt (d.offset + 1 + 1) = d.offset + 2 := toUInt_of_lt (by omega)
      have hlt : d.offset < Max := by omega
      have hrec : ∀ data1,
          ((decodeGeneric.spaceLoop M Mark_Zero Space_One Space_Zero Max f
            { d with offset := d.offset + 2 } data1).1 = Outcome.matched ↔
          carries M d.rawbuf Mark_Zero Space_One Space_Zero (d.offset + 2)
            (spaceBits M d.rawbuf Space_One (d.offset + 2) n) = true) := fun data1 =>
        ih f { d with offset := d.offset + 2 } data1 (by omega) (by simp only []; omega)
      unfold decodeGeneric.spaceLoop
      simp only [hlt, if_true, e1, e2, spaceBits, carries]
      cases hm : M (d.rawbuf d.offset) Mark_Zero
      · simp
      · cases h1 : M (d.rawbuf (d.offset + 1)) Space_One
        · cases h0 : M (d.rawbuf (d.offset + 1)) Space_Zero
          · simp
          · simpa using hrec _
        · simpa using hrec _

/-- C14. Convention selection: when `Mark_One` is non-zero the value passed as `Space_Zero`
is ignored — two calls of `decodeGeneric` that differ only in `Space_Zero` return the same
outcome and leave the same state.  When `Mark_One` is zero, on a frame of `2 * n + 4`
samples that passes the count and header checks, the call succeeds exactly when every mark
matches `Mark_Zero` and every space matches `Space_One` or else `Space_Zero`; the bit of a
pair is one iff its space matches `Space_One`, `value` holds these bits most significant
first and `bits` is `n`. -/
theorem convention_selection (M : Nat → Nat → Bool)
    (Raw_Count Head_Mark Head_Space Mark_One Mark_Zero Space_One Space_Zero Space_Zero2 : Nat)
    (d : IRdecode) :
    (Mark_One ≠ 0 →
      IRdecodeBase.decodeGeneric M Raw_Count Head_Mark Head_Space Mark_One Mark_Zero Space_One
        Space_Zero d =
      IRdecodeBase.decodeGeneric M Raw_Count Head_Mark Head_Space Mark_One Mark_Zero Space_One
        Space_Zero2 d) ∧
    (∀ n : Nat, (Raw_Count = 0 ∨ d.rawlen = Raw_Count) →
      (d.ignoreHeader = true ∨ Head_Mark = 0 ∨ M (d.rawbuf 1) Head_Mark = true) →
      (Head_Space = 0 ∨ M (d.rawbuf 2) Head_Space = true) →
      d.rawlen = 2 * n + 4 → n ≤ 125 →
      ((IRdecodeBase.decodeGeneric M Raw_Count Head_Mark Head_Space 0 Mark_Zero Space_One
          Space_Zero d).1 = Outcome.matched ↔
        carries M d.rawbuf Mark_Zero Space_One Space_Zero 3
          (spaceBits M d.rawbuf Space_One 3 n) = true) ∧
      ((IRdecodeBase.decodeGeneric M Raw_Count Head_Mark Head_Space 0 Mark_Zero Space_One
          Space_Zero d).1 = Outcome.matched →
        (IRdecodeBase.decodeGeneric M Raw_Count Head_Mark Head_Space 0 Mark_Zero Space_One
          Space_Zero d).2.value = (spaceBits M d.rawbuf Space_One 3 n).foldl shiftIn 0 ∧
        (IRdecodeBase.decodeGeneric M Raw_Count Head_Mark Head_Space 0 Mark_Zero Space_One
          Space_Zero d).2.bits = n)) := by
  constructor
  · intro hM1
    unfold IRdecodeBase.decodeGeneric
    simp only [hM1, ne_eq, not_false_eq_true, if_true]
  · intro n hcount hhm hhs hlen hsmall
    have hiff : (IRdecodeBase.decodeGeneric M Raw_Count Head_Mark Head_Space 0 Mark_Zero
        Space_One Space_Zero d).1 = Outcome.matched ↔
        carries M d.rawbuf Mark_Zero Space_One Space_Zero 3
          (spaceBits M d.rawbuf Space_One 3 n) = true := by
      have hMax : toUChar (toUInt (d.rawlen + 65535)) = 2 * n + 3 := by
        unfold toUChar toUInt; omega
      have c1 : ¬ (Raw_Count ≠ 0 ∧ d.rawlen ≠ Raw_Count) := by
        rcases hcount with h | h
        · exact fun hh => hh.1 h
        · exact fun hh => hh.2 h
      have c2 : (!d.ignoreHeader && decide (Head_Mark ≠ 0) && !M (d.rawbuf 1) Head_Mark) =
          false := by
        rcases hhm with h | h | h <;> simp [h]
      have c3 : (decide (Head_Space ≠ 0) && !M (d.rawbuf 2) Head_Space) = false := by
        rcases hhs with h | h <;> simp [h]
      have e2 : toUInt (1 + 1) = 2 := toUInt_of_lt (by decide)
      have hloop := spaceLoop_matched_iff M Mark_Zero Space_One Space_Zero (2 * n + 3)
        (by omega) n (2 * n + 3) { d with offset := 3 } 0 (by omega) (by simp only []; omega)
      simp only [] at hloop
      rw [← hloop]
      unfold IRdecodeBase.decodeGeneric
      simp only [c1, if_false, c2, e2, c3, Bool.false_eq_true, ne_eq, not_true_eq_false, hMax]
      rcases decodeGeneric.spaceLoop M Mark_Zero Space_One Space_Zero (2 * n + 3)
        (2 * n + 3) { d with offset := 3 } 0 with ⟨o, d3, dat⟩
      cases o <;> simp
    refine ⟨hiff, ?_⟩
    intro hm
    have hc := hiff.mp hm
    have hl := spaceBits_length M d.rawbuf Space_One n 3
    have := decodeGeneric_space_carries M Raw_Count Head_Mark Head_Space Mark_Zero Space_One
      Space_Zero d (spaceBits M d.rawbuf Space_One 3 n) hcount hhm hhs (by rw [hl]; exact hlen)
      (by rw [hl]; exact hsmall) hc
    rw [this]
    exact ⟨rfl, hl⟩

theorem convention_selection_witness :
    (563 ≠ 0 ∧ (68 = 0 ∨ (IRdecode.fresh.receive NEC_jitter_frame).rawlen = 68) ∧
      ((IRdecode.fresh.receive NEC_jitter_frame).ignoreHeader = true ∨ 563 * 16 = 0 ∨
        MATCH 25 50 ((IRdecode.fresh.receive NEC_jitter_frame).rawbuf 1) (563 * 16) = true) ∧
      (563 * 8 = 0 ∨
        MATCH 25 50 ((IRdecode.fresh.receive NEC_jitter_frame).rawbuf 2) (563 * 8) = true) ∧
      (IRdecode.fresh.receive NEC_jitter_frame).rawlen = 2 * 32 + 4 ∧ 32 ≤ 125) ∧
    (IRdecodeBase.decodeGeneric (MATCH 25 50) 68 (563 * 16) (563 * 8) 563 563 (563 * 3) 563
        (IRdecode.fresh.receive NEC_jitter_frame) =
      IRdecodeBase.decodeGeneric (MATCH 25 50) 68 (563 * 16) (563 * 8) 563 563 (563 * 3) 0
        (IRdecode.fresh.receive NEC_jitter_frame)) ∧
    (((IRdecodeBase.decodeGeneric (MATCH 25 50) 68 (563 * 16) (563 * 8) 0 563 (563 * 3) 563
          (IRdecode.fresh.receive NEC_jitter_frame)).1 = Outcome.matched ↔
        carries (MATCH 25 50) (IRdecode.fresh.receive NEC_jitter_frame).rawbuf 563 (563 * 3) 563 3
          (spaceBits (MATCH 25 50) (IRdecode.fresh.receive NEC_jitter_frame).rawbuf (563 * 3)
            3 32) = true) ∧
      ((IRdecodeBase.decodeGeneric (MATCH 25 50) 68 (563 * 16) (563 * 8) 0 563 (563 * 3) 563
          (IRdecode.fresh.receive NEC_jitter_frame)).1 = Outcome.matched →
        (IRdecodeBase.decodeGeneric (MATCH 25 50) 68 (563 * 16) (563 * 8) 0 563 (563 * 3) 563
          (IRdecode.fresh.receive NEC_jitter_frame)).2.value =
            (spaceBits (MATCH 25 50) (IRdecode.fresh.receive NEC_jitter_frame).rawbuf (563 * 3)
              3 32).foldl shiftIn 0 ∧
        (IRdecodeBase.decodeGeneric (MATCH 25 50) 68 (563 * 16) (563 * 8) 0 563 (563 * 3) 563
          (IRdecode.fresh.receive NEC_jitter_frame)).2.bits = 32)) :=
  ⟨⟨by decide, Or.inr rfl, Or.inr (Or.inr (by decide)), Or.inr (by decide), rfl, by decide⟩,
   (convention_selection (MATCH 25 50) 68 (563 * 16) (563 * 8) 563 563 (563 * 3) 563 0
      (IRdecode.fresh.receive NEC_jitter_frame)).1 (by decide),
   (convention_selection (MATCH 25 50) 68 (563 * 16) (563 * 8) 563 563 (563 * 3) 563 0
      (IRdecode.fresh.receive NEC_jitter_frame)).2 32 (Or.inr rfl) (Or.inr (Or.inr (by decide)))
      (Or.inr (by decide)) rfl (by decide)⟩

/-! ## The generic encode sequence -/

/-- Left-aligning keeps the low `n` bits only. -/
theorem shifted_mod {n : Nat} (data : Nat) (hn : n ≤ 32) :
    toULong (data <<< (32 - n)) = (data % 2 ^ n) * 2 ^ (32 - n) := by
  unfold toULong
  rw [Nat.shiftLeft_eq]
  have h32 : 2 ^ 32 = 2 ^ n * 2 ^ (32 - n) := by
    rw [← Nat.pow_add]; congr 1; omega
  rw [h32, Nat.mul_mod_mul_right]

/-- The bits of `data` from position `Num_Bits` up do not reach `sendGeneric`'s loop. -/
theorem sendGeneric_mod (data n Head_Mark Head_Space Mark_One Mark_Zero Space_One Space_Zero
    kHz : Nat) (Use_Stop : Bool) (Max_Extent : Nat) (s : IRsendBase) (hn : n ≤ 32) :
    s.sendGeneric data n Head_Mark Head_Space Mark_One Mark_Zero Space_One Space_Zero kHz
        Use_Stop Max_Extent =
      s.sendGeneric (data % 2 ^ n) n Head_Mark Head_Space Mark_One Mark_Zero Space_One
        Space_Zero kHz Use_Stop Max_Extent := by
  unfold IRsendBase.sendGeneric
  simp only [shifted_mod _ hn, Nat.mod_mod]

/-- C15. Generic encode sequence: for `1 ≤ Num_Bits ≤ 32`, `sendGeneric` emits exactly, in
this order: `mark(Head_Mark)` if `Head_Mark ≠ 0`; `space(Head_Space)` if `Head_Space ≠ 0`;
for the bits `Num_Bits - 1` down to 0 of `data`, `mark(Mark_One) space(Space_One)` for a
one and `mark(Mark_Zero) space(Space_Zero)` for a zero; `mark(Mark_One)` if `Use_Stop`; and
one final space.  Bits of `data` at positions `Num_Bits` and above do not change the
output. -/
theorem sendGeneric_sequence (data n Head_Mark Head_Space Mark_One Mark_Zero Space_One
    Space_Zero kHz : Nat) (Use_Stop : Bool) (Max_Extent : Nat) (s : IRsendBase)
    (_h1 : 1 ≤ n) (hn : n ≤ 32) :
    (∃ t, IRsendBase.emitted (IRsendBase.sendGeneric data n Head_Mark Head_Space Mark_One
        Mark_Zero Space_One Space_Zero kHz Use_Stop Max_Extent) s =
      (if Head_Mark ≠ 0 then [⟨true, Head_Mark⟩] else []) ++
        (if Head_Space ≠ 0 then [⟨false, Head_Space⟩] else []) ++
        (msbBits n data).flatMap (bitPulses Mark_One Mark_Zero Space_One Space_Zero) ++
        (if Use_Stop = true then [⟨true, Mark_One⟩] else []) ++ [⟨false, t⟩]) ∧
    (∀ data2, data2 % 2 ^ n = data % 2 ^ n →
      IRsendBase.emitted (IRsendBase.sendGeneric data2 n Head_Mark Head_Space Mark_One
        Mark_Zero Space_One Space_Zero kHz Use_Stop Max_Extent) s =
      IRsendBase.emitted (IRsendBase.sendGeneric data n Head_Mark Head_Space Mark_One
        Mark_Zero Space_One Space_Zero kHz Use_Stop Max_Extent) s) := by
  constructor
  · obtain ⟨t, ht⟩ := sendGeneric_out (data % 2 ^ n) n Head_Mark Head_Space Mark_One Mark_Zero
      Space_One Space_Zero kHz Use_Stop Max_Extent { s with out := [] } hn
      (Nat.mod_lt _ (Nat.two_pow_pos n))
    refine ⟨t, ?_⟩
    unfold IRsendBase.emitted
    rw [sendGeneric_mod _ _ _ _ _ _ _ _ _ _ _ _ hn, ht, msbBits_mod data n n (Nat.le_refl n)]
    rfl
  · intro data2 h2
    unfold IRsendBase.emitted
    rw [sendGeneric_mod data2 _ _ _ _ _ _ _ _ _ _ _ hn, sendGeneric_mod data _ _ _ _ _ _ _ _ _ _ _ hn,
      h2]

theorem sendGeneric_sequence_witness :
    (1 ≤ 12 ∧ 12 ≤ 32) ∧
    ((∃ t, IRsendBase.emitted (IRsendBase.sendGeneric 0xFFFFFA90 12 (600 * 4) 600 (600 * 2)
        600 600 600 40 false 45000) IRsendBase.idle =
      (if 600 * 4 ≠ 0 then [⟨true, 600 * 4⟩] else []) ++
        (if 600 ≠ 0 then [⟨false, 600⟩] else []) ++
        (msbBits 12 0xFFFFFA90).flatMap (bitPulses (600 * 2) 600 600 600) ++
        (if false = true then [⟨true, 600 * 2⟩] else []) ++ [⟨false, t⟩]) ∧
    (∀ data2, data2 % 2 ^ 12 = 0xFFFFFA90 % 2 ^ 12 →
      IRsendBase.emitted (IRsendBase.sendGeneric data2 12 (600 * 4) 600 (600 * 2)
        600 600 600 40 false 45000) IRsendBase.idle =
      IRsendBase.emitted (IRsendBase.sendGeneric 0xFFFFFA90 12 (600 * 4) 600 (600 * 2)
        600 600 600 40 false 45000) IRsendBase.idle)) :=
  ⟨⟨by decide, by decide⟩,
   sendGeneric_sequence 0xFFFFFA90 12 (600 * 4) 600 (600 * 2) 600 600 600 40 false 45000
     IRsendBase.idle (by decide) (by decide)⟩

/-! ## Extent padding -/

theorem toULong_add_toULong (a b : Nat) : toULong (toULong a + b) = toULong (a + b) := by
  unfold toULong; omega

theorem totalUsec_append_singleton (ps : List Pulse) (p : Pulse) :
    totalUsec (ps ++ [p]) = totalUsec ps + p.usec := by
  simp [totalUsec]

theorem mark_tracks (t : Nat) (s : IRsendBase) (h : s.tracks) : (s.mark t).tracks := by
  unfold IRsendBase.tracks at h ⊢
  unfold IRsendBase.mark
  simp only [totalUsec_append_singleton, h, toULong_add_toULong]

theorem space_tracks (t : Nat) (s : IRsendBase) (h : s.tracks) : (s.space t).tracks := by
  unfold IRsendBase.tracks at h ⊢
  unfold IRsendBase.space
  simp only [totalUsec_append_singleton, h, toULong_add_toULong]

theorem sendGeneric_bitLoop_tracks (Mark_One Mark_Zero Space_One Space_Zero : Nat) :
    ∀ (n data : Nat) (s : IRsendBase), s.tracks →
    (sendGeneric.bitLoop Mark_One Mark_Zero Space_One Space_Zero n data s).tracks := by
  intro n
  induction n with
  | zero => intro data s h; exact h
  | succ n ih =>
    intro data s h
    unfold sendGeneric.bitLoop
    apply ih
    split_ifs
    · exact space_tracks _ _ (mark_tracks _ _ h)
    · exact space_tracks _ _ (mark_tracks _ _ h)

/-- Up to its final space, `sendGeneric` keeps `Extent` equal to the sum of what it
emitted, whatever `Extent` held before the call. -/
theorem sendGeneric_final (data n Head_Mark Head_Space Mark_One Mark_Zero Space_One Space_Zero
    kHz : Nat) (Use_Stop : Bool) (Max_Extent : Nat) (s : IRsendBase) :
    ∃ s5 : IRsendBase, s5.tracks ∧
      IRsendBase.sendGeneric data n Head_Mark Head_Space Mark_One Mark_Zero Space_One
        Space_Zero kHz Use_Stop Max_Extent { s with out := [] } =
      (if Max_Extent ≠ 0 then s5.space (toUInt (toULong (Max_Extent + 2 ^ 32 - s5.Extent)))
       else s5.space Space_One) := by
  unfold IRsendBase.sendGeneric
  refine ⟨_, ?_, rfl⟩
  have h0 : (IRsendBase.enableIROut kHz { s with out := [], Extent := 0 }).tracks := by
    unfold IRsendBase.tracks IRsendBase.enableIROut totalUsec toULong
    rfl
  have h2 : (if Head_Mark ≠ 0 then
      (IRsendBase.enableIROut kHz { s with out := [], Extent := 0 }).mark Head_Mark
      else IRsendBase.enableIROut kHz { s with out := [], Extent := 0 }).tracks := by
    split_ifs
    · exact mark_tracks _ _ h0
    · exact h0
  have h3 : (if Head_Space ≠ 0 then
      (if Head_Mark ≠ 0 then
        (IRsendBase.enableIROut kHz { s with out := [], Extent := 0 }).mark Head_Mark
        else IRsendBase.enableIROut kHz { s with out := [], Extent := 0 }).space Head_Space
      else (if Head_Mark ≠ 0 then
        (IRsendBase.enableIROut kHz { s with out := [], Extent := 0 }).mark Head_Mark
        else IRsendBase.enableIROut kHz { s with out := [], Extent := 0 })).tracks := by
    split_ifs at h2 ⊢ <;> first | exact space_tracks _ _ h2 | exact h2
  have h4 := sendGeneric_bitLoop_tracks Mark_One Mark_Zero Space_One Space_Zero n
    (toULong (data <<< (32 - n))) _ h3
  simp only []
  by_cases hU : Use_Stop = true
  · rw [if_pos hU]; exact mark_tracks _ _ h4
  · rw [if_neg hU]; exact h4

/-- C16. Extent padding, as the code has it: `sendGeneric` ends with one space after the
emissions `pre`.  With `Max_Extent = 0` it is `Space_One`.  With `Max_Extent ≠ 0` and
`pre` summing to at most `Max_Extent`, it is `Max_Extent` minus that sum reduced modulo
`2 ^ 16`, because `space` takes an `unsigned int`: when the difference is below 65536 the
final space is the difference and `Extent` ends at exactly `Max_Extent`, whatever it held
before the call; when the difference is 65536 or more the final space is shorter than the
difference and `Extent` ends below `Max_Extent`. -/
theorem sendGeneric_extent_padding (data n Head_Mark Head_Space Mark_One Mark_Zero Space_One
    Space_Zero kHz : Nat) (Use_Stop : Bool) (Max_Extent : Nat) (s : IRsendBase)
    (h32 : Max_Extent < 2 ^ 32) :
    ∃ pre t,
      IRsendBase.emitted (IRsendBase.sendGeneric data n Head_Mark Head_Space Mark_One
        Mark_Zero Space_One Space_Zero kHz Use_Stop Max_Extent) s = pre ++ [⟨false, t⟩] ∧
      (Max_Extent = 0 → t = Space_One) ∧
      (Max_Extent ≠ 0 → totalUsec pre ≤ Max_Extent →
        t = (Max_Extent - totalUsec pre) % 65536 ∧
        (IRsendBase.sendGeneric data n Head_Mark Head_Space Mark_One Mark_Zero Space_One
          Space_Zero kHz Use_Stop Max_Extent { s with out := [] }).Extent =
            totalUsec pre + t ∧
        (Max_Extent - totalUsec pre < 65536 →
          t = Max_Extent - totalUsec pre ∧
          (IRsendBase.sendGeneric data n Head_Mark Head_Space Mark_One Mark_Zero Space_One
            Space_Zero kHz Use_Stop Max_Extent { s with out := [] }).Extent = Max_Extent) ∧
        (65536 ≤ Max_Extent - totalUsec pre →
          t < Max_Extent - totalUsec pre ∧
          (IRsendBase.sendGeneric data n Head_Mark Head_Space Mark_One Mark_Zero Space_One
            Space_Zero kHz Use_Stop Max_Extent { s with out := [] }).Extent < Max_Extent)) := by
  obtain ⟨s5, htr, heq⟩ := sendGeneric_final data n Head_Mark Head_Space Mark_One Mark_Zero
    Space_One Space_Zero kHz Use_Stop Max_Extent s
  unfold IRsendBase.emitted
  rw [heq]
  by_cases hM : Max_Extent = 0
  · refine ⟨s5.out, Space_One, ?_, fun _ => rfl, fun h => absurd hM h⟩
    rw [if_neg (fun h => h hM)]
    rfl
  · refine ⟨s5.out, toUInt (toULong (Max_Extent + 2 ^ 32 - s5.Extent)), ?_,
      fun h => absurd h hM, ?_⟩
    · rw [if_pos hM]; rfl
    · intro _ hle
      rw [if_pos hM]
      unfold IRsendBase.tracks at htr
      have hE : s5.Extent = totalUsec s5.out := by
        rw [htr]; unfold toULong; omega
      have ht : toUInt (toULong (Max_Extent + 2 ^ 32 - s5.Extent)) =
          (Max_Extent - totalUsec s5.out) % 65536 := by
        rw [hE]; unfold toUInt toULong; omega
      have hX : (s5.space (toUInt (toULong (Max_Extent + 2 ^ 32 - s5.Extent)))).Extent =
          totalUsec s5.out + (Max_Extent - totalUsec s5.out) % 65536 := by
        show toULong (s5.Extent + toUInt (toULong (Max_Extent + 2 ^ 32 - s5.Extent))) = _
        rw [ht, hE]
        unfold toULong; omega
      rw [hX, ht]
      refine ⟨rfl, rfl, ?_, ?_⟩
      · intro h; omega
      · intro h; omega

theorem sendGeneric_extent_padding_witness :
    100000 < 2 ^ 32 ∧
    ∃ pre t,
      IRsendBase.emitted (IRsendBase.sendGeneric 0 8 2400 600 1200 600 600 600 40 false
        100000) IRsendBase.idle = pre ++ [⟨false, t⟩] ∧
      (100000 = 0 → t = 600) ∧
      (100000 ≠ 0 → totalUsec pre ≤ 100000 →
        t = (100000 - totalUsec pre) % 65536 ∧
        (IRsendBase.sendGeneric 0 8 2400 600 1200 600 600 600 40 false 100000
          { IRsendBase.idle with out := [] }).Extent = totalUsec pre + t ∧
        (100000 - totalUsec pre < 65536 →
          t = 100000 - totalUsec pre ∧
          (IRsendBase.sendGeneric 0 8 2400 600 1200 600 600 600 40 false 100000
            { IRsendBase.idle with out := [] }).Extent = 100000) ∧
        (65536 ≤ 100000 - totalUsec pre →
          t < 100000 - totalUsec pre ∧
          (IRsendBase.sendGeneric 0 8 2400 600 1200 600 600 600 40 false 100000
            { IRsendBase.idle with out := [] }).Extent < 100000)) :=
  ⟨by decide,
   sendGeneric_extent_padding 0 8 2400 600 1200 600 600 600 40 false 100000 IRsendBase.idle
     (by decide)⟩

/-- The padding of `sendGeneric(0, 8, 2400, 600, 1200, 600, 600, 600, 40, false, 100000)`:
the eighteen emissions before the final space sum to 12600, the final space is 21864 and
not 87400, and `Extent` ends at 34464 and not at 100000. -/
theorem sendGeneric_extent_truncated_example :
    ((IRsendBase.sendGeneric 0 8 2400 600 1200 600 600 600 40 false 100000
      IRsendBase.idle).out.dropLast.length = 18 ∧
     totalUsec (IRsendBase.sendGeneric 0 8 2400 600 1200 600 600 600 40 false 100000
      IRsendBase.idle).out.dropLast = 12600) ∧
    (IRsendBase.sendGeneric 0 8 2400 600 1200 600 600 600 40 false 100000
      IRsendBase.idle).out.getLast? = some ⟨false, 21864⟩ ∧
    (IRsendBase.sendGeneric 0 8 2400 600 1200 600 600 600 40 false 100000
      IRsendBase.idle).Extent = 34464 := by
  decide!

/-! ## Hash fallback -/

/-- The hash loop touches `hash` only. -/
theorem hashLoop_state : ∀ (fuel i : Nat) (d : IRdecode),
    ∃ h, IRdecodeHash.loop fuel i d = { d with hash := h } := by
  intro fuel
  induction fuel with
  | zero => intro i d; exact ⟨d.hash, rfl⟩
  | succ f ih =>
    intro i d
    unfold IRdecodeHash.loop
    split_ifs
    · exact ih _ _
    · exact ⟨d.hash, rfl⟩

/-- The hash loop from index `i` folds the outcomes at `i, i + 1, ...` while `i + 2` is
below `rawlen`. -/
theorem hashLoop_fold : ∀ (fuel i : Nat) (d : IRdecode),
    d.rawlen < 65536 → i + 2 < 65536 → d.rawlen - (i + 2) ≤ fuel →
    (IRdecodeHash.loop fuel i d).hash =
      hashFold d.rawbuf d.hash (List.range' i (d.rawlen - (i + 2))) := by
  intro fuel
  induction fuel with
  | zero =>
    intro i d _ _ hf
    have : d.rawlen - (i + 2) = 0 := by omega
    rw [this]
    rfl
  | succ f ih =>
    intro i d hlen hi hf
    have e2 : toUInt (i + 2) = i + 2 := toUInt_of_lt hi
    have e1 : toUInt (i + 1) = i + 1 := toUInt_of_lt (by omega)
    unfold IRdecodeHash.loop
    rw [e2, e1]
    by_cases hlt : i + 2 < d.rawlen
    · rw [if_pos hlt]
      have hrec := ih (i + 1)
        { d with hash := toULong (d.hash * FNV_PRIME_32) ^^^
            IRdecodeHash.compare (d.rawbuf i) (d.rawbuf (i + 2)) }
        hlen (by omega) (by show d.rawlen - (i + 1 + 2) ≤ f; omega)
      rw [hrec]
      have hk : d.rawlen - (i + 2) = (d.rawlen - (i + 1 + 2)) + 1 := by omega
      rw [hk, List.range'_succ]
      rfl
    · rw [if_neg hlt]
      have : d.rawlen - (i + 2) = 0 := by omega
      rw [this]
      rfl

/-- C17, amended. Hash definition: `IRdecodeHash::decode` returns `true` and sets `hash` to
the value obtained by starting from 2166136261 and, for every index `i` from 1 on with
`i + 2 < rawlen`, in increasing order, replacing `hash` by
`((hash * 16777619) mod 2 ^ 32) XOR compare(rawbuf[i], rawbuf[i+2])`: the gap sample at
index 0 is never the first argument of `compare`, and a frame folds `rawlen - 3` outcomes.
No other field of the decoder changes. -/
theorem hash_definition (d : IRdecode) (hlen : d.rawlen < 65536) :
    (IRdecodeHash.decode d).1 = true ∧
    (IRdecodeHash.decode d).2.hash =
      hashFold d.rawbuf 2166136261 (List.range' 1 (d.rawlen - 3)) ∧
    (List.range' 1 (d.rawlen - 3)).length = d.rawlen - 3 ∧
    (IRdecodeHash.decode d).2 = { d with hash := (IRdecodeHash.decode d).2.hash } := by
  refine ⟨rfl, ?_, List.length_range' _ _ _, ?_⟩
  · unfold IRdecodeHash.decode
    exact hashLoop_fold d.rawlen 1 { d with hash := FNV_BASIS_32 } hlen (by decide)
      (by show d.rawlen - (1 + 2) ≤ d.rawlen; omega)
  · unfold IRdecodeHash.decode
    obtain ⟨h, hh⟩ := hashLoop_state d.rawlen 1 { d with hash := FNV_BASIS_32 }
    simp only [hh]

theorem hash_definition_witness :
    (IRdecode.fresh.receive NEC_jitter_frame).rawlen < 65536 ∧
    ((IRdecodeHash.decode (IRdecode.fresh.receive NEC_jitter_frame)).1 = true ∧
     (IRdecodeHash.decode (IRdecode.fresh.receive NEC_jitter_frame)).2.hash =
      hashFold (IRdecode.fresh.receive NEC_jitter_frame).rawbuf 2166136261
        (List.range' 1 ((IRdecode.fresh.receive NEC_jitter_frame).rawlen - 3)) ∧
     (List.range' 1 ((IRdecode.fresh.receive NEC_jitter_frame).rawlen - 3)).length =
      (IRdecode.fresh.receive NEC_jitter_frame).rawlen - 3 ∧
     (IRdecodeHash.decode (IRdecode.fresh.receive NEC_jitter_frame)).2 =
      { IRdecode.fresh.receive NEC_jitter_frame with
        hash := (IRdecodeHash.decode (IRdecode.fresh.receive NEC_jitter_frame)).2.hash }) :=
  ⟨by decide, hash_definition (IRdecode.fresh.receive NEC_jitter_frame) (by decide)⟩

/-- C17, as stated, fails: on the frame `[20000, 9000, 4500, 560, 560]` the code folds the
two outcomes of the index pairs (1, 3) and (2, 4) and yields 292984781; folding the three
outcomes from index 0 on, as the claim has it, would yield 1253111735. -/
theorem hash_starts_at_index_one :
    (IRdecodeHash.decode (IRdecode.fresh.receive [20000, 9000, 4500, 560, 560])).2.hash =
      292984781 ∧
    hashFold (IRdecode.fresh.receive [20000, 9000, 4500, 560, 560]).rawbuf 2166136261
      (List.range' 1 2) = 292984781 ∧
    hashFold (IRdecode.fresh.receive [20000, 9000, 4500, 560, 560]).rawbuf 2166136261
      (List.range' 0 3) = 1253111735 := by
  decide!

/-- The hash loop sees the frame only through the outcomes of `compare` at the index pairs
`(j, j + 2)` below `rawlen`, and the decoder only through `rawlen` and `hash`. -/
theorem hashLoop_congr : ∀ (fuel i : Nat) (d e : IRdecode),
    d.rawlen < 65536 → i + 2 < 65536 → e.rawlen = d.rawlen → e.hash = d.hash →
    (∀ j, j + 2 < d.rawlen →
      IRdecodeHash.compare (e.rawbuf j) (e.rawbuf (j + 2)) =
        IRdecodeHash.compare (d.rawbuf j) (d.rawbuf (j + 2))) →
    (IRdecodeHash.loop fuel i e).hash = (IRdecodeHash.loop fuel i d).hash := by
  intro fuel
  induction fuel with
  | zero => intro i d e _ _ _ hh _; exact hh
  | succ f ih =>
    intro i d e hlen hi hl hh hc
    have e2 : toUInt (i + 2) = i + 2 := toUInt_of_lt hi
    have e1 : toUInt (i + 1) = i + 1 := toUInt_of_lt (by omega)
    unfold IRdecodeHash.loop
    rw [e2, e1]
    by_cases hlt : i + 2 < d.rawlen
    · rw [if_pos hlt, if_pos (by rw [hl]; exact hlt)]
      apply ih (i + 1)
        { d with hash := toULong (d.hash * FNV_PRIME_32) ^^^
            IRdecodeHash.compare (d.rawbuf i) (d.rawbuf (i + 2)) }
        { e with hash := toULong (e.hash * FNV_PRIME_32) ^^^
            IRdecodeHash.compare (e.rawbuf i) (e.rawbuf (i + 2)) }
        hlen (by omega) hl
      · show toULong (e.hash * FNV_PRIME_32) ^^^ _ = toULong (d.hash * FNV_PRIME_32) ^^^ _
        rw [hh, hc i hlt]
      · exact hc
    · rw [if_neg hlt, if_neg (by rw [hl]; exact hlt)]
      exact hh

/-- The hash is a function of `rawlen` and of the outcomes of `compare` on the samples. -/
theorem hash_decode_congr (d e : IRdecode) (hlen : d.rawlen < 65536)
    (hl : e.rawlen = d.rawlen)
    (hc : ∀ j, j + 2 < d.rawlen →
      IRdecodeHash.compare (e.rawbuf j) (e.rawbuf (j + 2)) =
        IRdecodeHash.compare (d.rawbuf j) (d.rawbuf (j + 2))) :
    (IRdecodeHash.decode e).2.hash = (IRdecodeHash.decode d).2.hash := by
  have h := hashLoop_congr d.rawlen 1 { d with hash := FNV_BASIS_32 }
    { e with hash := FNV_BASIS_32 } hlen (by decide) hl rfl hc
  unfold IRdecodeHash.decode
  rw [show IRdecodeHash.loop e.rawlen = IRdecodeHash.loop d.rawlen from by rw [hl]]
  exact h

theorem compare_double (a b : Nat) :
    IRdecodeHash.compare (2 * a) (2 * b) = IRdecodeHash.compare a b := by
  unfold IRdecodeHash.compare
  split_ifs <;> omega

/-- C18. Hash scale invariance: for a frame and the frame of the same length with every
sample doubled (the doubled samples still fitting 16 bits), `compare` gives the same
outcome on doubled arguments as on the original ones, and `IRdecodeHash::decode` yields
the same hash for both frames. -/
theorem hash_scale_invariance (d : IRdecode) (frame : List Nat)
    (hlen : frame.length < 65536) (_hfit : ∀ x ∈ frame, 2 * x < 65536) :
    (∀ a b, IRdecodeHash.compare (2 * a) (2 * b) = IRdecodeHash.compare a b) ∧
    (d.receive (frame.map (fun x => 2 * x))).rawlen = (d.receive frame).rawlen ∧
    (∀ i, i < frame.length →
      (d.receive (frame.map (fun x => 2 * x))).rawbuf i = 2 * (d.receive frame).rawbuf i) ∧
    (IRdecodeHash.decode (d.receive (frame.map (fun x => 2 * x)))).2.hash =
      (IRdecodeHash.decode (d.receive frame)).2.hash := by
  have hbuf : ∀ i, i < frame.length →
      (d.receive (frame.map (fun x => 2 * x))).rawbuf i = 2 * (d.receive frame).rawbuf i := by
    intro i hi
    simp [IRdecode.receive, List.getD_eq_getElem?_getD, hi]
  refine ⟨compare_double, by simp [IRdecode.receive], hbuf, ?_⟩
  apply hash_decode_congr (d.receive frame) (d.receive (frame.map (fun x => 2 * x)))
    (by simpa [IRdecode.receive] using hlen) (by simp [IRdecode.receive])
  intro j hj
  have hj2 : j + 2 < frame.length := by simpa [IRdecode.receive] using hj
  rw [hbuf j (by omega), hbuf (j + 2) hj2, compare_double]

theorem hash_scale_invariance_witness :
    (NEC_jitter_frame.length < 65536 ∧ ∀ x ∈ NEC_jitter_frame, 2 * x < 65536) ∧
    ((∀ a b, IRdecodeHash.compare (2 * a) (2 * b) = IRdecodeHash.compare a b) ∧
     (IRdecode.fresh.receive (NEC_jitter_frame.map (fun x => 2 * x))).rawlen =
      (IRdecode.fresh.receive NEC_jitter_frame).rawlen ∧
     (∀ i, i < NEC_jitter_frame.length →
      (IRdecode.fresh.receive (NEC_jitter_frame.map (fun x => 2 * x))).rawbuf i =
        2 * (IRdecode.fresh.receive NEC_jitter_frame).rawbuf i) ∧
     (IRdecodeHash.decode (IRdecode.fresh.receive
        (NEC_jitter_frame.map (fun x => 2 * x)))).2.hash =
      (IRdecodeHash.decode (IRdecode.fresh.receive NEC_jitter_frame)).2.hash) :=
  ⟨⟨by decide, by decide⟩,
   hash_scale_invariance IRdecode.fresh NEC_jitter_frame (by decide) (by decide)⟩

theorem compare_le (a b : Nat) : IRdecodeHash.compare a b < 2 ^ 32 := by
  unfold IRdecodeHash.compare
  split_ifs <;> decide

theorem hashFold_lt (buf : Nat → Nat) : ∀ (is : List Nat) (h0 : Nat), h0 < 2 ^ 32 →
    hashFold buf h0 is < 2 ^ 32 := by
  intro is
  induction is with
  | nil => intro h0 h; exact h
  | cons i is ih =>
    intro h0 _
    unfold hashFold
    rw [List.foldl_cons]
    apply ih
    apply Nat.xor_lt_two_pow
    · unfold toULong; exact Nat.mod_lt _ (by decide)
    · exact compare_le _ _

/-- C19. Hash determinism: the hash `IRdecodeHash::decode` computes is a function of
`rawlen` and the samples only.  Two decoders with the same `rawlen` and the same samples
below `rawlen` get the same hash, whatever their `hash` field and their other fields held;
a second call on the unchanged frame yields the same hash again; and the hash is a 32-bit
value. -/
theorem hash_determinism (d e : IRdecode) (hlen : d.rawlen < 65536)
    (hl : e.rawlen = d.rawlen) (hbuf : ∀ j, j < d.rawlen → e.rawbuf j = d.rawbuf j) :
    (IRdecodeHash.decode e).2.hash = (IRdecodeHash.decode d).2.hash ∧
    (IRdecodeHash.decode (IRdecodeHash.decode d).2).2.hash = (IRdecodeHash.decode d).2.hash ∧
    (IRdecodeHash.decode d).2.hash < 2 ^ 32 := by
  refine ⟨?_, ?_, ?_⟩
  · apply hash_decode_congr d e hlen hl
    intro j hj
    rw [hbuf j (by omega), hbuf (j + 2) hj]
  · obtain ⟨h, hh⟩ := hashLoop_state d.rawlen 1 { d with hash := FNV_BASIS_32 }
    have hd : (IRdecodeHash.decode d).2 = { d with hash := h } := by
      unfold IRdecodeHash.decode
      simp only [hh]
    have hr : (IRdecodeHash.decode d).2.rawlen = d.rawlen := by rw [hd]
    have hb : (IRdecodeHash.decode d).2.rawbuf = d.rawbuf := by rw [hd]
    apply hash_decode_congr d (IRdecodeHash.decode d).2 hlen hr
    intro j _
    rw [hb]
  · have hf := hashLoop_fold d.rawlen 1 { d with hash := FNV_BASIS_32 } hlen (by decide)
      (by show d.rawlen - (1 + 2) ≤ d.rawlen; omega)
    unfold IRdecodeHash.decode
    simp only [hf]
    exact hashFold_lt _ _ _ (by decide)

theorem hash_determinism_witness :
    ((IRdecode.fresh.receive NEC_jitter_frame).rawlen < 65536 ∧
      ({ IRdecode.fresh.receive NEC_jitter_frame with hash := 12345, value := 7 }).rawlen =
        (IRdecode.fresh.receive NEC_jitter_frame).rawlen ∧
      ∀ j, j < (IRdecode.fresh.receive NEC_jitter_frame).rawlen →
        ({ IRdecode.fresh.receive NEC_jitter_frame with hash := 12345, value := 7 }).rawbuf j =
          (IRdecode.fresh.receive NEC_jitter_frame).rawbuf j) ∧
    ((IRdecodeHash.decode
        { IRdecode.fresh.receive NEC_jitter_frame with hash := 12345, value := 7 }).2.hash =
      (IRdecodeHash.decode (IRdecode.fresh.receive NEC_jitter_frame)).2.hash ∧
     (IRdecodeHash.decode (IRdecodeHash.decode
        (IRdecode.fresh.receive NEC_jitter_frame)).2).2.hash =
      (IRdecodeHash.decode (IRdecode.fresh.receive NEC_jitter_frame)).2.hash ∧
     (IRdecodeHash.decode (IRdecode.fresh.receive NEC_jitter_frame)).2.hash < 2 ^ 32) :=
  ⟨⟨by decide, rfl, fun _ _ => rfl⟩,
   hash_determinism (IRdecode.fresh.receive NEC_jitter_frame)
     { IRdecode.fresh.receive NEC_jitter_frame with hash := 12345, value := 7 }
     (by decide) rfl (fun _ _ => rfl)⟩

/-! ## Capacity of the capture buffer -/

/-- What the state machine does to `rawlen2`: nothing without a write; a write in
`STATE_START` opens a new frame at slot 0; any other write goes to slot `rawlen2`. -/
theorem stateMachine_cases (minTicks longTicks : Nat) (x : irdata_t) (p : irparams_t) :
    ((ISR.stateMachine minTicks longTicks x p).2 = none ∧
      (ISR.stateMachine minTicks longTicks x p).1.rawlen2 = p.rawlen2) ∨
    ((ISR.stateMachine minTicks longTicks x p).2 = some 0 ∧
      (ISR.stateMachine minTicks longTicks x p).1.rawlen2 = 1) ∨
    ((ISR.stateMachine minTicks longTicks x p).2 = some p.rawlen2 ∧
      (ISR.stateMachine minTicks longTicks x p).1.rawlen2 = p.rawlen2 + 1) := by
  unfold ISR.stateMachine
  rcases hs : p.rcvstate
  · simp only []
    split_ifs
    · exact Or.inr (Or.inl ⟨rfl, rfl⟩)
    · exact Or.inl ⟨rfl, rfl⟩
  · simp only []
    split_ifs
    · exact Or.inr (Or.inr ⟨rfl, rfl⟩)
    · exact Or.inl ⟨rfl, rfl⟩
  · simp only []
    split_ifs
    · exact Or.inr (Or.inr ⟨rfl, rfl⟩)
    · exact Or.inl ⟨rfl, rfl⟩
    · exact Or.inl ⟨rfl, rfl⟩
    · exact Or.inl ⟨rfl, rfl⟩

/-- One tick, on a buffer within its capacity: either nothing is written and `rawlen2`
stays or, if it was at the capacity, drops to `RAWBUF - 1`; or a new frame starts at slot
0; or the sample goes to slot `min rawlen2 (RAWBUF - 1)`. -/
theorem ISR_tick (minTicks longTicks : Nat) (x : irdata_t) (p : irparams_t)
    (h : p.rawlen2 ≤ RAWBUF) :
    ((ISR minTicks longTicks x p).2 = none ∧
      ((ISR minTicks longTicks x p).1.rawlen2 = p.rawlen2 ∨
       (ISR minTicks longTicks x p).1.rawlen2 = min p.rawlen2 (RAWBUF - 1))) ∨
    ((ISR minTicks longTicks x p).2 = some 0 ∧ (ISR minTicks longTicks x p).1.rawlen2 = 1) ∨
    ((ISR minTicks longTicks x p).2 = some (min p.rawlen2 (RAWBUF - 1)) ∧
      (ISR minTicks longTicks x p).1.rawlen2 = min p.rawlen2 (RAWBUF - 1) + 1) := by
  unfold ISR
  simp only []
  by_cases hp : p.pauseISR = true
  · rw [if_pos hp]
    exact Or.inl ⟨rfl, Or.inl rfl⟩
  · rw [if_neg hp]
    have hk : (if p.rawlen2 ≥ RAWBUF then
        { p with timer := toULong (p.timer + 1), rawlen2 := p.rawlen2 - 1 }
        else { p with timer := toULong (p.timer + 1) }).rawlen2 =
        min p.rawlen2 (RAWBUF - 1) := by
      simp only [RAWBUF] at h ⊢
      split_ifs <;> simp only [] <;> omega
    have hc := stateMachine_cases minTicks longTicks x
      (if p.rawlen2 ≥ RAWBUF then
        { p with timer := toULong (p.timer + 1), rawlen2 := p.rawlen2 - 1 }
        else { p with timer := toULong (p.timer + 1) })
    rw [hk] at hc
    rcases hc with ⟨h1, h2⟩ | ⟨h1, h2⟩ | ⟨h1, h2⟩
    · exact Or.inl ⟨h1, Or.inr h2⟩
    · exact Or.inr (Or.inl ⟨h1, h2⟩)
    · exact Or.inr (Or.inr ⟨h1, h2⟩)

/-- Over any sequence of ticks from a buffer within its capacity, every write goes to a
slot below `RAWBUF` and `rawlen2` ends within the capacity. -/
theorem ISR_run_bounds (minTicks longTicks : Nat) : ∀ (pins : List irdata_t) (p : irparams_t),
    p.rawlen2 ≤ RAWBUF →
    (∀ i ∈ (ISR.run minTicks longTicks pins p).2, i < RAWBUF) ∧
    (ISR.run minTicks longTicks pins p).1.rawlen2 ≤ RAWBUF := by
  intro pins
  induction pins with
  | nil => intro p h; exact ⟨fun i hi => by simp [ISR.run] at hi, h⟩
  | cons x xs ih =>
    intro p h
    have ht := ISR_tick minTicks longTicks x p h
    have hnext : (ISR minTicks longTicks x p).1.rawlen2 ≤ RAWBUF := by
      simp only [RAWBUF] at h ht ⊢
      rcases ht with ⟨_, h2 | h2⟩ | ⟨_, h2⟩ | ⟨_, h2⟩ <;> omega
    have hw : ∀ i, (ISR minTicks longTicks x p).2 = some i → i < RAWBUF := by
      intro i hi
      simp only [RAWBUF] at h ht ⊢
      rcases ht with ⟨h1, _⟩ | ⟨h1, _⟩ | ⟨h1, _⟩
      · rw [h1] at hi; exact absurd hi (by simp)
      · rw [h1] at hi; simp only [Option.some.injEq] at hi; omega
      · rw [h1] at hi; simp only [Option.some.injEq] at hi; omega
    obtain ⟨ih1, ih2⟩ := ih (ISR minTicks longTicks x p).1 hnext
    unfold ISR.run
    simp only []
    refine ⟨?_, ih2⟩
    intro i hi
    rw [List.mem_append] at hi
    rcases hi with hi | hi
    · exact hw i (by simpa using hi)
    · exact ih1 i hi

/-- Once `rawlen2` has reached `RAWBUF - 1`, every sample written before the next frame
starts (the write to slot 0) goes to slot `RAWBUF - 1`. -/
theorem ISR_run_overwrites (minTicks longTicks : Nat) :
    ∀ (pins : List irdata_t) (p : irparams_t), RAWBUF - 1 ≤ p.rawlen2 → p.rawlen2 ≤ RAWBUF →
    ∀ i ∈ ((ISR.run minTicks longTicks pins p).2.takeWhile (fun j => decide (j ≠ 0))),
      i = RAWBUF - 1 := by
  intro pins
  induction pins with
  | nil => intro p _ _ i hi; simp [ISR.run] at hi
  | cons x xs ih =>
    intro p hlo hhi i hi
    have ht := ISR_tick minTicks longTicks x p hhi
    unfold ISR.run at hi
    simp only [] at hi
    simp only [RAWBUF] at hlo hhi ht ih ⊢
    rcases ht with ⟨h1, h2⟩ | ⟨h1, h2⟩ | ⟨h1, h2⟩
    · rw [h1] at hi
      simp only [Option.toList_none, List.nil_append] at hi
      exact ih _ (by rcases h2 with h2 | h2 <;> omega) (by rcases h2 with h2 | h2 <;> omega)
        i hi
    · rw [h1] at hi
      simp at hi
    · rw [h1] at hi
      have hm : min p.rawlen2 (100 - 1) = 99 := by omega
      rw [hm] at hi h2
      simp only [Option.toList_some, List.singleton_append] at hi
      rw [List.takeWhile_cons_of_pos (by decide)] at hi
      rw [List.mem_cons] at hi
      rcases hi with hi | hi
      · omega
      · exact ih _ (by omega) (by omega) i hi

/-- C20. Capacity invariant of the sampling capture: from a state with `rawlen2 = 0`, as
after `resume`, and for every sequence of ticks with arbitrary pin levels, every write to
`rawbuf2` uses an index below `RAWBUF` and `rawlen2 ≤ RAWBUF` holds after every tick; and
once the buffer is full (`rawlen2 = RAWBUF`), every further sample of the frame — every
write before slot 0 is written again for the next frame — goes to slot `RAWBUF - 1`. -/
theorem capture_capacity (minTicks longTicks : Nat) (pins : List irdata_t) (p0 : irparams_t)
    (h0 : p0.rawlen2 = 0) :
    (∀ i ∈ (ISR.run minTicks longTicks pins p0).2, i < RAWBUF) ∧
    (∀ k, (ISR.run minTicks longTicks (pins.take k) p0).1.rawlen2 ≤ RAWBUF) ∧
    ((ISR.run minTicks longTicks pins p0).1.rawlen2 = RAWBUF →
      ∀ (more : List irdata_t),
      ∀ i ∈ ((ISR.run minTicks longTicks more
          (ISR.run minTicks longTicks pins p0).1).2.takeWhile (fun j => decide (j ≠ 0))),
        i = RAWBUF - 1) := by
  have hle : p0.rawlen2 ≤ RAWBUF := by rw [h0]; exact Nat.zero_le _
  refine ⟨(ISR_run_bounds minTicks longTicks pins p0 hle).1,
    fun k => (ISR_run_bounds minTicks longTicks (pins.take k) p0 hle).2, ?_⟩
  intro hfull more
  apply ISR_run_overwrites minTicks longTicks more
  · rw [hfull]; decide
  · rw [hfull]

theorem capture_capacity_witness :
    irparams_t.init.resumed.rawlen2 = 0 ∧
    ((∀ i ∈ (ISR.run 1 200 (togglingPin 100) irparams_t.init.resumed).2, i < RAWBUF) ∧
     (∀ k, (ISR.run 1 200 ((togglingPin 100).take k) irparams_t.init.resumed).1.rawlen2 ≤
        RAWBUF) ∧
     ((ISR.run 1 200 (togglingPin 100) irparams_t.init.resumed).1.rawlen2 = RAWBUF →
      ∀ (more : List irdata_t),
      ∀ i ∈ ((ISR.run 1 200 more
          (ISR.run 1 200 (togglingPin 100) irparams_t.init.resumed).1).2.takeWhile
            (fun j => decide (j ≠ 0))),
        i = RAWBUF - 1)) :=
  ⟨rfl, capture_capacity 1 200 (togglingPin 100) irparams_t.init.resumed rfl⟩

/-- The buffer does fill: with the pin changing at every tick, the first 100 ticks after
`resume` write the slots 0 to 99 and leave `rawlen2 = RAWBUF`, and the next three ticks
write slot 99 again each. -/
theorem capture_fills :
    (ISR.run 1 200 (togglingPin 100) irparams_t.init.resumed).2 = List.range 100 ∧
    (ISR.run 1 200 (togglingPin 100) irparams_t.init.resumed).1.rawlen2 = RAWBUF ∧
    (ISR.run 1 200 (togglingPin 103) irparams_t.init.resumed).2 =
      List.range 100 ++ [99, 99, 99] := by
  decide!

/-! ## The iteration bounds of the loops

The loops of the decoders are modelled by recursion on a bound that the caller supplies.
The theorems of this section show that the bounds are never exhausted: a larger bound
gives the same result. -/

theorem markLoop_bound (M : Nat → Nat → Bool) (Mark_One Mark_Zero Space_One Max : Nat)
    (hMax : Max < 65535) : ∀ (fuel : Nat) (d : IRdecode) (data extra : Nat),
    Max ≤ d.offset + 2 * fuel →
    decodeGeneric.markLoop M Mark_One Mark_Zero Space_One Max (fuel + extra) d data =
      decodeGeneric.markLoop M Mark_One Mark_Zero Space_One Max fuel d data := by
  intro fuel
  induction fuel with
  | zero =>
    intro d data extra h
    cases extra with
    | zero => rfl
    | succ e =>
      rw [Nat.zero_add]
      unfold decodeGeneric.markLoop
      rw [if_neg (by omega)]
  | succ f ih =>
    intro d data extra h
    have hs : f + 1 + extra = (f + extra) + 1 := by omega
    rw [hs]
    unfold decodeGeneric.markLoop
    by_cases hlt : d.offset < Max
    · have e1 : toUInt (d.offset + 1) = d.offset + 1 := toUInt_of_lt (by omega)
      have e2 : toUInt (d.offset + 1 + 1) = d.offset + 2 := toUInt_of_lt (by omega)
      simp only [hlt, if_true, e1, e2]
      have hrec : ∀ data1,
          decodeGeneric.markLoop M Mark_One Mark_Zero Space_One Max (f + extra)
            { d with offset := d.offset + 2 } data1 =
          decodeGeneric.markLoop M Mark_One Mark_Zero Space_One Max f
            { d with offset := d.offset + 2 } data1 := fun data1 =>
        ih { d with offset := d.offset + 2 } data1 extra (by simp only []; omega)
      split_ifs
      · rfl
      · exact hrec _
      · exact hrec _
      · rfl
    · simp only [hlt, if_false]

theorem spaceLoop_bound (M : Nat → Nat → Bool) (Mark_Zero Space_One Space_Zero Max : Nat)
    (hMax : Max < 65535) : ∀ (fuel : Nat) (d : IRdecode) (data extra : Nat),
    Max ≤ d.offset + 2 * fuel →
    decodeGeneric.spaceLoop M Mark_Zero Space_One Space_Zero Max (fuel + extra) d data =
      decodeGeneric.spaceLoop M Mark_Zero Space_One Space_Zero Max fuel d data := by
  intro fuel
  induction fuel with
  | zero =>
    intro d data extra h
    cases extra with
    | zero => rfl
    | succ e =>
      rw [Nat.zero_add]
      unfold decodeGeneric.spaceLoop
      rw [if_neg (by omega)]
  | succ f ih =>
    intro d data extra h
    have hs : f + 1 + extra = (f + extra) + 1 := by omega
    rw [hs]
    unfold decodeGeneric.spaceLoop
    by_cases hlt : d.offset < Max
    · have e1 : toUInt (d.offset + 1) = d.offset + 1 := toUInt_of_lt (by omega)
      have e2 : toUInt (d.offset + 1 + 1) = d.offset + 2 := toUInt_of_lt (by omega)
      simp only [hlt, if_true, e1, e2]
      have hrec : ∀ data1,
          decodeGeneric.spaceLoop M Mark_Zero Space_One Space_Zero Max (f + extra)
            { d with offset := d.offset + 2 } data1 =
          decodeGeneric.spaceLoop M Mark_Zero Space_One Space_Zero Max f
            { d with offset := d.offset + 2 } data1 := fun data1 =>
        ih { d with offset := d.offset + 2 } data1 extra (by simp only []; omega)
      split_ifs
      · rfl
      · exact hrec _
      · exact hrec _
      · rfl
    · simp only [hlt, if_false]

/-- The bound `Max` that `decodeGeneric` passes to its loops is never exhausted. -/
theorem decodeGeneric_bound (M : Nat → Nat → Bool) (Mark_One Mark_Zero Space_One Space_Zero : Nat)
    (d : IRdecode) (data extra : Nat) :
    decodeGeneric.markLoop M Mark_One Mark_Zero Space_One (toUChar d.rawlen)
        (toUChar d.rawlen + extra) { d with offset := 2 } data =
      decodeGeneric.markLoop M Mark_One Mark_Zero Space_One (toUChar d.rawlen)
        (toUChar d.rawlen) { d with offset := 2 } data ∧
    decodeGeneric.spaceLoop M Mark_Zero Space_One Space_Zero
        (toUChar (toUInt (d.rawlen + 65535))) (toUChar (toUInt (d.rawlen + 65535)) + extra)
        { d with offset := 3 } data =
      decodeGeneric.spaceLoop M Mark_Zero Space_One Space_Zero
        (toUChar (toUInt (d.rawlen + 65535))) (toUChar (toUInt (d.rawlen + 65535)))
        { d with offset := 3 } data := by
  constructor
  · apply markLoop_bound
    · unfold toUChar; omega
    · simp only []; omega
  · apply spaceLoop_bound
    · unfold toUChar; omega
    · simp only []; omega

theorem GetBit_offset (M : Nat → Nat → Bool) (d : IRdecode) (h : d.offset + 2 < 65536)
    (hm : (IRdecodePanasonic.GetBit M d).1 = Outcome.matched) :
    (IRdecodePanasonic.GetBit M d).2.offset = d.offset + 2 := by
  have e1 : toUInt (d.offset + 1) = d.offset + 1 := toUInt_of_lt (by omega)
  have e2 : toUInt (d.offset + 1 + 1) = d.offset + 2 := toUInt_of_lt (by omega)
  unfold IRdecodePanasonic.GetBit at hm ⊢
  simp only [e1, e2] at hm ⊢
  split_ifs at hm ⊢ <;> rfl

theorem getBits_bound (M : Nat → Nat → Bool) (bound : Nat) (hb : bound < 65535) :
    ∀ (fuel : Nat) (d : IRdecode) (extra : Nat), bound ≤ d.offset + 2 * fuel →
    IRdecodePanasonic.getBits M bound (fuel + extra) d =
      IRdecodePanasonic.getBits M bound fuel d := by
  intro fuel
  induction fuel with
  | zero =>
    intro d extra h
    cases extra with
    | zero => rfl
    | succ e =>
      rw [Nat.zero_add]
      unfold IRdecodePanasonic.getBits
      rw [if_neg (by omega)]
  | succ f ih =>
    intro d extra h
    have hs : f + 1 + extra = (f + extra) + 1 := by omega
    rw [hs]
    unfold IRdecodePanasonic.getBits
    by_cases hlt : d.offset < bound
    · simp only [hlt, if_true]
      have ho := GetBit_offset M d (by omega)
      rcases hg : IRdecodePanasonic.GetBit M d with ⟨o, d1⟩
      rw [hg] at ho
      cases o
      · exact ih d1 extra (by have := ho rfl; simp only [] at this; omega)
      all_goals rfl
    · simp only [hlt, if_false]

/-- A call of `getRClevel` keeps the cursor within the frame, and one that hands out a unit
uses up one of the units left. -/
theorem getRClevel_unitsLeft (M : Nat → Nat → Bool) (t1 : Nat) (d : IRdecode) (fuel : Nat) :
    (d.unitsLeft fuel → (IRdecodeRC.getRClevel M t1 d).2.unitsLeft fuel) ∧
    (d.unitsLeft (fuel + 1) → d.offset < d.rawlen →
      (IRdecodeRC.getRClevel M t1 d).1 ≠ RCLevel.ERROR →
      (IRdecodeRC.getRClevel M t1 d).2.unitsLeft fuel) := by
  unfold IRdecode.unitsLeft IRdecodeRC.getRClevel
  simp only []
  constructor
  · intro ⟨h1, h2, h3, h4⟩
    by_cases hge : d.offset ≥ d.rawlen
    · rw [if_pos hge]; exact ⟨h1, h2, h3, h4⟩
    · rw [if_neg hge]
      have e1 : toUInt (d.used + 1) = d.used + 1 := toUInt_of_lt (by omega)
      have e2 : toUInt (d.offset + 1) = d.offset + 1 := toUInt_of_lt (by omega)
      simp only [e1, e2]
      split_ifs <;> (try simp only []) <;> (try split_ifs) <;> (try simp only []) <;>
        first
          | exact ⟨h1, h2, h3, h4⟩
          | (refine ⟨?_, ?_, ?_, ?_⟩ <;> omega)
  · intro ⟨h1, h2, h3, h4⟩ hlt
    have hge : ¬ d.offset ≥ d.rawlen := by omega
    rw [if_neg hge]
    have e1 : toUInt (d.used + 1) = d.used + 1 := toUInt_of_lt (by omega)
    have e2 : toUInt (d.offset + 1) = d.offset + 1 := toUInt_of_lt (by omega)
    simp only [e1, e2]
    split_ifs <;> (try simp only []) <;> (try split_ifs) <;> (try simp only []) <;>
      intro hne <;>
      first
        | exact absurd rfl hne
        | (refine ⟨?_, ?_, ?_, ?_⟩ <;> omega)

/-- The loop of `IRdecodeRC5::decode` ends within as many iterations as there are base
units left in the frame. -/
theorem RC5_bitLoop_bound (M : Nat → Nat → Bool) : ∀ (fuel : Nat) (d : IRdecode) (extra : Nat),
    d.unitsLeft fuel →
    IRdecodeRC5.bitLoop M (fuel + extra) d = IRdecodeRC5.bitLoop M fuel d := by
  intro fuel
  induction fuel with
  | zero =>
    intro d extra h
    cases extra with
    | zero => rfl
    | succ e =>
      unfold IRdecode.unitsLeft at h
      rw [Nat.zero_add]
      unfold IRdecodeRC5.bitLoop
      rw [if_neg (by omega)]
  | succ f ih =>
    intro d extra h
    have hs : f + 1 + extra = (f + extra) + 1 := by omega
    rw [hs]
    unfold IRdecodeRC5.bitLoop
    by_cases hlt : d.offset < d.rawlen
    · simp only [hlt, if_true]
      have key1 := (getRClevel_unitsLeft M RC5_T1 d f).2 h hlt
      rcases hA : IRdecodeRC.getRClevel M RC5_T1 d with ⟨lA, d1⟩
      rw [hA] at key1
      simp only [] at key1 ⊢
      have key2 := (getRClevel_unitsLeft M RC5_T1 d1 f).1
      rcases hB : IRdecodeRC.getRClevel M RC5_T1 d1 with ⟨lB, d2⟩
      rw [hB] at key2
      simp only [] at key2 ⊢
      split_ifs with c1 c2
      · exact ih _ extra (key2 (key1 (by rw [c1.1]; decide)))
      · exact ih _ extra (key2 (key1 (by rw [c2.1]; decide)))
      · rfl
    · simp only [hlt, if_false]

/-- The bound `3 * rawlen` that `IRdecodeRC5::decode` passes to its loop is never
exhausted. -/
theorem RC5_decode_bound (M : Nat → Nat → Bool) (d : IRdecode) (extra : Nat)
    (hlen : d.rawlen < 65536) (h1 : 1 ≤ d.rawlen) :
    IRdecodeRC5.bitLoop M
        (3 * (IRdecodeRC.getRClevel M RC5_T1
          { d with offset := 1, data := 0, used := 0 }).2.rawlen + extra)
        { (IRdecodeRC.getRClevel M RC5_T1 { d with offset := 1, data := 0, used := 0 }).2 with
          nbits := 0 } =
      IRdecodeRC5.bitLoop M
        (3 * (IRdecodeRC.getRClevel M RC5_T1
          { d with offset := 1, data := 0, used := 0 }).2.rawlen)
        { (IRdecodeRC.getRClevel M RC5_T1 { d with offset := 1, data := 0, used := 0 }).2 with
          nbits := 0 } := by
  apply RC5_bitLoop_bound
  have h0 : IRdecode.unitsLeft { d with offset := 1, data := 0, used := 0 } (3 * d.rawlen) := by
    unfold IRdecode.unitsLeft
    simp only []
    omega
  have hr : (IRdecodeRC.getRClevel M RC5_T1
      { d with offset := 1, data := 0, used := 0 }).2.rawlen = d.rawlen :=
    (getRClevel_keeps M RC5_T1 { d with offset := 1, data := 0, used := 0 }).1.2.1
  rw [hr]
  exact (getRClevel_unitsLeft M RC5_T1 _ (3 * d.rawlen)).1 h0

/-- The loop of `IRdecodeRC6::decode` ends within as many iterations as there are base
units left in the frame. -/
theorem RC6_bitLoop_bound (M : Nat → Nat → Bool) : ∀ (fuel : Nat) (d : IRdecode) (extra : Nat),
    d.unitsLeft fuel →
    IRdecodeRC6.bitLoop M (fuel + extra) d = IRdecodeRC6.bitLoop M fuel d := by
  intro fuel
  induction fuel with
  | zero =>
    intro d extra h
    cases extra with
    | zero => rfl
    | succ e =>
      unfold IRdecode.unitsLeft at h
      rw [Nat.zero_add]
      unfold IRdecodeRC6.bitLoop
      rw [if_neg (by omega)]
  | succ f ih =>
    intro d extra h
    have hs : f + 1 + extra = (f + extra) + 1 := by omega
    rw [hs]
    unfold IRdecodeRC6.bitLoop
    by_cases hlt : d.offset < d.rawlen
    · simp only [hlt, if_true]
      have key1 := (getRClevel_unitsLeft M RC6_T1 d f).2 h hlt
      rcases hA : IRdecodeRC.getRClevel M RC6_T1 d with ⟨lA, d1⟩
      rw [hA] at key1
      simp only [] at key1 ⊢
      have keyA : d1.unitsLeft f →
          (if d1.nbits = 3 then IRdecodeRC.getRClevel M RC6_T1 d1 else (lA, d1)).2.unitsLeft f := by
        intro hd1
        split_ifs
        · exact (getRClevel_unitsLeft M RC6_T1 d1 f).1 hd1
        · exact hd1
      generalize (if d1.nbits = 3 then IRdecodeRC.getRClevel M RC6_T1 d1 else (lA, d1)) = rA
        at keyA ⊢
      have keyB := (getRClevel_unitsLeft M RC6_T1 rA.2 f).1
      rcases hB : IRdecodeRC.getRClevel M RC6_T1 rA.2 with ⟨lB, d2⟩
      rw [hB] at keyB
      simp only [] at keyB ⊢
      have keyB2 : d2.unitsLeft f →
          (if d2.nbits = 3 then IRdecodeRC.getRClevel M RC6_T1 d2 else (lB, d2)).2.unitsLeft f := by
        intro hd2
        split_ifs
        · exact (getRClevel_unitsLeft M RC6_T1 d2 f).1 hd2
        · exact hd2
      generalize (if d2.nbits = 3 then IRdecodeRC.getRClevel M RC6_T1 d2 else (lB, d2)) = rB
        at keyB2 ⊢
      split_ifs with c0 c1 c2 c3
      · rfl
      · rfl
      · exact ih _ extra (keyB2 (keyB (keyA (key1 (by rw [c2.1]; decide)))))
      · exact ih _ extra (keyB2 (keyB (keyA (key1 (by rw [c3.1]; decide)))))
      · rfl
    · simp only [hlt, if_false]

/-- The bound `3 * rawlen` that `IRdecodeRC6::decode` passes to its loop is never
exhausted (the loop is reached only on frames of more than three samples). -/
theorem RC6_decode_bound (M : Nat → Nat → Bool) (d : IRdecode) (extra : Nat)
    (hlen : d.rawlen < 65536) (h3 : 3 ≤ d.rawlen) :
    IRdecodeRC6.bitLoop M
        (3 * (IRdecodeRC.getRClevel M RC6_T1 (IRdecodeRC.getRClevel M RC6_T1
          { d with offset := 3, data := 0, used := 0 }).2).2.rawlen + extra)
        { (IRdecodeRC.getRClevel M RC6_T1 (IRdecodeRC.getRClevel M RC6_T1
          { d with offset := 3, data := 0, used := 0 }).2).2 with nbits := 0 } =
      IRdecodeRC6.bitLoop M
        (3 * (IRdecodeRC.getRClevel M RC6_T1 (IRdecodeRC.getRClevel M RC6_T1
          { d with offset := 3, data := 0, used := 0 }).2).2.rawlen)
        { (IRdecodeRC.getRClevel M RC6_T1 (IRdecodeRC.getRClevel M RC6_T1
          { d with offset := 3, data := 0, used := 0 }).2).2 with nbits := 0 } := by
  apply RC6_bitLoop_bound
  have h0 : IRdecode.unitsLeft { d with offset := 3, data := 0, used := 0 } (3 * d.rawlen) := by
    unfold IRdecode.unitsLeft
    simp only []
    omega
  have k1 := getRClevel_keeps M RC6_T1 { d with offset := 3, data := 0, used := 0 }
  have k2 := getRClevel_keeps M RC6_T1 (IRdecodeRC.getRClevel M RC6_T1
    { d with offset := 3, data := 0, used := 0 }).2
  have hr : (IRdecodeRC.getRClevel M RC6_T1 (IRdecodeRC.getRClevel M RC6_T1
      { d with offset := 3, data := 0, used := 0 }).2).2.rawlen = d.rawlen :=
    k2.1.2.1.trans k1.1.2.1
  rw [hr]
  exact (getRClevel_unitsLeft M RC6_T1 _ (3 * d.rawlen)).1
    ((getRClevel_unitsLeft M RC6_T1 _ (3 * d.rawlen)).1 h0)

/-- The bounds that `IRdecodePanasonic::decode` passes to its two loops are never
exhausted. -/
theorem Panasonic_decode_bound (M : Nat → Nat → Bool) (d : IRdecode) (extra : Nat) :
    IRdecodePanasonic.getBits M (2 * 8 * 2 + 2) (2 * 8 * 2 + 2 + extra)
        { d with offset := 3, data_Panasonic := 0 } =
      IRdecodePanasonic.getBits M (2 * 8 * 2 + 2) (2 * 8 * 2 + 2)
        { d with offset := 3, data_Panasonic := 0 } ∧
    IRdecodePanasonic.getBits M (5 * 8 * 2 + 2) (5 * 8 * 2 + 2 + extra) d =
      IRdecodePanasonic.getBits M (5 * 8 * 2 + 2) (5 * 8 * 2 + 2) d := by
  constructor
  · exact getBits_bound M _ (by decide) _ _ extra (by simp only []; omega)
  · exact getBits_bound M _ (by decide) _ _ extra (by omega)

/-- The integer tests of `compare` are the source's tests `newval < oldval * .8` and
`oldval < newval * .8` read in exact arithmetic. -/
theorem compare_exact (oldval newval : Nat) :
    IRdecodeHash.compare oldval newval =
      (if (newval : ℚ) < oldval * (8 / 10) then 0
       else if (oldval : ℚ) < newval * (8 / 10) then 2 else 1) := by
  have h1 : (5 * newval < 4 * oldval ↔ (newval : ℚ) < oldval * (8 / 10)) := by
    constructor
    · intro h
      have : (5 * newval : ℚ) < 4 * oldval := by exact_mod_cast h
      linarith
    · intro h
      have : (5 * newval : ℚ) < 4 * oldval := by linarith
      exact_mod_cast this
  have h2 : (5 * oldval < 4 * newval ↔ (oldval : ℚ) < newval * (8 / 10)) := by
    constructor
    · intro h
      have : (5 * oldval : ℚ) < 4 * newval := by exact_mod_cast h
      linarith
    · intro h
      have : (5 * oldval : ℚ) < 4 * newval := by linarith
      exact_mod_cast this
  unfold IRdecodeHash.compare
  simp only [h1, h2]

/-! ## Capacity of the edge capture -/

/-- What `checkForEndOfIRCode` does when the interrupt handler calls it: either it returns
`false` and leaves `irparams` alone, or it returns `true` on a long space that ends at a
mark edge, with more than one sample captured and the ready state not entered before, and
hands the frame off. -/
theorem checkForEndOfIRCode_ISR (LONG_SPACE_US : Nat) (pinState : Bool) (dt : Nat)
    (s : IRrecvPCI_t) :
    ((checkForEndOfIRCode LONG_SPACE_US pinState dt CALLED_BY_ISR s).1 = false ∧
      (checkForEndOfIRCode LONG_SPACE_US pinState dt CALLED_BY_ISR s).2.irparams =
        s.irparams) ∨
    ((checkForEndOfIRCode LONG_SPACE_US pinState dt CALLED_BY_ISR s).1 = true ∧
      pinState = MARK_START ∧ LONG_SPACE_US ≤ dt ∧ 1 < s.irparams.rawlen2 ∧
      s.dataStateIsReady_old = false ∧
      (checkForEndOfIRCode LONG_SPACE_US pinState dt CALLED_BY_ISR s).2.irparams =
        if s.irparams.doubleBuffered = true then
          { s.irparams with
            dataStateChangedToReady := true,
            rawbuf1 := copyBuffer s.irparams.rawlen2 s.irparams.extbuf s.irparams.rawlen2 0
              s.irparams.rawbuf1,
            rawlen1 := s.irparams.rawlen2, rawlen2 := 0 }
        else
          { s.irparams with
            dataStateChangedToReady := true, pauseISR := true,
            rawlen1 := s.irparams.rawlen2, rawlen2 := 0 }) := by
  unfold checkForEndOfIRCode
  by_cases hc1 : pinState = MARK_START ∧ dt ≥ LONG_SPACE_US ∧ s.irparams.rawlen2 > 1
  · have hc : (True ∧ pinState = MARK_START ∧ dt ≥ LONG_SPACE_US ∧
          s.irparams.rawlen2 > 1) ∨
        (CALLED_BY_ISR = CALLED_BY_USER ∧ pinState = HIGH ∧ dt ≥ LONG_SPACE_US ∧
          s.irparams.rawlen2 > 1) := Or.inl ⟨trivial, hc1⟩
    by_cases ho : s.dataStateIsReady_old = false
    · refine Or.inr ⟨?_, hc1.1, hc1.2.1, hc1.2.2, ho, ?_⟩
      · simp only [if_pos hc, if_pos ho]
      · simp only [if_pos hc, if_pos ho, if_true]
        by_cases hd : s.irparams.doubleBuffered = true
        · simp only [hd, if_true]
        · simp only [hd, if_false]
          simp
    · refine Or.inl ⟨?_, ?_⟩
      · simp only [if_pos hc, if_neg ho]
      · simp only [if_pos hc, if_neg ho]
  · have hc : ¬ ((True ∧ pinState = MARK_START ∧ dt ≥ LONG_SPACE_US ∧
          s.irparams.rawlen2 > 1) ∨
        (CALLED_BY_ISR = CALLED_BY_USER ∧ pinState = HIGH ∧ dt ≥ LONG_SPACE_US ∧
          s.irparams.rawlen2 > 1)) := by
      rintro (⟨_, h⟩ | ⟨h, _⟩)
      · exact hc1 h
      · exact absurd h (by decide)
    refine Or.inl ⟨?_, ?_⟩
    · simp only [if_neg hc]
    · simp only [if_neg hc]

/-- The handoff leaves the capture storage `rawbuf2` as it is. -/
theorem checkForEndOfIRCode_rawbuf2 (LONG_SPACE_US : Nat) (pinState : Bool) (dt : Nat)
    (s : IRrecvPCI_t) (j : Nat) :
    (checkForEndOfIRCode LONG_SPACE_US pinState dt CALLED_BY_ISR s).2.irparams.rawbuf2 j =
      s.irparams.rawbuf2 j ∧
    (checkForEndOfIRCode LONG_SPACE_US pinState dt CALLED_BY_ISR s).2.irparams.doubleBuffered =
      s.irparams.doubleBuffered ∧
    (checkForEndOfIRCode LONG_SPACE_US pinState dt CALLED_BY_ISR s).2.irparams.rawlen2 ≤
      s.irparams.rawlen2 := by
  rcases checkForEndOfIRCode_ISR LONG_SPACE_US pinState dt s with ⟨_, h⟩ | ⟨_, _, _, _, _, h⟩
  · rw [h]
    exact ⟨rfl, rfl, le_refl _⟩
  · rw [h]
    by_cases hd : s.irparams.doubleBuffered = true
    · simp [hd, irparams_t.rawbuf2]
    · simp [hd, irparams_t.rawbuf2]

/-- A store through `rawbuf2` changes the slot written and no other, and nothing else the
capture reads. -/
theorem setRawbuf2_spec (p : irparams_t) (i v : Nat) :
    (p.setRawbuf2 i v).rawbuf2 i = v ∧
    (∀ j, j ≠ i → (p.setRawbuf2 i v).rawbuf2 j = p.rawbuf2 j) ∧
    (p.setRawbuf2 i v).rawlen2 = p.rawlen2 ∧ (p.setRawbuf2 i v).rawlen1 = p.rawlen1 ∧
    (p.setRawbuf2 i v).doubleBuffered = p.doubleBuffered ∧
    (p.setRawbuf2 i v).pauseISR = p.pauseISR ∧
    (p.setRawbuf2 i v).dataStateChangedToReady = p.dataStateChangedToReady := by
  unfold irparams_t.setRawbuf2 irparams_t.rawbuf2
  refine ⟨?_, ?_, ?_, ?_, ?_, ?_, ?_⟩ <;> cases h : p.doubleBuffered <;>
    simp +contextual [Function.update]

/-- The handler that gets past the pause and the noise tests stores the elapsed time at
slot `rawlen2`, as `checkForEndOfIRCode` left it, and clamps the incremented `rawlen2` to
`RAWBUF - 1`. -/
theorem IRrecvPCI_Handler_records (MINIMUM_TIME_GAP_PERMITTED LONG_SPACE_US : Nat)
    (t_now : Nat) (pinState : Bool) (s : IRrecvPCI_t)
    (hp : s.irparams.pauseISR = false)
    (hdt : MINIMUM_TIME_GAP_PERMITTED ≤ IRrecvPCI_Handler.dt t_now s)
    (s1 : IRrecvPCI_t)
    (hs1 : (checkForEndOfIRCode LONG_SPACE_US pinState (IRrecvPCI_Handler.dt t_now s)
      CALLED_BY_ISR s).2 = s1) :
    (IRrecvPCI_Handler MINIMUM_TIME_GAP_PERMITTED LONG_SPACE_US t_now pinState s).2 =
      some s1.irparams.rawlen2 ∧
    (IRrecvPCI_Handler MINIMUM_TIME_GAP_PERMITTED LONG_SPACE_US t_now pinState s).1.irparams =
      { (s1.irparams.setRawbuf2 s1.irparams.rawlen2 (toUInt (IRrecvPCI_Handler.dt t_now s))) with
        rawlen2 := if s1.irparams.rawlen2 + 1 ≥ RAWBUF then RAWBUF - 1
                   else s1.irparams.rawlen2 + 1,
        timer := toULong t_now } ∧
    (IRrecvPCI_Handler MINIMUM_TIME_GAP_PERMITTED LONG_SPACE_US t_now pinState
      s).1.dataStateIsReady_old = s1.dataStateIsReady_old := by
  unfold IRrecvPCI_Handler
  rw [if_neg (by simp [hp]), if_neg (by omega)]
  simp only [hs1, (setRawbuf2_spec _ _ _).2.2.1]
  refine ⟨?_, ?_, ?_⟩ <;> first | trivial | rfl | (split_ifs <;> rfl)

/-- A call while the capture is paused returns at once. -/
theorem IRrecvPCI_Handler_paused (MINIMUM_TIME_GAP_PERMITTED LONG_SPACE_US : Nat)
    (t_now : Nat) (pinState : Bool) (s : IRrecvPCI_t) (hp : s.irparams.pauseISR = true) :
    IRrecvPCI_Handler MINIMUM_TIME_GAP_PERMITTED LONG_SPACE_US t_now pinState s = (s, none) := by
  unfold IRrecvPCI_Handler
  rw [if_pos hp]

/-- A call whose elapsed time is below the noise floor returns at once. -/
theorem IRrecvPCI_Handler_noise (MINIMUM_TIME_GAP_PERMITTED LONG_SPACE_US : Nat)
    (t_now : Nat) (pinState : Bool) (s : IRrecvPCI_t)
    (hdt : IRrecvPCI_Handler.dt t_now s < MINIMUM_TIME_GAP_PERMITTED) :
    IRrecvPCI_Handler MINIMUM_TIME_GAP_PERMITTED LONG_SPACE_US t_now pinState s = (s, none) := by
  unfold IRrecvPCI_Handler
  simp only []
  rw [if_pos hdt]
  split_ifs <;> rfl

/-- C21 (capacity invariant of the edge capture).  If `rawlen2 ≤ RAWBUF - 1` before a call
of `IRrecvPCI_Handler`, then, whatever the pin level and the time stamp: the slot of
`rawbuf2` the call writes, if any, is below `RAWBUF`; no other slot of `rawbuf2` changes;
`rawlen2 ≤ RAWBUF - 1` holds after the call.  On a full buffer (`rawlen2 = RAWBUF - 1`) a
call that records a sample of the running frame (not paused, not rejected as noise, not
the edge that ends the frame) stores the elapsed time in slot `RAWBUF - 1` and leaves
`rawlen2` at `RAWBUF - 1`. -/
theorem handler_capacity (MINIMUM_TIME_GAP_PERMITTED LONG_SPACE_US : Nat) (t_now : Nat)
    (pinState : Bool) (s : IRrecvPCI_t) (h : s.irparams.rawlen2 ≤ RAWBUF - 1) :
    (∀ i, (IRrecvPCI_Handler MINIMUM_TIME_GAP_PERMITTED LONG_SPACE_US t_now pinState s).2 =
        some i → i < RAWBUF) ∧
    (∀ j, (IRrecvPCI_Handler MINIMUM_TIME_GAP_PERMITTED LONG_SPACE_US t_now pinState s).2 ≠
        some j →
      (IRrecvPCI_Handler MINIMUM_TIME_GAP_PERMITTED LONG_SPACE_US t_now pinState
        s).1.irparams.rawbuf2 j = s.irparams.rawbuf2 j) ∧
    (IRrecvPCI_Handler MINIMUM_TIME_GAP_PERMITTED LONG_SPACE_US t_now pinState
      s).1.irparams.rawlen2 ≤ RAWBUF - 1 ∧
    (s.irparams.rawlen2 = RAWBUF - 1 → s.irparams.pauseISR = false →
      MINIMUM_TIME_GAP_PERMITTED ≤ IRrecvPCI_Handler.dt t_now s →
      IRrecvPCI_Handler.completes MINIMUM_TIME_GAP_PERMITTED LONG_SPACE_US t_now pinState s =
        false →
      (IRrecvPCI_Handler MINIMUM_TIME_GAP_PERMITTED LONG_SPACE_US t_now pinState s).2 =
        some (RAWBUF - 1) ∧
      (IRrecvPCI_Handler MINIMUM_TIME_GAP_PERMITTED LONG_SPACE_US t_now pinState
        s).1.irparams.rawbuf2 (RAWBUF - 1) = toUInt (IRrecvPCI_Handler.dt t_now s) ∧
      (IRrecvPCI_Handler MINIMUM_TIME_GAP_PERMITTED LONG_SPACE_US t_now pinState
        s).1.irparams.rawlen2 = RAWBUF - 1) := by
  by_cases hp : s.irparams.pauseISR = true
  · rw [IRrecvPCI_Handler_paused _ _ _ _ _ hp]
    exact ⟨fun i hi => by simp at hi, fun _ _ => rfl, h, fun _ hq => by simp [hp] at hq⟩
  · by_cases hdt : IRrecvPCI_Handler.dt t_now s < MINIMUM_TIME_GAP_PERMITTED
    · rw [IRrecvPCI_Handler_noise _ _ _ _ _ hdt]
      exact ⟨fun i hi => by simp at hi, fun _ _ => rfl, h, fun _ _ hq => by omega⟩
    · have hp' : s.irparams.pauseISR = false := by simpa using hp
      obtain ⟨hw, hq, _⟩ := IRrecvPCI_Handler_records MINIMUM_TIME_GAP_PERMITTED LONG_SPACE_US
        t_now pinState s hp' (by omega) _ rfl
      have hb := checkForEndOfIRCode_rawbuf2 LONG_SPACE_US pinState
        (IRrecvPCI_Handler.dt t_now s) s
      have hle := (hb 0).2.2
      have hset := setRawbuf2_spec
        (checkForEndOfIRCode LONG_SPACE_US pinState (IRrecvPCI_Handler.dt t_now s)
          CALLED_BY_ISR s).2.irparams
        (checkForEndOfIRCode LONG_SPACE_US pinState (IRrecvPCI_Handler.dt t_now s)
          CALLED_BY_ISR s).2.irparams.rawlen2 (toUInt (IRrecvPCI_Handler.dt t_now s))
      have hbuf : ∀ j, (IRrecvPCI_Handler MINIMUM_TIME_GAP_PERMITTED LONG_SPACE_US t_now
          pinState s).1.irparams.rawbuf2 j =
          ((checkForEndOfIRCode LONG_SPACE_US pinState (IRrecvPCI_Handler.dt t_now s)
            CALLED_BY_ISR s).2.irparams.setRawbuf2
            (checkForEndOfIRCode LONG_SPACE_US pinState (IRrecvPCI_Handler.dt t_now s)
              CALLED_BY_ISR s).2.irparams.rawlen2
            (toUInt (IRrecvPCI_Handler.dt t_now s))).rawbuf2 j := by
        intro j
        rw [hq]
        rfl
      refine ⟨?_, ?_, ?_, ?_⟩
      · intro i hi
        rw [hw] at hi
        simp only [Option.some.injEq] at hi
        simp only [RAWBUF] at h ⊢
        omega
      · intro j hj
        rw [hw] at hj
        rw [hbuf, hset.2.1 j (fun e => hj (by rw [e])), (hb j).1]
      · rw [hq]
        simp only [RAWBUF] at h ⊢
        split_ifs <;> omega
      · intro hfull _ _ hcomp
        have hfalse : (checkForEndOfIRCode LONG_SPACE_US pinState
            (IRrecvPCI_Handler.dt t_now s) CALLED_BY_ISR s).1 = false := by
          simpa [IRrecvPCI_Handler.completes, hp', hdt] using hcomp
        have hsame : (checkForEndOfIRCode LONG_SPACE_US pinState
            (IRrecvPCI_Handler.dt t_now s) CALLED_BY_ISR s).2.irparams = s.irparams := by
          rcases checkForEndOfIRCode_ISR LONG_SPACE_US pinState
            (IRrecvPCI_Handler.dt t_now s) s with ⟨_, e⟩ | ⟨e, _⟩
          · exact e
          · rw [hfalse] at e
            exact absurd e (by decide)
        refine ⟨?_, ?_, ?_⟩
        · rw [hw, hsame, hfull]
        · rw [hbuf]
          rw [hsame] at hset ⊢
          rw [← hfull]
          exact hset.1
        · rw [hq]
          simp [hsame, hfull]

/-- C21 on a full buffer: the edge at 30000 µs, 1000 µs after the last one, is recorded in
slot 99 and `rawlen2` stays 99. -/
theorem handler_capacity_witness :
    fullCapture.irparams.rawlen2 ≤ RAWBUF - 1 ∧
    (IRrecvPCI_Handler 50 10000 30000 HIGH fullCapture).1.irparams.rawlen2 ≤ RAWBUF - 1 ∧
    (IRrecvPCI_Handler 50 10000 30000 HIGH fullCapture).2 = some (RAWBUF - 1) ∧
    (IRrecvPCI_Handler 50 10000 30000 HIGH fullCapture).1.irparams.rawbuf2 (RAWBUF - 1) =
      toUInt (IRrecvPCI_Handler.dt 30000 fullCapture) ∧
    (IRrecvPCI_Handler 50 10000 30000 HIGH fullCapture).1.irparams.rawlen2 = RAWBUF - 1 ∧
    toUInt (IRrecvPCI_Handler.dt 30000 fullCapture) = 1000 :=
  have h := handler_capacity 50 10000 30000 HIGH fullCapture (by decide)
  have h4 := h.2.2.2 rfl rfl (by with_unfolding_all decide) (by with_unfolding_all decide)
  ⟨by decide, h.2.2.1, h4.1, h4.2.1, h4.2.2, by with_unfolding_all decide⟩

/-! ## A paused capture -/

/-- A tick of the timer interrupt while the capture is paused counts the tick and does
nothing else. -/
theorem ISR_paused (minTicks longTicks : Nat) (irdata : irdata_t) (p : irparams_t)
    (hp : p.pauseISR = true) :
    ISR minTicks longTicks irdata p = ({ p with timer := toULong (p.timer + 1) }, none) := by
  unfold ISR
  simp only []
  rw [if_pos hp]

/-- Any number of ticks while the capture is paused: no write, and the state differs from
the start in the tick counter only. -/
theorem ISR_run_paused (minTicks longTicks : Nat) : ∀ (pins : List irdata_t) (p : irparams_t),
    p.pauseISR = true →
    (ISR.run minTicks longTicks pins p).2 = [] ∧
    ∃ t, (ISR.run minTicks longTicks pins p).1 = { p with timer := t } := by
  intro pins
  induction pins with
  | nil => intro p _; exact ⟨rfl, p.timer, rfl⟩
  | cons x xs ih =>
    intro p hp
    have hstep := ISR_paused minTicks longTicks x p hp
    obtain ⟨hw, t, ht⟩ := ih { p with timer := toULong (p.timer + 1) } hp
    unfold ISR.run
    simp only [hstep]
    exact ⟨by rw [hw]; rfl, t, by rw [ht]⟩

/-- Any number of edges while the capture is paused: nothing changes. -/
theorem IRrecvPCI_Handler_run_paused (MINIMUM_TIME_GAP_PERMITTED LONG_SPACE_US : Nat) :
    ∀ (events : List (Nat × Bool)) (s : IRrecvPCI_t), s.irparams.pauseISR = true →
    IRrecvPCI_Handler.run MINIMUM_TIME_GAP_PERMITTED LONG_SPACE_US events s = (s, []) := by
  intro events
  induction events with
  | nil => intro s _; rfl
  | cons e es ih =>
    intro s hp
    unfold IRrecvPCI_Handler.run
    simp only [IRrecvPCI_Handler_paused _ _ _ _ _ hp, ih s hp]
    rfl

/-- The tick that ends a frame: nothing is written to `rawbuf2`, the ready flag is set, the
state machine returns to `STATE_START`, `rawlen1` takes the captured length, the tick
counter keeps counting, and in single-buffered mode the capture pauses while `rawbuf1` is
left as it is. -/
theorem ISR_completes_spec (minTicks longTicks : Nat) (irdata : irdata_t) (p : irparams_t)
    (hc : ISR.completes minTicks longTicks irdata p = true) :
    (ISR minTicks longTicks irdata p).2 = none ∧
    (ISR minTicks longTicks irdata p).1.dataStateChangedToReady = true ∧
    (ISR minTicks longTicks irdata p).1.rcvstate = .STATE_START ∧
    (ISR minTicks longTicks irdata p).1.rawlen1 = (ISR minTicks longTicks irdata p).1.rawlen2 ∧
    (ISR minTicks longTicks irdata p).1.rawlen2 =
      (if p.rawlen2 ≥ RAWBUF then p.rawlen2 - 1 else p.rawlen2) ∧
    (ISR minTicks longTicks irdata p).1.timer = toULong (p.timer + 1) ∧
    (ISR minTicks longTicks irdata p).1.extbuf = p.extbuf ∧
    (ISR minTicks longTicks irdata p).1.doubleBuffered = p.doubleBuffered ∧
    (p.doubleBuffered = false →
      (ISR minTicks longTicks irdata p).1.pauseISR = true ∧
      (ISR minTicks longTicks irdata p).1.rawbuf1 = p.rawbuf1) ∧
    (p.doubleBuffered = true →
      (ISR minTicks longTicks irdata p).1.pauseISR = false ∧
      (ISR minTicks longTicks irdata p).1.rawbuf1 =
        copyBuffer (ISR minTicks longTicks irdata p).1.rawlen2 p.extbuf
          (ISR minTicks longTicks irdata p).1.rawlen2 0 p.rawbuf1) := by
  simp only [ISR.completes, Bool.and_eq_true, Bool.not_eq_true', decide_eq_true_eq,
    Bool.and_eq_false_imp] at hc
  obtain ⟨⟨⟨⟨hp, hs⟩, hm⟩, hsp⟩, hl⟩ := hc
  have hnm : ¬ (irdata = irdata_t.IR_MARK) := by rw [hsp]; decide
  unfold ISR
  simp only []
  rw [if_neg (by simp [hp])]
  unfold ISR.stateMachine
  by_cases hfull : p.rawlen2 ≥ RAWBUF
  · simp only [if_pos hfull, hs, hnm, false_and, if_false, hsp, true_and, if_pos hl]
    cases hd : p.doubleBuffered <;> simp [hp]
  · simp only [if_neg hfull, hs, hnm, false_and, if_false, hsp, true_and, if_pos hl]
    cases hd : p.doubleBuffered <;> simp [hp]

/-- The call of the handler that ends a frame, spelled out: the frame is handed off
(`rawlen1` takes the captured length, the ready flag is set, single-buffered capture
pauses), and then the elapsed time is stored in slot 0 of `rawbuf2` and `rawlen2` is 1. -/
theorem IRrecvPCI_Handler_completes_spec (MINIMUM_TIME_GAP_PERMITTED LONG_SPACE_US : Nat)
    (t_now : Nat) (pinState : Bool) (s : IRrecvPCI_t)
    (hc : IRrecvPCI_Handler.completes MINIMUM_TIME_GAP_PERMITTED LONG_SPACE_US t_now pinState
      s = true) :
    pinState = MARK_START ∧ LONG_SPACE_US ≤ IRrecvPCI_Handler.dt t_now s ∧
    1 < s.irparams.rawlen2 ∧
    (IRrecvPCI_Handler MINIMUM_TIME_GAP_PERMITTED LONG_SPACE_US t_now pinState s).2 = some 0 ∧
    (IRrecvPCI_Handler MINIMUM_TIME_GAP_PERMITTED LONG_SPACE_US t_now pinState s).1.irparams =
      { ((if s.irparams.doubleBuffered = true then
          { s.irparams with
            dataStateChangedToReady := true,
            rawbuf1 := copyBuffer s.irparams.rawlen2 s.irparams.extbuf s.irparams.rawlen2 0
              s.irparams.rawbuf1,
            rawlen1 := s.irparams.rawlen2, rawlen2 := 0 }
        else
          { s.irparams with
            dataStateChangedToReady := true, pauseISR := true,
            rawlen1 := s.irparams.rawlen2, rawlen2 := 0 }).setRawbuf2 0
          (toUInt (IRrecvPCI_Handler.dt t_now s))) with
        rawlen2 := 1, timer := toULong t_now } := by
  simp only [IRrecvPCI_Handler.completes, Bool.and_eq_true, Bool.not_eq_true',
    decide_eq_false_iff_not, not_lt] at hc
  obtain ⟨⟨hp, hdt⟩, hck⟩ := hc
  obtain ⟨hw, hq, _⟩ := IRrecvPCI_Handler_records MINIMUM_TIME_GAP_PERMITTED LONG_SPACE_US
    t_now pinState s hp hdt _ rfl
  rcases checkForEndOfIRCode_ISR LONG_SPACE_US pinState (IRrecvPCI_Handler.dt t_now s) s with
    ⟨e, _⟩ | ⟨_, h1, h2, h3, _, e⟩
  · rw [hck] at e
    exact absurd e (by decide)
  · have hz : (checkForEndOfIRCode LONG_SPACE_US pinState (IRrecvPCI_Handler.dt t_now s)
        CALLED_BY_ISR s).2.irparams.rawlen2 = 0 := by
      rw [e]
      split_ifs <;> rfl
    refine ⟨h1, h2, h3, ?_, ?_⟩
    · rw [hw, hz]
    · rw [hq, hz, e]
      rfl

/-- A call of the handler that does not end a frame leaves `rawlen1`, the ready flag, the
pause flag and the mode alone, and changes `rawbuf1` only by the store through `rawbuf2`,
that is, only in single-buffered mode. -/
theorem IRrecvPCI_Handler_continues (MINIMUM_TIME_GAP_PERMITTED LONG_SPACE_US : Nat)
    (t_now : Nat) (pinState : Bool) (s : IRrecvPCI_t)
    (hc : IRrecvPCI_Handler.completes MINIMUM_TIME_GAP_PERMITTED LONG_SPACE_US t_now pinState
      s = false) :
    (IRrecvPCI_Handler MINIMUM_TIME_GAP_PERMITTED LONG_SPACE_US t_now pinState
      s).1.irparams.rawlen1 = s.irparams.rawlen1 ∧
    (IRrecvPCI_Handler MINIMUM_TIME_GAP_PERMITTED LONG_SPACE_US t_now pinState
      s).1.irparams.dataStateChangedToReady = s.irparams.dataStateChangedToReady ∧
    (IRrecvPCI_Handler MINIMUM_TIME_GAP_PERMITTED LONG_SPACE_US t_now pinState
      s).1.irparams.pauseISR = s.irparams.pauseISR ∧
    (IRrecvPCI_Handler MINIMUM_TIME_GAP_PERMITTED LONG_SPACE_US t_now pinState
      s).1.irparams.doubleBuffered = s.irparams.doubleBuffered ∧
    (s.irparams.doubleBuffered = true →
      (IRrecvPCI_Handler MINIMUM_TIME_GAP_PERMITTED LONG_SPACE_US t_now pinState
        s).1.irparams.rawbuf1 = s.irparams.rawbuf1) := by
  by_cases hp : s.irparams.pauseISR = true
  · rw [IRrecvPCI_Handler_paused _ _ _ _ _ hp]
    exact ⟨rfl, rfl, rfl, rfl, fun _ => rfl⟩
  · by_cases hdt : IRrecvPCI_Handler.dt t_now s < MINIMUM_TIME_GAP_PERMITTED
    · rw [IRrecvPCI_Handler_noise _ _ _ _ _ hdt]
      exact ⟨rfl, rfl, rfl, rfl, fun _ => rfl⟩
    · have hp' : s.irparams.pauseISR = false := by simpa using hp
      obtain ⟨_, hq, _⟩ := IRrecvPCI_Handler_records MINIMUM_TIME_GAP_PERMITTED LONG_SPACE_US
        t_now pinState s hp' (by omega) _ rfl
      have hfalse : (checkForEndOfIRCode LONG_SPACE_US pinState
          (IRrecvPCI_Handler.dt t_now s) CALLED_BY_ISR s).1 = false := by
        simpa [IRrecvPCI_Handler.completes, hp', hdt] using hc
      have hsame : (checkForEndOfIRCode LONG_SPACE_US pinState
          (IRrecvPCI_Handler.dt t_now s) CALLED_BY_ISR s).2.irparams = s.irparams := by
        rcases checkForEndOfIRCode_ISR LONG_SPACE_US pinState
          (IRrecvPCI_Handler.dt t_now s) s with ⟨_, e⟩ | ⟨e, _⟩
        · exact e
        · rw [hfalse] at e
          exact absurd e (by decide)
      rw [hq, hsame]
      have hset := setRawbuf2_spec s.irparams s.irparams.rawlen2
        (toUInt (IRrecvPCI_Handler.dt t_now s))
      refine ⟨hset.2.2.2.1, hset.2.2.2.2.2.2, hset.2.2.2.2.2.1, hset.2.2.2.2.1, ?_⟩
      intro hd
      show (s.irparams.setRawbuf2 s.irparams.rawlen2 _).rawbuf1 = _
      unfold irparams_t.setRawbuf2
      rw [if_pos hd]

/-- The store of the tick count leaves the handed-off frame's length, the flags and the
mode alone, and writes `rawbuf1` in single-buffered mode only. -/
theorem record_spec (p : irparams_t) :
    p.record.1.rawlen1 = p.rawlen1 ∧
    p.record.1.dataStateChangedToReady = p.dataStateChangedToReady ∧
    p.record.1.pauseISR = p.pauseISR ∧
    p.record.1.doubleBuffered = p.doubleBuffered ∧
    (p.doubleBuffered = true → p.record.1.rawbuf1 = p.rawbuf1) := by
  unfold irparams_t.record
  cases hd : p.doubleBuffered <;> simp

/-- The state machine outside its long-space branch leaves `rawlen1`, the flags and the
mode alone, and writes `rawbuf1` in single-buffered mode only. -/
theorem stateMachine_continues (minTicks longTicks : Nat) (x : irdata_t) (q : irparams_t)
    (hc : ¬ (q.rcvstate = .STATE_TIMING_SPACE ∧ ¬ (x = .IR_MARK ∧ q.timer ≥ minTicks) ∧
      x = .IR_SPACE ∧ q.timer > longTicks)) :
    (ISR.stateMachine minTicks longTicks x q).1.rawlen1 = q.rawlen1 ∧
    (ISR.stateMachine minTicks longTicks x q).1.dataStateChangedToReady =
      q.dataStateChangedToReady ∧
    (ISR.stateMachine minTicks longTicks x q).1.pauseISR = q.pauseISR ∧
    (ISR.stateMachine minTicks longTicks x q).1.doubleBuffered = q.doubleBuffered ∧
    (q.doubleBuffered = true →
      (ISR.stateMachine minTicks longTicks x q).1.rawbuf1 = q.rawbuf1) := by
  unfold ISR.stateMachine
  rcases hs : q.rcvstate
  · simp only []
    split_ifs
    · exact record_spec _
    · exact ⟨rfl, rfl, rfl, rfl, fun _ => rfl⟩
  · simp only []
    split_ifs
    · exact record_spec _
    · exact ⟨rfl, rfl, rfl, rfl, fun _ => rfl⟩
  · simp only []
    split_ifs with h1 h2 h3
    · exact record_spec _
    · exact absurd ⟨hs, h1, h2.1, h2.2⟩ hc
    · exact absurd ⟨hs, h1, h2.1, h2.2⟩ hc
    · exact ⟨rfl, rfl, rfl, rfl, fun _ => rfl⟩

/-- A tick of the timer interrupt that does not end a frame leaves `rawlen1`, the ready
flag, the pause flag and the mode alone, and changes `rawbuf1` only by a store through
`rawbuf2`, that is, only in single-buffered mode. -/
theorem ISR_continues (minTicks longTicks : Nat) (irdata : irdata_t) (p : irparams_t)
    (hc : ISR.completes minTicks longTicks irdata p = false) :
    (ISR minTicks longTicks irdata p).1.rawlen1 = p.rawlen1 ∧
    (ISR minTicks longTicks irdata p).1.dataStateChangedToReady = p.dataStateChangedToReady ∧
    (ISR minTicks longTicks irdata p).1.pauseISR = p.pauseISR ∧
    (ISR minTicks longTicks irdata p).1.doubleBuffered = p.doubleBuffered ∧
    (p.doubleBuffered = true → (ISR minTicks longTicks irdata p).1.rawbuf1 = p.rawbuf1) := by
  by_cases hp : p.pauseISR = true
  · rw [ISR_paused _ _ _ _ hp]
    exact ⟨rfl, rfl, rfl, rfl, fun _ => rfl⟩
  · have hp' : p.pauseISR = false := by simpa using hp
    have hq : ∀ q : irparams_t, q.rcvstate = p.rcvstate → q.timer = toULong (p.timer + 1) →
        ¬ (q.rcvstate = .STATE_TIMING_SPACE ∧ ¬ (irdata = .IR_MARK ∧ q.timer ≥ minTicks) ∧
          irdata = .IR_SPACE ∧ q.timer > longTicks) := by
      intro q hqs hqt ⟨h1, h2, h3, h4⟩
      rw [hqs] at h1
      rw [hqt] at h2 h4
      have : ISR.completes minTicks longTicks irdata p = true := by
        simp only [ISR.completes, hp', h1, h3, h4]
        simp only [h3] at h2
        simp
      rw [this] at hc
      exact absurd hc (by decide)
    unfold ISR
    simp only []
    rw [if_neg hp]
    by_cases hfull : p.rawlen2 ≥ RAWBUF
    · rw [if_pos hfull]
      exact stateMachine_continues minTicks longTicks irdata _ (hq _ rfl rfl)
    · rw [if_neg hfull]
      exact stateMachine_continues minTicks longTicks irdata _ (hq _ rfl rfl)

/-- C22 (a paused capture records nothing).  While `pauseISR` is set: a call of
`IRrecvPCI_Handler` changes nothing at all, whatever the time stamp and the pin level, and
so does any sequence of calls; a tick of the timer interrupt changes the tick counter
`timer` and nothing else, and any sequence of ticks writes no slot and leaves every field
but `timer` as it was.  In single-buffered mode the step that completes a frame sets
`pauseISR`, so that no step after it records a sample. -/
theorem paused_capture_records_nothing (MINIMUM_TIME_GAP_PERMITTED LONG_SPACE_US : Nat)
    (minTicks longTicks : Nat) (p : irparams_t) (old : Bool) (hp : p.pauseISR = true) :
    (∀ t_now pinState,
      IRrecvPCI_Handler MINIMUM_TIME_GAP_PERMITTED LONG_SPACE_US t_now pinState
        { irparams := p, dataStateIsReady_old := old } =
        ({ irparams := p, dataStateIsReady_old := old }, none)) ∧
    (∀ events,
      IRrecvPCI_Handler.run MINIMUM_TIME_GAP_PERMITTED LONG_SPACE_US events
        { irparams := p, dataStateIsReady_old := old } =
        ({ irparams := p, dataStateIsReady_old := old }, [])) ∧
    (∀ irdata, ISR minTicks longTicks irdata p =
      ({ p with timer := toULong (p.timer + 1) }, none)) ∧
    (∀ pins, (ISR.run minTicks longTicks pins p).2 = [] ∧
      ∃ t, (ISR.run minTicks longTicks pins p).1 = { p with timer := t }) ∧
    (∀ (q : irparams_t) irdata pins, q.doubleBuffered = false →
      ISR.completes minTicks longTicks irdata q = true →
      (ISR minTicks longTicks irdata q).2 = none ∧
      (ISR.run minTicks longTicks pins (ISR minTicks longTicks irdata q).1).2 = [] ∧
      ∃ t, (ISR.run minTicks longTicks pins (ISR minTicks longTicks irdata q).1).1 =
        { (ISR minTicks longTicks irdata q).1 with timer := t }) ∧
    (∀ (q : IRrecvPCI_t) t_now pinState events, q.irparams.doubleBuffered = false →
      IRrecvPCI_Handler.completes MINIMUM_TIME_GAP_PERMITTED LONG_SPACE_US t_now pinState q =
        true →
      IRrecvPCI_Handler.run MINIMUM_TIME_GAP_PERMITTED LONG_SPACE_US events
        (IRrecvPCI_Handler MINIMUM_TIME_GAP_PERMITTED LONG_SPACE_US t_now pinState q).1 =
        ((IRrecvPCI_Handler MINIMUM_TIME_GAP_PERMITTED LONG_SPACE_US t_now pinState q).1, [])) := by
  refine ⟨fun t_now pinState => IRrecvPCI_Handler_paused _ _ t_now pinState _ hp,
    fun events => IRrecvPCI_Handler_run_paused _ _ events _ hp,
    fun irdata => ISR_paused _ _ irdata _ hp,
    fun pins => ISR_run_paused _ _ pins _ hp, ?_, ?_⟩
  · intro q irdata pins hq hc
    have h := ISR_completes_spec minTicks longTicks irdata q hc
    exact ⟨h.1, ISR_run_paused _ _ pins _ (h.2.2.2.2.2.2.2.2.1 hq).1⟩
  · intro q t_now pinState events hq hc
    apply IRrecvPCI_Handler_run_paused
    rw [(IRrecvPCI_Handler_completes_spec _ _ t_now pinState q hc).2.2.2.2]
    simp only [hq]
    exact (setRawbuf2_spec _ _ _).2.2.2.2.2.1

/-- C22 on the sampling receiver that has just completed a frame: it is paused, an edge
changes nothing and six more ticks write nothing. -/
theorem paused_capture_records_nothing_witness :
    pausedReceiver.pauseISR = true ∧
    IRrecvPCI_Handler 50 10000 70000 LOW
      { irparams := pausedReceiver, dataStateIsReady_old := false } =
      ({ irparams := pausedReceiver, dataStateIsReady_old := false }, none) ∧
    (ISR.run 1 200 (togglingPin 6) pausedReceiver).2 = [] :=
  have hp : pausedReceiver.pauseISR = true := by decide!
  have h := paused_capture_records_nothing 50 10000 1 200 pausedReceiver false hp
  ⟨hp, h.1 70000 LOW, (h.2.2.2.1 (togglingPin 6)).1⟩

/-! ## The handed-off frame -/

/-- C23 (the handed-off frame in single-buffered edge capture).  In single-buffered mode,
the call of `IRrecvPCI_Handler` that detects the end of a frame sets `rawlen1` to the
captured length and sets `pauseISR`; at the end of that call every sample of the shared
buffer at an index from 1 on holds the value it held before the call, and slot 0 holds
the elapsed time of this call, truncated to 16 bits: the gap sample of the ready frame is
overwritten.  No call after it changes the buffer while `pauseISR` is set. -/
theorem single_buffer_handoff (MINIMUM_TIME_GAP_PERMITTED LONG_SPACE_US : Nat)
    (t_now : Nat) (pinState : Bool) (s : IRrecvPCI_t)
    (hs : s.irparams.doubleBuffered = false)
    (hc : IRrecvPCI_Handler.completes MINIMUM_TIME_GAP_PERMITTED LONG_SPACE_US t_now pinState
      s = true) :
    (IRrecvPCI_Handler MINIMUM_TIME_GAP_PERMITTED LONG_SPACE_US t_now pinState
      s).1.irparams.rawlen1 = s.irparams.rawlen2 ∧
    1 < (IRrecvPCI_Handler MINIMUM_TIME_GAP_PERMITTED LONG_SPACE_US t_now pinState
      s).1.irparams.rawlen1 ∧
    (IRrecvPCI_Handler MINIMUM_TIME_GAP_PERMITTED LONG_SPACE_US t_now pinState
      s).1.irparams.pauseISR = true ∧
    (∀ i, 1 ≤ i →
      (IRrecvPCI_Handler MINIMUM_TIME_GAP_PERMITTED LONG_SPACE_US t_now pinState
        s).1.irparams.rawbuf1 i = s.irparams.rawbuf1 i) ∧
    (IRrecvPCI_Handler MINIMUM_TIME_GAP_PERMITTED LONG_SPACE_US t_now pinState
      s).1.irparams.rawbuf1 0 = toUInt (IRrecvPCI_Handler.dt t_now s) ∧
    (∀ events,
      (IRrecvPCI_Handler.run MINIMUM_TIME_GAP_PERMITTED LONG_SPACE_US events
        (IRrecvPCI_Handler MINIMUM_TIME_GAP_PERMITTED LONG_SPACE_US t_now pinState
          s).1).1.irparams.rawbuf1 =
      (IRrecvPCI_Handler MINIMUM_TIME_GAP_PERMITTED LONG_SPACE_US t_now pinState
        s).1.irparams.rawbuf1) := by
  have h := IRrecvPCI_Handler_completes_spec _ _ t_now pinState s hc
  have hq := h.2.2.2.2
  simp only [hs, Bool.false_eq_true, if_false, irparams_t.setRawbuf2] at hq
  have hpause : (IRrecvPCI_Handler MINIMUM_TIME_GAP_PERMITTED LONG_SPACE_US t_now pinState
      s).1.irparams.pauseISR = true := by rw [hq]
  refine ⟨by rw [hq], by rw [hq]; exact h.2.2.1, hpause, ?_, by rw [hq]; simp, ?_⟩
  · intro i hi
    rw [hq]
    simp [Function.update, show i ≠ 0 by omega]
  · intro events
    rw [IRrecvPCI_Handler_run_paused _ _ events _ hpause]

/-- C23 on a captured frame: the mark edge at 50000 µs, 15940 µs after the last edge, hands
off the four samples 20000, 9000, 4500, 560 and leaves 15940 in slot 0. -/
theorem single_buffer_handoff_witness :
    capturedEdges.irparams.doubleBuffered = false ∧
    IRrecvPCI_Handler.completes 50 10000 50000 LOW capturedEdges = true ∧
    (List.range 4).map capturedEdges.irparams.rawbuf1 = [20000, 9000, 4500, 560] ∧
    (IRrecvPCI_Handler 50 10000 50000 LOW capturedEdges).1.irparams.rawlen1 = 4 ∧
    (IRrecvPCI_Handler 50 10000 50000 LOW capturedEdges).1.irparams.pauseISR = true ∧
    (IRrecvPCI_Handler 50 10000 50000 LOW capturedEdges).1.irparams.rawbuf1 0 = 15940 ∧
    (IRrecvPCI_Handler 50 10000 50000 LOW capturedEdges).1.irparams.rawbuf1 0 ≠
      capturedEdges.irparams.rawbuf1 0 :=
  have h := single_buffer_handoff 50 10000 50000 LOW capturedEdges (by decide!) (by decide!)
  ⟨by decide!, by decide!, by decide!, h.1.trans (by decide!), h.2.2.1,
   h.2.2.2.2.1.trans (by decide!), by decide!⟩

/-- C24 (the pending frame in double-buffered mode).  In double-buffered mode, a tick of
the timer interrupt that does not complete a frame and a call of `IRrecvPCI_Handler` that
does not complete a frame leave `rawbuf1` and `rawlen1` unchanged, and the mode stays
double-buffered. -/
theorem pending_frame_untouched (MINIMUM_TIME_GAP_PERMITTED LONG_SPACE_US : Nat)
    (minTicks longTicks : Nat) (s : IRrecvPCI_t) (hd : s.irparams.doubleBuffered = true) :
    (∀ irdata, ISR.completes minTicks longTicks irdata s.irparams = false →
      (ISR minTicks longTicks irdata s.irparams).1.rawbuf1 = s.irparams.rawbuf1 ∧
      (ISR minTicks longTicks irdata s.irparams).1.rawlen1 = s.irparams.rawlen1 ∧
      (ISR minTicks longTicks irdata s.irparams).1.doubleBuffered = true) ∧
    (∀ t_now pinState,
      IRrecvPCI_Handler.completes MINIMUM_TIME_GAP_PERMITTED LONG_SPACE_US t_now pinState s =
        false →
      (IRrecvPCI_Handler MINIMUM_TIME_GAP_PERMITTED LONG_SPACE_US t_now pinState
        s).1.irparams.rawbuf1 = s.irparams.rawbuf1 ∧
      (IRrecvPCI_Handler MINIMUM_TIME_GAP_PERMITTED LONG_SPACE_US t_now pinState
        s).1.irparams.rawlen1 = s.irparams.rawlen1 ∧
      (IRrecvPCI_Handler MINIMUM_TIME_GAP_PERMITTED LONG_SPACE_US t_now pinState
        s).1.irparams.doubleBuffered = true) := by
  constructor
  · intro irdata hc
    have h := ISR_continues minTicks longTicks irdata s.irparams hc
    exact ⟨h.2.2.2.2 hd, h.1, h.2.2.2.1.trans hd⟩
  · intro t_now pinState hc
    have h := IRrecvPCI_Handler_continues _ _ t_now pinState s hc
    exact ⟨h.2.2.2.2 hd, h.1, h.2.2.2.1.trans hd⟩

/-- C24 on a pending frame of four samples: the edge at 59000 µs is recorded in slot 1 of
the second buffer and a timer tick passes, and the pending frame stays as it is. -/
theorem pending_frame_untouched_witness :
    pendingEdges.irparams.doubleBuffered = true ∧
    pendingEdges.irparams.rawlen1 = 4 ∧
    (List.range 4).map pendingEdges.irparams.rawbuf1 = [20000, 9000, 4500, 560] ∧
    (IRrecvPCI_Handler 50 10000 59000 HIGH pendingEdges).2 = some 1 ∧
    (IRrecvPCI_Handler 50 10000 59000 HIGH pendingEdges).1.irparams.rawbuf1 =
      pendingEdges.irparams.rawbuf1 ∧
    (IRrecvPCI_Handler 50 10000 59000 HIGH pendingEdges).1.irparams.rawlen1 =
      pendingEdges.irparams.rawlen1 ∧
    (ISR 1 200 .IR_MARK pendingEdges.irparams).1.rawbuf1 = pendingEdges.irparams.rawbuf1 ∧
    (ISR 1 200 .IR_MARK pendingEdges.irparams).1.rawlen1 = pendingEdges.irparams.rawlen1 :=
  have h := pending_frame_untouched 50 10000 1 200 pendingEdges (by decide!)
  have h1 := h.1 .IR_MARK (by decide!)
  have h2 := h.2 59000 HIGH (by decide!)
  ⟨by decide!, by decide!, by decide!, by decide!, h2.1, h2.2.1, h1.1, h1.2.1⟩

/-! ## Debounce -/

/-- C28 (debounce in the edge capture).  A call of `IRrecvPCI_Handler` that is not paused
and whose elapsed time is below `MINIMUM_TIME_GAP_PERMITTED` writes no slot and leaves the
whole receiver state as it was, whatever the pin level: `rawbuf2`, `rawlen2`, `rawbuf1`,
`rawlen1`, the time stamp `timer`, `pauseISR` and the ready flag among it. -/
theorem handler_debounce (MINIMUM_TIME_GAP_PERMITTED LONG_SPACE_US : Nat) (t_now : Nat)
    (pinState : Bool) (s : IRrecvPCI_t) (_hp : s.irparams.pauseISR = false)
    (hdt : IRrecvPCI_Handler.dt t_now s < MINIMUM_TIME_GAP_PERMITTED) :
    IRrecvPCI_Handler MINIMUM_TIME_GAP_PERMITTED LONG_SPACE_US t_now pinState s = (s, none) ∧
    (∀ j, (IRrecvPCI_Handler MINIMUM_TIME_GAP_PERMITTED LONG_SPACE_US t_now pinState
      s).1.irparams.rawbuf2 j = s.irparams.rawbuf2 j) ∧
    (IRrecvPCI_Handler MINIMUM_TIME_GAP_PERMITTED LONG_SPACE_US t_now pinState
      s).1.irparams.rawlen2 = s.irparams.rawlen2 ∧
    (IRrecvPCI_Handler MINIMUM_TIME_GAP_PERMITTED LONG_SPACE_US t_now pinState
      s).1.irparams.rawbuf1 = s.irparams.rawbuf1 ∧
    (IRrecvPCI_Handler MINIMUM_TIME_GAP_PERMITTED LONG_SPACE_US t_now pinState
      s).1.irparams.rawlen1 = s.irparams.rawlen1 ∧
    (IRrecvPCI_Handler MINIMUM_TIME_GAP_PERMITTED LONG_SPACE_US t_now pinState
      s).1.irparams.timer = s.irparams.timer ∧
    (IRrecvPCI_Handler MINIMUM_TIME_GAP_PERMITTED LONG_SPACE_US t_now pinState
      s).1.irparams.pauseISR = s.irparams.pauseISR ∧
    (IRrecvPCI_Handler MINIMUM_TIME_GAP_PERMITTED LONG_SPACE_US t_now pinState
      s).1.irparams.dataStateChangedToReady = s.irparams.dataStateChangedToReady := by
  rw [IRrecvPCI_Handler_noise _ _ t_now pinState s hdt]
  exact ⟨rfl, fun _ => rfl, rfl, rfl, rfl, rfl, rfl, rfl⟩

/-- C28 on a captured frame: an edge 30 µs after the last one is dropped. -/
theorem handler_debounce_witness :
    capturedEdges.irparams.pauseISR = false ∧
    IRrecvPCI_Handler.dt 34090 capturedEdges < 50 ∧
    IRrecvPCI_Handler 50 10000 34090 LOW capturedEdges = (capturedEdges, none) :=
  ⟨by decide!, by decide!,
   (handler_debounce 50 10000 34090 LOW capturedEdges (by decide!) (by decide!)).1⟩

/-! ## Bias correction at handoff -/

/-- The sum of an unsigned 16-bit product and a signed term wraps like the exact sum. -/
theorem addSigned_toUInt (x : Nat) (e : Int) :
    addSigned (toUInt x) e = Int.toNat (((x : Int) + e) % 65536) := by
  unfold addSigned toUInt
  congr 1
  have : ((x % 2 ^ 16 : Nat) : Int) = (x : Int) % 65536 := by
    push_cast
    norm_num
  rw [this, Int.emod_add_emod]

/-- The adjusted sample is below `2 ^ 16`. -/
theorem adjust_lt (Mark_Excess : Int) (Time_per_Tick i v : Nat) :
    IRrecvBase.getResults.adjust Mark_Excess Time_per_Tick i v < 65536 := by
  unfold IRrecvBase.getResults.adjust addSigned
  have h := Int.emod_lt_of_pos ((toUInt (v * Time_per_Tick) : Int) +
    (if i % 2 ≠ 0 then -Mark_Excess else Mark_Excess)) (show (0 : Int) < 65536 by norm_num)
  have h0 := Int.emod_nonneg ((toUInt (v * Time_per_Tick) : Int) +
    (if i % 2 ≠ 0 then -Mark_Excess else Mark_Excess)) (show (65536 : Int) ≠ 0 by norm_num)
  omega

/-- The loop of `getResults`, entered at `i` with enough iterations left, adjusts every
slot from `i` up to `rawlen` once and leaves the other slots alone. -/
theorem getResults_loop_spec (Mark_Excess : Int) (Time_per_Tick rawlen : Nat)
    (hlen : rawlen < 65536) :
    ∀ (fuel i : Nat) (buf : Nat → Nat), i ≤ rawlen → rawlen - i ≤ fuel →
    IRrecvBase.getResults.loop Mark_Excess Time_per_Tick rawlen fuel i buf =
      fun j => if i ≤ j ∧ j < rawlen then
        IRrecvBase.getResults.adjust Mark_Excess Time_per_Tick j (buf j) else buf j := by
  intro fuel
  induction fuel with
  | zero =>
    intro i buf hi hf
    unfold IRrecvBase.getResults.loop
    funext j
    rw [if_neg (by omega)]
  | succ n ih =>
    intro i buf hi hf
    unfold IRrecvBase.getResults.loop
    by_cases hlt : i < rawlen
    · rw [if_pos hlt, toUInt_of_lt (by omega), ih (i + 1) _ (by omega) (by omega)]
      funext j
      by_cases hj : j = i
      · subst hj
        rw [if_neg (by omega), if_pos ⟨le_refl _, hlt⟩]
        simp [Function.update]
      · by_cases hj2 : i + 1 ≤ j ∧ j < rawlen
        · rw [if_pos hj2, if_pos ⟨by omega, hj2.2⟩]
          simp [Function.update, hj]
        · rw [if_neg hj2, if_neg (by omega)]
          simp [Function.update, hj]
    · rw [if_neg hlt]
      funext j
      rw [if_neg (by omega)]

/-- What `IRrecvBase::getResults` hands to the decoder: the length `rawlen1`, truncated to
16 bits, and the shared storage with every slot below that length adjusted once. -/
theorem getResults_spec (Mark_Excess : Int) (Time_per_Tick : Nat) (p : irparams_t)
    (d : IRdecode) :
    (IRrecvBase.getResults Mark_Excess Time_per_Tick p d).1 = true ∧
    (IRrecvBase.getResults Mark_Excess Time_per_Tick p d).2.2 =
      { IRdecodeBase.reset d with
        rawlen := toUInt p.rawlen1,
        rawbuf := fun j => if j < toUInt p.rawlen1 then
          IRrecvBase.getResults.adjust Mark_Excess Time_per_Tick j (p.rawbuf1 j)
          else p.rawbuf1 j } ∧
    (IRrecvBase.getResults Mark_Excess Time_per_Tick p d).2.1 =
      { p with rawbuf1 := fun j => if j < toUInt p.rawlen1 then
          IRrecvBase.getResults.adjust Mark_Excess Time_per_Tick j (p.rawbuf1 j)
          else p.rawbuf1 j } := by
  have hlt : toUInt p.rawlen1 < 65536 := by
    unfold toUInt
    exact Nat.mod_lt _ (by norm_num)
  have hl := getResults_loop_spec Mark_Excess Time_per_Tick (toUInt p.rawlen1) hlt
    (toUInt p.rawlen1) 0 p.rawbuf1 (Nat.zero_le _) (by omega)
  simp only [Nat.zero_le, true_and] at hl
  unfold IRrecvBase.getResults
  simp only [hl]
  exact ⟨trivial, trivial, trivial⟩

/-- C25 (bias correction at handoff).  After `IRrecvBase::getResults(decoder,
Time_per_Tick)` the call has returned `true`, `decoder.rawlen` equals `rawlen1`, every
sample at an odd index below `rawlen` is its previous value times `Time_per_Tick` minus
`Mark_Excess` and every sample at an even index below `rawlen`, the gap at index 0
included, is its previous value times `Time_per_Tick` plus `Mark_Excess`, both modulo
`2 ^ 16`; the samples from `rawlen` on are unchanged; the decoder reads the storage
`rawbuf1`. -/
theorem getResults_bias (Mark_Excess : Int) (Time_per_Tick : Nat) (p : irparams_t)
    (d : IRdecode) (hlen : p.rawlen1 < 65536) :
    (IRrecvBase.getResults Mark_Excess Time_per_Tick p d).1 = true ∧
    (IRrecvBase.getResults Mark_Excess Time_per_Tick p d).2.2.rawlen = p.rawlen1 ∧
    (∀ i, i < p.rawlen1 → i % 2 = 1 →
      (IRrecvBase.getResults Mark_Excess Time_per_Tick p d).2.2.rawbuf i =
        Int.toNat ((((p.rawbuf1 i * Time_per_Tick : Nat) : Int) - Mark_Excess) % 65536)) ∧
    (∀ i, i < p.rawlen1 → i % 2 = 0 →
      (IRrecvBase.getResults Mark_Excess Time_per_Tick p d).2.2.rawbuf i =
        Int.toNat ((((p.rawbuf1 i * Time_per_Tick : Nat) : Int) + Mark_Excess) % 65536)) ∧
    (∀ i, p.rawlen1 ≤ i →
      (IRrecvBase.getResults Mark_Excess Time_per_Tick p d).2.2.rawbuf i = p.rawbuf1 i) ∧
    (IRrecvBase.getResults Mark_Excess Time_per_Tick p d).2.1.rawbuf1 =
      (IRrecvBase.getResults Mark_Excess Time_per_Tick p d).2.2.rawbuf := by
  obtain ⟨h1, h2, h3⟩ := getResults_spec Mark_Excess Time_per_Tick p d
  rw [toUInt_of_lt hlen] at h2 h3
  refine ⟨h1, by rw [h2], ?_, ?_, ?_, by rw [h2, h3]⟩
  · intro i hi hodd
    rw [h2]
    simp only [if_pos hi, IRrecvBase.getResults.adjust, addSigned_toUInt]
    rw [if_pos (by omega)]
    rfl
  · intro i hi heven
    rw [h2]
    simp only [if_pos hi, IRrecvBase.getResults.adjust, addSigned_toUInt]
    rw [if_neg (by omega)]
  · intro i hi
    rw [h2]
    simp only [if_neg (show ¬ i < p.rawlen1 by omega)]

/-- C25 on the frame of `pausedReceiver` (samples of 1, 2, 2 and 1 ticks), at 50 µs per
tick and `Mark_Excess = 30`: the decoder gets the four samples 80, 70, 130, 20. -/
theorem getResults_bias_witness :
    pausedReceiver.rawlen1 < 65536 ∧
    (IRrecvBase.getResults 30 50 pausedReceiver IRdecode.fresh).2.2.rawlen = 4 ∧
    (List.range 5).map (IRrecvBase.getResults 30 50 pausedReceiver IRdecode.fresh).2.2.rawbuf =
      [80, 70, 130, 20, 0] :=
  have hl : pausedReceiver.rawlen1 < 65536 := by decide!
  have h := getResults_bias 30 50 pausedReceiver IRdecode.fresh hl
  ⟨hl, h.2.1.trans (by decide!), by decide!⟩

/-! ## One ready signal per frame -/

/-- Detaching the interrupt when the capture has paused changes the detach flag only. -/
theorem detach_if_paused (q : irparams_t) :
    (if q.pauseISR = true then IRrecv.detachInterrupt q else q).rawbuf1 = q.rawbuf1 ∧
    (if q.pauseISR = true then IRrecv.detachInterrupt q else q).rawlen1 = q.rawlen1 ∧
    (if q.pauseISR = true then IRrecv.detachInterrupt q else q).dataStateChangedToReady =
      q.dataStateChangedToReady ∧
    (if q.pauseISR = true then IRrecv.detachInterrupt q else q).pauseISR = q.pauseISR := by
  unfold IRrecv.detachInterrupt
  split_ifs <;> exact ⟨rfl, rfl, rfl, rfl⟩

/-- `IRrecv::getResults` with the ready flag clear: it returns `false` and leaves the
decoder and the storage alone. -/
theorem IRrecv_getResults_idle (Mark_Excess : Int) (USEC_PER_TICK : Nat) (p : irparams_t)
    (d : IRdecode) (h : p.dataStateChangedToReady = false) :
    (IRrecv.getResults Mark_Excess USEC_PER_TICK p d).1 = false ∧
    (IRrecv.getResults Mark_Excess USEC_PER_TICK p d).2.2 = d ∧
    (IRrecv.getResults Mark_Excess USEC_PER_TICK p d).2.1.rawbuf1 = p.rawbuf1 ∧
    (IRrecv.getResults Mark_Excess USEC_PER_TICK p d).2.1.rawlen1 = p.rawlen1 ∧
    (IRrecv.getResults Mark_Excess USEC_PER_TICK p d).2.1.dataStateChangedToReady = false := by
  unfold IRrecv.getResults
  simp only [h, Bool.false_eq_true, if_false]
  have hd := detach_if_paused p
  exact ⟨trivial, trivial, hd.1, hd.2.1, hd.2.2.1.trans h⟩

/-- `IRrecv::getResults` with the ready flag set: it returns `true`, clears the flag and
hands the frame to the decoder through `IRrecvBase::getResults`. -/
theorem IRrecv_getResults_ready (Mark_Excess : Int) (USEC_PER_TICK : Nat) (p : irparams_t)
    (d : IRdecode) (h : p.dataStateChangedToReady = true) :
    (IRrecv.getResults Mark_Excess USEC_PER_TICK p d).1 = true ∧
    (IRrecv.getResults Mark_Excess USEC_PER_TICK p d).2.2 =
      (IRrecvBase.getResults Mark_Excess USEC_PER_TICK
        { p with dataStateChangedToReady := false } d).2.2 ∧
    (IRrecv.getResults Mark_Excess USEC_PER_TICK p d).2.1.rawbuf1 =
      (IRrecvBase.getResults Mark_Excess USEC_PER_TICK
        { p with dataStateChangedToReady := false } d).2.1.rawbuf1 ∧
    (IRrecv.getResults Mark_Excess USEC_PER_TICK p d).2.1.rawlen1 = p.rawlen1 ∧
    (IRrecv.getResults Mark_Excess USEC_PER_TICK p d).2.1.dataStateChangedToReady = false := by
  unfold IRrecv.getResults
  simp only [h, if_true]
  have hd := detach_if_paused (IRrecvBase.getResults Mark_Excess USEC_PER_TICK
    { p with dataStateChangedToReady := false } d).2.1
  have hs := (getResults_spec Mark_Excess USEC_PER_TICK
    { p with dataStateChangedToReady := false } d).2.2
  refine ⟨trivial, trivial, hd.1, hd.2.1.trans (by rw [hs]), hd.2.2.1.trans (by rw [hs])⟩

/-- C26 (one ready signal and one bias adjustment per frame).  `IRrecv::getResults`
returns `true` exactly when `dataStateChangedToReady` was set on entry, and the flag is
clear after the call.  A second call right after it returns `false` and leaves the
decoder (`rawlen` included) and every sample of the buffer as the first call left them:
after both calls a frame that was ready holds each sample below `rawlen1` adjusted once. -/
theorem getResults_once (Mark_Excess : Int) (USEC_PER_TICK : Nat) (p : irparams_t)
    (d : IRdecode) :
    (IRrecv.getResults Mark_Excess USEC_PER_TICK p d).1 = p.dataStateChangedToReady ∧
    (IRrecv.getResults Mark_Excess USEC_PER_TICK p d).2.1.dataStateChangedToReady = false ∧
    (IRrecv.getResults Mark_Excess USEC_PER_TICK
      (IRrecv.getResults Mark_Excess USEC_PER_TICK p d).2.1
      (IRrecv.getResults Mark_Excess USEC_PER_TICK p d).2.2).1 = false ∧
    (IRrecv.getResults Mark_Excess USEC_PER_TICK
      (IRrecv.getResults Mark_Excess USEC_PER_TICK p d).2.1
      (IRrecv.getResults Mark_Excess USEC_PER_TICK p d).2.2).2.2 =
      (IRrecv.getResults Mark_Excess USEC_PER_TICK p d).2.2 ∧
    (IRrecv.getResults Mark_Excess USEC_PER_TICK
      (IRrecv.getResults Mark_Excess USEC_PER_TICK p d).2.1
      (IRrecv.getResults Mark_Excess USEC_PER_TICK p d).2.2).2.1.rawbuf1 =
      (IRrecv.getResults Mark_Excess USEC_PER_TICK p d).2.1.rawbuf1 ∧
    (p.dataStateChangedToReady = true → p.rawlen1 < 65536 → ∀ i, i < p.rawlen1 →
      (IRrecv.getResults Mark_Excess USEC_PER_TICK
        (IRrecv.getResults Mark_Excess USEC_PER_TICK p d).2.1
        (IRrecv.getResults Mark_Excess USEC_PER_TICK p d).2.2).2.1.rawbuf1 i =
        IRrecvBase.getResults.adjust Mark_Excess USEC_PER_TICK i (p.rawbuf1 i)) := by
  have hclear : (IRrecv.getResults Mark_Excess USEC_PER_TICK p d).2.1.dataStateChangedToReady =
      false := by
    cases h : p.dataStateChangedToReady
    · exact (IRrecv_getResults_idle _ _ p d h).2.2.2.2
    · exact (IRrecv_getResults_ready _ _ p d h).2.2.2.2
  have h2 := IRrecv_getResults_idle Mark_Excess USEC_PER_TICK
    (IRrecv.getResults Mark_Excess USEC_PER_TICK p d).2.1
    (IRrecv.getResults Mark_Excess USEC_PER_TICK p d).2.2 hclear
  refine ⟨?_, hclear, h2.1, h2.2.1, h2.2.2.1, ?_⟩
  · cases h : p.dataStateChangedToReady
    · exact (IRrecv_getResults_idle _ _ p d h).1
    · exact (IRrecv_getResults_ready _ _ p d h).1
  · intro h hlen i hi
    rw [h2.2.2.1, (IRrecv_getResults_ready _ _ p d h).2.2.1,
      (getResults_spec Mark_Excess USEC_PER_TICK { p with dataStateChangedToReady := false }
        d).2.2]
    simp only [toUInt_of_lt hlen, if_pos hi]

/-- The frame of `pausedReceiver` through two calls of `getResults` at 50 µs per tick and
`Mark_Excess = 30`: the first returns `true`, the second `false`, and the buffer holds
80, 70, 130, 20 after the first call and after the second. -/
theorem getResults_once_example :
    (IRrecv.getResults 30 50 pausedReceiver IRdecode.fresh).1 = true ∧
    (List.range 4).map (IRrecv.getResults 30 50 pausedReceiver IRdecode.fresh).2.1.rawbuf1 =
      [80, 70, 130, 20] ∧
    (IRrecv.getResults 30 50 (IRrecv.getResults 30 50 pausedReceiver IRdecode.fresh).2.1
      (IRrecv.getResults 30 50 pausedReceiver IRdecode.fresh).2.2).1 = false ∧
    (List.range 4).map (IRrecv.getResults 30 50
      (IRrecv.getResults 30 50 pausedReceiver IRdecode.fresh).2.1
      (IRrecv.getResults 30 50 pausedReceiver IRdecode.fresh).2.2).2.1.rawbuf1 =
      [80, 70, 130, 20] := by
  decide!

/-! ## Resume -/

/-- With the interrupt attached, `resume` of either receiver does nothing. -/
theorem resume_attached (p : irparams_t) (h : p.interruptIsDetached = false) :
    IRrecv.resume p = p ∧ IRrecvPCI.resume p = p := by
  unfold IRrecv.resume IRrecvPCI.resume
  simp [h]

/-- With the interrupt detached, `IRrecv::resume` starts the receiver afresh. -/
theorem resume_detached (p : irparams_t) (h : p.interruptIsDetached = true) :
    IRrecv.resume p = p.resumed := by
  unfold IRrecv.resume IRrecvBase.resume irparams_t.resumed
  rw [if_pos h]

/-- C27 (resume discards and un-pauses).  From every receiver state in which
`interruptIsDetached` is set, after `IRrecv::resume`, and likewise after
`IRrecvPCI::resume`, the frame is cleared (`rawlen1 = 0` and `rawlen2 = 0`),
`dataStateChangedToReady` is false, `pauseISR` is false and the interrupt is attached
again; `IRrecv::resume` also puts the state machine in `STATE_START`. -/
theorem resume_clears (p : irparams_t) (h : p.interruptIsDetached = true) :
    ((IRrecv.resume p).rawlen1 = 0 ∧ (IRrecv.resume p).rawlen2 = 0 ∧
      (IRrecv.resume p).dataStateChangedToReady = false ∧ (IRrecv.resume p).pauseISR = false ∧
      (IRrecv.resume p).interruptIsDetached = false ∧
      (IRrecv.resume p).rcvstate = .STATE_START) ∧
    ((IRrecvPCI.resume p).rawlen1 = 0 ∧ (IRrecvPCI.resume p).rawlen2 = 0 ∧
      (IRrecvPCI.resume p).dataStateChangedToReady = false ∧
      (IRrecvPCI.resume p).pauseISR = false ∧
      (IRrecvPCI.resume p).interruptIsDetached = false) := by
  unfold IRrecv.resume IRrecvPCI.resume IRrecvBase.resume
  simp [h]

/-- C27 on the paused receiver once `getResults` has read the frame and detached the
interrupt: `resume` clears the frame and un-pauses. -/
theorem resume_clears_witness :
    (IRrecv.getResults 30 50 pausedReceiver IRdecode.fresh).2.1.interruptIsDetached = true ∧
    (IRrecv.getResults 30 50 pausedReceiver IRdecode.fresh).2.1.pauseISR = true ∧
    (IRrecv.getResults 30 50 pausedReceiver IRdecode.fresh).2.1.rawlen1 = 4 ∧
    (IRrecv.resume (IRrecv.getResults 30 50 pausedReceiver IRdecode.fresh).2.1).rawlen1 = 0 ∧
    (IRrecv.resume (IRrecv.getResults 30 50 pausedReceiver IRdecode.fresh).2.1).pauseISR =
      false :=
  have hd : (IRrecv.getResults 30 50 pausedReceiver IRdecode.fresh).2.1.interruptIsDetached =
      true := by decide!
  have h := resume_clears (IRrecv.getResults 30 50 pausedReceiver IRdecode.fresh).2.1 hd
  ⟨hd, by decide!, by decide!, h.1.1, h.1.2.2.2.1⟩

/-- The claim C27 as stated fails when the interrupt is attached: the single-buffered
receivers that have just completed a frame, before `getResults` has run, are paused with
a ready frame of four samples, and `resume` leaves them so. -/
theorem resume_without_detach_keeps_frame :
    pausedReceiver.interruptIsDetached = false ∧
    (IRrecv.resume pausedReceiver).rawlen1 = 4 ∧
    (IRrecv.resume pausedReceiver).dataStateChangedToReady = true ∧
    (IRrecv.resume pausedReceiver).pauseISR = true ∧
    (IRrecvPCI.resume (IRrecvPCI_Handler 50 10000 50000 LOW capturedEdges).1.irparams).rawlen1 =
      4 ∧
    (IRrecvPCI.resume (IRrecvPCI_Handler 50 10000 50000 LOW capturedEdges).1.irparams).rawlen2 =
      1 ∧
    (IRrecvPCI.resume
      (IRrecvPCI_Handler 50 10000 50000 LOW capturedEdges).1.irparams).dataStateChangedToReady =
      true ∧
    (IRrecvPCI.resume (IRrecvPCI_Handler 50 10000 50000 LOW capturedEdges).1.irparams).pauseISR =
      true := by
  decide!

/-! ## The level cursor -/

/-- One call of `getRClevel` on an in-range sample that reads as `k` units, with `used`
below `k`: the level of the sample is returned; the call that hands out the last unit
moves to the next sample, any other call counts the unit. -/
theorem getRClevel_call (M : Nat → Nat → Bool) (t1 k : Nat) (d : IRdecode)
    (hoff : d.offset < d.rawlen) (hlen : d.rawlen < 65536)
    (hk : unitsOf M t1 (d.rawbuf d.offset) = some k) (hu : d.used < k) :
    IRdecodeRC.getRClevel M t1 d =
      (IRdecodeRC.levelAt d.offset,
        if d.used + 1 = k then { d with used := 0, offset := d.offset + 1 }
        else { d with used := d.used + 1 }) := by
  have h3 := unitsOf_le M t1 _ k hk
  have hu1 : toUInt (d.used + 1) = d.used + 1 := toUInt_of_lt (by omega)
  have ho1 : toUInt (d.offset + 1) = d.offset + 1 := toUInt_of_lt (by omega)
  rw [getRClevel_unitsOf M t1 d k hoff hk, hu1, ho1]
  unfold IRdecodeRC.levelAt
  by_cases hlast : d.used + 1 = k
  · rw [if_pos (show d.used + 1 ≥ k by omega), if_pos hlast]
  · rw [if_neg (show ¬ d.used + 1 ≥ k by omega), if_neg hlast]

/-- Calls of `getRClevel` on an in-range sample of `k` units, starting with `used = u`:
any `n` calls that leave at least one unit return the level of the sample `n` times and
count the units; the `k - u` calls that hand out the rest return it `k - u` times and
move to the next sample with `used = 0`. -/
theorem levels_within (M : Nat → Nat → Bool) (t1 k : Nat) :
    ∀ (n : Nat) (d : IRdecode), d.offset < d.rawlen → d.rawlen < 65536 →
    unitsOf M t1 (d.rawbuf d.offset) = some k → d.used + n ≤ k →
    IRdecodeRC.levels M t1 n d =
      (List.replicate n (IRdecodeRC.levelAt d.offset),
        if d.used + n = k ∧ 0 < n then { d with used := 0, offset := d.offset + 1 }
        else { d with used := d.used + n }) := by
  intro n
  induction n with
  | zero =>
    intro d _ _ _ _
    unfold IRdecodeRC.levels
    rw [if_neg (by omega)]
    rfl
  | succ m ih =>
    intro d hoff hlen hk hu
    unfold IRdecodeRC.levels
    simp only [getRClevel_call M t1 k d hoff hlen hk (by omega)]
    by_cases hlast : d.used + 1 = k
    · have hm : m = 0 := by omega
      subst hm
      simp only [if_pos hlast]
      unfold IRdecodeRC.levels
      rw [if_pos ⟨by omega, by omega⟩]
      rfl
    · simp only [if_neg hlast]
      rw [ih { d with used := d.used + 1 } hoff hlen hk (by simp only []; omega)]
      simp only [List.replicate_succ]
      by_cases hend : d.used + (m + 1) = k
      · rw [if_pos ⟨by omega, by omega⟩, if_pos ⟨hend, by omega⟩]
      · rw [if_neg (by omega), if_neg (by omega)]
        simp only [Nat.add_assoc, Nat.add_comm 1 m]

/-- One more call of `getRClevel` in front of `n` calls. -/
theorem levels_succ (M : Nat → Nat → Bool) (t1 n : Nat) (d : IRdecode) :
    IRdecodeRC.levels M t1 (n + 1) d =
      ((IRdecodeRC.getRClevel M t1 d).1 ::
        (IRdecodeRC.levels M t1 n (IRdecodeRC.getRClevel M t1 d).2).1,
       (IRdecodeRC.levels M t1 n (IRdecodeRC.getRClevel M t1 d).2).2) := rfl

/-- Calls of `getRClevel` split: `m + n` calls are `m` calls followed by `n` calls. -/
theorem levels_add (M : Nat → Nat → Bool) (t1 : Nat) : ∀ (m n : Nat) (d : IRdecode),
    IRdecodeRC.levels M t1 (m + n) d =
      ((IRdecodeRC.levels M t1 m d).1 ++
        (IRdecodeRC.levels M t1 n (IRdecodeRC.levels M t1 m d).2).1,
       (IRdecodeRC.levels M t1 n (IRdecodeRC.levels M t1 m d).2).2) := by
  intro m
  induction m with
  | zero =>
    intro n d
    rw [Nat.zero_add]
    rfl
  | succ m ih =>
    intro n d
    rw [Nat.add_right_comm, levels_succ, ih, levels_succ M t1 m d]
    rfl

/-- C29 (the level cursor yields one level per base unit).  For an in-range sample
(`offset < rawlen`) whose width first matches `k * t1` among `k = 1, 2, 3`, and starting
with `used = 0`: any `n < k` successive calls of `getRClevel` return the level of the
sample (`MARK` at an odd offset, `SPACE` at an even one) `n` times and leave `offset`
unchanged, with `used = n`; `k` successive calls return it `k` times, and after the last
of them `offset` has advanced by one and `used` is 0.  Hence a mark of two units followed
by a space of one unit yields `MARK, MARK, SPACE`.  The base unit is such that `3 * t1`
fits 16 bits, as the source computes `2*t1` and `3*t1` in `unsigned int`. -/
theorem level_cursor (M : Nat → Nat → Bool) (t1 k : Nat) (d : IRdecode)
    (_ht : 3 * t1 < 65536) (hoff : d.offset < d.rawlen) (hlen : d.rawlen < 65536)
    (hk : unitsOf M t1 (d.rawbuf d.offset) = some k) (hused : d.used = 0) :
    1 ≤ k ∧ k ≤ 3 ∧
    (∀ n, n < k →
      IRdecodeRC.levels M t1 n d =
        (List.replicate n (IRdecodeRC.levelAt d.offset), { d with used := n })) ∧
    IRdecodeRC.levels M t1 k d =
      (List.replicate k (IRdecodeRC.levelAt d.offset),
        { d with used := 0, offset := d.offset + 1 }) ∧
    (k = 2 → d.offset % 2 = 1 → d.offset + 1 < d.rawlen →
      unitsOf M t1 (d.rawbuf (d.offset + 1)) = some 1 →
      IRdecodeRC.levels M t1 3 d =
        ([RCLevel.MARK, RCLevel.MARK, RCLevel.SPACE],
          { d with used := 0, offset := d.offset + 2 })) := by
  have h3 := unitsOf_le M t1 _ k hk
  have hk' := levels_within M t1 k k d hoff hlen hk (by omega)
  rw [if_pos ⟨by omega, by omega⟩] at hk'
  refine ⟨h3.1, h3.2, ?_, hk', ?_⟩
  · intro n hn
    rw [levels_within M t1 k n d hoff hlen hk (by omega), if_neg (by omega), hused,
      Nat.zero_add]
  · intro h2 hodd hnext hone
    subst h2
    have hsplit := levels_add M t1 2 1 d
    rw [hk'] at hsplit
    have hsecond := levels_within M t1 1 1 { d with used := 0, offset := d.offset + 1 }
      hnext hlen hone (by simp only []; omega)
    rw [if_pos ⟨by simp only [], by omega⟩] at hsecond
    simp only [] at hsecond hsplit
    rw [hsecond] at hsplit
    rw [show 3 = 2 + 1 from rfl, hsplit]
    simp only [IRdecodeRC.levelAt, hodd, show (d.offset + 1) % 2 = 0 by omega]
    simp [List.replicate]

/-- C29 on the frame `gap, 1778, 889` with `t1 = 889` and the 25 % window: the mark of two
units and the space of one unit read as `MARK, MARK, SPACE`, and the cursor ends on
sample 3 with `used = 0`. -/
theorem level_cursor_witness :
    twoOneFrame.offset < twoOneFrame.rawlen ∧
    unitsOf (MATCH 25 50) RC5_T1 (twoOneFrame.rawbuf twoOneFrame.offset) = some 2 ∧
    IRdecodeRC.levels (MATCH 25 50) RC5_T1 1 twoOneFrame =
      ([RCLevel.MARK], { twoOneFrame with used := 1 }) ∧
    IRdecodeRC.levels (MATCH 25 50) RC5_T1 2 twoOneFrame =
      ([RCLevel.MARK, RCLevel.MARK], { twoOneFrame with used := 0, offset := 2 }) ∧
    IRdecodeRC.levels (MATCH 25 50) RC5_T1 3 twoOneFrame =
      ([RCLevel.MARK, RCLevel.MARK, RCLevel.SPACE],
        { twoOneFrame with used := 0, offset := 3 }) :=
  have h := level_cursor (MATCH 25 50) RC5_T1 2 twoOneFrame (by decide) (by decide)
    (by decide) (by decide) rfl
  ⟨by decide, by decide, h.2.2.1 1 (by decide), h.2.2.2.1,
   h.2.2.2.2 rfl (by decide) (by decide) (by decide)⟩

/-- No unit count is found exactly when the three tests fail. -/
theorem unitsOf_none (M : Nat → Nat → Bool) (t1 w : Nat) (h : unitsOf M t1 w = none) :
    M w t1 = false ∧ M w (2 * t1) = false ∧ M w (3 * t1) = false := by
  unfold unitsOf at h
  cases h1 : M w t1 <;> cases h2 : M w (2 * t1) <;> cases h3 : M w (3 * t1) <;>
    simp [h1, h2, h3] at h ⊢

/-- `getRClevel` on an in-range sample that matches none of `t1`, `2*t1`, `3*t1` while
header checks are relaxed, the cursor is on sample 1 and the sample is shorter than `t1`:
the sample counts as one unit. -/
theorem getRClevel_relaxed_header (M : Nat → Nat → Bool) (t1 : Nat) (d : IRdecode)
    (hoff : d.offset < d.rawlen) (hnone : unitsOf M t1 (d.rawbuf d.offset) = none)
    (hig : d.ignoreHeader = true) (h1 : d.offset = 1) (hw : d.rawbuf d.offset < t1)
    (hused : d.used < 65535) :
    IRdecodeRC.getRClevel M t1 d = (RCLevel.MARK, { d with used := 0, offset := 2 }) := by
  have h2 : toUInt (d.offset + 1) = 2 := by rw [h1]; exact toUInt_of_lt (by norm_num)
  have hu : toUInt (d.used + 1) = d.used + 1 := toUInt_of_lt (by omega)
  obtain ⟨hm1, hm2, hm3⟩ := unitsOf_none M t1 _ hnone
  unfold IRdecodeRC.getRClevel
  rw [if_neg (show ¬ d.offset ≥ d.rawlen by omega)]
  simp only [hm1, hm2, hm3, hig, hw, h2, hu, Bool.false_eq_true, if_false,
    decide_True, Bool.and_self, if_true]
  simp [h1]

/-- C30 (level cursor error).  For every in-range sample (`offset < rawlen`) whose width
matches none of `t1`, `2*t1` and `3*t1`, `getRClevel` returns `ERROR` and leaves the
decoder, `offset` and `used` included, unchanged, unless header checks are relaxed
(`ignoreHeader`), the cursor is on sample 1 and that sample is shorter than `t1`.  When
`offset ≥ rawlen` it returns `SPACE` and leaves the decoder unchanged.  The base unit is
such that `3 * t1` fits 16 bits. -/
theorem level_cursor_error (M : Nat → Nat → Bool) (t1 : Nat) (d : IRdecode)
    (_ht : 3 * t1 < 65536)
    (hcase : d.rawlen ≤ d.offset ∨
      (d.offset < d.rawlen ∧ unitsOf M t1 (d.rawbuf d.offset) = none ∧
        ¬ (d.ignoreHeader = true ∧ d.offset = 1 ∧ d.rawbuf d.offset < t1))) :
    IRdecodeRC.getRClevel M t1 d =
      (if d.rawlen ≤ d.offset then RCLevel.SPACE else RCLevel.ERROR, d) := by
  unfold IRdecodeRC.getRClevel
  rcases hcase with hout | ⟨hoff, hnone, hrel⟩
  · rw [if_pos (show d.offset ≥ d.rawlen from hout), if_pos hout]
  · rw [if_neg (show ¬ d.offset ≥ d.rawlen by omega),
      if_neg (show ¬ d.rawlen ≤ d.offset by omega)]
    obtain ⟨hm1, hm2, hm3⟩ := unitsOf_none M t1 _ hnone
    have hf : (d.ignoreHeader && decide (d.offset = 1) &&
        decide (d.rawbuf d.offset < t1)) = false := by
      cases hg : d.ignoreHeader
      · rfl
      · by_cases ho : d.offset = 1
        · by_cases hw : d.rawbuf d.offset < t1
          · exact absurd ⟨hg, ho, hw⟩ hrel
          · simp [hw]
        · simp [ho]
    simp only [hm1, hm2, hm3, hf, Bool.false_eq_true, if_false]

/-- C30 on the frame `gap, 100, 889` without relaxed header checks: sample 1 matches no
multiple of the RC5 base unit and `getRClevel` returns `ERROR`; past the end of the frame
it returns `SPACE`; the decoder is unchanged both times. -/
theorem level_cursor_error_witness :
    unitsOf (MATCH 25 50) RC5_T1 (shortHeaderFrame.rawbuf 1) = none ∧
    IRdecodeRC.getRClevel (MATCH 25 50) RC5_T1 { shortHeaderFrame with ignoreHeader := false } =
      (RCLevel.ERROR, { shortHeaderFrame with ignoreHeader := false }) ∧
    IRdecodeRC.getRClevel (MATCH 25 50) RC5_T1 { shortHeaderFrame with offset := 3 } =
      (RCLevel.SPACE, { shortHeaderFrame with offset := 3 }) :=
  ⟨by decide,
   level_cursor_error (MATCH 25 50) RC5_T1 { shortHeaderFrame with ignoreHeader := false }
     (by decide) (Or.inr ⟨by decide, by decide, by decide⟩),
   level_cursor_error (MATCH 25 50) RC5_T1 { shortHeaderFrame with offset := 3 }
     (by decide) (Or.inl (by decide))⟩

/-- The claim C30 as stated fails under relaxed header checks: with `ignoreHeader` set, the
sample of 100 µs at index 1 matches none of 889, 1778 and 2667 µs, yet `getRClevel`
returns `MARK` and moves the cursor to sample 2. -/
theorem relaxed_header_is_no_error :
    shortHeaderFrame.offset < shortHeaderFrame.rawlen ∧
    MATCH 25 50 (shortHeaderFrame.rawbuf shortHeaderFrame.offset) RC5_T1 = false ∧
    MATCH 25 50 (shortHeaderFrame.rawbuf shortHeaderFrame.offset) (2 * RC5_T1) = false ∧
    MATCH 25 50 (shortHeaderFrame.rawbuf shortHeaderFrame.offset) (3 * RC5_T1) = false ∧
    (IRdecodeRC.getRClevel (MATCH 25 50) RC5_T1 shortHeaderFrame).1 = RCLevel.MARK ∧
    (IRdecodeRC.getRClevel (MATCH 25 50) RC5_T1 shortHeaderFrame).2.offset = 2 ∧
    (IRdecodeRC.getRClevel (MATCH 25 50) RC5_T1 shortHeaderFrame).1 ≠ RCLevel.ERROR := by
  decide!

/-! ## Frame completion and the double-buffered handoff -/

/-- The copy loop, entered at `i` on a capture of at most 255 samples with enough
iterations left, copies every slot from `i` up to `rawlen2` and leaves the others alone:
the counter `i`, an `unsigned char`, does not wrap. -/
theorem copyBuffer_spec (rawlen2 : Nat) (src : Nat → Nat) (hlen : rawlen2 ≤ 255) :
    ∀ (fuel i : Nat) (dst : Nat → Nat), i ≤ rawlen2 → rawlen2 - i ≤ fuel →
    copyBuffer rawlen2 src fuel i dst =
      fun j => if i ≤ j ∧ j < rawlen2 then src j else dst j := by
  intro fuel
  induction fuel with
  | zero =>
    intro i dst hi hf
    unfold copyBuffer
    funext j
    rw [if_neg (by omega)]
  | succ n ih =>
    intro i dst hi hf
    unfold copyBuffer
    by_cases hlt : i < rawlen2
    · rw [if_pos hlt, toUChar_of_lt (by omega), ih (i + 1) _ (by omega) (by omega)]
      funext j
      by_cases hj : j = i
      · subst hj
        rw [if_neg (by omega), if_pos ⟨le_refl _, hlt⟩]
        simp [Function.update]
      · by_cases hj2 : i + 1 ≤ j ∧ j < rawlen2
        · rw [if_pos hj2, if_pos ⟨by omega, hj2.2⟩]
        · rw [if_neg hj2, if_neg (by omega)]
          simp [Function.update, hj]
    · rw [if_neg hlt]
      funext j
      rw [if_neg (by omega)]

/-- More iterations than the capture has samples change nothing: the copy loop leaves by
its own test. -/
theorem copyBuffer_fuel (rawlen2 : Nat) (src dst : Nat → Nat) (hlen : rawlen2 ≤ 255)
    (extra : Nat) :
    copyBuffer rawlen2 src (rawlen2 + extra) 0 dst = copyBuffer rawlen2 src rawlen2 0 dst := by
  rw [copyBuffer_spec rawlen2 src hlen _ 0 dst (Nat.zero_le _) (by omega),
    copyBuffer_spec rawlen2 src hlen _ 0 dst (Nat.zero_le _) (by omega)]

/-- What `checkForEndOfIRCode` does for either caller: it returns `false` and leaves
`irparams` alone, or it returns `true` on a long space with more than one sample
captured and hands the frame off: `rawlen1` takes the captured length, `rawlen2` is reset,
and `rawbuf1` is the copy in double-buffered mode and untouched otherwise. -/
theorem checkForEndOfIRCode_spec (LONG_SPACE_US : Nat) (pinState : Bool) (dt : Nat)
    (whoIsCalling : Nat) (s : IRrecvPCI_t) :
    ((checkForEndOfIRCode LONG_SPACE_US pinState dt whoIsCalling s).1 = false ∧
      (checkForEndOfIRCode LONG_SPACE_US pinState dt whoIsCalling s).2.irparams =
        s.irparams) ∨
    ((checkForEndOfIRCode LONG_SPACE_US pinState dt whoIsCalling s).1 = true ∧
      LONG_SPACE_US ≤ dt ∧ 1 < s.irparams.rawlen2 ∧
      (checkForEndOfIRCode LONG_SPACE_US pinState dt whoIsCalling s).2.irparams.rawlen1 =
        s.irparams.rawlen2 ∧
      (checkForEndOfIRCode LONG_SPACE_US pinState dt whoIsCalling s).2.irparams.rawlen2 = 0 ∧
      (checkForEndOfIRCode LONG_SPACE_US pinState dt whoIsCalling s).2.irparams.doubleBuffered =
        s.irparams.doubleBuffered ∧
      (checkForEndOfIRCode LONG_SPACE_US pinState dt whoIsCalling s).2.irparams.extbuf =
        s.irparams.extbuf ∧
      (checkForEndOfIRCode LONG_SPACE_US pinState dt whoIsCalling s).2.irparams.rawbuf1 =
        if s.irparams.doubleBuffered = true then
          copyBuffer s.irparams.rawlen2 s.irparams.extbuf s.irparams.rawlen2 0
            s.irparams.rawbuf1
        else s.irparams.rawbuf1) := by
  unfold checkForEndOfIRCode
  simp only []
  split_ifs <;>
    first
    | exact Or.inl ⟨rfl, rfl⟩
    | (refine Or.inr ⟨rfl, ?_, ?_, rfl, rfl, ?_, ?_, ?_⟩ <;>
        first
        | omega
        | rfl)

/-- C32 (frame completion in the sampling capture).  A tick of the timer interrupt that is
not paused, finds the state machine in `STATE_TIMING_SPACE`, samples a space and whose
tick count, incremented, exceeds the long-gap threshold: afterwards
`dataStateChangedToReady` is true, `rcvstate` is `STATE_START`, `rawlen1` equals
`rawlen2`, no slot of `rawbuf2` was written or changed, and the tick counter is the
incremented one, not reset; in single-buffered mode `pauseISR` is set. -/
theorem frame_completion (minTicks longTicks : Nat) (p : irparams_t)
    (hp : p.pauseISR = false) (hs : p.rcvstate = .STATE_TIMING_SPACE)
    (hl : toULong (p.timer + 1) > longTicks) :
    (ISR minTicks longTicks .IR_SPACE p).1.dataStateChangedToReady = true ∧
    (ISR minTicks longTicks .IR_SPACE p).1.rcvstate = .STATE_START ∧
    (ISR minTicks longTicks .IR_SPACE p).1.rawlen1 =
      (ISR minTicks longTicks .IR_SPACE p).1.rawlen2 ∧
    (ISR minTicks longTicks .IR_SPACE p).2 = none ∧
    (∀ j, (ISR minTicks longTicks .IR_SPACE p).1.rawbuf2 j = p.rawbuf2 j) ∧
    (ISR minTicks longTicks .IR_SPACE p).1.timer = toULong (p.timer + 1) ∧
    (p.doubleBuffered = false → (ISR minTicks longTicks .IR_SPACE p).1.pauseISR = true) := by
  have hc : ISR.completes minTicks longTicks .IR_SPACE p = true := by
    simp [ISR.completes, hp, hs, hl]
  obtain ⟨h1, h2, h3, h4, _, h6, h7, h8, h9, _⟩ :=
    ISR_completes_spec minTicks longTicks .IR_SPACE p hc
  refine ⟨h2, h3, h4, h1, ?_, h6, fun hsb => (h9 hsb).1⟩
  intro j
  unfold irparams_t.rawbuf2
  rw [h8, h7]
  cases hd : p.doubleBuffered
  · rw [(h9 hd).2]
  · rfl

/-- C32 on the receiver that has timed a space for 200 ticks after four samples: the next
tick on a space completes the frame. -/
theorem frame_completion_witness :
    timingSpace.pauseISR = false ∧ timingSpace.rcvstate = .STATE_TIMING_SPACE ∧
    toULong (timingSpace.timer + 1) > 200 ∧
    (ISR 1 200 .IR_SPACE timingSpace).1.dataStateChangedToReady = true ∧
    (ISR 1 200 .IR_SPACE timingSpace).1.rcvstate = .STATE_START ∧
    (ISR 1 200 .IR_SPACE timingSpace).1.rawlen1 = 4 ∧
    (ISR 1 200 .IR_SPACE timingSpace).1.timer = 201 ∧
    (ISR 1 200 .IR_SPACE timingSpace).1.pauseISR = true :=
  have hp : timingSpace.pauseISR = false := by decide!
  have hs : timingSpace.rcvstate = .STATE_TIMING_SPACE := by decide!
  have hl : toULong (timingSpace.timer + 1) > 200 := by decide!
  have h := frame_completion 1 200 timingSpace hp hs hl
  ⟨hp, hs, hl, h.1, h.2.1, h.2.2.1.trans (by decide!), h.2.2.2.2.2.1.trans (by decide!),
   h.2.2.2.2.2.2 (by decide!)⟩

/-- C33 (the double-buffered handoff copies the frame).  In double-buffered mode, on a
capture within the buffer capacity: when the long-space branch of the timer interrupt
runs, with `L` the value of `rawlen2` it reads (the value after the overflow test at the
top of the routine), afterwards `rawlen1 = L` and `rawbuf1[i]` equals the captured
`rawbuf2[i]` for every `i < L`; when `checkForEndOfIRCode` makes the ready transition, for
either caller, with `L = rawlen2`, afterwards `rawlen1 = L`, `rawbuf1[i]` equals the
captured `rawbuf2[i]` for every `i < L`, and `rawlen2` is 0. -/
theorem double_buffer_handoff (minTicks longTicks LONG_SPACE_US : Nat) (p : irparams_t)
    (old : Bool) (hd : p.doubleBuffered = true) (hlen : p.rawlen2 ≤ RAWBUF) :
    (∀ irdata, ISR.completes minTicks longTicks irdata p = true →
      (ISR minTicks longTicks irdata p).1.rawlen1 =
        (if p.rawlen2 ≥ RAWBUF then p.rawlen2 - 1 else p.rawlen2) ∧
      (∀ i, i < (if p.rawlen2 ≥ RAWBUF then p.rawlen2 - 1 else p.rawlen2) →
        (ISR minTicks longTicks irdata p).1.rawbuf1 i = p.rawbuf2 i)) ∧
    (∀ pinState dt whoIsCalling,
      (checkForEndOfIRCode LONG_SPACE_US pinState dt whoIsCalling
        { irparams := p, dataStateIsReady_old := old }).1 = true →
      (checkForEndOfIRCode LONG_SPACE_US pinState dt whoIsCalling
        { irparams := p, dataStateIsReady_old := old }).2.irparams.rawlen1 = p.rawlen2 ∧
      (∀ i, i < p.rawlen2 →
        (checkForEndOfIRCode LONG_SPACE_US pinState dt whoIsCalling
          { irparams := p, dataStateIsReady_old := old }).2.irparams.rawbuf1 i =
          p.rawbuf2 i) ∧
      (checkForEndOfIRCode LONG_SPACE_US pinState dt whoIsCalling
        { irparams := p, dataStateIsReady_old := old }).2.irparams.rawlen2 = 0) := by
  have hbuf2 : ∀ i, p.rawbuf2 i = p.extbuf i := by
    intro i
    unfold irparams_t.rawbuf2
    rw [if_pos hd]
  constructor
  · intro irdata hc
    obtain ⟨_, _, _, h4, h5, _, _, _, _, h10⟩ := ISR_completes_spec minTicks longTicks irdata p hc
    refine ⟨h4.trans h5, ?_⟩
    intro i hi
    have hL : (ISR minTicks longTicks irdata p).1.rawlen2 ≤ 255 := by
      rw [h5]
      simp only [RAWBUF] at hlen ⊢
      split_ifs <;> omega
    rw [(h10 hd).2, copyBuffer_spec _ _ hL _ 0 _ (Nat.zero_le _) (by omega), h5, hbuf2]
    exact if_pos ⟨Nat.zero_le _, hi⟩
  · intro pinState dt whoIsCalling hc
    rcases checkForEndOfIRCode_spec LONG_SPACE_US pinState dt whoIsCalling
      { irparams := p, dataStateIsReady_old := old } with ⟨e, _⟩ | ⟨_, _, _, h1, h2, _, _, h3⟩
    · rw [hc] at e
      exact absurd e (by decide)
    · refine ⟨h1, ?_, h2⟩
      intro i hi
      have hL : p.rawlen2 ≤ 255 := by
        simp only [RAWBUF] at hlen
        omega
      rw [h3]
      simp only [hd, if_true]
      rw [copyBuffer_spec _ _ hL _ 0 _ (Nat.zero_le _) (by omega), hbuf2]
      exact if_pos ⟨Nat.zero_le _, hi⟩

/-- C33 on a capture of four samples in the second buffer: the mark edge after a long
space hands them off to `rawbuf1`. -/
theorem double_buffer_handoff_witness :
    doubleCaptured.irparams.doubleBuffered = true ∧
    doubleCaptured.irparams.rawlen2 = 4 ∧
    (List.range 4).map doubleCaptured.irparams.rawbuf2 = [20000, 9000, 4500, 560] ∧
    (List.range 4).map doubleCaptured.irparams.rawbuf1 = [0, 0, 0, 0] ∧
    (checkForEndOfIRCode 10000 LOW 15940 CALLED_BY_ISR
      { irparams := doubleCaptured.irparams, dataStateIsReady_old := false }).1 = true ∧
    (checkForEndOfIRCode 10000 LOW 15940 CALLED_BY_ISR
      { irparams := doubleCaptured.irparams,
        dataStateIsReady_old := false }).2.irparams.rawlen1 = 4 ∧
    (List.range 4).map (checkForEndOfIRCode 10000 LOW 15940 CALLED_BY_ISR
      { irparams := doubleCaptured.irparams,
        dataStateIsReady_old := false }).2.irparams.rawbuf1 = [20000, 9000, 4500, 560] ∧
    (checkForEndOfIRCode 10000 LOW 15940 CALLED_BY_ISR
      { irparams := doubleCaptured.irparams,
        dataStateIsReady_old := false }).2.irparams.rawlen2 = 0 :=
  have hd : doubleCaptured.irparams.doubleBuffered = true := by decide!
  have hl : doubleCaptured.irparams.rawlen2 ≤ RAWBUF := by decide!
  have hc : (checkForEndOfIRCode 10000 LOW 15940 CALLED_BY_ISR
      { irparams := doubleCaptured.irparams, dataStateIsReady_old := false }).1 = true := by
    decide!
  have h := (double_buffer_handoff 1 200 10000 doubleCaptured.irparams false hd hl).2
    LOW 15940 CALLED_BY_ISR hc
  ⟨hd, by decide!, by decide!, by decide!, hc, h.1.trans (by decide!), by decide!, h.2.2⟩

/-! ## What the hash fallback touches and reads -/

/-- C34 (the hash fallback touches only the hash).  For every decoder state,
`IRdecodeHash::decode` returns `true` and the state after it is the state before with the
field `hash` rewritten: `decode_type`, `value`, `bits`, `rawlen` and the samples are
unchanged. -/
theorem hash_frame_effect (d : IRdecode) :
    (IRdecodeHash.decode d).1 = true ∧
    (∃ h, (IRdecodeHash.decode d).2 = { d with hash := h }) ∧
    (IRdecodeHash.decode d).2.decode_type = d.decode_type ∧
    (IRdecodeHash.decode d).2.value = d.value ∧
    (IRdecodeHash.decode d).2.bits = d.bits ∧
    (IRdecodeHash.decode d).2.rawlen = d.rawlen ∧
    (IRdecodeHash.decode d).2.rawbuf = d.rawbuf := by
  obtain ⟨h, hh⟩ := hashLoop_state d.rawlen 1 { d with hash := FNV_BASIS_32 }
  have e : (IRdecodeHash.decode d).2 = { d with hash := h } := by
    unfold IRdecodeHash.decode
    rw [hh]
  refine ⟨rfl, ⟨h, e⟩, ?_, ?_, ?_, ?_, ?_⟩ <;> rw [e]

/-- The fold of the hash reads the samples at the listed indices and two slots further,
and nothing else. -/
theorem hashFold_congr (buf buf' : Nat → Nat) (h0 : Nat) (is : List Nat)
    (h : ∀ i ∈ is, buf' i = buf i ∧ buf' (i + 2) = buf (i + 2)) :
    hashFold buf' h0 is = hashFold buf h0 is := by
  unfold hashFold
  induction is generalizing h0 with
  | nil => rfl
  | cons i is ih =>
    simp only [List.foldl_cons]
    rw [(h i (by simp)).1, (h i (by simp)).2]
    exact ih _ (fun j hj => h j (by simp [hj]))

/-- C35 (the hash does not depend on the inter-frame gap).  Two frames of the same length
that agree on every sample at an index from 1 on get the same hash from
`IRdecodeHash::decode`, whatever their samples at index 0; and a frame of at most three
samples gets the basis constant 2166136261. -/
theorem hash_ignores_gap (d e : IRdecode) (hlen : d.rawlen < 65536)
    (hl : e.rawlen = d.rawlen) (hs : ∀ i, 1 ≤ i → e.rawbuf i = d.rawbuf i) :
    (IRdecodeHash.decode e).2.hash = (IRdecodeHash.decode d).2.hash ∧
    (d.rawlen ≤ 3 → (IRdecodeHash.decode d).2.hash = 2166136261) := by
  have hd := hashLoop_fold d.rawlen 1 { d with hash := FNV_BASIS_32 } hlen (by decide)
    (by simp only []; omega)
  have he := hashLoop_fold e.rawlen 1 { e with hash := FNV_BASIS_32 } (by rw [hl]; exact hlen)
    (by decide) (by simp only []; omega)
  simp only [] at hd he
  constructor
  · unfold IRdecodeHash.decode
    simp only []
    rw [hd, he, hl]
    apply hashFold_congr
    intro i hi
    have h1 : 1 ≤ i := (List.mem_range'_1.mp hi).1
    exact ⟨hs i h1, hs (i + 2) (by omega)⟩
  · intro h3
    unfold IRdecodeHash.decode
    simp only []
    rw [hd, show d.rawlen - (1 + 2) = 0 by omega]
    rfl

/-- C35 on the frame `20000, 9000, 4500, 560, 560` and the same frame after a gap of 65535:
the hash is 292984781 both times. -/
theorem hash_ignores_gap_witness :
    (IRdecode.fresh.receive [20000, 9000, 4500, 560, 560]).rawlen < 65536 ∧
    (IRdecodeHash.decode (IRdecode.fresh.receive [65535, 9000, 4500, 560, 560])).2.hash =
      (IRdecodeHash.decode (IRdecode.fresh.receive [20000, 9000, 4500, 560, 560])).2.hash ∧
    (IRdecodeHash.decode (IRdecode.fresh.receive [20000, 9000, 4500, 560, 560])).2.hash =
      292984781 ∧
    (IRdecodeHash.decode (IRdecode.fresh.receive [20000, 9000, 4500])).2.hash = 2166136261 :=
  have h := hash_ignores_gap (IRdecode.fresh.receive [20000, 9000, 4500, 560, 560])
    (IRdecode.fresh.receive [65535, 9000, 4500, 560, 560]) (by decide) rfl
    (fun i hi => by
      match i, hi with
      | 1, _ => rfl
      | 2, _ => rfl
      | 3, _ => rfl
      | 4, _ => rfl
      | n + 5, _ => rfl)
  ⟨by decide, h.1, by decide!, by decide!⟩

/-! ## The late error branch of the JVC repeat decode -/

/-- `IRdecodeJVC::decode` does not take its `DATA_SPACE_ERROR(525)` return. -/
theorem JVC_no_late_error (M : Nat → Nat → Bool) (d : IRdecode) :
    (IRdecodeJVC.decode M d).1 ≠ Outcome.DATA_SPACE_ERROR := by
  have hg := decodeGeneric_keeps M 36 (525 * 16) (525 * 8) 0 525 (525 * 3) 525 d
  unfold IRdecodeJVC.decode
  split
  · exact fun h => Outcome.noConfusion h
  · rename_i e d1 hne heq
    have hg2 := decodeGeneric_keeps M 0 525 0 0 525 (525 * 3) 525 d1
    split_ifs with hlen
    · split
      · rename_i d2 heq2
        have h4 := JVC_repeat_sample4 M d1 hlen (by rw [heq2])
        rw [heq2] at hg2
        have hbuf : d2.rawbuf = d1.rawbuf := hg2.1.1
        rw [← hbuf] at h4
        split_ifs with c1 c2
        · exact fun h => Outcome.noConfusion h
        · exfalso
          rcases h4 with h | h
          · exact c1 h
          · simp [h] at c2
        · exact fun h => Outcome.noConfusion h
      · exact fun h => Outcome.noConfusion h
    · exact fun h => Outcome.noConfusion h

/-- C36 (the late error branch of the JVC repeat decode is unreachable).  Whenever the
headerless call of `decodeGeneric` in `IRdecodeJVC::decode` has succeeded on a frame of 34
samples, sample 4 matches 1575 or matches 525; so `IRdecodeJVC::decode` never takes the
`DATA_SPACE_ERROR(525)` return, and whenever it returns `false` the fields `decode_type`,
`value` and `bits` are what they were before the call. -/
theorem JVC_late_error_unreachable (M : Nat → Nat → Bool) (d : IRdecode) :
    (d.rawlen = 34 →
      (IRdecodeBase.decodeGeneric M 0 525 0 0 525 (525 * 3) 525 d).1 = Outcome.matched →
      M (d.rawbuf 4) (525 * 3) = true ∨ M (d.rawbuf 4) 525 = true) ∧
    (IRdecodeJVC.decode M d).1 ≠ Outcome.DATA_SPACE_ERROR ∧
    ((IRdecodeJVC.decode M d).1 ≠ Outcome.matched →
      (IRdecodeJVC.decode M d).2.decode_type = d.decode_type ∧
      (IRdecodeJVC.decode M d).2.value = d.value ∧
      (IRdecodeJVC.decode M d).2.bits = d.bits) :=
  ⟨fun hlen hm => JVC_repeat_sample4 M d hlen hm, JVC_no_late_error M d,
   fun hne => (JVC_keeps M d).2 hne⟩

/-- A JVC repeat frame through the repeat branch: the headerless call of `decodeGeneric`
succeeds, sample 4 matches 1575, and the decode succeeds. -/
theorem JVC_repeat_example :
    (IRdecode.fresh.receive JVC_repeat_frame).rawlen = 34 ∧
    (IRdecodeBase.decodeGeneric (MATCH 25 50) 0 525 0 0 525 (525 * 3) 525
      (IRdecode.fresh.receive JVC_repeat_frame)).1 = Outcome.matched ∧
    MATCH 25 50 ((IRdecode.fresh.receive JVC_repeat_frame).rawbuf 4) (525 * 3) = true ∧
    (IRdecodeJVC.decode (MATCH 25 50) (IRdecode.fresh.receive JVC_repeat_frame)).1 =
      Outcome.matched := by
  decide!

/-! ## The value of the Panasonic decode -/

/-- The accumulation of a list of bits on top of `d` shifts `d` up by the number of bits. -/
theorem foldl_double (bs : List Bool) : ∀ d : Nat,
    bs.foldl (fun a b => 2 * a + b.toNat) d = d * 2 ^ bs.length + bitsValue bs := by
  unfold bitsValue
  induction bs with
  | nil => intro d; simp
  | cons b bs ih =>
    intro d
    simp only [List.foldl_cons, List.length_cons]
    rw [ih (2 * d + b.toNat), ih (2 * 0 + b.toNat)]
    ring

theorem bitsValue_lt (bs : List Bool) : bitsValue bs < 2 ^ bs.length := by
  induction bs using List.reverseRecOn with
  | nil => simp [bitsValue]
  | append_singleton bs b ih =>
    have e : bitsValue (bs ++ [b]) = 2 * bitsValue bs + b.toNat := by
      simp [bitsValue, List.foldl_append]
    rw [e, List.length_append, List.length_singleton, pow_succ]
    cases b <;> simp <;> omega

/-- A call of `GetBit` that succeeds moves two samples on and shifts in the bit read from
the space. -/
theorem GetBit_matched (M : Nat → Nat → Bool) (d : IRdecode) (h : d.offset + 2 < 65536)
    (hm : (IRdecodePanasonic.GetBit M d).1 = Outcome.matched) :
    (IRdecodePanasonic.GetBit M d).2 =
      { d with offset := d.offset + 2,
               data_Panasonic := shiftIn d.data_Panasonic (M (d.rawbuf (d.offset + 1)) 1296) } := by
  have e1 : toUInt (d.offset + 1) = d.offset + 1 := toUInt_of_lt (by omega)
  have e2 : toUInt (d.offset + 1 + 1) = d.offset + 2 := toUInt_of_lt (by omega)
  unfold IRdecodePanasonic.GetBit at hm ⊢
  simp only [e1, e2] at hm ⊢
  unfold shiftIn
  split_ifs at hm ⊢ <;> rfl

/-- A `GetBit` loop that succeeds after `n` iterations has shifted in the `n` bits of the
spaces it passed. -/
theorem getBits_matched (M : Nat → Nat → Bool) (bound : Nat) :
    ∀ (n fuel : Nat) (d : IRdecode), n ≤ fuel → bound ≤ d.offset + 2 * n →
    (∀ k, k < n → d.offset + 2 * k < bound) → d.offset + 2 * n < 65536 →
    (IRdecodePanasonic.getBits M bound fuel d).1 = Outcome.matched →
    (IRdecodePanasonic.getBits M bound fuel d).2 =
      { d with offset := d.offset + 2 * n,
               data_Panasonic :=
                 (spaceBits M d.rawbuf 1296 d.offset n).foldl shiftIn d.data_Panasonic } := by
  intro n
  induction n with
  | zero =>
    intro fuel d _ hb _ _ _
    cases fuel with
    | zero => rfl
    | succ f =>
      unfold IRdecodePanasonic.getBits
      rw [if_neg (by omega)]
      rfl
  | succ n ih =>
    intro fuel d hf hb hk hsmall hm
    obtain ⟨f, rfl⟩ : ∃ f, fuel = f + 1 := ⟨fuel - 1, by omega⟩
    have hlt : d.offset < bound := by simpa using hk 0 (by omega)
    unfold IRdecodePanasonic.getBits at hm ⊢
    rw [if_pos hlt] at hm ⊢
    cases hG : (IRdecodePanasonic.GetBit M d).1 with
    | matched =>
      have hd1 := GetBit_matched M d (by omega) hG
      have hpair : IRdecodePanasonic.GetBit M d =
          (Outcome.matched, (IRdecodePanasonic.GetBit M d).2) := by
        rw [← hG]
      rw [hpair] at hm ⊢
      simp only [] at hm ⊢
      rw [hd1] at hm ⊢
      have h := ih f _ (by omega) (by simp only []; omega)
        (fun k hk' => by have := hk (k + 1) (by omega); simp only []; omega)
        (by simp only []; omega) hm
      rw [h]
      simp only [spaceBits, List.foldl_cons]
      congr 1
      omega
    | _ =>
      exfalso
      revert hm
      generalize IRdecodePanasonic.GetBit M d = r at hG
      obtain ⟨o, d1⟩ := r
      simp only [] at hG
      subst hG
      simp

/-- What `IRdecodePanasonic::decode` leaves in `value` when it succeeds: the sixteen bits
of samples 3..34 spell `0x4004`, and `value` is the accumulator after 24 more bits
without a reset in between, in 32 bits. -/
theorem Panasonic_decode_matched (M : Nat → Nat → Bool) (d : IRdecode)
    (hm : (IRdecodePanasonic.decode M d).1 = Outcome.matched) :
    (spaceBits M d.rawbuf 1296 3 16).foldl shiftIn 0 = 0x4004 ∧
    (IRdecodePanasonic.decode M d).2.value =
      (spaceBits M d.rawbuf 1296 35 24).foldl shiftIn 0x4004 := by
  unfold IRdecodePanasonic.decode at hm ⊢
  by_cases c1 : d.rawlen ≠ 100
  · rw [if_pos c1] at hm; exact absurd hm (by simp)
  rw [if_neg c1] at hm ⊢
  by_cases c2 : (!M (d.rawbuf 1) 3456) = true
  · rw [if_pos c2] at hm; exact absurd hm (by simp)
  rw [if_neg c2] at hm ⊢
  by_cases c3 : (!M (d.rawbuf 2) 1728) = true
  · rw [if_pos c3] at hm; exact absurd hm (by simp)
  rw [if_neg c3] at hm ⊢
  simp only [] at hm ⊢
  cases hA : (IRdecodePanasonic.getBits M (2 * 8 * 2 + 2) (2 * 8 * 2 + 2)
      { d with offset := 3, data_Panasonic := 0 }).1 with
  | matched =>
    have hA2 := getBits_matched M (2 * 8 * 2 + 2) 16 (2 * 8 * 2 + 2)
      { d with offset := 3, data_Panasonic := 0 } (by decide) (by simp only []; omega)
      (fun k hk => by simp only []; omega) (by simp only []; omega) hA
    simp only [] at hA2
    have hpA : IRdecodePanasonic.getBits M (2 * 8 * 2 + 2) (2 * 8 * 2 + 2)
        { d with offset := 3, data_Panasonic := 0 } =
        (Outcome.matched,
          { d with offset := 3 + 2 * 16,
                   data_Panasonic := (spaceBits M d.rawbuf 1296 3 16).foldl shiftIn 0 }) := by
      rw [← hA2, ← hA]
    rw [hpA] at hm ⊢
    simp only [] at hm ⊢
    by_cases hid : (spaceBits M d.rawbuf 1296 3 16).foldl shiftIn 0 ≠ 0x4004
    · rw [if_pos hid] at hm; exact absurd hm (by simp)
    rw [if_neg hid] at hm ⊢
    have hid' : (spaceBits M d.rawbuf 1296 3 16).foldl shiftIn 0 = 0x4004 := by
      simpa using hid
    cases hB : (IRdecodePanasonic.getBits M (5 * 8 * 2 + 2) (5 * 8 * 2 + 2)
        { d with offset := 3 + 2 * 16,
                 data_Panasonic := (spaceBits M d.rawbuf 1296 3 16).foldl shiftIn 0 }).1 with
    | matched =>
      have hB2 := getBits_matched M (5 * 8 * 2 + 2) 24 (5 * 8 * 2 + 2)
        { d with offset := 3 + 2 * 16,
                 data_Panasonic := (spaceBits M d.rawbuf 1296 3 16).foldl shiftIn 0 }
        (by decide) (by simp only []; omega)
        (fun k hk => by simp only []; omega) (by simp only []; omega) hB
      simp only [] at hB2
      have hpB : IRdecodePanasonic.getBits M (5 * 8 * 2 + 2) (5 * 8 * 2 + 2)
          { d with offset := 3 + 2 * 16,
                   data_Panasonic := (spaceBits M d.rawbuf 1296 3 16).foldl shiftIn 0 } =
          (Outcome.matched, (IRdecodePanasonic.getBits M (5 * 8 * 2 + 2) (5 * 8 * 2 + 2)
          { d with offset := 3 + 2 * 16,
                   data_Panasonic := (spaceBits M d.rawbuf 1296 3 16).foldl shiftIn 0 }).2) := by
        rw [← hB]
      rw [hpB]
      simp only []
      rw [hB2]
      simp only [hid']
      exact ⟨trivial, trivial⟩
    | _ =>
      exfalso
      revert hm
      generalize IRdecodePanasonic.getBits M (5 * 8 * 2 + 2) (5 * 8 * 2 + 2)
        { d with offset := 3 + 2 * 16,
                 data_Panasonic := (spaceBits M d.rawbuf 1296 3 16).foldl shiftIn 0 } = r at hB
      obtain ⟨o, d1⟩ := r
      simp only [] at hB
      subst hB
      simp
  | _ =>
    exfalso
    revert hm
    generalize IRdecodePanasonic.getBits M (2 * 8 * 2 + 2) (2 * 8 * 2 + 2)
      { d with offset := 3, data_Panasonic := 0 } = r at hA
    obtain ⟨o, d1⟩ := r
    simp only [] at hA
    subst hA
    simp

/-- C31 (the value of the Panasonic decode).  Whenever `IRdecodePanasonic::decode`
succeeds, `value` is `0x04000000` plus the number spelled by the 24 bits decoded from
samples 35..82, most significant first: the accumulator is not cleared after the
identifier check, so the low byte `0x04` of the identifier `0x4004` stays in bits 24..31
of `value`, and `value` is not below `2 ^ 24`. -/
theorem Panasonic_value_keeps_identifier_byte (M : Nat → Nat → Bool) (d : IRdecode)
    (hm : (IRdecodePanasonic.decode M d).1 = Outcome.matched) :
    (IRdecodePanasonic.decode M d).2.value =
      0x04000000 + bitsValue (spaceBits M d.rawbuf 1296 35 24) ∧
    bitsValue (spaceBits M d.rawbuf 1296 35 24) < 2 ^ 24 ∧
    2 ^ 24 ≤ (IRdecodePanasonic.decode M d).2.value ∧
    (IRdecodePanasonic.decode M d).2.value / 2 ^ 24 = 4 := by
  have hv := (Panasonic_decode_matched M d hm).2
  have hlt := bitsValue_lt (spaceBits M d.rawbuf 1296 35 24)
  rw [spaceBits_length] at hlt
  have hfold := foldl_shiftIn_mod (spaceBits M d.rawbuf 1296 35 24) 0x4004
  rw [foldl_double, spaceBits_length] at hfold
  have e : (0x4004 : Nat) % 2 ^ 32 = 0x4004 := by norm_num
  rw [e] at hfold
  rw [hv, hfold]
  have hp : (2 : Nat) ^ 24 = 16777216 := by norm_num
  have hq : (2 : Nat) ^ 32 = 4294967296 := by norm_num
  rw [hp] at hlt ⊢
  rw [hq]
  refine ⟨?_, hlt, ?_, ?_⟩ <;> omega

/-- C31 on the frame of a remote control that sends the data bits `0x123456`: the decode
succeeds and `value` is `0x04123456`, not `0x123456`. -/
theorem Panasonic_value_keeps_identifier_byte_witness :
    (IRdecode.fresh.receive (Panasonic_frame 0x123456 0)).rawlen = 100 ∧
    (IRdecodePanasonic.decode (MATCH 25 50)
      (IRdecode.fresh.receive (Panasonic_frame 0x123456 0))).1 = Outcome.matched ∧
    (IRdecodePanasonic.decode (MATCH 25 50)
      (IRdecode.fresh.receive (Panasonic_frame 0x123456 0))).2.value = 0x04123456 ∧
    ¬ (IRdecodePanasonic.decode (MATCH 25 50)
      (IRdecode.fresh.receive (Panasonic_frame 0x123456 0))).2.value < 2 ^ 24 :=
  have hm : (IRdecodePanasonic.decode (MATCH 25 50)
      (IRdecode.fresh.receive (Panasonic_frame 0x123456 0))).1 = Outcome.matched := by
    decide!
  have h := Panasonic_value_keeps_identifier_byte (MATCH 25 50)
    (IRdecode.fresh.receive (Panasonic_frame 0x123456 0)) hm
  ⟨by decide!, hm, h.1.trans (by decide!), Nat.not_lt.mpr h.2.2.1⟩

/-! ## Samsung32 frames in the priority order -/

/-- A stretch of samples written by a sender for the bits `bs` with its own durations
carries `bs` for a decoder with other durations, when the matcher accepts each duration
sent against the one expected and tells the zero space sent from the one space expected. -/
theorem carries_bitSamples_cross (M : Nat → Nat → Bool) (fixed one nought : Nat)
    (fixed' one' nought' : Nat)
    (hf : M fixed fixed' = true) (h1 : M one one' = true) (h0 : M nought nought' = true)
    (h01 : M nought one' = false) (dflt : Nat → Nat) :
    ∀ (bs : List Bool) (pre post : List Nat),
    carries M (fun i => (pre ++ (bs.flatMap (bitSamples fixed one nought) ++ post)).getD i
      (dflt i)) fixed' one' nought' pre.length bs = true := by
  intro bs
  induction bs with
  | nil => intro pre post; rfl
  | cons b bs ih =>
    intro pre post
    have ih1 := ih (pre ++ bitSamples fixed one nought b) post
    have elen : (pre ++ bitSamples fixed one nought b).length = pre.length + 2 := by
      simp [bitSamples]
    rw [elen] at ih1
    have elist : pre ++ bitSamples fixed one nought b ++
        (bs.flatMap (bitSamples fixed one nought) ++ post) =
        pre ++ ((b :: bs).flatMap (bitSamples fixed one nought) ++ post) := by
      simp [List.append_assoc]
    rw [elist] at ih1
    have g0 : (pre ++ ((b :: bs).flatMap (bitSamples fixed one nought) ++ post)).getD
        pre.length (dflt pre.length) = fixed := by
      rw [List.getD_append_right _ _ _ _ (Nat.le_refl _)]
      simp [bitSamples]
    have g1 : (pre ++ ((b :: bs).flatMap (bitSamples fixed one nought) ++ post)).getD
        (pre.length + 1) (dflt (pre.length + 1)) = (if b then one else nought) := by
      rw [List.getD_append_right _ _ _ _ (Nat.le_add_right _ _)]
      simp [bitSamples]
    simp only [carries, ih1, g0, g1, hf, Bool.true_and, Bool.and_true]
    cases b <;> simp [h1, h0, h01]

/-- The frame of `IRsendSamsung32::send(v)` through `IRdecodeNEC::decode`: the decode
succeeds, and the decoder state after it in full. -/
theorem NEC_decode_Samsung32 (M : Nat → Nat → Bool)
    (hhm : M 8960 9008 = true) (hhs : M 4480 4504 = true) (hm : M 560 563 = true)
    (h1 : M 1680 1689 = true) (h01 : M 560 1689 = false)
    (v : Nat) (hv : v < 2 ^ 32) (gap : Nat) (s : IRsendBase) (d : IRdecode) :
    (d.receive (frameOf gap (IRsendBase.emitted (IRsendSamsung32.send v) s))).rawlen = 68 ∧
    IRdecodeNEC.decode M (d.receive (frameOf gap
        (IRsendBase.emitted (IRsendSamsung32.send v) s))) =
      (.matched,
        { d.receive (frameOf gap (IRsendBase.emitted (IRsendSamsung32.send v) s)) with
          offset := 67, bits := 32, value := v, decode_type := NEC }) := by
  have hsend : IRsendBase.emitted (IRsendSamsung32.send v) s =
      IRsendBase.emitted
        (IRsendBase.sendGeneric v 32 8960 4480 560 560 1680 560 38 true 108000) s := rfl
  have hraw : (d.receive (frameOf gap (IRsendBase.emitted (IRsendBase.sendGeneric v 32 8960
      4480 560 560 1680 560 38 true 108000) s))).rawlen = 68 :=
    frameOf_sendGeneric_length v 32 8960 4480 560 1680 560 38 108000 gap s (by decide)
      (by decide) (Nat.le_refl _) hv
  rw [hsend]
  refine ⟨hraw, ?_⟩
  have hframe := frameOf_sendGeneric v 32 8960 4480 560 1680 560 38 108000 gap s
    (Nat.le_refl _) hv
  simp only [ne_eq, show (8960 : Nat) ≠ 0 by decide, show (4480 : Nat) ≠ 0 by decide,
    not_false_eq_true, if_true, List.singleton_append] at hframe
  have hlen : (msbBits 32 v).length = 32 := msbBits_length v 32
  have hgen := decodeGeneric_space_carries M 68 9008 4504 563 1689 563
    (d.receive (frameOf gap (IRsendBase.emitted (IRsendBase.sendGeneric v 32 8960
      4480 560 560 1680 560 38 true 108000) s))) (msbBits 32 v)
    (Or.inr hraw)
    (Or.inr (Or.inr (by rw [hframe]; simpa [IRdecode.receive] using hhm)))
    (Or.inr (by rw [hframe]; simpa [IRdecode.receive] using hhs))
    (by rw [hraw, hlen]) (by rw [hlen]; decide)
    (by
      rw [hframe]
      exact carries_bitSamples_cross M 560 1680 560 563 1689 563 hm h1 hm h01 d.rawbuf
        (msbBits 32 v) [gap, 8960, 4480] [560])
  unfold IRdecodeNEC.decode
  rw [if_neg (by rw [hraw]; simp)]
  have e : IRdecodeBase.decodeGeneric M 68 (563 * 16) (563 * 8) 0 563 (563 * 3) 563 =
      IRdecodeBase.decodeGeneric M 68 9008 4504 0 563 1689 563 := rfl
  rw [e, hgen, hlen, foldl_shiftIn_msbBits (Nat.le_refl _) hv]

/-- C37 (Samsung32 frames are claimed by NEC).  With a matcher that accepts the Samsung32
durations 8960, 4480, 560 and 1680 against the NEC durations 9008, 4504, 563 and 1689 and
does not accept 560 against 1689, for every 32-bit value `v` the frame of
`IRsendSamsung32::send(v)` (gap sample first, trailing space dropped) has 68 samples and
`IRdecode::decode` succeeds on it at its first candidate, `IRdecodeNEC::decode`, with
`decode_type = NEC`, `value = v` and `bits = 32`: the result is the state NEC leaves and
no later decoder runs. -/
theorem Samsung32_decodes_as_NEC (M : Nat → Nat → Bool) (PANASONIC32 : Nat)
    (hhm : M 8960 9008 = true) (hhs : M 4480 4504 = true) (hm : M 560 563 = true)
    (h1 : M 1680 1689 = true) (h01 : M 560 1689 = false)
    (v : Nat) (hv : v < 2 ^ 32) (gap : Nat) (s : IRsendBase) (d : IRdecode) :
    (frameOf gap (IRsendBase.emitted (IRsendSamsung32.send v) s)).length = 68 ∧
    (IRdecodeNEC.decode M (d.receive (frameOf gap
        (IRsendBase.emitted (IRsendSamsung32.send v) s)))).1 = Outcome.matched ∧
    IRdecode.decode M PANASONIC32 (d.receive (frameOf gap
        (IRsendBase.emitted (IRsendSamsung32.send v) s))) =
      (true, (IRdecodeNEC.decode M (d.receive (frameOf gap
        (IRsendBase.emitted (IRsendSamsung32.send v) s)))).2) ∧
    (IRdecode.decode M PANASONIC32 (d.receive (frameOf gap
        (IRsendBase.emitted (IRsendSamsung32.send v) s)))).2.decode_type = NEC ∧
    (IRdecode.decode M PANASONIC32 (d.receive (frameOf gap
        (IRsendBase.emitted (IRsendSamsung32.send v) s)))).2.value = v ∧
    (IRdecode.decode M PANASONIC32 (d.receive (frameOf gap
        (IRsendBase.emitted (IRsendSamsung32.send v) s)))).2.bits = 32 := by
  obtain ⟨hraw, hnec⟩ := NEC_decode_Samsung32 M hhm hhs hm h1 h01 v hv gap s d
  have hdec : IRdecode.decode M PANASONIC32 (d.receive (frameOf gap
      (IRsendBase.emitted (IRsendSamsung32.send v) s))) =
      (true, (IRdecodeNEC.decode M (d.receive (frameOf gap
        (IRsendBase.emitted (IRsendSamsung32.send v) s)))).2) := by
    unfold IRdecode.decode
    simp only []
    rw [if_pos (by rw [hnec])]
  refine ⟨hraw, by rw [hnec], hdec, ?_, ?_, ?_⟩ <;> rw [hdec, hnec]

/-- C37 with the 25 % window and the value `0xE0E040BF`. -/
theorem Samsung32_decodes_as_NEC_witness :
    (MATCH 25 50 8960 9008 = true ∧ MATCH 25 50 4480 4504 = true ∧
      MATCH 25 50 560 563 = true ∧ MATCH 25 50 1680 1689 = true ∧
      MATCH 25 50 560 1689 = false ∧ 0xE0E040BF < 2 ^ 32) ∧
    (IRdecode.decode (MATCH 25 50) SAMSUNG32 (IRdecode.fresh.receive (frameOf 20000
        (IRsendBase.emitted (IRsendSamsung32.send 0xE0E040BF) IRsendBase.idle)))).1 = true ∧
    (IRdecode.decode (MATCH 25 50) SAMSUNG32 (IRdecode.fresh.receive (frameOf 20000
        (IRsendBase.emitted (IRsendSamsung32.send 0xE0E040BF)
          IRsendBase.idle)))).2.decode_type = NEC ∧
    (IRdecode.decode (MATCH 25 50) SAMSUNG32 (IRdecode.fresh.receive (frameOf 20000
        (IRsendBase.emitted (IRsendSamsung32.send 0xE0E040BF)
          IRsendBase.idle)))).2.value = 0xE0E040BF ∧
    (IRdecode.decode (MATCH 25 50) SAMSUNG32 (IRdecode.fresh.receive (frameOf 20000
        (IRsendBase.emitted (IRsendSamsung32.send 0xE0E040BF)
          IRsendBase.idle)))).2.bits = 32 :=
  have h := Samsung32_decodes_as_NEC (MATCH 25 50) SAMSUNG32 (by decide) (by decide)
    (by decide) (by decide) (by decide) 0xE0E040BF (by decide) 20000 IRsendBase.idle
    IRdecode.fresh
  ⟨by decide, by rw [h.2.2.1], h.2.2.2.1, h.2.2.2.2.1, h.2.2.2.2.2⟩

/-! ## Invariants of the receivers -/

/-- The store of the tick count: the slot written is `rawlen2`, which goes up by one; the
state and the length of the frame handed off stay. -/
theorem record_fields (p : irparams_t) :
    p.record.2 = p.rawlen2 ∧ p.record.1.rawlen2 = p.rawlen2 + 1 ∧
    p.record.1.rawlen1 = p.rawlen1 ∧ p.record.1.rcvstate = p.rcvstate := by
  unfold irparams_t.record
  cases hd : p.doubleBuffered <;> simp

theorem record_snd (p : irparams_t) : p.record.2 = p.rawlen2 := (record_fields p).1

theorem record_rawlen2 (p : irparams_t) : p.record.1.rawlen2 = p.rawlen2 + 1 :=
  (record_fields p).2.1

theorem record_rawlen1 (p : irparams_t) : p.record.1.rawlen1 = p.rawlen1 :=
  (record_fields p).2.2.1

/-- The state machine on a capture below the last slot keeps the invariant, and the slot
it writes is slot 0 when it leaves `STATE_START`, an odd slot or the last one when a mark
ends, an even slot from 2 on or the last one when a space ends. -/
theorem stateMachine_inv (minTicks longTicks : Nat) (x : irdata_t) (q : irparams_t)
    (h2 : q.rawlen2 ≤ RAWBUF - 1) (h1 : q.rawlen1 ≤ RAWBUF - 1) (ha : q.alternates) :
    IRrecv.Inv (ISR.stateMachine minTicks longTicks x q).1 ∧
    ∀ i, (ISR.stateMachine minTicks longTicks x q).2 = some i →
      i < RAWBUF ∧ (q.rcvstate = .STATE_START → i = 0) ∧
      (q.rcvstate = .STATE_TIMING_MARK → i % 2 = 1 ∨ i = RAWBUF - 1) ∧
      (q.rcvstate = .STATE_TIMING_SPACE → (i % 2 = 0 ∧ 2 ≤ i) ∨ i = RAWBUF - 1) := by
  obtain ⟨haM, haS⟩ := ha
  simp only [RAWBUF] at h2 h1 haM haS ⊢
  unfold ISR.stateMachine IRrecv.Inv irparams_t.alternates
  simp only [RAWBUF]
  cases hs : q.rcvstate
  · simp only []
    split_ifs
    · simp only [record_snd, record_rawlen2, record_rawlen1, Option.some.injEq]
      refine ⟨⟨by omega, h1, fun _ => Or.inl trivial, fun h => absurd h (by decide)⟩, ?_⟩
      intro i hi
      subst hi
      exact ⟨by omega, fun _ => rfl, fun h => absurd h (by decide),
        fun h => absurd h (by decide)⟩
    · simp only [hs]
      exact ⟨⟨by omega, h1, fun h => absurd h (by decide), fun h => absurd h (by decide)⟩,
        fun i hi => absurd hi (by simp)⟩
  · simp only []
    have hM := haM hs
    split_ifs
    · simp only [record_snd, record_rawlen2, record_rawlen1, Option.some.injEq]
      refine ⟨⟨by omega, h1, fun h => absurd h (by decide), fun _ => by omega⟩, ?_⟩
      intro i hi
      subst hi
      exact ⟨by omega, fun h => absurd h (by decide), fun _ => by omega,
        fun h => absurd h (by decide)⟩
    · simp only [hs]
      exact ⟨⟨by omega, h1, fun _ => hM, fun h => absurd h (by decide)⟩,
        fun i hi => absurd hi (by simp)⟩
  · simp only []
    have hS := haS hs
    split_ifs
    · simp only [record_snd, record_rawlen2, record_rawlen1, Option.some.injEq]
      refine ⟨⟨by omega, h1, fun _ => by omega, fun h => absurd h (by decide)⟩, ?_⟩
      intro i hi
      subst hi
      exact ⟨by omega, fun h => absurd h (by decide), fun h => absurd h (by decide),
        fun _ => by omega⟩
    · simp only []
      exact ⟨⟨by omega, h2, fun h => absurd h (by decide), fun h => absurd h (by decide)⟩,
        fun i hi => absurd hi (by simp)⟩
    · simp only []
      exact ⟨⟨by omega, h2, fun h => absurd h (by decide), fun h => absurd h (by decide)⟩,
        fun i hi => absurd hi (by simp)⟩
    · simp only [hs]
      exact ⟨⟨by omega, h1, fun h => absurd h (by decide), fun _ => hS⟩,
        fun i hi => absurd hi (by simp)⟩

/-- A tick of the timer interrupt keeps the invariant of the sampling receiver, and the
slot it writes is slot 0 when it leaves `STATE_START`, an odd slot or the last one when a
mark ends, an even slot from 2 on or the last one when a space ends. -/
theorem ISR_inv (minTicks longTicks : Nat) (x : irdata_t) (p : irparams_t)
    (h : IRrecv.Inv p) :
    IRrecv.Inv (ISR minTicks longTicks x p).1 ∧
    ∀ i, (ISR minTicks longTicks x p).2 = some i →
      i < RAWBUF ∧ (p.rcvstate = .STATE_START → i = 0) ∧
      (p.rcvstate = .STATE_TIMING_MARK → i % 2 = 1 ∨ i = RAWBUF - 1) ∧
      (p.rcvstate = .STATE_TIMING_SPACE → (i % 2 = 0 ∧ 2 ≤ i) ∨ i = RAWBUF - 1) := by
  obtain ⟨h2, h1, haM, haS⟩ := h
  unfold ISR
  simp only []
  by_cases hp : p.pauseISR = true
  · rw [if_pos hp]
    exact ⟨⟨h2, h1, haM, haS⟩, fun i hi => absurd hi (by simp)⟩
  · rw [if_neg hp]
    by_cases hfull : p.rawlen2 ≥ RAWBUF
    · rw [if_pos hfull]
      exact stateMachine_inv minTicks longTicks x
        { p with timer := toULong (p.timer + 1), rawlen2 := p.rawlen2 - 1 }
        (by simp only [RAWBUF] at h2 ⊢; omega) h1
        ⟨fun _ => Or.inr (by simp only [RAWBUF] at hfull ⊢; omega),
         fun _ => Or.inr (by simp only [RAWBUF] at hfull ⊢; omega)⟩
    · rw [if_neg hfull]
      exact stateMachine_inv minTicks longTicks x { p with timer := toULong (p.timer + 1) }
        (by simp only [RAWBUF] at hfull ⊢; omega) h1 ⟨haM, haS⟩

/-- `IRrecv::resume` keeps the invariant of the sampling receiver. -/
theorem IRrecv_resume_inv (p : irparams_t) (h : IRrecv.Inv p) : IRrecv.Inv (IRrecv.resume p) := by
  unfold IRrecv.resume IRrecvBase.resume
  split_ifs
  · exact ⟨Nat.zero_le _, Nat.zero_le _, fun hs => absurd hs (by simp),
      fun hs => absurd hs (by simp)⟩
  · exact h

/-- `IRrecv::getResults` leaves the capture state alone. -/
theorem IRrecv_getResults_capture (Mark_Excess : Int) (USEC_PER_TICK : Nat) (p : irparams_t)
    (d : IRdecode) :
    (IRrecv.getResults Mark_Excess USEC_PER_TICK p d).2.1.rawlen2 = p.rawlen2 ∧
    (IRrecv.getResults Mark_Excess USEC_PER_TICK p d).2.1.rawlen1 = p.rawlen1 ∧
    (IRrecv.getResults Mark_Excess USEC_PER_TICK p d).2.1.rcvstate = p.rcvstate := by
  have hs := (getResults_spec Mark_Excess USEC_PER_TICK
    { p with dataStateChangedToReady := false } d).2.2
  unfold IRrecv.getResults IRrecv.detachInterrupt
  simp only []
  split_ifs <;> simp only [hs] <;> exact ⟨trivial, trivial, trivial⟩

/-- `IRrecv::getResults` keeps the invariant of the sampling receiver. -/
theorem IRrecv_getResults_inv (Mark_Excess : Int) (USEC_PER_TICK : Nat) (p : irparams_t)
    (d : IRdecode) (h : IRrecv.Inv p) :
    IRrecv.Inv (IRrecv.getResults Mark_Excess USEC_PER_TICK p d).2.1 := by
  obtain ⟨e2, e1, es⟩ := IRrecv_getResults_capture Mark_Excess USEC_PER_TICK p d
  unfold IRrecv.Inv irparams_t.alternates
  rw [e2, e1, es]
  exact h

/-- Every sequence of ticks, `getResults` calls and `resume` calls keeps the invariant of
the sampling receiver. -/
theorem IRrecv_run_inv (minTicks longTicks : Nat) (Mark_Excess : Int) (USEC_PER_TICK : Nat) :
    ∀ (evs : List IRrecv.Event) (st : irparams_t × IRdecode), IRrecv.Inv st.1 →
    IRrecv.Inv (IRrecv.run minTicks longTicks Mark_Excess USEC_PER_TICK evs st).1 := by
  intro evs
  induction evs with
  | nil => intro st h; exact h
  | cons e es ih =>
    intro st h
    unfold IRrecv.run
    rw [List.foldl_cons]
    apply ih
    cases e with
    | tick x => exact (ISR_inv minTicks longTicks x st.1 h).1
    | getResults => exact IRrecv_getResults_inv Mark_Excess USEC_PER_TICK st.1 st.2 h
    | resume => exact IRrecv_resume_inv st.1 h

/-- A frame that `IRrecv::getResults` delivers from a receiver within its invariant is
shorter than the buffer. -/
theorem IRrecv_getResults_rawlen (Mark_Excess : Int) (USEC_PER_TICK : Nat) (p : irparams_t)
    (d : IRdecode) (h : p.rawlen1 ≤ RAWBUF - 1)
    (hr : (IRrecv.getResults Mark_Excess USEC_PER_TICK p d).1 = true) :
    (IRrecv.getResults Mark_Excess USEC_PER_TICK p d).2.2.rawlen = p.rawlen1 := by
  have hready : p.dataStateChangedToReady = true := by
    cases hf : p.dataStateChangedToReady
    · rw [(IRrecv_getResults_idle Mark_Excess USEC_PER_TICK p d hf).1] at hr
      exact absurd hr (by decide)
    · rfl
  rw [(IRrecv_getResults_ready Mark_Excess USEC_PER_TICK p d hready).2.1,
    (getResults_spec Mark_Excess USEC_PER_TICK { p with dataStateChangedToReady := false }
      d).2.1]
  show toUInt p.rawlen1 = p.rawlen1
  exact toUInt_of_lt (by simp only [RAWBUF] at h; omega)

theorem getResults_rawlen1 (Mark_Excess : Int) (Time_per_Tick : Nat) (q : irparams_t)
    (d : IRdecode) :
    (IRrecvBase.getResults Mark_Excess Time_per_Tick q d).2.1.rawlen1 = q.rawlen1 := by
  rw [(getResults_spec Mark_Excess Time_per_Tick q d).2.2]

theorem getResults_rawlen2 (Mark_Excess : Int) (Time_per_Tick : Nat) (q : irparams_t)
    (d : IRdecode) :
    (IRrecvBase.getResults Mark_Excess Time_per_Tick q d).2.1.rawlen2 = q.rawlen2 := by
  rw [(getResults_spec Mark_Excess Time_per_Tick q d).2.2]

theorem getResults_decoder_rawlen (Mark_Excess : Int) (Time_per_Tick : Nat) (q : irparams_t)
    (d : IRdecode) :
    (IRrecvBase.getResults Mark_Excess Time_per_Tick q d).2.2.rawlen = toUInt q.rawlen1 := by
  rw [(getResults_spec Mark_Excess Time_per_Tick q d).2.1]

/-- Detaching the interrupt of the edge receiver when the capture has paused leaves the
lengths alone. -/
theorem detach_if_paused_PCI (q : irparams_t) :
    (if q.pauseISR = true then IRrecvPCI.detachInterrupt q else q).rawlen1 = q.rawlen1 ∧
    (if q.pauseISR = true then IRrecvPCI.detachInterrupt q else q).rawlen2 = q.rawlen2 := by
  unfold IRrecvPCI.detachInterrupt
  split_ifs <;> exact ⟨rfl, rfl⟩

/-- A call of the handler keeps the invariant of the edge receiver. -/
theorem IRrecvPCI_Handler_inv (MINIMUM_TIME_GAP_PERMITTED LONG_SPACE_US : Nat) (t_now : Nat)
    (pinState : Bool) (s : IRrecvPCI_t) (h : IRrecvPCI.Inv s) :
    IRrecvPCI.Inv
      (IRrecvPCI_Handler MINIMUM_TIME_GAP_PERMITTED LONG_SPACE_US t_now pinState s).1 := by
  obtain ⟨h2, h1⟩ := h
  by_cases hp : s.irparams.pauseISR = true
  · rw [IRrecvPCI_Handler_paused _ _ _ _ _ hp]
    exact ⟨h2, h1⟩
  · by_cases hdt : IRrecvPCI_Handler.dt t_now s < MINIMUM_TIME_GAP_PERMITTED
    · rw [IRrecvPCI_Handler_noise _ _ _ _ _ hdt]
      exact ⟨h2, h1⟩
    · have hp' : s.irparams.pauseISR = false := by simpa using hp
      obtain ⟨_, hq, _⟩ := IRrecvPCI_Handler_records MINIMUM_TIME_GAP_PERMITTED LONG_SPACE_US
        t_now pinState s hp' (by omega) _ rfl
      have hset := setRawbuf2_spec
        (checkForEndOfIRCode LONG_SPACE_US pinState (IRrecvPCI_Handler.dt t_now s)
          CALLED_BY_ISR s).2.irparams
        (checkForEndOfIRCode LONG_SPACE_US pinState (IRrecvPCI_Handler.dt t_now s)
          CALLED_BY_ISR s).2.irparams.rawlen2 (toUInt (IRrecvPCI_Handler.dt t_now s))
      unfold IRrecvPCI.Inv
      rw [hq]
      simp only [hset.2.2.2.1]
      simp only [RAWBUF] at h1 h2 ⊢
      constructor
      · split_ifs <;> omega
      · rcases checkForEndOfIRCode_spec LONG_SPACE_US pinState (IRrecvPCI_Handler.dt t_now s)
          CALLED_BY_ISR s with ⟨_, e⟩ | ⟨_, _, _, e, _⟩
        · rw [e]; exact h1
        · rw [e]; exact h2

/-- `IRrecvPCI::resume` keeps the invariant of the edge receiver. -/
theorem IRrecvPCI_resume_inv (s : IRrecvPCI_t) (h : IRrecvPCI.Inv s) :
    IRrecvPCI.Inv { s with irparams := IRrecvPCI.resume s.irparams } := by
  unfold IRrecvPCI.Inv IRrecvPCI.resume IRrecvBase.resume
  simp only []
  split_ifs
  · exact ⟨Nat.zero_le _, Nat.zero_le _⟩
  · exact h

/-- `IRrecvPCI::getResults` keeps the invariant of the edge receiver, and a frame it
delivers is shorter than the buffer. -/
theorem IRrecvPCI_getResults_inv (Mark_Excess : Int) (LONG_SPACE_US : Nat) (t_now : Nat)
    (pinState : Bool) (s : IRrecvPCI_t) (d : IRdecode) (h : IRrecvPCI.Inv s) :
    IRrecvPCI.Inv (IRrecvPCI.getResults Mark_Excess LONG_SPACE_US t_now pinState s d).2.1 ∧
    ((IRrecvPCI.getResults Mark_Excess LONG_SPACE_US t_now pinState s d).1 = true →
      (IRrecvPCI.getResults Mark_Excess LONG_SPACE_US t_now pinState s d).2.2.rawlen ≤
        RAWBUF - 1) := by
  obtain ⟨h2, h1⟩ := h
  have hu : ∀ n, n ≤ RAWBUF - 1 → toUInt n ≤ RAWBUF - 1 := by
    intro n hn
    rw [toUInt_of_lt (by simp only [RAWBUF] at hn; omega)]
    exact hn
  unfold IRrecvPCI.getResults IRrecvPCI.Inv
  simp only []
  by_cases hflag : s.irparams.dataStateChangedToReady = true
  · simp only [hflag, if_true, (detach_if_paused_PCI _).1, (detach_if_paused_PCI _).2,
      getResults_rawlen1, getResults_rawlen2, getResults_decoder_rawlen]
    exact ⟨⟨h2, h1⟩, fun _ => hu _ h1⟩
  · simp only [hflag, Bool.false_eq_true, if_false, (detach_if_paused_PCI _).1,
      (detach_if_paused_PCI _).2]
    rcases checkForEndOfIRCode_spec LONG_SPACE_US pinState (IRrecvPCI_Handler.dt t_now s)
      CALLED_BY_USER s with ⟨e1, e2⟩ | ⟨e1, _, _, e3, e4, _⟩
    · simp only [e1, Bool.false_eq_true, if_false, e2]
      exact ⟨⟨h2, h1⟩, fun hf => absurd hf (by simp)⟩
    · simp only [e1, if_true, getResults_rawlen1, getResults_rawlen2,
        getResults_decoder_rawlen, e3, e4]
      exact ⟨⟨Nat.zero_le _, h2⟩, fun _ => hu _ h2⟩

/-- Every sequence of edges, `getResults` calls and `resume` calls keeps the invariant of
the edge receiver. -/
theorem IRrecvPCI_run_inv (MINIMUM_TIME_GAP_PERMITTED LONG_SPACE_US : Nat)
    (Mark_Excess : Int) :
    ∀ (evs : List IRrecvPCI.Event) (st : IRrecvPCI_t × IRdecode), IRrecvPCI.Inv st.1 →
    IRrecvPCI.Inv
      (IRrecvPCI.run MINIMUM_TIME_GAP_PERMITTED LONG_SPACE_US Mark_Excess evs st).1 := by
  intro evs
  induction evs with
  | nil => intro st h; exact h
  | cons e es ih =>
    intro st h
    unfold IRrecvPCI.run
    rw [List.foldl_cons]
    apply ih
    cases e with
    | edge t_now pinState =>
      exact IRrecvPCI_Handler_inv MINIMUM_TIME_GAP_PERMITTED LONG_SPACE_US t_now pinState st.1 h
    | getResults t_now pinState =>
      exact (IRrecvPCI_getResults_inv Mark_Excess LONG_SPACE_US t_now pinState st.1 st.2 h).1
    | resume => exact IRrecvPCI_resume_inv st.1 h

/-- `IRdecodePanasonic::decode` rejects a frame shorter than the buffer by its length. -/
theorem Panasonic_rejects_short (M : Nat → Nat → Bool) (d : IRdecode)
    (h : d.rawlen ≤ RAWBUF - 1) :
    IRdecodePanasonic.decode M d = (.RAW_COUNT_ERROR, d) := by
  unfold IRdecodePanasonic.decode
  rw [if_pos (by simp only [RAWBUF] at h; omega)]

/-- C38 (an interrupt-captured frame never has full-capacity length).  From the state
after `resume` (both lengths 0, `STATE_START`), after every sequence of timer ticks,
`getResults` calls and `resume` calls on the sampling receiver, and after every sequence
of edges, `getResults` calls and `resume` calls on the edge receiver, `rawlen1` is at
most `RAWBUF - 1`; every frame `IRrecv::getResults` or `IRrecvPCI::getResults` then
delivers has `rawlen ≤ RAWBUF - 1`, and `IRdecodePanasonic::decode`, which wants
`rawlen = 100`, rejects it with `RAW_COUNT_ERROR`. -/
theorem captured_frame_below_capacity (M : Nat → Nat → Bool)
    (minTicks longTicks MINIMUM_TIME_GAP_PERMITTED LONG_SPACE_US : Nat) (Mark_Excess : Int)
    (USEC_PER_TICK : Nat) (p0 : irparams_t) (old0 : Bool) (d0 : IRdecode)
    (h1 : p0.rawlen1 = 0) (h2 : p0.rawlen2 = 0) (hs : p0.rcvstate = .STATE_START) :
    (∀ evs,
      (IRrecv.run minTicks longTicks Mark_Excess USEC_PER_TICK evs (p0, d0)).1.rawlen1 ≤
        RAWBUF - 1 ∧
      ((IRrecv.getResults Mark_Excess USEC_PER_TICK
          (IRrecv.run minTicks longTicks Mark_Excess USEC_PER_TICK evs (p0, d0)).1
          (IRrecv.run minTicks longTicks Mark_Excess USEC_PER_TICK evs (p0, d0)).2).1 = true →
        (IRrecv.getResults Mark_Excess USEC_PER_TICK
          (IRrecv.run minTicks longTicks Mark_Excess USEC_PER_TICK evs (p0, d0)).1
          (IRrecv.run minTicks longTicks Mark_Excess USEC_PER_TICK evs (p0, d0)).2).2.2.rawlen ≤
          RAWBUF - 1 ∧
        (IRdecodePanasonic.decode M (IRrecv.getResults Mark_Excess USEC_PER_TICK
          (IRrecv.run minTicks longTicks Mark_Excess USEC_PER_TICK evs (p0, d0)).1
          (IRrecv.run minTicks longTicks Mark_Excess USEC_PER_TICK evs (p0, d0)).2).2.2).1 =
          Outcome.RAW_COUNT_ERROR)) ∧
    (∀ evs,
      (IRrecvPCI.run MINIMUM_TIME_GAP_PERMITTED LONG_SPACE_US Mark_Excess evs
        ({ irparams := p0, dataStateIsReady_old := old0 }, d0)).1.irparams.rawlen1 ≤
        RAWBUF - 1 ∧
      ∀ t_now pinState,
        (IRrecvPCI.getResults Mark_Excess LONG_SPACE_US t_now pinState
          (IRrecvPCI.run MINIMUM_TIME_GAP_PERMITTED LONG_SPACE_US Mark_Excess evs
            ({ irparams := p0, dataStateIsReady_old := old0 }, d0)).1
          (IRrecvPCI.run MINIMUM_TIME_GAP_PERMITTED LONG_SPACE_US Mark_Excess evs
            ({ irparams := p0, dataStateIsReady_old := old0 }, d0)).2).1 = true →
        (IRrecvPCI.getResults Mark_Excess LONG_SPACE_US t_now pinState
          (IRrecvPCI.run MINIMUM_TIME_GAP_PERMITTED LONG_SPACE_US Mark_Excess evs
            ({ irparams := p0, dataStateIsReady_old := old0 }, d0)).1
          (IRrecvPCI.run MINIMUM_TIME_GAP_PERMITTED LONG_SPACE_US Mark_Excess evs
            ({ irparams := p0, dataStateIsReady_old := old0 }, d0)).2).2.2.rawlen ≤
          RAWBUF - 1 ∧
        (IRdecodePanasonic.decode M (IRrecvPCI.getResults Mark_Excess LONG_SPACE_US t_now
          pinState
          (IRrecvPCI.run MINIMUM_TIME_GAP_PERMITTED LONG_SPACE_US Mark_Excess evs
            ({ irparams := p0, dataStateIsReady_old := old0 }, d0)).1
          (IRrecvPCI.run MINIMUM_TIME_GAP_PERMITTED LONG_SPACE_US Mark_Excess evs
            ({ irparams := p0, dataStateIsReady_old := old0 }, d0)).2).2.2).1 =
          Outcome.RAW_COUNT_ERROR) := by
  have hi0 : IRrecv.Inv p0 :=
    ⟨by rw [h2]; exact Nat.zero_le _, by rw [h1]; exact Nat.zero_le _,
     fun h => absurd (hs.symm.trans h) (by decide),
     fun h => absurd (hs.symm.trans h) (by decide)⟩
  have hj0 : IRrecvPCI.Inv { irparams := p0, dataStateIsReady_old := old0 } :=
    ⟨by show p0.rawlen2 ≤ _; rw [h2]; exact Nat.zero_le _,
     by show p0.rawlen1 ≤ _; rw [h1]; exact Nat.zero_le _⟩
  constructor
  · intro evs
    have hi := IRrecv_run_inv minTicks longTicks Mark_Excess USEC_PER_TICK evs (p0, d0) hi0
    refine ⟨hi.2.1, fun hr => ?_⟩
    have hl := IRrecv_getResults_rawlen Mark_Excess USEC_PER_TICK _ _ hi.2.1 hr
    have hle : (IRrecv.getResults Mark_Excess USEC_PER_TICK
        (IRrecv.run minTicks longTicks Mark_Excess USEC_PER_TICK evs (p0, d0)).1
        (IRrecv.run minTicks longTicks Mark_Excess USEC_PER_TICK evs (p0, d0)).2).2.2.rawlen ≤
        RAWBUF - 1 := by
      rw [hl]
      exact hi.2.1
    exact ⟨hle, by rw [Panasonic_rejects_short M _ hle]⟩
  · intro evs
    have hj := IRrecvPCI_run_inv MINIMUM_TIME_GAP_PERMITTED LONG_SPACE_US Mark_Excess evs
      ({ irparams := p0, dataStateIsReady_old := old0 }, d0) hj0
    refine ⟨hj.2, fun t_now pinState hr => ?_⟩
    have hle := (IRrecvPCI_getResults_inv Mark_Excess LONG_SPACE_US t_now pinState _
      (IRrecvPCI.run MINIMUM_TIME_GAP_PERMITTED LONG_SPACE_US Mark_Excess evs
        ({ irparams := p0, dataStateIsReady_old := old0 }, d0)).2 hj).2 hr
    exact ⟨hle, by rw [Panasonic_rejects_short M _ hle]⟩

/-- C38 on the sampling receiver after the ticks of `shortFramePins`: `getResults`
delivers a frame of four samples, which the Panasonic decoder rejects by its length. -/
theorem captured_frame_below_capacity_witness :
    (IRrecv.resume irparams_t.init).rawlen1 = 0 ∧ (IRrecv.resume irparams_t.init).rawlen2 = 0 ∧
    (IRrecv.resume irparams_t.init).rcvstate = .STATE_START ∧
    (IRrecv.getResults 100 50
      (IRrecv.run 1 200 100 50 (shortFramePins.map IRrecv.Event.tick)
        (IRrecv.resume irparams_t.init, IRdecode.fresh)).1
      (IRrecv.run 1 200 100 50 (shortFramePins.map IRrecv.Event.tick)
        (IRrecv.resume irparams_t.init, IRdecode.fresh)).2).1 = true ∧
    (IRrecv.getResults 100 50
      (IRrecv.run 1 200 100 50 (shortFramePins.map IRrecv.Event.tick)
        (IRrecv.resume irparams_t.init, IRdecode.fresh)).1
      (IRrecv.run 1 200 100 50 (shortFramePins.map IRrecv.Event.tick)
        (IRrecv.resume irparams_t.init, IRdecode.fresh)).2).2.2.rawlen = 4 ∧
    (IRdecodePanasonic.decode (MATCH 25 50) (IRrecv.getResults 100 50
      (IRrecv.run 1 200 100 50 (shortFramePins.map IRrecv.Event.tick)
        (IRrecv.resume irparams_t.init, IRdecode.fresh)).1
      (IRrecv.run 1 200 100 50 (shortFramePins.map IRrecv.Event.tick)
        (IRrecv.resume irparams_t.init, IRdecode.fresh)).2).2.2).1 =
      Outcome.RAW_COUNT_ERROR :=
  have hr : (IRrecv.getResults 100 50
      (IRrecv.run 1 200 100 50 (shortFramePins.map IRrecv.Event.tick)
        (IRrecv.resume irparams_t.init, IRdecode.fresh)).1
      (IRrecv.run 1 200 100 50 (shortFramePins.map IRrecv.Event.tick)
        (IRrecv.resume irparams_t.init, IRdecode.fresh)).2).1 = true := by decide!
  have h := ((captured_frame_below_capacity (MATCH 25 50) 1 200 50 10000 100 50
    (IRrecv.resume irparams_t.init) true IRdecode.fresh rfl rfl rfl).1
    (shortFramePins.map IRrecv.Event.tick)).2 hr
  ⟨rfl, rfl, rfl, hr, by decide!, h.2⟩

/-! ## Marks and spaces alternate in the sampling capture -/

/-- Every sequence of ticks keeps the invariant of the sampling receiver. -/
theorem ISR_run_inv (minTicks longTicks : Nat) : ∀ (pins : List irdata_t) (p : irparams_t),
    IRrecv.Inv p → IRrecv.Inv (ISR.run minTicks longTicks pins p).1 := by
  intro pins
  induction pins with
  | nil => intro p h; exact h
  | cons x xs ih =>
    intro p h
    unfold ISR.run
    exact ih _ (ISR_inv minTicks longTicks x p h).1

/-- C39 (marks and spaces alternate in the sampling capture).  In every state reached from
the state after `resume` (both lengths 0, `STATE_START`) by ticks of the timer interrupt,
with any pin levels: if `rawlen2 < RAWBUF - 1` then `rcvstate = STATE_TIMING_MARK` implies
that `rawlen2` is odd and `rcvstate = STATE_TIMING_SPACE` implies that `rawlen2` is even
and at least 2.  Hence the slot the next tick writes, if any, is slot 0 when the gap ends
(`STATE_START`), an odd slot or the last one when a mark ends (`STATE_TIMING_MARK`), and
an even slot from 2 on or the last one when a space ends (`STATE_TIMING_SPACE`). -/
theorem capture_alternates (minTicks longTicks : Nat) (p0 : irparams_t)
    (h1 : p0.rawlen1 = 0) (h2 : p0.rawlen2 = 0) (hs : p0.rcvstate = .STATE_START)
    (pins : List irdata_t) :
    ((ISR.run minTicks longTicks pins p0).1.rawlen2 < RAWBUF - 1 →
      ((ISR.run minTicks longTicks pins p0).1.rcvstate = .STATE_TIMING_MARK →
        (ISR.run minTicks longTicks pins p0).1.rawlen2 % 2 = 1) ∧
      ((ISR.run minTicks longTicks pins p0).1.rcvstate = .STATE_TIMING_SPACE →
        (ISR.run minTicks longTicks pins p0).1.rawlen2 % 2 = 0 ∧
        2 ≤ (ISR.run minTicks longTicks pins p0).1.rawlen2)) ∧
    (∀ x i, (ISR minTicks longTicks x (ISR.run minTicks longTicks pins p0).1).2 = some i →
      ((ISR.run minTicks longTicks pins p0).1.rcvstate = .STATE_START → i = 0) ∧
      ((ISR.run minTicks longTicks pins p0).1.rcvstate = .STATE_TIMING_MARK →
        i % 2 = 1 ∨ i = RAWBUF - 1) ∧
      ((ISR.run minTicks longTicks pins p0).1.rcvstate = .STATE_TIMING_SPACE →
        (i % 2 = 0 ∧ 2 ≤ i) ∨ i = RAWBUF - 1)) := by
  have hi0 : IRrecv.Inv p0 :=
    ⟨by rw [h2]; exact Nat.zero_le _, by rw [h1]; exact Nat.zero_le _,
     fun h => absurd (hs.symm.trans h) (by decide),
     fun h => absurd (hs.symm.trans h) (by decide)⟩
  have hi := ISR_run_inv minTicks longTicks pins p0 hi0
  constructor
  · intro hlt
    obtain ⟨_, _, hM, hS⟩ := hi
    constructor
    · intro hm
      rcases hM hm with h | h
      · exact h
      · omega
    · intro hsp
      rcases hS hsp with h | h
      · exact h
      · omega
  · intro x i hw
    exact ((ISR_inv minTicks longTicks x _ hi).2 i hw).2

/-- C39 on the receiver after the first three and the first five ticks of
`shortFramePins`: a space is timed with two samples stored, then a mark with three. -/
theorem capture_alternates_witness :
    (IRrecv.resume irparams_t.init).rawlen1 = 0 ∧ (IRrecv.resume irparams_t.init).rawlen2 = 0 ∧
    (IRrecv.resume irparams_t.init).rcvstate = .STATE_START ∧
    (ISR.run 1 200 (shortFramePins.take 3) (IRrecv.resume irparams_t.init)).1.rcvstate =
      .STATE_TIMING_SPACE ∧
    (ISR.run 1 200 (shortFramePins.take 3) (IRrecv.resume irparams_t.init)).1.rawlen2 % 2 = 0 ∧
    2 ≤ (ISR.run 1 200 (shortFramePins.take 3) (IRrecv.resume irparams_t.init)).1.rawlen2 ∧
    (ISR.run 1 200 (shortFramePins.take 5) (IRrecv.resume irparams_t.init)).1.rcvstate =
      .STATE_TIMING_MARK ∧
    (ISR.run 1 200 (shortFramePins.take 5) (IRrecv.resume irparams_t.init)).1.rawlen2 = 3 :=
  have ht : (ISR.run 1 200 (shortFramePins.take 3)
      (IRrecv.resume irparams_t.init)).1.rcvstate = .STATE_TIMING_SPACE := by decide!
  have h := ((capture_alternates 1 200 (IRrecv.resume irparams_t.init) rfl rfl rfl
    (shortFramePins.take 3)).1 (by decide!)).2 ht
  ⟨rfl, rfl, rfl, ht, h.1, h.2, by decide!, by decide!⟩

/-! ## The bit count the RC5 decoder reports -/

/-- C40 (the bit count the RC5 decoder reports).  Whenever `IRdecodeRC5::decode` succeeds
it reports `bits = 13`, `value = data` and `decode_type = RC5`, whatever number of level
pairs its loop has counted in `nbits`: the count is not compared with 13 and is not what
`bits` is set to. -/
theorem RC5_bits_is_constant (M : Nat → Nat → Bool) (d : IRdecode)
    (h : (IRdecodeRC5.decode M d).1 = Outcome.matched) :
    (IRdecodeRC5.decode M d).2.bits = 13 ∧
    (IRdecodeRC5.decode M d).2.value = (IRdecodeRC5.decode M d).2.data ∧
    (IRdecodeRC5.decode M d).2.decode_type = RC5 := by
  unfold IRdecodeRC5.decode at h ⊢
  by_cases hl : d.rawlen < MIN_RC5_SAMPLES + 2
  · rw [if_pos hl] at h
    exact absurd h (by simp)
  · rw [if_neg hl] at h ⊢
    simp only [] at h ⊢
    generalize IRdecodeRC.getRClevel M RC5_T1 _ = r at h ⊢
    obtain ⟨l, d1⟩ := r
    cases l
    · simp only [] at h ⊢
      generalize IRdecodeRC5.bitLoop M _ _ = r2 at h ⊢
      obtain ⟨o, d2⟩ := r2
      cases o <;> first
        | exact ⟨rfl, rfl, rfl⟩
        | exact absurd h (by simp)
    · exact absurd h (by simp)
    · exact absurd h (by simp)

/-- C40 on two frames that the decoder accepts with the 25 % window: six level pairs give
`bits = 13` with `nbits = 6` and `value = 62`, and fourteen level pairs give `bits = 13`
with `nbits = 14` and `value = 16383`, which is not below `2 ^ 13`. -/
theorem RC5_bits_is_constant_witness :
    (IRdecodeRC5.decode (MATCH 25 50) RC5_six_bit_frame).1 = Outcome.matched ∧
    (IRdecodeRC5.decode (MATCH 25 50) RC5_six_bit_frame).2.bits = 13 ∧
    (IRdecodeRC5.decode (MATCH 25 50) RC5_six_bit_frame).2.nbits = 6 ∧
    (IRdecodeRC5.decode (MATCH 25 50) RC5_six_bit_frame).2.value = 62 ∧
    (IRdecodeRC5.decode (MATCH 25 50) RC5_fourteen_bit_frame).1 = Outcome.matched ∧
    (IRdecodeRC5.decode (MATCH 25 50) RC5_fourteen_bit_frame).2.bits = 13 ∧
    (IRdecodeRC5.decode (MATCH 25 50) RC5_fourteen_bit_frame).2.nbits = 14 ∧
    (IRdecodeRC5.decode (MATCH 25 50) RC5_fourteen_bit_frame).2.value = 16383 ∧
    ¬ (IRdecodeRC5.decode (MATCH 25 50) RC5_fourteen_bit_frame).2.value < 2 ^ 13 :=
  have h6 : (IRdecodeRC5.decode (MATCH 25 50) RC5_six_bit_frame).1 = Outcome.matched := by
    decide!
  ⟨h6, (RC5_bits_is_constant (MATCH 25 50) RC5_six_bit_frame h6).1, by decide!, by decide!,
   by decide!, by decide!, by decide!, by decide!, by decide!⟩

end IRLib
